import Mathlib

/-!
# ASL compiler front-end: semantic passes

A shallow embedding of the three tree walkers of the ASL compiler
(`SymbolsVisitor.cpp`, `TypeCheckVisitor.cpp`, `CodeGenVisitor.cpp`) together with
the collaborators they call (`TypesMgr`, `SymTable`, `SemErrors`), and theorems
about the diagnostics and decorations they produce.

Conventions of the embedding:

* A parse-tree node is a value of an inductive type shaped after the `*Context`
  classes of `AslParser.h`.
* A visit of an expression node returns the two decorations the visitor puts on
  that node (`putTypeDecor`, `putIsLValueDecor`) together with the diagnostics
  reported to `SemErrors` while the node and its descendants were visited, in
  the order of the calls.  `getTypeDecor(child)` right after `visit(child)` is
  the `type` field of the child's result.
* Statements put no decoration; a visit of a statement returns the diagnostics.
-/

namespace Asl

/-! ## Type manager -/

/-- Modelled from the spec: `TypesMgr::TypeId` (`common/TypesMgr.h` is absent).
The variants of section 3 of the specification: `Void`, `Error`, the four
primitive types, `Array(elem, size)` and `Function(params, ret)`. -/
inductive TypeId where
  | void
  | error
  | integer
  | float
  | character
  | boolean
  | array (size : Nat) (elem : TypeId)
  | function (params : List TypeId) (ret : TypeId)
  deriving Repr, Inhabited

namespace TypesMgr

/-- Modelled from the spec: `create_void`. -/
def createVoidTy : TypeId := .void
/-- Modelled from the spec: `create_error`. -/
def createErrorTy : TypeId := .error
/-- Modelled from the spec: `create_integer`. -/
def createIntegerTy : TypeId := .integer
/-- Modelled from the spec: `create_float`. -/
def createFloatTy : TypeId := .float
/-- Modelled from the spec: `create_character`. -/
def createCharacterTy : TypeId := .character
/-- Modelled from the spec: `create_boolean`. -/
def createBooleanTy : TypeId := .boolean
/-- Modelled from the spec: `create_array(size, elem)`. -/
def createArrayTy (size : Nat) (elem : TypeId) : TypeId := .array size elem
/-- Modelled from the spec: `create_function(params, ret)`. -/
def createFunctionTy (params : List TypeId) (ret : TypeId) : TypeId := .function params ret

/-- Modelled from the spec: predicate `is_error`. -/
def isErrorTy : TypeId → Bool
  | .error => true
  | _ => false

/-- Modelled from the spec: predicate `is_void`. -/
def isVoidTy : TypeId → Bool
  | .void => true
  | _ => false

/-- Modelled from the spec: predicate `is_integer`. -/
def isIntegerTy : TypeId → Bool
  | .integer => true
  | _ => false

/-- Modelled from the spec: predicate `is_float`. -/
def isFloatTy : TypeId → Bool
  | .float => true
  | _ => false

/-- Modelled from the spec: predicate `is_character`. -/
def isCharacterTy : TypeId → Bool
  | .character => true
  | _ => false

/-- Modelled from the spec: predicate `is_boolean`. -/
def isBooleanTy : TypeId → Bool
  | .boolean => true
  | _ => false

/-- Modelled from the spec: `numeric = integer ∨ float`. -/
def isNumericTy (t : TypeId) : Bool := isIntegerTy t || isFloatTy t

/-- Modelled from the spec: `primitive = integer ∨ float ∨ boolean ∨ character`. -/
def isPrimitiveTy (t : TypeId) : Bool :=
  isIntegerTy t || isFloatTy t || isBooleanTy t || isCharacterTy t

/-- Modelled from the spec: predicate `is_array`. -/
def isArrayTy : TypeId → Bool
  | .array _ _ => true
  | _ => false

/-- Modelled from the spec: predicate `is_function`. -/
def isFunctionTy : TypeId → Bool
  | .function _ _ => true
  | _ => false

/-- Modelled from the spec: predicate `is_void_function`, a function type whose
return type is `Void`. -/
def isVoidFunction : TypeId → Bool
  | .function _ .void => true
  | _ => false

/-- Modelled from the spec: accessor `array_elem(t)`.  The visitors call it on
array types only; on any other type the model answers `Error`. -/
def getArrayElemType : TypeId → TypeId
  | .array _ elem => elem
  | _ => .error

/-- Modelled from the spec: accessor `array_size(t)`. -/
def getArraySize : TypeId → Nat
  | .array size _ => size
  | _ => 0

/-- Modelled from the spec: accessor `func_params(t)`.  On a type that is not a
function type the model answers the empty list. -/
def getFuncParamsTypes : TypeId → List TypeId
  | .function params _ => params
  | _ => []

/-- Modelled from the spec: accessor `func_return(t)`.  The visitors call it on
function types only; on any other type the model answers `Error`. -/
def getFuncReturnType : TypeId → TypeId
  | .function _ ret => ret
  | _ => .error

/-- Modelled from the spec: `size_of(t)` (primitives = 1, array = its declared
length). -/
def getSizeOfType : TypeId → Nat
  | .array size _ => size
  | _ => 1

mutual
/-- Modelled from the spec: structural equality of two types, element- and
size-wise for arrays, parameter- and return-wise for functions. -/
def equalTypes : TypeId → TypeId → Bool
  | .void, .void => true
  | .error, .error => true
  | .integer, .integer => true
  | .float, .float => true
  | .character, .character => true
  | .boolean, .boolean => true
  | .array n a, .array m b => n == m && equalTypes a b
  | .function ps r, .function qs s => equalTypesList ps qs && equalTypes r s
  | _, _ => false
/-- Modelled from the spec: pointwise `equalTypes` on two parameter lists. -/
def equalTypesList : List TypeId → List TypeId → Bool
  | [], [] => true
  | a :: as, b :: bs => equalTypes a b && equalTypesList as bs
  | _, _ => false
end

/-- Modelled from the spec: `copyable(dst, src)` — true iff (a) equal primitive
types, (b) `dst = float ∧ src = integer`, or (c) equal array types element- and
size-wise. -/
def copyableTypes (tidTo tidFrom : TypeId) : Bool :=
  (isPrimitiveTy tidTo && equalTypes tidTo tidFrom) ||
  (isFloatTy tidTo && isIntegerTy tidFrom) ||
  (isArrayTy tidTo && equalTypes tidTo tidFrom)

end TypesMgr

/-! ## Parse tree

The node types follow the context classes of `AslParser.h`; the fields are the
children the visitors read. -/

/-- Tokens of `Basic_typeContext`: `INT`, `BOOL`, `FLOAT`, `CHAR`. -/
inductive Basic_type where
  | INT | BOOL | FLOAT | CHAR
  deriving DecidableEq, Repr

/-- `TypeContext`: a basic type, under `ARRAY` with an `INTVAL` size when
`ARRAY` is `some size`; the size is the number `atoi` reads from the literal. -/
structure TypeNode where
  ARRAY : Option Nat
  basic_type : Basic_type
  deriving DecidableEq, Repr

/-- Operator tokens of `ArithmeticContext`. -/
inductive ArithOp where
  | MUL | DIV | MOD | PLUS | MINUS
  deriving DecidableEq, Repr

/-- Operator tokens of `RelationalContext`. -/
inductive RelOp where
  | EQUAL | NEQ | GT | LT | GE | LE
  deriving DecidableEq, Repr

/-- Operator tokens of `UnaryArithmeticContext`. -/
inductive UnaryOp where
  | MINUS | PLUS
  deriving DecidableEq, Repr

/-- Operator tokens of `LogicalContext`. -/
inductive LogicOp where
  | AND | OR
  deriving DecidableEq, Repr

/-- Literal tokens of `ValueContext`. -/
inductive ValueTok where
  | INTVAL | FLOATVAL | BOOLVAL | CHARVAL
  deriving DecidableEq, Repr

/-- `ExprContext` and its labelled alternatives.  An identifier node
(`IdentContext`) is represented by its text.  The visitors read the base and the
index of an indexed access as `expr(0)` and `expr(1)`; both are expressions here,
which covers a base that is a plain identifier (`exprIdent`). -/
inductive Expr where
  | arrayAccessExpr (expr0 expr1 : Expr)
  | funcExpr (ident : String) (expr : List Expr)
  | exprIdent (ident : String)
  | arithmetic (op : ArithOp) (expr0 expr1 : Expr)
  | relational (op : RelOp) (expr0 expr1 : Expr)
  | unaryArithmetic (op : UnaryOp) (expr : Expr)
  | unaryLogical (expr : Expr)
  | parenthesis (expr : Expr)
  | value (tok : ValueTok) (text : String)
  | logical (op : LogicOp) (expr0 expr1 : Expr)
  deriving Repr, Inhabited

/-- `Left_exprContext` and its two alternatives. -/
inductive Left_expr where
  | leftExprIdent (ident : String)
  | arrayAccessLExpr (expr0 expr1 : Expr)
  deriving Repr, Inhabited

/-- `StatementContext` and its labelled alternatives; a `StatementsContext` is
the list of its statements.  In `ifStmt` the third field is `statements(1)`,
present exactly when the `ELSE` token is. -/
inductive Statement where
  | procCall (ident : String) (expr : List Expr)
  | writeExpr (expr : Expr)
  | whileStmt (expr : Expr) (statements : List Statement)
  | ifStmt (expr : Expr) (statements0 : List Statement) (statements1 : Option (List Statement))
  | readStmt (left_expr : Left_expr)
  | assignStmt (left_expr : Left_expr) (expr : Expr)
  | returnStmt (expr : Option Expr)
  | writeString (STRING : String)
  deriving Repr, Inhabited

/-- `Variable_declContext`: `VAR ID (, ID)* : type`. -/
structure Variable_decl where
  ID : List String
  type : TypeNode
  deriving Repr

/-- `FunctionContext`.  `parameters` is absent when the function has no
`parameters` clause, and otherwise lists the `(ID(i), type(i))` pairs; `type` is
the declared return type, if any. -/
structure Function where
  ID : String
  parameters : Option (List (String × TypeNode))
  type : Option TypeNode
  declarations : List Variable_decl
  statements : List Statement
  deriving Repr

/-- `ProgramContext`: the functions in source order. -/
structure Program where
  function : List Function
  deriving Repr

namespace TypesMgr

/-- Modelled from the spec: `comparable(a, b, op)` — a numeric pair (allowing an
int/float mix) for every operator; additionally equal primitive types for the
equality operators `=` and `≠`. -/
def comparableTypes (t1 t2 : TypeId) (op : RelOp) : Bool :=
  (isNumericTy t1 && isNumericTy t2) ||
  ((op == RelOp.EQUAL || op == RelOp.NEQ) && isPrimitiveTy t1 && equalTypes t1 t2)

end TypesMgr

/-! ## Symbol table -/

/-- Modelled from the spec: the kind of a symbol, `kind ∈ {local, parameter,
function}`. -/
inductive SymClass where
  | localVar | parameter | function
  deriving DecidableEq, Repr

/-- Modelled from the spec: a symbol is a named entry with a kind and a type. -/
structure Symbol where
  name : String
  cls : SymClass
  type : TypeId
  deriving Repr

/-- Modelled from the spec: a scope is an ordered sequence of bindings, oldest
first. -/
structure Scope where
  name : String
  symbols : List Symbol
  deriving Repr

/-- Modelled from the spec: `SymTable` (`common/SymTable.h` is absent).  Scopes
are indexed by id and are retained once closed; `stack` holds the ids of the open
scopes, the current one first. -/
structure SymTable where
  scopes : List Scope
  stack : List Nat
  deriving Repr

namespace SymTable

/-- Modelled from the spec: the empty table, before any scope is opened. -/
def empty : SymTable := ⟨[], []⟩

/-- Modelled from the spec: the first binding of `ident` in one scope. -/
def findInScope (sc : Scope) (ident : String) : Option Symbol :=
  sc.symbols.find? (fun s => s.name == ident)

/-- Modelled from the spec: lookup along a stack of scope ids, the first scope
of the stack first; yields the scope id and the symbol. -/
def lookup (scopes : List Scope) (ident : String) : List Nat → Option (Nat × Symbol)
  | [] => none
  | id :: rest =>
    match (scopes.get? id).bind (fun sc => findInScope sc ident) with
    | some s => some (id, s)
    | none => lookup scopes ident rest

/-- Modelled from the spec: `push_new_scope(name) → ScopeId`; the new scope gets
the next free id. -/
def pushNewScope (S : SymTable) (name : String) : SymTable × Nat :=
  (⟨S.scopes ++ [⟨name, []⟩], S.scopes.length :: S.stack⟩, S.scopes.length)

/-- Modelled from the spec: `push_existing(id)`. -/
def pushThisScope (S : SymTable) (id : Nat) : SymTable :=
  ⟨S.scopes, id :: S.stack⟩

/-- Modelled from the spec: `pop()`. -/
def popScope (S : SymTable) : SymTable :=
  ⟨S.scopes, S.stack.tail⟩

/-- Modelled from the spec: `find_in_current(name) → bool`. -/
def findInCurrentScope (S : SymTable) (ident : String) : Bool :=
  match S.stack with
  | [] => false
  | id :: _ => ((S.scopes.get? id).bind (fun sc => findInScope sc ident)).isSome

/-- Modelled from the spec: `find_in_stack(name) → ScopeId | NOT_FOUND`; the
visitors compare the answer with `-1`. -/
def findInStack (S : SymTable) (ident : String) : Int :=
  match lookup S.scopes ident S.stack with
  | some (id, _) => (id : Int)
  | none => -1

/-- Modelled from the spec: `type_of(name)`, the type of the binding that
`find_in_stack` finds.  The visitors call it on found names only; on any other
name the model answers `Error`. -/
def getType (S : SymTable) (ident : String) : TypeId :=
  match lookup S.scopes ident S.stack with
  | some (_, s) => s.type
  | none => .error

/-- Modelled from the spec: `is_function(name)`, whether the binding that
`find_in_stack` finds is of kind function. -/
def isFunctionClass (S : SymTable) (ident : String) : Bool :=
  match lookup S.scopes ident S.stack with
  | some (_, s) => s.cls == SymClass.function
  | none => false

/-- Modelled from the spec: adds a binding at the end of the current scope. -/
def addSymbol (S : SymTable) (s : Symbol) : SymTable :=
  match S.stack with
  | [] => S
  | id :: _ =>
    ⟨S.scopes.modify (fun sc => ⟨sc.name, sc.symbols ++ [s]⟩) id, S.stack⟩

/-- Modelled from the spec: `add_local(name, t)`. -/
def addLocalVar (S : SymTable) (ident : String) (t : TypeId) : SymTable :=
  S.addSymbol ⟨ident, .localVar, t⟩

/-- Modelled from the spec: `add_parameter(name, t)`. -/
def addParameter (S : SymTable) (ident : String) (t : TypeId) : SymTable :=
  S.addSymbol ⟨ident, .parameter, t⟩

/-- Modelled from the spec: `add_function(name, funcType)`. -/
def addFunction (S : SymTable) (ident : String) (t : TypeId) : SymTable :=
  S.addSymbol ⟨ident, .function, t⟩

end SymTable

/-! ## Diagnostics -/

/-- Modelled from the spec: the diagnostic kinds of `SemErrors` (section 7).
A diagnostic is recorded by its kind; `incompatibleParameter` carries the
1-based position it is given. -/
inductive SemError where
  | declaredIdent
  | undeclaredIdent
  | incompatibleAssignment
  | incompatibleParameter (n : Nat)
  | incompatibleReturn
  | incompatibleOperator
  | nonReferenceableLeftExpr
  | nonReferenceableExpression
  | booleanRequired
  | readWriteRequireBasic
  | nonIntegerIndexInArrayAccess
  | nonArrayInArrayAccess
  | isNotCallable
  | isNotFunction
  | numberOfParameters
  | noMainProperlyDeclared
  deriving DecidableEq, Repr

open TypesMgr

/-! ## Symbol pass: types written on `type` nodes -/

namespace SymbolsVisitor

/-- `SymbolsVisitor::visitBasic_type`: the type put on a `basic_type` node. -/
def visitBasic_type (ctx : Basic_type) : TypeId :=
  match ctx with
  | .INT => createIntegerTy
  | .BOOL => createBooleanTy
  | .FLOAT => createFloatTy
  | .CHAR => createCharacterTy

/-- `SymbolsVisitor::visitType`: the type put on a `type` node, an array type
around the decoration of the `basic_type` child when `ARRAY` is present and that
decoration itself otherwise. -/
def visitType (ctx : TypeNode) : TypeId :=
  match ctx.ARRAY with
  | some size => createArrayTy size (visitBasic_type ctx.basic_type)
  | none => visitBasic_type ctx.basic_type

end SymbolsVisitor

/-! ## Type pass -/

namespace TypeCheckVisitor

/-- Outcome of visiting an expression, left-expression or identifier node: the
arguments of `putTypeDecor` and `putIsLValueDecor` for that node, and the
diagnostics reported during the visit (descendants included), oldest first. -/
structure Visit where
  type : TypeId
  isLValue : Bool
  errors : List SemError
  deriving Repr

/-- `TypeCheckVisitor::visitIdent`. -/
def visitIdent (Symbols : SymTable) (ident : String) : Visit :=
  if Symbols.findInStack ident == -1 then
    ⟨createErrorTy, true, [SemError.undeclaredIdent]⟩
  else
    let t1 := Symbols.getType ident
    if Symbols.isFunctionClass ident then ⟨t1, false, []⟩
    else ⟨t1, true, []⟩

/-- `TypeCheckVisitor::visitExprIdent` and `visitLeftExprIdent`, after
`visit(ctx->ident())`: both decorations of the identifier are copied. -/
def visitExprIdent (ident : Visit) : Visit :=
  ⟨ident.type, ident.isLValue, ident.errors⟩

/-- `TypeCheckVisitor::visitArithmetic`, given the visits of `expr(0)` and
`expr(1)`. -/
def visitArithmetic (op : ArithOp) (expr0 expr1 : Visit) : Visit :=
  let t1 := expr0.type
  let t2 := expr1.type
  if op = ArithOp.MOD then
    let own :=
      if (!isErrorTy t1 && !isIntegerTy t1) || (!isErrorTy t2 && !isIntegerTy t2) then
        [SemError.incompatibleOperator]
      else []
    ⟨createIntegerTy, false, expr0.errors ++ expr1.errors ++ own⟩
  else
    let own :=
      if (!isErrorTy t1 && !isNumericTy t1) || (!isErrorTy t2 && !isNumericTy t2) then
        [SemError.incompatibleOperator]
      else []
    let t := if isFloatTy t1 || isFloatTy t2 then createFloatTy else createIntegerTy
    ⟨t, false, expr0.errors ++ expr1.errors ++ own⟩

/-- `TypeCheckVisitor::visitRelational`, given the visits of `expr(0)` and
`expr(1)`. -/
def visitRelational (op : RelOp) (expr0 expr1 : Visit) : Visit :=
  let t1 := expr0.type
  let t2 := expr1.type
  let own :=
    if !isErrorTy t1 && !isErrorTy t2 && !comparableTypes t1 t2 op then
      [SemError.incompatibleOperator]
    else []
  ⟨createBooleanTy, false, expr0.errors ++ expr1.errors ++ own⟩

/-- `TypeCheckVisitor::visitValue`. -/
def visitValue (tok : ValueTok) : Visit :=
  let t :=
    match tok with
    | .INTVAL => createIntegerTy
    | .CHARVAL => createCharacterTy
    | .BOOLVAL => createBooleanTy
    | .FLOATVAL => createFloatTy
  ⟨t, false, []⟩

/-- `TypeCheckVisitor::visitLogical`, given the visits of `expr(0)` and
`expr(1)`. -/
def visitLogical (expr0 expr1 : Visit) : Visit :=
  let t1 := expr0.type
  let t2 := expr1.type
  let own :=
    if (!isErrorTy t1 && !isBooleanTy t1) || (!isErrorTy t2 && !isBooleanTy t2) then
      [SemError.incompatibleOperator]
    else []
  ⟨createBooleanTy, false, expr0.errors ++ expr1.errors ++ own⟩

/-- `TypeCheckVisitor::visitUnaryArithmetic`, given the visit of `expr()`. -/
def visitUnaryArithmetic (expr : Visit) : Visit :=
  let t1 := expr.type
  let own :=
    if !isErrorTy t1 && !isNumericTy t1 then [SemError.incompatibleOperator] else []
  let t := if isFloatTy t1 then createFloatTy else createIntegerTy
  ⟨t, false, expr.errors ++ own⟩

/-- `TypeCheckVisitor::visitUnaryLogical`, given the visit of `expr()`. -/
def visitUnaryLogical (expr : Visit) : Visit :=
  let t1 := expr.type
  let own :=
    if !isErrorTy t1 && !isBooleanTy t1 then [SemError.incompatibleOperator] else []
  ⟨createBooleanTy, false, expr.errors ++ own⟩

/-- `TypeCheckVisitor::visitParenthesis`, given the visit of `expr()`. -/
def visitParenthesis (expr : Visit) : Visit :=
  ⟨expr.type, expr.isLValue, expr.errors⟩

/-- `TypeCheckVisitor::visitArrayAccessExpr` and `visitArrayAccessLExpr` (the two
bodies are the same), given the visits of `expr(0)` and `expr(1)`.  The index
`expr(1)` is visited and checked first, then the base `expr(0)`. -/
def visitArrayAccessExpr (expr0 expr1 : Visit) : Visit :=
  let tIndx := expr1.type
  let ownIndx :=
    if !isErrorTy tIndx && !isIntegerTy tIndx then
      [SemError.nonIntegerIndexInArrayAccess]
    else []
  let tArray := expr0.type
  let ownArray :=
    if !isErrorTy tArray && !isArrayTy tArray then [SemError.nonArrayInArrayAccess] else []
  let tArrayValue := if isArrayTy tArray then getArrayElemType tArray else createErrorTy
  ⟨tArrayValue, true, expr1.errors ++ ownIndx ++ expr0.errors ++ ownArray⟩

/-- The parameter loop of `TypeCheckVisitor::visitFuncExpr`: for `i` from `0`
below `min`, `incompatibleParameter(i+1)` when the decorated type of `expr(i)` is
not `Error` and is not copyable to `functionParams[i]`. -/
def funcExprParams (functionParams : List TypeId) (expr : List Visit) (min : Nat) :
    List SemError :=
  (List.range min).flatMap fun i =>
    match functionParams[i]?, expr[i]? with
    | some p, some a =>
      let tParam := a.type
      if !isErrorTy tParam && !copyableTypes p tParam then
        [SemError.incompatibleParameter (i + 1)]
      else []
    | _, _ => []

/-- `TypeCheckVisitor::visitFuncExpr`, given the visit of `ident()` and the
visits of all the arguments `expr()`, which the function performs first. -/
def visitFuncExpr (ident : Visit) (expr : List Visit) : Visit :=
  let visited := ident.errors ++ expr.flatMap (fun a => a.errors)
  let t := ident.type
  if !isErrorTy t && !isFunctionTy t then
    ⟨createErrorTy, false, visited ++ [SemError.isNotCallable]⟩
  else if isFunctionTy t then
    let tRet := if isVoidFunction t then createErrorTy else getFuncReturnType t
    let ownVoid := if isVoidFunction t then [SemError.isNotFunction] else []
    let functionParams := getFuncParamsTypes t
    let ownNumber :=
      if functionParams.length != expr.length then [SemError.numberOfParameters] else []
    let min := if expr.length < functionParams.length then expr.length else functionParams.length
    ⟨tRet, false, visited ++ ownVoid ++ ownNumber ++ funcExprParams functionParams expr min⟩
  else
    ⟨t, false, visited⟩

mutual
/-- The dispatch of `visit` on an expression node to the `TypeCheckVisitor`
method of its alternative. -/
def visitExpr (Symbols : SymTable) : Expr → Visit
  | .arrayAccessExpr expr0 expr1 =>
    visitArrayAccessExpr (visitExpr Symbols expr0) (visitExpr Symbols expr1)
  | .funcExpr ident expr =>
    visitFuncExpr (visitIdent Symbols ident) (visitExprs Symbols expr)
  | .exprIdent ident => visitExprIdent (visitIdent Symbols ident)
  | .arithmetic op expr0 expr1 =>
    visitArithmetic op (visitExpr Symbols expr0) (visitExpr Symbols expr1)
  | .relational op expr0 expr1 =>
    visitRelational op (visitExpr Symbols expr0) (visitExpr Symbols expr1)
  | .unaryArithmetic _ expr => visitUnaryArithmetic (visitExpr Symbols expr)
  | .unaryLogical expr => visitUnaryLogical (visitExpr Symbols expr)
  | .parenthesis expr => visitParenthesis (visitExpr Symbols expr)
  | .value tok _ => visitValue tok
  | .logical _ expr0 expr1 =>
    visitLogical (visitExpr Symbols expr0) (visitExpr Symbols expr1)
/-- Visits of the expressions of a list, in order. -/
def visitExprs (Symbols : SymTable) : List Expr → List Visit
  | [] => []
  | e :: es => visitExpr Symbols e :: visitExprs Symbols es
end

/-- The dispatch of `visit` on a left-expression node. -/
def visitLeft_expr (Symbols : SymTable) : Left_expr → Visit
  | .leftExprIdent ident => visitExprIdent (visitIdent Symbols ident)
  | .arrayAccessLExpr expr0 expr1 =>
    visitArrayAccessExpr (visitExpr Symbols expr0) (visitExpr Symbols expr1)

/-- `TypeCheckVisitor::visitAssignStmt`, given the visits of `left_expr()` and
`expr()`. -/
def visitAssignStmt (left_expr expr : Visit) : List SemError :=
  let t1 := left_expr.type
  let t2 := expr.type
  let ownCopy :=
    if !isErrorTy t1 && !isErrorTy t2 && !copyableTypes t1 t2 then
      [SemError.incompatibleAssignment]
    else []
  let ownRef :=
    if !isErrorTy t1 && !left_expr.isLValue then [SemError.nonReferenceableLeftExpr] else []
  left_expr.errors ++ expr.errors ++ ownCopy ++ ownRef

/-- `TypeCheckVisitor::visitIfStmt`, given the visit of `expr()`, the diagnostics
of `visit(ctx->statements(0))` and those of `visit(ctx->statements(1))`, which is
run when `ELSE` is present (no diagnostics otherwise). -/
def visitIfStmt (expr : Visit) (statements0 statements1 : List SemError) : List SemError :=
  let t1 := expr.type
  let own := if !isErrorTy t1 && !isBooleanTy t1 then [SemError.booleanRequired] else []
  expr.errors ++ own ++ statements0 ++ statements1

/-- `TypeCheckVisitor::visitWhileStmt`, given the visit of `expr()` and the
diagnostics of `visit(ctx->statements())`. -/
def visitWhileStmt (expr : Visit) (statements : List SemError) : List SemError :=
  let t1 := expr.type
  let own := if !isErrorTy t1 && !isBooleanTy t1 then [SemError.booleanRequired] else []
  expr.errors ++ own ++ statements

/-- `TypeCheckVisitor::visitProcCall`, given the visit of `ident()` and, for the
branch that runs the loop, the visits of the arguments `expr(i)`.  In the loop
each argument is visited and then checked against `fuctionParams[i]` when
`i` is below the number of parameters. -/
def visitProcCall (ident : Visit) (expr : List Visit) : List SemError :=
  let t1 := ident.type
  if isErrorTy t1 then ident.errors
  else if !isFunctionTy t1 then ident.errors ++ [SemError.isNotCallable]
  else
    let fuctionParams := getFuncParamsTypes t1
    let ownNumber :=
      if fuctionParams.length != expr.length then [SemError.numberOfParameters] else []
    ident.errors ++ ownNumber ++
      expr.enum.flatMap fun (i, a) =>
        let tParam := a.type
        a.errors ++
          match fuctionParams[i]? with
          | some p =>
            if !copyableTypes p tParam then [SemError.incompatibleParameter (i + 1)] else []
          | none => []

/-- `TypeCheckVisitor::visitReadStmt`, given the visit of `left_expr()`. -/
def visitReadStmt (left_expr : Visit) : List SemError :=
  let t1 := left_expr.type
  let ownBasic :=
    if !isErrorTy t1 && !isPrimitiveTy t1 && !isFunctionTy t1 then
      [SemError.readWriteRequireBasic]
    else []
  let ownRef :=
    if !isErrorTy t1 && !left_expr.isLValue then [SemError.nonReferenceableExpression] else []
  left_expr.errors ++ ownBasic ++ ownRef

/-- `TypeCheckVisitor::visitWriteExpr`, given the visit of `expr()`. -/
def visitWriteExpr (expr : Visit) : List SemError :=
  let t1 := expr.type
  expr.errors ++
    if !isErrorTy t1 && !isPrimitiveTy t1 then [SemError.readWriteRequireBasic] else []

/-- `TypeCheckVisitor::visitReturnStmt`, given the current function's return
type (`getCurrentFunctionTy()`) and the visit of `expr()` when there is one. -/
def visitReturnStmt (currFunctionType : TypeId) (expr : Option Visit) : List SemError :=
  let t := match expr with
    | some v => v.type
    | none => createVoidTy
  let visited := match expr with
    | some v => v.errors
    | none => []
  let tFunc := currFunctionType
  visited ++
    if !isErrorTy tFunc && !copyableTypes tFunc t then [SemError.incompatibleReturn] else []

mutual
/-- The dispatch of `visit` on a statement node to the `TypeCheckVisitor` method
of its alternative; `currFunctionType` is the attribute `visitFunction` sets. -/
def visitStatement (Symbols : SymTable) (currFunctionType : TypeId) :
    Statement → List SemError
  | .procCall ident expr =>
    visitProcCall (visitIdent Symbols ident) (visitExprs Symbols expr)
  | .writeExpr expr => visitWriteExpr (visitExpr Symbols expr)
  | .whileStmt expr statements =>
    visitWhileStmt (visitExpr Symbols expr)
      (visitStatements Symbols currFunctionType statements)
  | .ifStmt expr statements0 statements1 =>
    visitIfStmt (visitExpr Symbols expr)
      (visitStatements Symbols currFunctionType statements0)
      (visitElse Symbols currFunctionType statements1)
  | .readStmt left_expr => visitReadStmt (visitLeft_expr Symbols left_expr)
  | .assignStmt left_expr expr =>
    visitAssignStmt (visitLeft_expr Symbols left_expr) (visitExpr Symbols expr)
  | .returnStmt none => visitReturnStmt currFunctionType none
  | .returnStmt (some expr) => visitReturnStmt currFunctionType (some (visitExpr Symbols expr))
  | .writeString _ => []
/-- `TypeCheckVisitor::visitStatements`: the statements are visited in order. -/
def visitStatements (Symbols : SymTable) (currFunctionType : TypeId) :
    List Statement → List SemError
  | [] => []
  | s :: ss =>
    visitStatement Symbols currFunctionType s ++ visitStatements Symbols currFunctionType ss
/-- The visit of the else-branch in `TypeCheckVisitor::visitIfStmt`:
`if (ctx->ELSE()) visit(ctx->statements(1))`. -/
def visitElse (Symbols : SymTable) (currFunctionType : TypeId) :
    Option (List Statement) → List SemError
  | none => []
  | some statements1 => visitStatements Symbols currFunctionType statements1
end

/-- The value `TypeCheckVisitor::visitFunction` passes to `setCurrentFunctionTy`:
`Void`, or the decoration read on the return-type node when the function has
one; `typeDecor` is what `getTypeDecor(ctx->type())` answers. -/
def functionTy (typeDecor : TypeId) (ctx : Function) : TypeId :=
  match ctx.type with
  | some _ => typeDecor
  | none => createVoidTy

/-- `TypeCheckVisitor::visitFunction`.  `sc` is the scope `getScopeDecor(ctx)`
answers and `typeDecor` the type `getTypeDecor(ctx->type())` answers, both left
on the tree by the Symbol pass. -/
def visitFunction (Symbols : SymTable) (sc : Nat) (typeDecor : TypeId) (ctx : Function) :
    List SemError :=
  visitStatements (Symbols.pushThisScope sc) (functionTy typeDecor ctx) ctx.statements

end TypeCheckVisitor

/-! ## Tree decoration -/

/-- Identity of a parse-tree node: its position in the tree, the list of child
indices on the way from the program node (`[]`).  Function `i` of the program is
`[i]`; under a function node the `parameters` clause is child `0`, the return
`type` child `1`, the `declarations` child `2` and the `statements` child `3`;
`type(i)` of a `parameters` node and `variable_decl(k)` of a `declarations` node
are children `i` and `k`; the `type` of a `variable_decl` and the `basic_type` of
a `type` are child `0`; statement `m` of a `statements` node is child `m`. -/
abbrev Node := List Nat

/-- Modelled from the spec: `TreeDecoration` (`common/TreeDecoration.h` is
absent), a side map from node identity to `{scope?, type?, is_lvalue?}`.  Each
attribute is an association list, newest entry first.  What a getter answers on
a node without the attribute is not given by the spec; the fields `noScope`,
`noType` and `noIsLValue` hold those answers. -/
structure TreeDecoration where
  scope : List (Node × Nat)
  type : List (Node × TypeId)
  isLValue : List (Node × Bool)
  noScope : Nat
  noType : TypeId
  noIsLValue : Bool
  deriving Repr

namespace TreeDecoration

/-- Modelled from the spec: the table before any pass has run. -/
def empty (noScope : Nat) (noType : TypeId) (noIsLValue : Bool) : TreeDecoration :=
  ⟨[], [], [], noScope, noType, noIsLValue⟩

/-- Modelled from the spec: `putScope(ctx, s)`. -/
def putScope (d : TreeDecoration) (ctx : Node) (s : Nat) : TreeDecoration :=
  { d with scope := (ctx, s) :: d.scope }

/-- Modelled from the spec: `putType(ctx, t)`. -/
def putType (d : TreeDecoration) (ctx : Node) (t : TypeId) : TreeDecoration :=
  { d with type := (ctx, t) :: d.type }

/-- Modelled from the spec: `putIsLValue(ctx, b)`. -/
def putIsLValue (d : TreeDecoration) (ctx : Node) (b : Bool) : TreeDecoration :=
  { d with isLValue := (ctx, b) :: d.isLValue }

/-- Modelled from the spec: `getScope(ctx)`. -/
def getScope (d : TreeDecoration) (ctx : Node) : Nat :=
  (d.scope.lookup ctx).getD d.noScope

/-- Modelled from the spec: `getType(ctx)`. -/
def getType (d : TreeDecoration) (ctx : Node) : TypeId :=
  (d.type.lookup ctx).getD d.noType

/-- Modelled from the spec: `getIsLValue(ctx)`. -/
def getIsLValue (d : TreeDecoration) (ctx : Node) : Bool :=
  (d.isLValue.lookup ctx).getD d.noIsLValue

/-- Whether the node carries a type decoration. -/
def hasType (d : TreeDecoration) (ctx : Node) : Bool :=
  (d.type.lookup ctx).isSome

/-- Whether the node carries a scope decoration. -/
def hasScope (d : TreeDecoration) (ctx : Node) : Bool :=
  (d.scope.lookup ctx).isSome

end TreeDecoration

namespace SymTable

/-- Modelled from the spec: the name constant `SymTable::GLOBAL_SCOPE_NAME`; its
value is not given by the spec and nothing below depends on it. -/
def GLOBAL_SCOPE_NAME : String := "$global$"

/-- Modelled from the spec: `no_main_properly_declared()` — true iff no symbol
`main` of type `() → void` exists in the global scope, the scope with id `0`. -/
def noMainProperlyDeclared (S : SymTable) : Bool :=
  match S.scopes[0]? with
  | none => true
  | some g =>
    !(g.symbols.any fun s =>
      s.name == "main" &&
        match s.type with
        | .function [] .void => true
        | _ => false)

end SymTable

/-! ## Symbol pass -/

namespace SymbolsVisitor

/-- The collaborators a visitor holds references to and updates: the symbol
table, the tree decoration and the diagnostics reported so far, oldest first. -/
structure State where
  Symbols : SymTable
  Decorations : TreeDecoration
  Errors : List SemError
  deriving Repr

/-- `SymbolsVisitor::visitBasic_type` on the node `ctx`: `putTypeDecor(ctx, t)`. -/
def decorateBasic_type (st : State) (ctx : Node) (tree : Basic_type) : State :=
  { st with Decorations := st.Decorations.putType ctx (visitBasic_type tree) }

/-- `SymbolsVisitor::visitType` on the node `ctx`: the `basic_type` child is
visited, then the node gets an array type around the child's decoration when
`ARRAY` is present and the child's decoration otherwise. -/
def decorateType (st : State) (ctx : Node) (tree : TypeNode) : State :=
  let st := decorateBasic_type st (ctx ++ [0]) tree.basic_type
  match tree.ARRAY with
  | some size =>
    let t := createArrayTy size (st.Decorations.getType (ctx ++ [0]))
    { st with Decorations := st.Decorations.putType ctx t }
  | none =>
    { st with Decorations := st.Decorations.putType ctx (st.Decorations.getType (ctx ++ [0])) }

/-- The loop of `SymbolsVisitor::visitParameters` from index `i` on, `params`
being the pairs `(ID(j), type(j))` for `j ≥ i`.  The result list holds
`lParamsTy[j]` for `j ≥ i`: the vector is created with one value-initialised
`TypeId` per parameter (`TypeId0`) and entry `j` is assigned only when `ID(j)`
is not already in the current scope. -/
def visitParameters (TypeId0 : TypeId) (ctx : Node) :
    State → Nat → List (String × TypeNode) → State × List TypeId
  | st, _, [] => (st, [])
  | st, i, (ID, type) :: params =>
    let st := decorateType st (ctx ++ [i]) type
    if st.Symbols.findInCurrentScope ID then
      let st := { st with Errors := st.Errors ++ [SemError.declaredIdent] }
      let r := visitParameters TypeId0 ctx st (i + 1) params
      (r.1, TypeId0 :: r.2)
    else
      let t1 := st.Decorations.getType (ctx ++ [i])
      let st := { st with Symbols := st.Symbols.addParameter ID t1 }
      let r := visitParameters TypeId0 ctx st (i + 1) params
      (r.1, t1 :: r.2)

/-- The loop over the identifiers of `SymbolsVisitor::visitVariable_decl`;
`type` is the `type` child of the declaration. -/
def visitVariable_declIds (type : Node) : State → List String → State
  | st, [] => st
  | st, id :: ident =>
    if st.Symbols.findInCurrentScope id then
      visitVariable_declIds type { st with Errors := st.Errors ++ [SemError.declaredIdent] } ident
    else
      let t1 := st.Decorations.getType type
      visitVariable_declIds type { st with Symbols := st.Symbols.addLocalVar id t1 } ident

/-- `SymbolsVisitor::visitVariable_decl`. -/
def visitVariable_decl (st : State) (ctx : Node) (tree : Variable_decl) : State :=
  let st := decorateType st (ctx ++ [0]) tree.type
  visitVariable_declIds (ctx ++ [0]) st tree.ID

/-- `SymbolsVisitor::visitDeclarations`: the declarations are visited in order,
`variable_decl(k)` for `k ≥ i`. -/
def visitDeclarations (ctx : Node) : State → Nat → List Variable_decl → State
  | st, _, [] => st
  | st, i, d :: ds => visitDeclarations ctx (visitVariable_decl st (ctx ++ [i]) d) (i + 1) ds

/-- `SymbolsVisitor::visitFunction`. -/
def visitFunction (TypeId0 : TypeId) (st : State) (ctx : Node) (tree : Function) : State :=
  let funcName := tree.ID
  let pushed := st.Symbols.pushNewScope funcName
  let st := { st with Symbols := pushed.1 }
  let st := { st with Decorations := st.Decorations.putScope ctx pushed.2 }
  let visited :=
    match tree.parameters with
    | some params => visitParameters TypeId0 (ctx ++ [0]) st 0 params
    | none => (st, [])
  let lParamsTy := visited.2
  let st := visitDeclarations (ctx ++ [2]) visited.1 0 tree.declarations
  let st := { st with Symbols := st.Symbols.popScope }
  let ident := tree.ID
  if st.Symbols.findInCurrentScope ident then
    { st with Errors := st.Errors ++ [SemError.declaredIdent] }
  else
    match tree.type with
    | some type =>
      let st := decorateType st (ctx ++ [1]) type
      let tRet := st.Decorations.getType (ctx ++ [1])
      let tFunc := createFunctionTy lParamsTy tRet
      { st with Symbols := st.Symbols.addFunction ident tFunc }
    | none =>
      let tRet := createVoidTy
      let tFunc := createFunctionTy lParamsTy tRet
      { st with Symbols := st.Symbols.addFunction ident tFunc }

/-- The loop of `SymbolsVisitor::visitProgram` over `ctx->function()`, function
`i` being the node `[i]`. -/
def visitFunctions (TypeId0 : TypeId) : State → Nat → List Function → State
  | st, _, [] => st
  | st, i, f :: fs => visitFunctions TypeId0 (visitFunction TypeId0 st [i] f) (i + 1) fs

/-- `SymbolsVisitor::visitProgram`. -/
def visitProgram (TypeId0 : TypeId) (st : State) (tree : Program) : State :=
  let pushed := st.Symbols.pushNewScope SymTable.GLOBAL_SCOPE_NAME
  let st := { st with Symbols := pushed.1 }
  let st := { st with Decorations := st.Decorations.putScope [] pushed.2 }
  let st := visitFunctions TypeId0 st 0 tree.function
  { st with Symbols := st.Symbols.popScope }

end SymbolsVisitor

namespace TypeCheckVisitor

/-- The loop of `TypeCheckVisitor::visitProgram` over `ctx->function()`, function
`i` being the node `[i]` and its return `type` the node `[i, 1]`. -/
def visitFunctions (Symbols : SymTable) (Decorations : TreeDecoration) :
    Nat → List Function → List SemError
  | _, [] => []
  | i, f :: fs =>
    visitFunction Symbols (Decorations.getScope [i]) (Decorations.getType [i, 1]) f ++
      visitFunctions Symbols Decorations (i + 1) fs

/-- `TypeCheckVisitor::visitProgram`: the diagnostics of the Type pass. -/
def visitProgram (Symbols : SymTable) (Decorations : TreeDecoration) (tree : Program) :
    List SemError :=
  let sc := Decorations.getScope []
  let Symbols := Symbols.pushThisScope sc
  visitFunctions Symbols Decorations 0 tree.function ++
    if Symbols.noMainProperlyDeclared then [SemError.noMainProperlyDeclared] else []

end TypeCheckVisitor

/-- Modelled from the spec: the driver's sequencing of the Symbol pass, run on
empty collaborators.  `TypeId0` is the value-initialised `TypeId`. -/
def symbolPass (TypeId0 : TypeId) (Decorations : TreeDecoration) (tree : Program) :
    SymbolsVisitor.State :=
  SymbolsVisitor.visitProgram TypeId0 ⟨SymTable.empty, Decorations, []⟩ tree

/-- Modelled from the spec: the driver's sequencing of the Type pass after the
Symbol pass, on the table and the decorations the Symbol pass leaves; the result
is the diagnostics of the Type pass. -/
def typePass (TypeId0 : TypeId) (Decorations : TreeDecoration) (tree : Program) :
    List SemError :=
  let st := symbolPass TypeId0 Decorations tree
  TypeCheckVisitor.visitProgram st.Symbols st.Decorations tree

/-! ## Declarations as written in the source -/

/-- The pairs `(ID(i), type(i))` of the `parameters` clause of a function, none
when the clause is absent. -/
def Function.params (f : Function) : List (String × TypeNode) :=
  f.parameters.getD []

/-- The parameters a function declares, in order, each with the kind `parameter`
and the type written for it. -/
def declaredParameters (f : Function) : List Symbol :=
  f.params.map fun p => ⟨p.1, SymClass.parameter, SymbolsVisitor.visitType p.2⟩

/-- The local variables a function declares, in order, each with the kind
`localVar` and the type written in its `variable_decl`. -/
def declaredLocals (f : Function) : List Symbol :=
  f.declarations.flatMap fun d =>
    d.ID.map fun id => ⟨id, SymClass.localVar, SymbolsVisitor.visitType d.type⟩

/-- The declarations of the scope of a function, in source order: parameters,
then locals. -/
def declaredSymbols (f : Function) : List Symbol :=
  declaredParameters f ++ declaredLocals f

/-- The number of later declarations in a list of declared names: those whose
name is among `seen`, the names declared before them in the same scope. -/
def laterDeclarations : List String → List String → Nat
  | _, [] => 0
  | seen, name :: names =>
    (if name ∈ seen then 1 else 0) + laterDeclarations (name :: seen) names

/-- The bindings of a scope that holds `syms` after the declarations `decls` are
processed in order: a declaration whose name is already bound is dropped, any
other is added at the end. -/
def declareAll : List Symbol → List Symbol → List Symbol
  | syms, [] => syms
  | syms, s :: decls =>
    if (syms.find? (fun b => b.name == s.name)).isSome then declareAll syms decls
    else declareAll (syms ++ [s]) decls

/-- The parameter types `SymbolsVisitor::visitParameters` returns for the
parameters `params`, `seen` holding the names declared before them: the type
written for a parameter, or `TypeId0` for a parameter whose name was declared
before. -/
def paramTypes (TypeId0 : TypeId) : List String → List (String × TypeNode) → List TypeId
  | _, [] => []
  | seen, p :: params =>
    (if p.1 ∈ seen then TypeId0 else SymbolsVisitor.visitType p.2) ::
      paramTypes TypeId0 (p.1 :: seen) params

/-- The return type a function declares: `Void` when none is written. -/
def declaredReturnType (f : Function) : TypeId :=
  match f.type with
  | some type => SymbolsVisitor.visitType type
  | none => TypeId.void

/-- The symbol `SymbolsVisitor::visitFunction` registers for a function whose
name is not yet bound in the global scope. -/
def functionSymbol (TypeId0 : TypeId) (f : Function) : Symbol :=
  ⟨f.ID, SymClass.function,
    TypeId.function (paramTypes TypeId0 [] f.params) (declaredReturnType f)⟩

/-- The scope the Symbol pass builds for a function. -/
def functionScope (f : Function) : Scope :=
  ⟨f.ID, declareAll [] (declaredSymbols f)⟩

/-! ## Three-address code -/

/-- Modelled from the spec: the instructions of section 3 (`common/code.h` is
absent).  Operands are addresses written as text: a name, a temporary `%N` or a
literal.  `PUSH` and `POP` take their operand optionally. -/
inductive instruction where
  | LOAD (dst src : String)
  | ILOAD (dst imm : String)
  | FLOAD (dst imm : String)
  | CHLOAD (dst imm : String)
  | LOADX (dst base idx : String)
  | XLOAD (base idx src : String)
  | ADD (dst a b : String)
  | SUB (dst a b : String)
  | MUL (dst a b : String)
  | DIV (dst a b : String)
  | NEG (dst a : String)
  | FADD (dst a b : String)
  | FSUB (dst a b : String)
  | FMUL (dst a b : String)
  | FDIV (dst a b : String)
  | FNEG (dst a : String)
  | EQ (dst a b : String)
  | LT (dst a b : String)
  | LE (dst a b : String)
  | FEQ (dst a b : String)
  | FLT (dst a b : String)
  | FLE (dst a b : String)
  | AND (dst a b : String)
  | OR (dst a b : String)
  | NOT (dst a : String)
  | FLOAT (dst src : String)
  | UJUMP (lbl : String)
  | FJUMP (cond lbl : String)
  | LABEL (lbl : String)
  | PUSH (src : Option String)
  | POP (dst : Option String)
  | CALL (name : String)
  | RETURN
  | READI (dst : String)
  | READF (dst : String)
  | READC (dst : String)
  | WRITEI (src : String)
  | WRITEF (src : String)
  | WRITEC (src : String)
  | WRITES (s : String)
  deriving DecidableEq, Repr

/-- Modelled from the spec: the address an instruction assigns, if any — the
`dst` operand of loads, arithmetic, relational, logical and conversion
instructions, of a `POP dst` and of the read instructions. -/
def instruction.dest : instruction → Option String
  | .LOAD dst _ | .ILOAD dst _ | .FLOAD dst _ | .CHLOAD dst _ | .LOADX dst _ _ => some dst
  | .ADD dst _ _ | .SUB dst _ _ | .MUL dst _ _ | .DIV dst _ _ | .NEG dst _ => some dst
  | .FADD dst _ _ | .FSUB dst _ _ | .FMUL dst _ _ | .FDIV dst _ _ | .FNEG dst _ => some dst
  | .EQ dst _ _ | .LT dst _ _ | .LE dst _ _ => some dst
  | .FEQ dst _ _ | .FLT dst _ _ | .FLE dst _ _ => some dst
  | .AND dst _ _ | .OR dst _ _ | .NOT dst _ | .FLOAT dst _ => some dst
  | .POP dst => dst
  | .READI dst | .READF dst | .READC dst => some dst
  | _ => none

/-- Modelled from the spec: an instruction list; `||` of the source is `++`. -/
abbrev instructionList := List instruction

/-- Modelled from the spec: the per-subroutine counters behind fresh temporaries
and labels, each holding the next number to hand out. -/
structure counters where
  TEMP : Nat
  LabelIF : Nat
  LabelWHILE : Nat
  deriving DecidableEq, Repr

namespace counters

/-- Modelled from the spec: `newTEMP()`, the text of the next temporary number;
the counter only increases. -/
def newTEMP (c : counters) : String × counters :=
  (toString c.TEMP, { c with TEMP := c.TEMP + 1 })

/-- Modelled from the spec: `newLabelIF()`. -/
def newLabelIF (c : counters) : String × counters :=
  (toString c.LabelIF, { c with LabelIF := c.LabelIF + 1 })

/-- Modelled from the spec: `newLabelWHILE()`. -/
def newLabelWHILE (c : counters) : String × counters :=
  (toString c.LabelWHILE, { c with LabelWHILE := c.LabelWHILE + 1 })

end counters

/-! ## Code pass: expressions

`getTypeDecor(ctx)` in the Code pass answers the type the Type pass put on the
node.  The Code pass runs on programs without diagnostics only, where every
expression node was visited by the Type pass under the symbol table of its
function; below `Symbols` is that table and the decoration of an expression `e`
is `(TypeCheckVisitor.visitExpr Symbols e).type`.  A visit yields `none` when it
reads `functionParams[i]` past the end of the vector. -/

namespace CodeGenVisitor

/-- `CodeGenVisitor::CodeAttribs`. -/
structure CodeAttribs where
  addr : String
  offs : String
  code : instructionList
  deriving DecidableEq, Repr

/-- `CodeGenVisitor::visitIdent`. -/
def visitIdent (ID : String) : CodeAttribs :=
  ⟨ID, "", []⟩

/-- The chain `if (ctx->MUL()) … else if (ctx->DIV()) … else if (ctx->PLUS()) …
else if (ctx->MINUS()) …` of the float branch of `CodeGenVisitor::visitArithmetic`:
the instructions appended for the operator; the chain has no case for `MOD`. -/
def floatArithmetic (op : ArithOp) (temp addr1 addr2 : String) : instructionList :=
  match op with
  | .MUL => [instruction.FMUL temp addr1 addr2]
  | .DIV => [instruction.FDIV temp addr1 addr2]
  | .PLUS => [instruction.FADD temp addr1 addr2]
  | .MINUS => [instruction.FSUB temp addr1 addr2]
  | .MOD => []

/-- The same chain in the integer branch of `CodeGenVisitor::visitArithmetic`;
it has no case for `MOD` either. -/
def integerArithmetic (op : ArithOp) (temp addr1 addr2 : String) : instructionList :=
  match op with
  | .MUL => [instruction.MUL temp addr1 addr2]
  | .DIV => [instruction.DIV temp addr1 addr2]
  | .PLUS => [instruction.ADD temp addr1 addr2]
  | .MINUS => [instruction.SUB temp addr1 addr2]
  | .MOD => []

/-- `CodeGenVisitor::visitArithmetic`, given the attributes of `expr(0)` and
`expr(1)`, the decorated types `t1`, `t2` of the operands and `t` of the node,
and the counters after both operands were visited. -/
def visitArithmetic (op : ArithOp) (codAt1 codAt2 : CodeAttribs) (t1 t2 t : TypeId)
    (codeCounters : counters) : CodeAttribs × counters :=
  let addr1 := codAt1.addr
  let addr2 := codAt2.addr
  let code := codAt1.code ++ codAt2.code
  let fresh := codeCounters.newTEMP
  let temp := "%" ++ fresh.1
  let codeCounters := fresh.2
  if isFloatTy t then
    if isIntegerTy t1 then
      let fresh2 := codeCounters.newTEMP
      let temp2 := "%" ++ fresh2.1
      let code := code ++ [instruction.FLOAT temp2 addr1]
      (⟨temp, "", code ++ floatArithmetic op temp temp2 addr2⟩, fresh2.2)
    else if isIntegerTy t2 then
      let fresh2 := codeCounters.newTEMP
      let temp2 := "%" ++ fresh2.1
      let code := code ++ [instruction.FLOAT temp2 addr2]
      (⟨temp, "", code ++ floatArithmetic op temp addr1 temp2⟩, fresh2.2)
    else (⟨temp, "", code ++ floatArithmetic op temp addr1 addr2⟩, codeCounters)
  else (⟨temp, "", code ++ integerArithmetic op temp addr1 addr2⟩, codeCounters)

/-- `CodeGenVisitor::visitRelational`, given the attributes of `expr(0)` and
`expr(1)`, the decorated types `t1`, `t2` of the operands, and the counters
after both operands were visited. -/
def visitRelational (op : RelOp) (codAt1 codAt2 : CodeAttribs) (t1 t2 : TypeId)
    (codeCounters : counters) : CodeAttribs × counters :=
  let addr1 := codAt1.addr
  let addr2 := codAt2.addr
  let code := codAt1.code ++ codAt2.code
  let fresh := codeCounters.newTEMP
  let temp := "%" ++ fresh.1
  let codeCounters := fresh.2
  if isFloatTy t1 || isFloatTy t2 then
    let promoted : instructionList × String × String × counters :=
      if isIntegerTy t1 then
        let fresh2 := codeCounters.newTEMP
        let temp2 := "%" ++ fresh2.1
        (code ++ [instruction.FLOAT temp2 addr1], temp2, addr2, fresh2.2)
      else if isIntegerTy t2 then
        let fresh2 := codeCounters.newTEMP
        let temp2 := "%" ++ fresh2.1
        (code ++ [instruction.FLOAT temp2 addr2], addr1, temp2, fresh2.2)
      else (code, addr1, addr2, codeCounters)
    let code := promoted.1
    let addr1 := promoted.2.1
    let addr2 := promoted.2.2.1
    let code :=
      match op with
      | .EQUAL => code ++ [instruction.FEQ temp addr1 addr2]
      | .NEQ => code ++ [instruction.FEQ temp addr1 addr2] ++ [instruction.NOT temp temp]
      | .GT => code ++ [instruction.FLE temp addr1 addr2] ++ [instruction.NOT temp temp]
      | .LT => code ++ [instruction.FLT temp addr1 addr2]
      | .GE => code ++ [instruction.FLT temp addr1 addr2] ++ [instruction.NOT temp temp]
      | .LE => code ++ [instruction.FLE temp addr1 addr2]
    (⟨temp, "", code⟩, promoted.2.2.2)
  else
    let code :=
      match op with
      | .EQUAL => code ++ [instruction.EQ temp addr1 addr2]
      | .NEQ => code ++ [instruction.EQ temp addr1 addr2] ++ [instruction.NOT temp temp]
      | .GT => code ++ [instruction.LE temp addr1 addr2] ++ [instruction.NOT temp temp]
      | .LT => code ++ [instruction.LT temp addr1 addr2]
      | .GE => code ++ [instruction.LT temp addr1 addr2] ++ [instruction.NOT temp temp]
      | .LE => code ++ [instruction.LE temp addr1 addr2]
    (⟨temp, "", code⟩, codeCounters)

/-- `CodeGenVisitor::visitValue`, given the decorated type `t1` of the node and
its text. -/
def visitValue (t1 : TypeId) (text : String) (codeCounters : counters) :
    CodeAttribs × counters :=
  let fresh := codeCounters.newTEMP
  let temp := "%" ++ fresh.1
  let code : instructionList :=
    if isBooleanTy t1 then [instruction.ILOAD temp (if text == "true" then "1" else "0")]
    else if isFloatTy t1 then [instruction.FLOAD temp text]
    else if isCharacterTy t1 then [instruction.CHLOAD temp text]
    else if isIntegerTy t1 then [instruction.ILOAD temp text]
    else []
  (⟨temp, "", code⟩, fresh.2)

/-- `CodeGenVisitor::visitUnaryLogical`, given the attributes of `expr()`; the
only operator token of the node is `NOT`. -/
def visitUnaryLogical (codAt1 : CodeAttribs) (codeCounters : counters) :
    CodeAttribs × counters :=
  let addr1 := codAt1.addr
  let fresh := codeCounters.newTEMP
  let temp := "%" ++ fresh.1
  (⟨temp, "", codAt1.code ++ [instruction.NOT temp addr1]⟩, fresh.2)

/-- `CodeGenVisitor::visitLogical`, given the attributes of `expr(0)` and
`expr(1)`. -/
def visitLogical (op : LogicOp) (codAt1 codAt2 : CodeAttribs) (codeCounters : counters) :
    CodeAttribs × counters :=
  let addr1 := codAt1.addr
  let addr2 := codAt2.addr
  let code := codAt1.code ++ codAt2.code
  let fresh := codeCounters.newTEMP
  let temp := "%" ++ fresh.1
  let code :=
    match op with
    | .AND => code ++ [instruction.AND temp addr1 addr2]
    | .OR => code ++ [instruction.OR temp addr1 addr2]
  (⟨temp, "", code⟩, fresh.2)

/-- `CodeGenVisitor::visitUnaryArithmetic`, given the attributes of `expr()` and
the decorated type `t` of the node. -/
def visitUnaryArithmetic (op : UnaryOp) (codAt1 : CodeAttribs) (t : TypeId)
    (codeCounters : counters) : CodeAttribs × counters :=
  let addr1 := codAt1.addr
  let code1 := codAt1.code
  match op with
  | .MINUS =>
    let fresh := codeCounters.newTEMP
    let temp := "%" ++ fresh.1
    let code1 :=
      if isFloatTy t then code1 ++ [instruction.FNEG temp addr1]
      else code1 ++ [instruction.NEG temp addr1]
    (⟨temp, "", code1⟩, fresh.2)
  | .PLUS => (⟨addr1, "", code1⟩, codeCounters)

/-- `CodeGenVisitor::visitArrayAccessExpr`, given the attributes of `expr(0)`
and `expr(1)`. -/
def visitArrayAccessExpr (codAt1 codAt2 : CodeAttribs) (codeCounters : counters) :
    CodeAttribs × counters :=
  let addr1 := codAt1.addr
  let addr2 := codAt2.addr
  let code := codAt1.code ++ codAt2.code
  let fresh := codeCounters.newTEMP
  let temp := "%" ++ fresh.1
  (⟨temp, "", code ++ [instruction.LOADX temp addr1 addr2]⟩, fresh.2)

/-- The coercion step of the argument loops of `CodeGenVisitor::visitFuncExpr`
and `visitProcCall` for argument `i` with attributes `codAt1` and decorated type
`tExpr`: the code of the argument, a `FLOAT` into a fresh temporary when the
argument is integer and `functionParams[i]` is float, and the `PUSH`.
`functionParams[i]` is read only when the argument is integer; the step yields
`none` when that read is past the end. -/
def pushArgument (functionParams : List TypeId) (i : Nat) (codAt1 : CodeAttribs)
    (tExpr : TypeId) (codeCounters : counters) : Option (instructionList × counters) :=
  let addr1 := codAt1.addr
  if isIntegerTy tExpr then
    match functionParams[i]? with
    | none => none
    | some p =>
      if isFloatTy p then
        let fresh := codeCounters.newTEMP
        let temp := "%" ++ fresh.1
        some (codAt1.code ++ [instruction.FLOAT temp addr1] ++ [instruction.PUSH (some temp)],
          fresh.2)
      else some (codAt1.code ++ [instruction.PUSH (some addr1)], codeCounters)
  else some (codAt1.code ++ [instruction.PUSH (some addr1)], codeCounters)

mutual
/-- The dispatch of `visit` on an expression node to the `CodeGenVisitor` method
of its alternative, threading the counters. -/
def visitExpr (Symbols : SymTable) : Expr → counters → Option (CodeAttribs × counters)
  | .arrayAccessExpr expr0 expr1, c =>
    match visitExpr Symbols expr0 c with
    | none => none
    | some (codAt1, c) =>
      match visitExpr Symbols expr1 c with
      | none => none
      | some (codAt2, c) => some (visitArrayAccessExpr codAt1 codAt2 c)
  | .funcExpr ident expr, c =>
    let tFunc := (TypeCheckVisitor.visitIdent Symbols ident).type
    let functionParams := getFuncParamsTypes tFunc
    match visitArguments Symbols functionParams 0 expr c with
    | none => none
    | some (args, c) =>
      let code := [instruction.PUSH none] ++ args ++ [instruction.CALL ident] ++
        List.replicate expr.length (instruction.POP none)
      let fresh := c.newTEMP
      let temp := "%" ++ fresh.1
      some (⟨temp, "", code ++ [instruction.POP (some temp)]⟩, fresh.2)
  | .exprIdent ident, c => some (visitIdent ident, c)
  | .arithmetic op expr0 expr1, c =>
    match visitExpr Symbols expr0 c with
    | none => none
    | some (codAt1, c) =>
      match visitExpr Symbols expr1 c with
      | none => none
      | some (codAt2, c) =>
        some (visitArithmetic op codAt1 codAt2
          (TypeCheckVisitor.visitExpr Symbols expr0).type
          (TypeCheckVisitor.visitExpr Symbols expr1).type
          (TypeCheckVisitor.visitExpr Symbols (Expr.arithmetic op expr0 expr1)).type c)
  | .relational op expr0 expr1, c =>
    match visitExpr Symbols expr0 c with
    | none => none
    | some (codAt1, c) =>
      match visitExpr Symbols expr1 c with
      | none => none
      | some (codAt2, c) =>
        some (visitRelational op codAt1 codAt2
          (TypeCheckVisitor.visitExpr Symbols expr0).type
          (TypeCheckVisitor.visitExpr Symbols expr1).type c)
  | .unaryArithmetic op expr, c =>
    match visitExpr Symbols expr c with
    | none => none
    | some (codAt1, c) =>
      some (visitUnaryArithmetic op codAt1
        (TypeCheckVisitor.visitExpr Symbols (Expr.unaryArithmetic op expr)).type c)
  | .unaryLogical expr, c =>
    match visitExpr Symbols expr c with
    | none => none
    | some (codAt1, c) => some (visitUnaryLogical codAt1 c)
  | .parenthesis expr, c => visitExpr Symbols expr c
  | .value tok text, c =>
    some (visitValue (TypeCheckVisitor.visitExpr Symbols (Expr.value tok text)).type text c)
  | .logical op expr0 expr1, c =>
    match visitExpr Symbols expr0 c with
    | none => none
    | some (codAt1, c) =>
      match visitExpr Symbols expr1 c with
      | none => none
      | some (codAt2, c) => some (visitLogical op codAt1 codAt2 c)
/-- The argument loop of `CodeGenVisitor::visitFuncExpr` and `visitProcCall` from
index `i` on: each argument is visited, coerced and pushed. -/
def visitArguments (Symbols : SymTable) (functionParams : List TypeId) :
    Nat → List Expr → counters → Option (instructionList × counters)
  | _, [], c => some ([], c)
  | i, e :: es, c =>
    match visitExpr Symbols e c with
    | none => none
    | some (codAt1, c) =>
      match pushArgument functionParams i codAt1 (TypeCheckVisitor.visitExpr Symbols e).type c with
      | none => none
      | some (code, c) =>
        match visitArguments Symbols functionParams (i + 1) es c with
        | none => none
        | some (rest, c) => some (code ++ rest, c)
end

end CodeGenVisitor

/-- The float opcode the specification names for an operator: `FADD`, `FSUB`,
`FMUL`, `FDIV` for `+ - * /`, none for `%`. -/
def floatOpcode : ArithOp → Option (String → String → String → instruction)
  | .PLUS => some instruction.FADD
  | .MINUS => some instruction.FSUB
  | .MUL => some instruction.FMUL
  | .DIV => some instruction.FDIV
  | .MOD => none

/-- The integer opcode the specification names for an operator: `ADD`, `SUB`,
`MUL`, `DIV` for `+ - * /`, none for `%`. -/
def integerOpcode : ArithOp → Option (String → String → String → instruction)
  | .PLUS => some instruction.ADD
  | .MINUS => some instruction.SUB
  | .MUL => some instruction.MUL
  | .DIV => some instruction.DIV
  | .MOD => none

/-! ## Type pass: the decorations it writes

The visits of the Type pass seen as updates of the tree decoration.  Under an
expression node the operands are the children `0` and `1` (a single operand is
child `0`); the `ident` of a call or of an identifier expression is child `0`
and argument `i` of a call is child `i + 1`.  Under a statement node the
left-expression or the condition is child `0`, the expression of an assignment
child `1`, the `statements` of a loop or of a then-branch child `1` and those of
an else-branch child `2`. -/

namespace TypeCheckVisitor

/-- The calls `putTypeDecor(ctx, t); putIsLValueDecor(ctx, b)` that end the visit
of a node, `v` holding `t` and `b`. -/
def putDecor (d : TreeDecoration) (ctx : Node) (v : Visit) : TreeDecoration :=
  (d.putType ctx v.type).putIsLValue ctx v.isLValue

mutual
/-- The decorations written while an expression node is visited: those of the
children the method visits, in the order of the visits, then the node's own. -/
def decorateExpr (Symbols : SymTable) : Node → Expr → TreeDecoration → TreeDecoration
  | ctx, .arrayAccessExpr expr0 expr1, d =>
    let d := decorateExpr Symbols (ctx ++ [1]) expr1 d
    let d := decorateExpr Symbols (ctx ++ [0]) expr0 d
    putDecor d ctx (visitExpr Symbols (Expr.arrayAccessExpr expr0 expr1))
  | ctx, .funcExpr ident expr, d =>
    let d := putDecor d (ctx ++ [0]) (visitIdent Symbols ident)
    let d := decorateExprs Symbols ctx 1 expr d
    putDecor d ctx (visitExpr Symbols (Expr.funcExpr ident expr))
  | ctx, .exprIdent ident, d =>
    let d := putDecor d (ctx ++ [0]) (visitIdent Symbols ident)
    putDecor d ctx (visitExpr Symbols (Expr.exprIdent ident))
  | ctx, .arithmetic op expr0 expr1, d =>
    let d := decorateExpr Symbols (ctx ++ [0]) expr0 d
    let d := decorateExpr Symbols (ctx ++ [1]) expr1 d
    putDecor d ctx (visitExpr Symbols (Expr.arithmetic op expr0 expr1))
  | ctx, .relational op expr0 expr1, d =>
    let d := decorateExpr Symbols (ctx ++ [0]) expr0 d
    let d := decorateExpr Symbols (ctx ++ [1]) expr1 d
    putDecor d ctx (visitExpr Symbols (Expr.relational op expr0 expr1))
  | ctx, .unaryArithmetic op expr, d =>
    let d := decorateExpr Symbols (ctx ++ [0]) expr d
    putDecor d ctx (visitExpr Symbols (Expr.unaryArithmetic op expr))
  | ctx, .unaryLogical expr, d =>
    let d := decorateExpr Symbols (ctx ++ [0]) expr d
    putDecor d ctx (visitExpr Symbols (Expr.unaryLogical expr))
  | ctx, .parenthesis expr, d =>
    let d := decorateExpr Symbols (ctx ++ [0]) expr d
    putDecor d ctx (visitExpr Symbols (Expr.parenthesis expr))
  | ctx, .value tok text, d => putDecor d ctx (visitExpr Symbols (Expr.value tok text))
  | ctx, .logical op expr0 expr1, d =>
    let d := decorateExpr Symbols (ctx ++ [0]) expr0 d
    let d := decorateExpr Symbols (ctx ++ [1]) expr1 d
    putDecor d ctx (visitExpr Symbols (Expr.logical op expr0 expr1))
/-- The decorations written while the expressions of a list are visited in
order, the first being child `i` of `ctx`. -/
def decorateExprs (Symbols : SymTable) (ctx : Node) :
    Nat → List Expr → TreeDecoration → TreeDecoration
  | _, [], d => d
  | i, e :: es, d => decorateExprs Symbols ctx (i + 1) es (decorateExpr Symbols (ctx ++ [i]) e d)
end

/-- The decorations written while a left-expression node is visited. -/
def decorateLeft_expr (Symbols : SymTable) (ctx : Node) (tree : Left_expr)
    (d : TreeDecoration) : TreeDecoration :=
  match tree with
  | .leftExprIdent ident =>
    let d := putDecor d (ctx ++ [0]) (visitIdent Symbols ident)
    putDecor d ctx (visitLeft_expr Symbols (Left_expr.leftExprIdent ident))
  | .arrayAccessLExpr expr0 expr1 =>
    let d := decorateExpr Symbols (ctx ++ [1]) expr1 d
    let d := decorateExpr Symbols (ctx ++ [0]) expr0 d
    putDecor d ctx (visitLeft_expr Symbols (Left_expr.arrayAccessLExpr expr0 expr1))

mutual
/-- The decorations written while a statement node is visited.  In a call
statement the arguments are visited, hence decorated, only in the branch taken
when the type of the callee is a function type. -/
def decorateStatement (Symbols : SymTable) :
    Node → Statement → TreeDecoration → TreeDecoration
  | ctx, .procCall ident expr, d =>
    let d := putDecor d (ctx ++ [0]) (visitIdent Symbols ident)
    let t1 := (visitIdent Symbols ident).type
    if isErrorTy t1 then d
    else if !isFunctionTy t1 then d
    else decorateExprs Symbols ctx 1 expr d
  | ctx, .writeExpr expr, d => decorateExpr Symbols (ctx ++ [0]) expr d
  | ctx, .whileStmt expr statements, d =>
    let d := decorateExpr Symbols (ctx ++ [0]) expr d
    decorateStatements Symbols (ctx ++ [1]) 0 statements d
  | ctx, .ifStmt expr statements0 statements1, d =>
    let d := decorateExpr Symbols (ctx ++ [0]) expr d
    let d := decorateStatements Symbols (ctx ++ [1]) 0 statements0 d
    decorateElse Symbols (ctx ++ [2]) statements1 d
  | ctx, .readStmt left_expr, d => decorateLeft_expr Symbols (ctx ++ [0]) left_expr d
  | ctx, .assignStmt left_expr expr, d =>
    let d := decorateLeft_expr Symbols (ctx ++ [0]) left_expr d
    decorateExpr Symbols (ctx ++ [1]) expr d
  | _, .returnStmt none, d => d
  | ctx, .returnStmt (some expr), d => decorateExpr Symbols (ctx ++ [0]) expr d
  | _, .writeString _, d => d
/-- The decorations written while the statements of a `statements` node are
visited in order, the first being child `i` of `ctx`. -/
def decorateStatements (Symbols : SymTable) (ctx : Node) :
    Nat → List Statement → TreeDecoration → TreeDecoration
  | _, [], d => d
  | i, s :: ss, d =>
    decorateStatements Symbols ctx (i + 1) ss (decorateStatement Symbols (ctx ++ [i]) s d)
/-- The decorations written while the else-branch, if any, is visited. -/
def decorateElse (Symbols : SymTable) (ctx : Node) :
    Option (List Statement) → TreeDecoration → TreeDecoration
  | none, d => d
  | some statements1, d => decorateStatements Symbols ctx 0 statements1 d
end

/-- The decorations written by the loop of `TypeCheckVisitor::visitProgram` over
the functions from index `i` on; the `statements` of function `i` are the node
`[i, 3]` and are visited under the scope `getScopeDecor` answers for `[i]`. -/
def decorateFunctions (Symbols : SymTable) (Decorations : TreeDecoration) :
    Nat → List Function → TreeDecoration → TreeDecoration
  | _, [], d => d
  | i, f :: fs, d =>
    decorateFunctions Symbols Decorations (i + 1) fs
      (decorateStatements (Symbols.pushThisScope (Decorations.getScope [i])) [i, 3] 0
        f.statements d)

/-- The tree decoration after `TypeCheckVisitor::visitProgram`. -/
def decorateProgram (Symbols : SymTable) (Decorations : TreeDecoration) (tree : Program) :
    TreeDecoration :=
  decorateFunctions (Symbols.pushThisScope (Decorations.getScope [])) Decorations 0
    tree.function Decorations

end TypeCheckVisitor

/-- Modelled from the spec: the tree decoration after the Symbol pass followed by
the Type pass. -/
def typePassDecorations (TypeId0 : TypeId) (Decorations : TreeDecoration) (tree : Program) :
    TreeDecoration :=
  let st := symbolPass TypeId0 Decorations tree
  TypeCheckVisitor.decorateProgram st.Symbols st.Decorations tree

/-- No symbol of the table has type `Error`. -/
def SymTable.AllNonError (S : SymTable) : Prop :=
  ∀ sc ∈ S.scopes, ∀ b ∈ sc.symbols, isErrorTy b.type = false

/-! ## Expression nodes of a tree -/

mutual
/-- The expression nodes of the tree of an expression placed at `ctx`: the node
itself and the expression nodes below it. -/
def exprNodes : Node → Expr → List Node
  | ctx, .arrayAccessExpr expr0 expr1 =>
    ctx :: (exprNodes (ctx ++ [0]) expr0 ++ exprNodes (ctx ++ [1]) expr1)
  | ctx, .funcExpr _ expr => ctx :: exprsNodes ctx 1 expr
  | ctx, .exprIdent _ => [ctx]
  | ctx, .arithmetic _ expr0 expr1 =>
    ctx :: (exprNodes (ctx ++ [0]) expr0 ++ exprNodes (ctx ++ [1]) expr1)
  | ctx, .relational _ expr0 expr1 =>
    ctx :: (exprNodes (ctx ++ [0]) expr0 ++ exprNodes (ctx ++ [1]) expr1)
  | ctx, .unaryArithmetic _ expr => ctx :: exprNodes (ctx ++ [0]) expr
  | ctx, .unaryLogical expr => ctx :: exprNodes (ctx ++ [0]) expr
  | ctx, .parenthesis expr => ctx :: exprNodes (ctx ++ [0]) expr
  | ctx, .value _ _ => [ctx]
  | ctx, .logical _ expr0 expr1 =>
    ctx :: (exprNodes (ctx ++ [0]) expr0 ++ exprNodes (ctx ++ [1]) expr1)
/-- The expression nodes of the trees of a list of expressions, the first being
child `i` of `ctx`. -/
def exprsNodes (ctx : Node) : Nat → List Expr → List Node
  | _, [] => []
  | i, e :: es => exprNodes (ctx ++ [i]) e ++ exprsNodes ctx (i + 1) es
end

/-- The left-expression node at `ctx` and the expression nodes below it. -/
def left_exprNodes (ctx : Node) : Left_expr → List Node
  | .leftExprIdent _ => [ctx]
  | .arrayAccessLExpr expr0 expr1 =>
    ctx :: (exprNodes (ctx ++ [0]) expr0 ++ exprNodes (ctx ++ [1]) expr1)

mutual
/-- The expression and left-expression nodes of the tree of a statement placed
at `ctx`, the arguments of a call statement included. -/
def statementNodes : Node → Statement → List Node
  | ctx, .procCall _ expr => exprsNodes ctx 1 expr
  | ctx, .writeExpr expr => exprNodes (ctx ++ [0]) expr
  | ctx, .whileStmt expr statements =>
    exprNodes (ctx ++ [0]) expr ++ statementsNodes (ctx ++ [1]) 0 statements
  | ctx, .ifStmt expr statements0 statements1 =>
    exprNodes (ctx ++ [0]) expr ++ statementsNodes (ctx ++ [1]) 0 statements0 ++
      elseNodes (ctx ++ [2]) statements1
  | ctx, .readStmt left_expr => left_exprNodes (ctx ++ [0]) left_expr
  | ctx, .assignStmt left_expr expr =>
    left_exprNodes (ctx ++ [0]) left_expr ++ exprNodes (ctx ++ [1]) expr
  | _, .returnStmt none => []
  | ctx, .returnStmt (some expr) => exprNodes (ctx ++ [0]) expr
  | _, .writeString _ => []
/-- The expression and left-expression nodes below a `statements` node, the
first statement being child `i` of `ctx`. -/
def statementsNodes (ctx : Node) : Nat → List Statement → List Node
  | _, [] => []
  | i, s :: ss => statementNodes (ctx ++ [i]) s ++ statementsNodes ctx (i + 1) ss
/-- The expression and left-expression nodes of an else-branch, if any. -/
def elseNodes (ctx : Node) : Option (List Statement) → List Node
  | none => []
  | some statements1 => statementsNodes ctx 0 statements1
end

/-! ## Code pass: statements, functions and the program -/

/-- Modelled from the spec: a local of a subroutine header, `(name, type, size)`
(`var` of the absent `common/code.h`); the type is the text `to_string` gives. -/
structure var where
  name : String
  type : String
  size : Nat
  deriving DecidableEq, Repr

/-- Modelled from the spec: a subroutine, the header `{name, params:
[(name, type, is_array)], locals: [(name, type, size)]}` plus the body. -/
structure subroutine where
  name : String
  params : List (String × String × Bool)
  vars : List var
  instructions : instructionList
  deriving DecidableEq, Repr

namespace subroutine

/-- Modelled from the spec: a subroutine with the given name and nothing else. -/
def new (name : String) : subroutine := ⟨name, [], [], []⟩

/-- Modelled from the spec: `add_var`, append a local. -/
def add_var (s : subroutine) (v : var) : subroutine :=
  { s with vars := s.vars ++ [v] }

/-- Modelled from the spec: `add_param(name, type, is_array)`, append a
parameter. -/
def add_param (s : subroutine) (name type : String) (isArray : Bool) : subroutine :=
  { s with params := s.params ++ [(name, type, isArray)] }

/-- Modelled from the spec: `set_instructions`. -/
def set_instructions (s : subroutine) (code : instructionList) : subroutine :=
  { s with instructions := code }

end subroutine

namespace CodeGenVisitor

/-- `CodeGenVisitor::visitArrayAccessLExpr`, given the attributes of `expr(0)`
and `expr(1)`. -/
def visitArrayAccessLExpr (codAt1 codAt2 : CodeAttribs) : CodeAttribs :=
  let addr1 := codAt1.addr
  let addr2 := codAt2.addr
  ⟨addr1, addr2, codAt1.code ++ codAt2.code⟩

/-- The dispatch of `visit` on a left-expression node: `visitLeftExprIdent`
returns the attributes of the identifier, `visitArrayAccessLExpr` visits the base
and then the index. -/
def visitLeft_expr (Symbols : SymTable) :
    Left_expr → counters → Option (CodeAttribs × counters)
  | .leftExprIdent ident, c => some (visitIdent ident, c)
  | .arrayAccessLExpr expr0 expr1, c =>
    match visitExpr Symbols expr0 c with
    | none => none
    | some (codAt1, c) =>
      match visitExpr Symbols expr1 c with
      | none => none
      | some (codAt2, c) => some (visitArrayAccessLExpr codAt1 codAt2, c)

/-- `CodeGenVisitor::visitAssignStmt`, given the attributes of `left_expr()` and
`expr()`, their decorated types `tid1` and `tid2`, and the counters after both
were visited. -/
def visitAssignStmt (codAtsE1 codAtsE2 : CodeAttribs) (tid1 tid2 : TypeId)
    (codeCounters : counters) : instructionList × counters :=
  let addr1 := codAtsE1.addr
  let offs1 := codAtsE1.offs
  let addr2 := codAtsE2.addr
  let code := codAtsE1.code ++ codAtsE2.code
  if isFloatTy tid1 && isIntegerTy tid2 then
    let fresh := codeCounters.newTEMP
    let temp := "%" ++ fresh.1
    let code := code ++ [instruction.FLOAT temp addr2]
    let addr2 := temp
    if offs1 == "" then (code ++ [instruction.LOAD addr1 addr2], fresh.2)
    else (code ++ [instruction.XLOAD addr1 offs1 addr2], fresh.2)
  else
    if offs1 == "" then (code ++ [instruction.LOAD addr1 addr2], codeCounters)
    else (code ++ [instruction.XLOAD addr1 offs1 addr2], codeCounters)

/-- `CodeGenVisitor::visitIfStmt` without `ELSE`, given the attributes of
`expr()`, the code of `statements(0)` and the counters after both were visited:
the label number is taken after the then-branch was lowered. -/
def visitIfStmt (codAtsE : CodeAttribs) (code2 : instructionList) (codeCounters : counters) :
    instructionList × counters :=
  let addr1 := codAtsE.addr
  let code1 := codAtsE.code
  let fresh := codeCounters.newLabelIF
  let label := fresh.1
  let labelEndIf := "endif" ++ label
  (code1 ++ [instruction.FJUMP addr1 labelEndIf] ++ code2 ++ [instruction.LABEL labelEndIf],
    fresh.2)

/-- The first part of the `ELSE` branch of `CodeGenVisitor::visitIfStmt`: after
`label`, a second number `label2` is taken from the counter; the result is
`label` and the counters under which `statements(1)` is visited. -/
def visitIfStmtLabels (codeCounters : counters) : String × counters :=
  let fresh := codeCounters.newLabelIF
  let label := fresh.1
  let fresh2 := fresh.2.newLabelIF
  (label, fresh2.2)

/-- The last part of the `ELSE` branch of `CodeGenVisitor::visitIfStmt`, given
the attributes of `expr()`, the code of `statements(0)`, the text `label` and the
code of `statements(1)`. -/
def visitIfElseStmt (codAtsE : CodeAttribs) (code2 : instructionList) (label : String)
    (code3 : instructionList) : instructionList :=
  let addr1 := codAtsE.addr
  let code1 := codAtsE.code
  let labelEndIf := "endif" ++ label
  let labelEndElse := "endelse" ++ label
  code1 ++ [instruction.FJUMP addr1 labelEndIf] ++ code2 ++ [instruction.UJUMP labelEndElse] ++
    [instruction.LABEL labelEndIf] ++ code3 ++ [instruction.LABEL labelEndElse]

/-- `CodeGenVisitor::visitReadStmt`, given the attributes of `left_expr()`, its
decorated type and the counters after it was visited.  When the type is none of
the four primitive types the source prints a message and appends no read
instruction. -/
def visitReadStmt (codAtsE : CodeAttribs) (tid1 : TypeId) (codeCounters : counters) :
    instructionList × counters :=
  let addr1 := codAtsE.addr
  let offs1 := codAtsE.offs
  let code1 := codAtsE.code
  let fresh := codeCounters.newTEMP
  let temp := "%" ++ fresh.1
  let code :=
    if isIntegerTy tid1 || isBooleanTy tid1 then code1 ++ [instruction.READI temp]
    else if isFloatTy tid1 then code1 ++ [instruction.READF temp]
    else if isCharacterTy tid1 then code1 ++ [instruction.READC temp]
    else code1
  if offs1 != "" then (code ++ [instruction.XLOAD addr1 offs1 temp], fresh.2)
  else (code ++ [instruction.LOAD addr1 temp], fresh.2)

/-- `CodeGenVisitor::visitWriteExpr`, given the attributes of `expr()` and its
decorated type. -/
def visitWriteExpr (codAt1 : CodeAttribs) (tid1 : TypeId) : instructionList :=
  let addr1 := codAt1.addr
  let code1 := codAt1.code
  if isIntegerTy tid1 then code1 ++ [instruction.WRITEI addr1]
  else if isCharacterTy tid1 then code1 ++ [instruction.WRITEC addr1]
  else if isBooleanTy tid1 then code1 ++ [instruction.WRITEI addr1]
  else if isFloatTy tid1 then code1 ++ [instruction.WRITEF addr1]
  else code1

/-- `CodeGenVisitor::visitWriteString`. -/
def visitWriteString (s : String) : instructionList :=
  [instruction.WRITES s]

/-- `CodeGenVisitor::visitWhileStmt`, the part before the condition is visited:
the label number is taken first. -/
def visitWhileStmtLabel (codeCounters : counters) : String × counters :=
  codeCounters.newLabelWHILE

/-- `CodeGenVisitor::visitWhileStmt`, given the text `count`, the attributes of
`expr()` and the code of `statements()`. -/
def visitWhileStmt (count : String) (codAt1 : CodeAttribs) (code2 : instructionList) :
    instructionList :=
  let initWhile := "while" ++ count
  let endWhile := "endWhile" ++ count
  [instruction.LABEL initWhile] ++ codAt1.code ++ [instruction.FJUMP codAt1.addr endWhile] ++
    code2 ++ [instruction.UJUMP initWhile] ++ [instruction.LABEL endWhile]

/-- `CodeGenVisitor::visitReturnStmt`, given the attributes of `expr()` when
there is one. -/
def visitReturnStmt (codAt1 : Option CodeAttribs) : instructionList :=
  match codAt1 with
  | some codAt1 => codAt1.code ++ [instruction.LOAD "_result" codAt1.addr] ++ [instruction.RETURN]
  | none => [instruction.RETURN]

/-- `CodeGenVisitor::visitProcCall`, given the decorated type `tFunc` of the
callee, its name, the number of arguments and the code `args` of the argument
loop. -/
def visitProcCall (tFunc : TypeId) (ident : String) (n : Nat) (args : instructionList) :
    instructionList :=
  let code : instructionList := if !isVoidFunction tFunc then [instruction.PUSH none] else []
  let code := code ++ args
  let code := code ++ [instruction.CALL ident]
  let code := code ++ List.replicate n (instruction.POP none)
  if !isVoidFunction tFunc then code ++ [instruction.POP none] else code

mutual
/-- The dispatch of `visit` on a statement node to the `CodeGenVisitor` method of
its alternative, threading the counters. -/
def visitStatement (Symbols : SymTable) :
    Statement → counters → Option (instructionList × counters)
  | .procCall ident expr, c =>
    let tFunc := (TypeCheckVisitor.visitIdent Symbols ident).type
    let functionParams := getFuncParamsTypes tFunc
    match visitArguments Symbols functionParams 0 expr c with
    | none => none
    | some (args, c) => some (visitProcCall tFunc ident expr.length args, c)
  | .writeExpr expr, c =>
    match visitExpr Symbols expr c with
    | none => none
    | some (codAt1, c) =>
      some (visitWriteExpr codAt1 (TypeCheckVisitor.visitExpr Symbols expr).type, c)
  | .whileStmt expr statements, c =>
    let fresh := visitWhileStmtLabel c
    match visitExpr Symbols expr fresh.2 with
    | none => none
    | some (codAt1, c) =>
      match visitStatements Symbols statements c with
      | none => none
      | some (code2, c) => some (visitWhileStmt fresh.1 codAt1 code2, c)
  | .ifStmt expr statements0 none, c =>
    match visitExpr Symbols expr c with
    | none => none
    | some (codAtsE, c) =>
      match visitStatements Symbols statements0 c with
      | none => none
      | some (code2, c) => some (visitIfStmt codAtsE code2 c)
  | .ifStmt expr statements0 (some statements1), c =>
    match visitExpr Symbols expr c with
    | none => none
    | some (codAtsE, c) =>
      match visitStatements Symbols statements0 c with
      | none => none
      | some (code2, c) =>
        let labels := visitIfStmtLabels c
        match visitStatements Symbols statements1 labels.2 with
        | none => none
        | some (code3, c) => some (visitIfElseStmt codAtsE code2 labels.1 code3, c)
  | .readStmt left_expr, c =>
    match visitLeft_expr Symbols left_expr c with
    | none => none
    | some (codAtsE, c) =>
      some (visitReadStmt codAtsE (TypeCheckVisitor.visitLeft_expr Symbols left_expr).type c)
  | .assignStmt left_expr expr, c =>
    match visitLeft_expr Symbols left_expr c with
    | none => none
    | some (codAtsE1, c) =>
      match visitExpr Symbols expr c with
      | none => none
      | some (codAtsE2, c) =>
        some (visitAssignStmt codAtsE1 codAtsE2
          (TypeCheckVisitor.visitLeft_expr Symbols left_expr).type
          (TypeCheckVisitor.visitExpr Symbols expr).type c)
  | .returnStmt none, c => some (visitReturnStmt none, c)
  | .returnStmt (some expr), c =>
    match visitExpr Symbols expr c with
    | none => none
    | some (codAt1, c) => some (visitReturnStmt (some codAt1), c)
  | .writeString s, c => some (visitWriteString s, c)
/-- `CodeGenVisitor::visitStatements`: the code of the statements, in order. -/
def visitStatements (Symbols : SymTable) :
    List Statement → counters → Option (instructionList × counters)
  | [], c => some ([], c)
  | s :: ss, c =>
    match visitStatement Symbols s c with
    | none => none
    | some (codeS, c) =>
      match visitStatements Symbols ss c with
      | none => none
      | some (code, c) => some (codeS ++ code, c)
end

/-- `CodeGenVisitor::visitVariable_decl` for the declaration at node `ctx`: one
local per identifier, with the element type for an array and the size of the
declared type.  `to_string` is `TypesMgr::to_string`, absent from the sources. -/
def visitVariable_decl (to_string : TypeId → String) (Decorations : TreeDecoration)
    (ctx : Node) (tree : Variable_decl) : List var :=
  let t1 := Decorations.getType (ctx ++ [0])
  let size := getSizeOfType t1
  let t1 := if isArrayTy t1 then getArrayElemType t1 else t1
  tree.ID.map fun a => ⟨a, to_string t1, size⟩

/-- `CodeGenVisitor::visitDeclarations` from `variable_decl(i)` on. -/
def visitDeclarations (to_string : TypeId → String) (Decorations : TreeDecoration)
    (ctx : Node) : Nat → List Variable_decl → List var
  | _, [] => []
  | i, d :: ds =>
    visitVariable_decl to_string Decorations (ctx ++ [i]) d ++
      visitDeclarations to_string Decorations ctx (i + 1) ds

/-- `CodeGenVisitor::visitParameters` from parameter `i` on: for each parameter
the `var` with its name, the text of its type (of the element type for an array)
and its size, paired with its decorated type. -/
def visitParameters (to_string : TypeId → String) (Decorations : TreeDecoration)
    (ctx : Node) : Nat → List (String × TypeNode) → List (var × TypeId)
  | _, [] => []
  | i, p :: ps =>
    let t := Decorations.getType (ctx ++ [i])
    let size := getSizeOfType t
    let s := if isArrayTy t then to_string (getArrayElemType t) else to_string t
    (⟨p.1, s, size⟩, t) :: visitParameters to_string Decorations ctx (i + 1) ps

/-- `CodeGenVisitor::visitFunction` for the function at node `ctx`.  `reset` is
the state `codeCounters.reset()` leaves; the return type and the scope are the
decorations of the Symbol pass. -/
def visitFunction (to_string : TypeId → String) (reset : counters) (Symbols : SymTable)
    (Decorations : TreeDecoration) (ctx : Node) (tree : Function) : Option subroutine :=
  let t1 :=
    match tree.type with
    | some _ => Decorations.getType (ctx ++ [1])
    | none => createVoidTy
  let sc := Decorations.getScope ctx
  let Symbols := Symbols.pushThisScope sc
  let subr := subroutine.new tree.ID
  let lvars := visitDeclarations to_string Decorations (ctx ++ [2]) 0 tree.declarations
  let subr := lvars.foldl subroutine.add_var subr
  let subr := if !isVoidTy t1 then subr.add_param "_result" (to_string t1) (isArrayTy t1) else subr
  let subr :=
    match tree.parameters with
    | some ps =>
      (visitParameters to_string Decorations (ctx ++ [0]) 0 ps).foldl
        (fun (s : subroutine) (onevar : var × TypeId) =>
          s.add_param onevar.1.name onevar.1.type (isArrayTy onevar.2)) subr
    | none => subr
  match visitStatements Symbols tree.statements reset with
  | none => none
  | some (code, _) => some (subr.set_instructions (code ++ [instruction.RETURN]))

/-- The loop of `CodeGenVisitor::visitProgram` over the functions from index `i`
on. -/
def visitFunctions (to_string : TypeId → String) (reset : counters) (Symbols : SymTable)
    (Decorations : TreeDecoration) : Nat → List Function → Option (List subroutine)
  | _, [] => some []
  | i, f :: fs =>
    match visitFunction to_string reset Symbols Decorations [i] f with
    | none => none
    | some subr =>
      match visitFunctions to_string reset Symbols Decorations (i + 1) fs with
      | none => none
      | some rest => some (subr :: rest)

/-- `CodeGenVisitor::visitProgram`: one subroutine per function. -/
def visitProgram (to_string : TypeId → String) (reset : counters) (Symbols : SymTable)
    (Decorations : TreeDecoration) (tree : Program) : Option (List subroutine) :=
  let sc := Decorations.getScope []
  let Symbols := Symbols.pushThisScope sc
  visitFunctions to_string reset Symbols Decorations 0 tree.function

end CodeGenVisitor

/-- Modelled from the spec: the driver's sequencing of the Code pass after the
Symbol pass and the Type pass, on the table and the decorations they leave. -/
def codePass (to_string : TypeId → String) (reset : counters) (TypeId0 : TypeId)
    (Decorations : TreeDecoration) (tree : Program) : Option (List subroutine) :=
  let st := symbolPass TypeId0 Decorations tree
  CodeGenVisitor.visitProgram to_string reset st.Symbols st.Decorations tree

/-! ## Code pass: the tables of the specification -/

/-- The integer opcode the specification names for a relational operator: `EQ`
for `=` and `!=`, `LT` for `<` and `>=`, `LE` for `<=` and `>`. -/
def relationalIntegerOpcode : RelOp → String → String → String → instruction
  | .EQUAL => instruction.EQ
  | .NEQ => instruction.EQ
  | .LT => instruction.LT
  | .GE => instruction.LT
  | .LE => instruction.LE
  | .GT => instruction.LE

/-- The float opcode the specification names for a relational operator: `FEQ`
for `=` and `!=`, `FLT` for `<` and `>=`, `FLE` for `<=` and `>`. -/
def relationalFloatOpcode : RelOp → String → String → String → instruction
  | .EQUAL => instruction.FEQ
  | .NEQ => instruction.FEQ
  | .LT => instruction.FLT
  | .GE => instruction.FLT
  | .LE => instruction.FLE
  | .GT => instruction.FLE

/-- The operators the specification synthesises with a trailing `NOT`: `!=`, `>`
and `>=`. -/
def relationalNegated : RelOp → Bool
  | .NEQ => true
  | .GT => true
  | .GE => true
  | _ => false

/-- The comparison the specification describes: the opcode into `t` on `(a1,
a2)`, followed by `NOT t t` for a negated operator. -/
def relationalCode (opcode : String → String → String → instruction) (op : RelOp)
    (t a1 a2 : String) : instructionList :=
  if relationalNegated op then [opcode t a1 a2, instruction.NOT t t] else [opcode t a1 a2]

/-- The single store the specification describes for an assignment or a read:
`LOAD aL src` when the offset `oL` is empty, `XLOAD aL oL src` otherwise. -/
def storeInstruction (aL oL src : String) : instruction :=
  if oL = "" then instruction.LOAD aL src else instruction.XLOAD aL oL src

/-! ## Code pass: counting the instructions of a code -/

/-- A `PUSH` instruction, with or without operand. -/
def instruction.isPUSH : instruction → Bool
  | .PUSH _ => true
  | _ => false

/-- A `POP` instruction, with or without operand. -/
def instruction.isPOP : instruction → Bool
  | .POP _ => true
  | _ => false

/-- A `LABEL` instruction. -/
def instruction.isLABEL : instruction → Bool
  | .LABEL _ => true
  | _ => false

/-- An instruction that frames a call or defines a label: a `PUSH`, a `POP`, a
`CALL` or a `LABEL`. -/
def instruction.isFraming : instruction → Bool
  | .PUSH _ => true
  | .POP _ => true
  | .CALL _ => true
  | .LABEL _ => true
  | _ => false

/-- The number of `PUSH` instructions of a code. -/
def pushes (code : instructionList) : Nat :=
  code.countP instruction.isPUSH

/-- The number of `POP` instructions of a code. -/
def pops (code : instructionList) : Nat :=
  code.countP instruction.isPOP

/-- The names the `LABEL` instructions of a code define, in order. -/
def labels : instructionList → List String
  | [] => []
  | instruction.LABEL l :: code => l :: labels code
  | _ :: code => labels code

/-- The shape of the code of an expression (`extra = 0`) or of an argument loop
(`extra` the number of arguments) lowered between the counters `c` and `c1`: it
holds `extra` more `PUSH` than `POP`, defines no label, and leaves the counters
of labels as they were. -/
def ExprCode (code : instructionList) (extra : Nat) (c c1 : counters) : Prop :=
  pushes code = pops code + extra ∧ labels code = [] ∧
    c1.LabelIF = c.LabelIF ∧ c1.LabelWHILE = c.LabelWHILE

/-- The number a list of decimal digits writes, most significant digit first. -/
def digitsValue (l : List Char) : Nat :=
  l.foldl (fun acc ch => 10 * acc + (ch.toNat - 48)) 0

/-- The label name `l` carries a number the counters of labels take between `c`
and `c1`: it is `endif<k>` or `endelse<k>` with `c.LabelIF ≤ k < c1.LabelIF`, or
`while<k>` or `endWhile<k>` with `c.LabelWHILE ≤ k < c1.LabelWHILE`. -/
def LabelIn (c c1 : counters) (l : String) : Prop :=
  (∃ k, c.LabelIF ≤ k ∧ k < c1.LabelIF ∧
      (l = "endif" ++ toString k ∨ l = "endelse" ++ toString k)) ∨
    (∃ k, c.LabelWHILE ≤ k ∧ k < c1.LabelWHILE ∧
      (l = "while" ++ toString k ∨ l = "endWhile" ++ toString k))

/-- The shape of the code of statements lowered between the counters `c` and
`c1`: as many `PUSH` as `POP`, counters of labels that did not decrease, and
labels that are pairwise distinct and numbered between `c` and `c1`. -/
def StmtCode (code : instructionList) (c c1 : counters) : Prop :=
  pushes code = pops code ∧ c.LabelIF ≤ c1.LabelIF ∧ c.LabelWHILE ≤ c1.LabelWHILE ∧
    (∀ l ∈ labels code, LabelIn c c1 l) ∧ (labels code).Nodup

/-! ## Code pass: reads, writes, jumps and identifiers -/

/-- The read opcode the specification names for a primitive type: `READI` for
integer and boolean, `READF` for float, `READC` for character; none for a type
that is not primitive. -/
def readOpcode : TypeId → Option (String → instruction)
  | .integer => some instruction.READI
  | .boolean => some instruction.READI
  | .float => some instruction.READF
  | .character => some instruction.READC
  | _ => none

/-- The write opcode the specification names for a primitive type: `WRITEI` for
integer and boolean (booleans print as integers), `WRITEF` for float, `WRITEC`
for character; none for a type that is not primitive. -/
def writeOpcode : TypeId → Option (String → instruction)
  | .integer => some instruction.WRITEI
  | .boolean => some instruction.WRITEI
  | .float => some instruction.WRITEF
  | .character => some instruction.WRITEC
  | _ => none

/-- The target labels of the `FJUMP` and `UJUMP` instructions of a code, in
order. -/
def jumpTargets : instructionList → List String
  | [] => []
  | instruction.UJUMP l :: code => l :: jumpTargets code
  | instruction.FJUMP _ l :: code => l :: jumpTargets code
  | _ :: code => jumpTargets code

mutual
/-- Every `ID` token of the tree of an expression has at least one character, as
the tokens the lexer produces have. -/
def Expr.identsNonEmpty : Expr → Bool
  | .arrayAccessExpr expr0 expr1 => expr0.identsNonEmpty && expr1.identsNonEmpty
  | .funcExpr ident expr => ident != "" && Expr.identsNonEmptyList expr
  | .exprIdent ident => ident != ""
  | .arithmetic _ expr0 expr1 => expr0.identsNonEmpty && expr1.identsNonEmpty
  | .relational _ expr0 expr1 => expr0.identsNonEmpty && expr1.identsNonEmpty
  | .unaryArithmetic _ expr => expr.identsNonEmpty
  | .unaryLogical expr => expr.identsNonEmpty
  | .parenthesis expr => expr.identsNonEmpty
  | .value _ _ => true
  | .logical _ expr0 expr1 => expr0.identsNonEmpty && expr1.identsNonEmpty
/-- Every `ID` token of the trees of a list of expressions has at least one
character. -/
def Expr.identsNonEmptyList : List Expr → Bool
  | [] => true
  | e :: es => e.identsNonEmpty && Expr.identsNonEmptyList es
end

/-- Every `ID` token of the tree of a left-expression has at least one
character. -/
def Left_expr.identsNonEmpty : Left_expr → Bool
  | .leftExprIdent ident => ident != ""
  | .arrayAccessLExpr expr0 expr1 => expr0.identsNonEmpty && expr1.identsNonEmpty

/-! ## Concrete inputs -/

/-- A symbol table as the Type pass sees it inside `main`: the global scope binds
the functions `f : (float) → int` and `p : (float) → void`, the scope of `main`
binds the locals `a : array<5,int>`, `b : bool` and `x : float`; the open scopes
are that of `main` and the global one. -/
def exampleSymbols : SymTable :=
  let S := (SymTable.empty.pushNewScope "$global$").1
  let S := S.addFunction "f" (TypeId.function [TypeId.float] TypeId.integer)
  let S := S.addFunction "p" (TypeId.function [TypeId.float] TypeId.void)
  let S := (S.pushNewScope "main").1
  let S := S.addLocalVar "a" (TypeId.array 5 TypeId.integer)
  let S := S.addLocalVar "b" TypeId.boolean
  S.addLocalVar "x" TypeId.float

/-- The function `func g() : int  return 1.5  endfunc`. -/
def exampleFunction : Function :=
  { ID := "g"
    parameters := none
    type := some ⟨none, Basic_type.INT⟩
    declarations := []
    statements := [Statement.returnStmt (some (Expr.value ValueTok.FLOATVAL "1.5"))] }

/-- A program with two functions named `main`, the first with a parameter:
`func main(a : int) endfunc  func main() endfunc`. -/
def exampleTwoMains : Program :=
  ⟨[{ ID := "main", parameters := some [("a", ⟨none, Basic_type.INT⟩)], type := none,
      declarations := [], statements := [] },
    { ID := "main", parameters := none, type := none, declarations := [],
      statements := [] }]⟩

/-- The program `func f(a : int, a : float, a : bool) endfunc`. -/
def exampleRepeatedParameter : Program :=
  ⟨[{ ID := "f",
      parameters := some [("a", ⟨none, Basic_type.INT⟩), ("a", ⟨none, Basic_type.FLOAT⟩),
        ("a", ⟨none, Basic_type.BOOL⟩)],
      type := none, declarations := [], statements := [] }]⟩

/-- The program `func f() endfunc  func f() : int  return 1  endfunc`. -/
def exampleRedeclaredFunction : Program :=
  ⟨[{ ID := "f", parameters := none, type := none, declarations := [], statements := [] },
    { ID := "f", parameters := none, type := some ⟨none, Basic_type.INT⟩, declarations := [],
      statements := [Statement.returnStmt (some (Expr.value ValueTok.INTVAL "1"))] }]⟩

/-- A valid program with a call statement:
`func p(y : float) endfunc  func main() var x : float  p(x + 1)  endfunc`. -/
def exampleValidProgram : Program :=
  ⟨[{ ID := "p", parameters := some [("y", ⟨none, Basic_type.FLOAT⟩)], type := none,
      declarations := [], statements := [] },
    { ID := "main", parameters := none, type := none,
      declarations := [⟨["x"], ⟨none, Basic_type.FLOAT⟩⟩],
      statements := [Statement.procCall "p"
        [Expr.arithmetic ArithOp.PLUS (Expr.exprIdent "x") (Expr.value ValueTok.INTVAL "1")]] }]⟩

/-- The program
`func h(v : array<3,int>, y : float) : int  return 1  endfunc  func main() endfunc`. -/
def exampleArrayParameter : Program :=
  ⟨[{ ID := "h",
      parameters := some [("v", ⟨some 3, Basic_type.INT⟩), ("y", ⟨none, Basic_type.FLOAT⟩)],
      type := some ⟨none, Basic_type.INT⟩, declarations := [],
      statements := [Statement.returnStmt (some (Expr.value ValueTok.INTVAL "1"))] },
    { ID := "main", parameters := none, type := none, declarations := [],
      statements := [] }]⟩

/-- A stand-in for `TypesMgr::to_string` on the concrete inputs: the name of a
primitive type, and `?` for any other type. -/
def exampleTo_string : TypeId → String
  | .integer => "integer"
  | .float => "float"
  | .boolean => "boolean"
  | .character => "character"
  | _ => "?"

/-- The program
`func main() var b : bool  while b do if b then write 1 else write 2 endif
endwhile  if b then write 3 endif  endfunc`. -/
def exampleNestedLabels : Program :=
  ⟨[{ ID := "main", parameters := none, type := none,
      declarations := [⟨["b"], ⟨none, Basic_type.BOOL⟩⟩],
      statements :=
        [Statement.whileStmt (Expr.exprIdent "b")
          [Statement.ifStmt (Expr.exprIdent "b")
            [Statement.writeExpr (Expr.value ValueTok.INTVAL "1")]
            (some [Statement.writeExpr (Expr.value ValueTok.INTVAL "2")])],
          Statement.ifStmt (Expr.exprIdent "b")
            [Statement.writeExpr (Expr.value ValueTok.INTVAL "3")] none] }]⟩


/-- The program
`func main() var x, y : int  var v : array<10,float>  endfunc`. -/
def exampleLocals : Program :=
  ⟨[{ ID := "main", parameters := none, type := none,
      declarations := [⟨["x", "y"], ⟨none, Basic_type.INT⟩⟩,
        ⟨["v"], ⟨some 10, Basic_type.FLOAT⟩⟩],
      statements := [] }]⟩


/-- The program `func f() endfunc  func f() : int  return 1.5  endfunc
func f() : float  return 1.5  endfunc`. -/
def exampleRedeclaredReturns : Program :=
  ⟨[{ ID := "f", parameters := none, type := none, declarations := [], statements := [] },
    { ID := "f", parameters := none, type := some ⟨none, Basic_type.INT⟩, declarations := [],
      statements := [Statement.returnStmt (some (Expr.value ValueTok.FLOATVAL "1.5"))] },
    { ID := "f", parameters := none, type := some ⟨none, Basic_type.FLOAT⟩, declarations := [],
      statements := [Statement.returnStmt (some (Expr.value ValueTok.FLOATVAL "1.5"))] }]⟩

/-! ## Theorems -/

open TypeCheckVisitor

theorem isFloatTy_iff (t : TypeId) : isFloatTy t = true ↔ t = TypeId.float := by
  cases t <;> simp [isFloatTy]

/-- Claim C1: in the Type pass a binary arithmetic node is decorated with float
when the operator is one of `+ - * /` and the decorated type of at least one
operand is float, with integer when the operator is one of them and no operand is
float, and with integer when the operator is `%`; the node is marked as not an
l-value.  The statement has no condition on the diagnostics, so it holds whether
or not one is emitted. -/
theorem typecheck_arithmetic_decoration (Symbols : SymTable) (op : ArithOp)
    (expr0 expr1 : Expr) :
    (op ≠ ArithOp.MOD →
      ((visitExpr Symbols expr0).type = TypeId.float ∨
          (visitExpr Symbols expr1).type = TypeId.float →
        (visitExpr Symbols (Expr.arithmetic op expr0 expr1)).type = TypeId.float) ∧
      (¬((visitExpr Symbols expr0).type = TypeId.float ∨
          (visitExpr Symbols expr1).type = TypeId.float) →
        (visitExpr Symbols (Expr.arithmetic op expr0 expr1)).type = TypeId.integer)) ∧
    (op = ArithOp.MOD →
      (visitExpr Symbols (Expr.arithmetic op expr0 expr1)).type = TypeId.integer) ∧
    (visitExpr Symbols (Expr.arithmetic op expr0 expr1)).isLValue = false := by
  have h0 := isFloatTy_iff (visitExpr Symbols expr0).type
  have h1 := isFloatTy_iff (visitExpr Symbols expr1).type
  simp only [visitExpr, visitArithmetic, createFloatTy, createIntegerTy]
  refine ⟨fun hop => ⟨fun h => ?_, fun h => ?_⟩, fun hop => ?_, ?_⟩
  · have h' : (isFloatTy (visitExpr Symbols expr0).type ||
        isFloatTy (visitExpr Symbols expr1).type) = true := by
      rw [Bool.or_eq_true, h0, h1]; exact h
    simp [hop, h']
  · have h' : (isFloatTy (visitExpr Symbols expr0).type ||
        isFloatTy (visitExpr Symbols expr1).type) = false := by
      rw [← Bool.not_eq_true, Bool.or_eq_true, h0, h1]; exact h
    simp [hop, h']
  · simp [hop]
  · split <;> rfl

/-- Claim C2: the diagnostics of a binary arithmetic node are those of its two
operands followed by the node's own, which are exactly one `incompatibleOperator`
when some operand has a decorated type that is neither `Error` nor integer
(operator `%`), respectively neither `Error` nor numeric (operators `+ - * /`),
and none otherwise. -/
theorem typecheck_arithmetic_errors (Symbols : SymTable) (op : ArithOp)
    (expr0 expr1 : Expr) :
    (visitExpr Symbols (Expr.arithmetic op expr0 expr1)).errors =
      (visitExpr Symbols expr0).errors ++ (visitExpr Symbols expr1).errors ++
        (if op = ArithOp.MOD then
          (if (isErrorTy (visitExpr Symbols expr0).type = false ∧
                isIntegerTy (visitExpr Symbols expr0).type = false) ∨
              (isErrorTy (visitExpr Symbols expr1).type = false ∧
                isIntegerTy (visitExpr Symbols expr1).type = false)
            then [SemError.incompatibleOperator] else [])
        else
          (if (isErrorTy (visitExpr Symbols expr0).type = false ∧
                isNumericTy (visitExpr Symbols expr0).type = false) ∨
              (isErrorTy (visitExpr Symbols expr1).type = false ∧
                isNumericTy (visitExpr Symbols expr1).type = false)
            then [SemError.incompatibleOperator] else [])) := by
  simp only [visitExpr, visitArithmetic]
  by_cases hop : op = ArithOp.MOD
  · simp [hop]
  · simp [hop]

theorem visitExprs_eq_map (Symbols : SymTable) (es : List Expr) :
    visitExprs Symbols es = es.map (visitExpr Symbols) := by
  induction es with
  | nil => simp [visitExprs]
  | cons e es ih => simp [visitExprs, ih]

theorem mem_funcExprParams (ps : List TypeId) (vs : List Visit) (min : Nat) (e : SemError) :
    e ∈ funcExprParams ps vs min ↔
      ∃ i p a, i < min ∧ ps[i]? = some p ∧ vs[i]? = some a ∧
        isErrorTy a.type = false ∧ copyableTypes p a.type = false ∧
        e = SemError.incompatibleParameter (i + 1) := by
  unfold funcExprParams
  simp only [List.mem_flatMap, List.mem_range]
  constructor
  · rintro ⟨i, hi, h⟩
    split at h
    · rename_i p a hp ha
      split at h
      · rename_i hc
        simp only [List.mem_singleton] at h
        simp only [Bool.and_eq_true, Bool.not_eq_true'] at hc
        exact ⟨i, p, a, hi, hp, ha, hc.1, hc.2, h⟩
      · simp at h
    · simp at h
  · rintro ⟨i, p, a, hi, hp, ha, h1, h2, rfl⟩
    exact ⟨i, hi, by simp [hp, ha, h1, h2]⟩

/-- Claim C4: for a call expression whose callee has a function type with
parameter types `ps`, the diagnostics are those of the callee and of the
arguments followed by the call's own diagnostics `own`, in which
`numberOfParameters` occurs iff the number of arguments differs from the number
of parameters; for every index `i` below the minimum of the two numbers,
`incompatibleParameter (i+1)` occurs iff the type of argument `i` is not `Error`
and is not copyable to parameter type `i`; and every `incompatibleParameter k`
in `own` has `k = i + 1` for such an index `i`. -/
theorem typecheck_funcExpr_parameters (Symbols : SymTable) (ident : String)
    (expr : List Expr) (ps : List TypeId) (ret : TypeId)
    (hf : (visitIdent Symbols ident).type = TypeId.function ps ret) :
    ∃ own : List SemError,
      (visitExpr Symbols (Expr.funcExpr ident expr)).errors =
        (visitIdent Symbols ident).errors ++
          (expr.map (visitExpr Symbols)).flatMap (fun a => a.errors) ++ own ∧
      (SemError.numberOfParameters ∈ own ↔ expr.length ≠ ps.length) ∧
      (∀ i, i < min expr.length ps.length →
        ∃ p a, ps[i]? = some p ∧ expr[i]? = some a ∧
          (SemError.incompatibleParameter (i + 1) ∈ own ↔
            isErrorTy (visitExpr Symbols a).type = false ∧
              copyableTypes p (visitExpr Symbols a).type = false)) ∧
      (∀ k, SemError.incompatibleParameter k ∈ own →
        ∃ i, i < min expr.length ps.length ∧ k = i + 1) := by
  have hmin : (if expr.length < ps.length then expr.length else ps.length) =
      min expr.length ps.length := by
    split <;> omega
  refine ⟨(if isVoidFunction (TypeId.function ps ret) then [SemError.isNotFunction] else []) ++
      (if ps.length != expr.length then [SemError.numberOfParameters] else []) ++
      funcExprParams ps (expr.map (visitExpr Symbols)) (min expr.length ps.length), ?_, ?_, ?_, ?_⟩
  · simp only [visitExpr, visitFuncExpr, hf, visitExprs_eq_map, isErrorTy, isFunctionTy,
      getFuncParamsTypes, List.length_map, hmin]
    simp [List.append_assoc]
  · simp only [List.mem_append, mem_funcExprParams]
    constructor
    · rintro ((h | h) | h)
      · split at h <;> simp at h
      · split at h
        · rename_i hne
          exact fun h' => (bne_iff_ne.mp hne) h'.symm
        · simp at h
      · obtain ⟨i, p, a, _, _, _, _, _, h⟩ := h
        cases h
    · intro hne
      refine Or.inl (Or.inr ?_)
      have : (ps.length != expr.length) = true := bne_iff_ne.mpr (fun h' => hne h'.symm)
      simp [this]
  · intro i hi
    have hi1 : i < expr.length := by omega
    have hi2 : i < ps.length := by omega
    refine ⟨ps[i], expr[i], by simp [hi2], by simp [hi1], ?_⟩
    simp only [List.mem_append, mem_funcExprParams]
    constructor
    · rintro ((h | h) | h)
      · split at h <;> simp at h
      · split at h <;> simp at h
      · obtain ⟨j, p, a, _, hp, ha, h1, h2, h⟩ := h
        have hj : i = j := by simpa using h
        subst hj
        simp [hi2] at hp
        simp [hi1] at ha
        subst hp; subst ha
        exact ⟨h1, h2⟩
    · rintro ⟨h1, h2⟩
      exact Or.inr ⟨i, ps[i], visitExpr Symbols expr[i], hi, by simp [hi2], by simp [hi1], h1, h2, rfl⟩
  · intro k hk
    simp only [List.mem_append, mem_funcExprParams] at hk
    rcases hk with (h | h) | h
    · split at h <;> simp at h
    · split at h <;> simp at h
    · obtain ⟨i, p, a, hi, _, _, _, _, h⟩ := h
      exact ⟨i, hi, by simpa using h⟩

/-- Claim C3: a call expression `f(a1..an)` is decorated with the return type of
`f` when the type of `f` is a function type with non-void return and with `Error`
in every other case; it is marked as not an l-value; among the call's own
diagnostics `isNotCallable` occurs iff the type of `f` is neither `Error` nor a
function type, and `isNotFunction` occurs iff the type of `f` is a function type
with void return. -/
theorem typecheck_funcExpr_decoration (Symbols : SymTable) (ident : String)
    (expr : List Expr) :
    (∀ ps ret, (visitIdent Symbols ident).type = TypeId.function ps ret → ret ≠ TypeId.void →
      (visitExpr Symbols (Expr.funcExpr ident expr)).type = ret) ∧
    ((¬∃ ps ret, (visitIdent Symbols ident).type = TypeId.function ps ret ∧ ret ≠ TypeId.void) →
      (visitExpr Symbols (Expr.funcExpr ident expr)).type = TypeId.error) ∧
    (visitExpr Symbols (Expr.funcExpr ident expr)).isLValue = false ∧
    ∃ own : List SemError,
      (visitExpr Symbols (Expr.funcExpr ident expr)).errors =
        (visitIdent Symbols ident).errors ++
          (expr.map (visitExpr Symbols)).flatMap (fun a => a.errors) ++ own ∧
      (SemError.isNotCallable ∈ own ↔
        isErrorTy (visitIdent Symbols ident).type = false ∧
          isFunctionTy (visitIdent Symbols ident).type = false) ∧
      (SemError.isNotFunction ∈ own ↔
        ∃ ps, (visitIdent Symbols ident).type = TypeId.function ps TypeId.void) := by
  simp only [visitExpr, visitExprs_eq_map]
  generalize visitIdent Symbols ident = vid
  generalize expr.map (visitExpr Symbols) = vs
  obtain ⟨t, lv, errs⟩ := vid
  cases t with
  | function ps ret =>
    refine ⟨?_, ?_, ?_, ?_⟩
    · intro ps' ret' h hv
      cases h
      cases ret <;> simp_all [visitFuncExpr, isErrorTy, isFunctionTy, isVoidFunction,
        getFuncReturnType]
    · intro h
      have hv : ret = TypeId.void := by
        by_contra hne
        exact h ⟨ps, ret, rfl, hne⟩
      subst hv
      simp [visitFuncExpr, isErrorTy, isFunctionTy, isVoidFunction, createErrorTy]
    · simp [visitFuncExpr, isErrorTy, isFunctionTy]
    · refine ⟨(if isVoidFunction (TypeId.function ps ret) then [SemError.isNotFunction] else []) ++
        (if ps.length != vs.length then [SemError.numberOfParameters] else []) ++
        funcExprParams ps vs (if vs.length < ps.length then vs.length else ps.length),
        ?_, ?_, ?_⟩
      · simp [visitFuncExpr, isErrorTy, isFunctionTy, getFuncParamsTypes, List.append_assoc]
      · simp only [List.mem_append, mem_funcExprParams, isErrorTy, isFunctionTy]
        constructor
        · rintro ((h | h) | h)
          · split at h <;> simp at h
          · split at h <;> simp at h
          · obtain ⟨i, p, a, _, _, _, _, _, h⟩ := h
            cases h
        · rintro ⟨_, h⟩
          cases h
      · simp only [List.mem_append, mem_funcExprParams]
        constructor
        · rintro ((h | h) | h)
          · split at h
            · rename_i hv
              cases ret <;> simp [isVoidFunction] at hv
              exact ⟨ps, rfl⟩
            · simp at h
          · split at h <;> simp at h
          · obtain ⟨i, p, a, _, _, _, _, _, h⟩ := h
            cases h
        · rintro ⟨ps', h⟩
          cases h
          simp [isVoidFunction]
  | error =>
    refine ⟨?_, ?_, ?_, ⟨[], ?_, ?_, ?_⟩⟩ <;>
      simp [visitFuncExpr, isErrorTy, isFunctionTy]
  | _ =>
    refine ⟨?_, ?_, ?_, ⟨[SemError.isNotCallable], ?_, ?_, ?_⟩⟩ <;>
      simp [visitFuncExpr, isErrorTy, isFunctionTy, createErrorTy]

/-- Claim C5: the diagnostics of an assignment `L := E` are those of `L`, those of
`E`, then `incompatibleAssignment` iff neither decorated type is `Error` and the
type of `E` is not copyable to the type of `L`, then `nonReferenceableLeftExpr`
iff the type of `L` is not `Error` and `L` is not marked as an l-value; each of
the two is decided by its own condition. -/
theorem typecheck_assign_errors (Symbols : SymTable) (currFunctionType : TypeId)
    (left_expr : Left_expr) (expr : Expr) :
    visitStatement Symbols currFunctionType (Statement.assignStmt left_expr expr) =
      (visitLeft_expr Symbols left_expr).errors ++ (visitExpr Symbols expr).errors ++
        (if isErrorTy (visitLeft_expr Symbols left_expr).type = false ∧
            isErrorTy (visitExpr Symbols expr).type = false ∧
            copyableTypes (visitLeft_expr Symbols left_expr).type
              (visitExpr Symbols expr).type = false
          then [SemError.incompatibleAssignment] else []) ++
        (if isErrorTy (visitLeft_expr Symbols left_expr).type = false ∧
            (visitLeft_expr Symbols left_expr).isLValue = false
          then [SemError.nonReferenceableLeftExpr] else []) := by
  simp only [visitStatement, visitAssignStmt]
  congr 2 <;> simp [and_assoc]

/-- Claim C6: an indexed access `arr[i]` is decorated alike as a left-expression
and as an expression: with the element type of `arr` when the type of `arr` is an
array type and with `Error` otherwise, and marked as an l-value; its diagnostics
are those of `i`, then `nonIntegerIndexInArrayAccess` iff the type of `i` is
neither `Error` nor integer, then those of `arr`, then `nonArrayInArrayAccess` iff
the type of `arr` is neither `Error` nor an array type.  In particular a
non-integer index on an array of integers adds exactly one
`nonIntegerIndexInArrayAccess` and the node is decorated with integer. -/
theorem typecheck_arrayAccess (Symbols : SymTable) (expr0 expr1 : Expr) :
    visitLeft_expr Symbols (Left_expr.arrayAccessLExpr expr0 expr1) =
      visitExpr Symbols (Expr.arrayAccessExpr expr0 expr1) ∧
    (∀ n elem, (visitExpr Symbols expr0).type = TypeId.array n elem →
      (visitExpr Symbols (Expr.arrayAccessExpr expr0 expr1)).type = elem) ∧
    (isArrayTy (visitExpr Symbols expr0).type = false →
      (visitExpr Symbols (Expr.arrayAccessExpr expr0 expr1)).type = TypeId.error) ∧
    (visitExpr Symbols (Expr.arrayAccessExpr expr0 expr1)).isLValue = true ∧
    (visitExpr Symbols (Expr.arrayAccessExpr expr0 expr1)).errors =
      (visitExpr Symbols expr1).errors ++
        (if isErrorTy (visitExpr Symbols expr1).type = false ∧
            isIntegerTy (visitExpr Symbols expr1).type = false
          then [SemError.nonIntegerIndexInArrayAccess] else []) ++
        (visitExpr Symbols expr0).errors ++
        (if isErrorTy (visitExpr Symbols expr0).type = false ∧
            isArrayTy (visitExpr Symbols expr0).type = false
          then [SemError.nonArrayInArrayAccess] else []) ∧
    (∀ n, (visitExpr Symbols expr0).type = TypeId.array n TypeId.integer →
      isErrorTy (visitExpr Symbols expr1).type = false →
      isIntegerTy (visitExpr Symbols expr1).type = false →
      (visitExpr Symbols (Expr.arrayAccessExpr expr0 expr1)).type = TypeId.integer ∧
      (visitExpr Symbols (Expr.arrayAccessExpr expr0 expr1)).errors =
        (visitExpr Symbols expr1).errors ++ [SemError.nonIntegerIndexInArrayAccess] ++
          (visitExpr Symbols expr0).errors) := by
  refine ⟨?_, ?_, ?_, ?_, ?_, ?_⟩
  · simp only [visitExpr, visitLeft_expr]
  · intro n elem h
    simp [visitExpr, visitArrayAccessExpr, h, isArrayTy, getArrayElemType]
  · intro h
    simp [visitExpr, visitArrayAccessExpr, h, createErrorTy]
  · simp [visitExpr, visitArrayAccessExpr]
  · simp [visitExpr, visitArrayAccessExpr]
  · intro n h h1 h2
    simp [visitExpr, visitArrayAccessExpr, h, h1, h2, isArrayTy, getArrayElemType]

/-- Claim C7: an identifier that `findInStack` does not find (answer `-1`) emits
`undeclaredIdent`, is decorated with `Error` and is marked as an l-value; an
identifier that is found is decorated with the type of the symbol the stack
lookup yields, emits no diagnostic, and is marked as an l-value iff that symbol is
not a function.  An identifier used as an expression or as a left-expression
carries the same decorations. -/
theorem typecheck_ident (Symbols : SymTable) (ident : String) :
    (Symbols.findInStack ident = -1 →
      visitIdent Symbols ident = ⟨TypeId.error, true, [SemError.undeclaredIdent]⟩) ∧
    (Symbols.findInStack ident ≠ -1 →
      ∃ id sym, SymTable.lookup Symbols.scopes ident Symbols.stack = some (id, sym) ∧
        (visitIdent Symbols ident).type = sym.type ∧
        (visitIdent Symbols ident).errors = [] ∧
        ((visitIdent Symbols ident).isLValue = true ↔ sym.cls ≠ SymClass.function)) ∧
    visitExpr Symbols (Expr.exprIdent ident) = visitIdent Symbols ident ∧
    visitLeft_expr Symbols (Left_expr.leftExprIdent ident) = visitIdent Symbols ident := by
  refine ⟨?_, ?_, ?_, ?_⟩
  · intro h
    simp [visitIdent, h, createErrorTy]
  · intro h
    cases hl : SymTable.lookup Symbols.scopes ident Symbols.stack with
    | none => simp [SymTable.findInStack, hl] at h
    | some p =>
      obtain ⟨id, sym⟩ := p
      refine ⟨id, sym, rfl, ?_⟩
      have hne : ¬ ((Symbols.findInStack ident == -1) = true) := by simpa using h
      by_cases hc : sym.cls = SymClass.function
      · simp [visitIdent, hne, SymTable.getType, SymTable.isFunctionClass, hl, hc]
      · simp [visitIdent, hne, SymTable.getType, SymTable.isFunctionClass, hl, hc]
  · simp [visitExpr, visitExprIdent]
  · simp [visitLeft_expr, visitExprIdent]

/-- Claim C8: a relational or equality node is decorated with boolean and marked
as not an l-value; its diagnostics are those of its operands followed by
`incompatibleOperator` iff both operand types differ from `Error` and
`comparableTypes` is false for them and the node's operator. -/
theorem typecheck_relational (Symbols : SymTable) (op : RelOp) (expr0 expr1 : Expr) :
    (visitExpr Symbols (Expr.relational op expr0 expr1)).type = TypeId.boolean ∧
    (visitExpr Symbols (Expr.relational op expr0 expr1)).isLValue = false ∧
    (visitExpr Symbols (Expr.relational op expr0 expr1)).errors =
      (visitExpr Symbols expr0).errors ++ (visitExpr Symbols expr1).errors ++
        (if isErrorTy (visitExpr Symbols expr0).type = false ∧
            isErrorTy (visitExpr Symbols expr1).type = false ∧
            comparableTypes (visitExpr Symbols expr0).type (visitExpr Symbols expr1).type op
              = false
          then [SemError.incompatibleOperator] else []) := by
  refine ⟨?_, ?_, ?_⟩
  · simp [visitExpr, visitRelational, createBooleanTy]
  · simp [visitExpr, visitRelational]
  · simp [visitExpr, visitRelational, and_assoc]

theorem visitStatements_append (Symbols : SymTable) (t : TypeId) (s1 s2 : List Statement) :
    visitStatements Symbols t (s1 ++ s2) =
      visitStatements Symbols t s1 ++ visitStatements Symbols t s2 := by
  induction s1 with
  | nil => simp [visitStatements]
  | cons s ss ih => simp [visitStatements, ih]

theorem visitType_ne_error (ty : TypeNode) : isErrorTy (SymbolsVisitor.visitType ty) = false := by
  obtain ⟨arr, b⟩ := ty
  cases arr <;> cases b <;> rfl

/-- The return rule where the Symbol pass has visited the return type: in a
function whose return-type node, if any, carries the type `visitType` puts on it,
a return statement emits, after the diagnostics of its expression,
`incompatibleReturn` iff `copyableTypes r t` is false, where `r` is the declared
return type (`Void` when none is declared) and `t` the decorated type of the
returned expression (`Void` when there is none).  The second part places the
statement in the body `visitFunction` checks. -/
theorem visitReturnStmt_decorated (Symbols : SymTable) (ctx : Function) (sc : Nat)
    (typeDecor : TypeId)
    (hdecor : ∀ ty, ctx.type = some ty → typeDecor = SymbolsVisitor.visitType ty)
    (expr : Option Expr) :
    visitStatement Symbols (functionTy typeDecor ctx) (Statement.returnStmt expr) =
      (match expr with
        | some e => (visitExpr Symbols e).errors
        | none => []) ++
      (if copyableTypes
            (match ctx.type with
              | some ty => SymbolsVisitor.visitType ty
              | none => TypeId.void)
            (match expr with
              | some e => (visitExpr Symbols e).type
              | none => TypeId.void) = false
        then [SemError.incompatibleReturn] else []) ∧
    (∀ before after, ctx.statements = before ++ Statement.returnStmt expr :: after →
      visitFunction Symbols sc typeDecor ctx =
        visitStatements (Symbols.pushThisScope sc) (functionTy typeDecor ctx) before ++
          visitStatement (Symbols.pushThisScope sc) (functionTy typeDecor ctx)
            (Statement.returnStmt expr) ++
          visitStatements (Symbols.pushThisScope sc) (functionTy typeDecor ctx) after) := by
  constructor
  · have hty : functionTy typeDecor ctx =
        (match ctx.type with
          | some ty => SymbolsVisitor.visitType ty
          | none => TypeId.void) := by
      unfold functionTy
      cases h : ctx.type with
      | none => rfl
      | some ty => exact hdecor ty h
    have hne : isErrorTy (functionTy typeDecor ctx) = false := by
      rw [hty]
      cases ctx.type with
      | none => rfl
      | some ty => exact visitType_ne_error ty
    rw [← hty]
    cases expr with
    | none => simp [visitStatement, visitReturnStmt, hne, createVoidTy]
    | some e => simp [visitStatement, visitReturnStmt, hne]
  · intro before after h
    simp [visitFunction, h, visitStatements_append, visitStatements]

/-- Claim C10: an if statement and a while statement emit, after the diagnostics
of the condition, `booleanRequired` iff the decorated type of the condition is
neither `Error` nor boolean, and in either case the diagnostics of the statements
of the then-branch and of the else-branch when there is one, respectively of the
loop body, follow. -/
theorem typecheck_condition (Symbols : SymTable) (currFunctionType : TypeId) (expr : Expr)
    (statements0 : List Statement) (statements1 : Option (List Statement)) :
    visitStatement Symbols currFunctionType (Statement.ifStmt expr statements0 statements1) =
      (visitExpr Symbols expr).errors ++
        (if isErrorTy (visitExpr Symbols expr).type = false ∧
            isBooleanTy (visitExpr Symbols expr).type = false
          then [SemError.booleanRequired] else []) ++
        visitStatements Symbols currFunctionType statements0 ++
        (match statements1 with
          | some s => visitStatements Symbols currFunctionType s
          | none => []) ∧
    visitStatement Symbols currFunctionType (Statement.whileStmt expr statements0) =
      (visitExpr Symbols expr).errors ++
        (if isErrorTy (visitExpr Symbols expr).type = false ∧
            isBooleanTy (visitExpr Symbols expr).type = false
          then [SemError.booleanRequired] else []) ++
        visitStatements Symbols currFunctionType statements0 := by
  constructor
  · cases statements1 <;> simp [visitStatement, visitElse, visitIfStmt]
  · simp [visitStatement, visitWhileStmt]

/-! ## Instances on concrete inputs -/

/-- Instance of claim C4 on `f(true)` with `f : (float) → int`: the callee has a
function type, and position 1 is reported. -/
theorem typecheck_funcExpr_parameters_witness :
    (visitIdent exampleSymbols "f").type = TypeId.function [TypeId.float] TypeId.integer ∧
    ∃ own : List SemError,
      (visitExpr exampleSymbols
          (Expr.funcExpr "f" [Expr.value ValueTok.BOOLVAL "true"])).errors =
        (visitIdent exampleSymbols "f").errors ++
          ([Expr.value ValueTok.BOOLVAL "true"].map (visitExpr exampleSymbols)).flatMap
            (fun a => a.errors) ++ own ∧
      (SemError.numberOfParameters ∈ own ↔
        [Expr.value ValueTok.BOOLVAL "true"].length ≠ [TypeId.float].length) ∧
      (∀ i, i < min [Expr.value ValueTok.BOOLVAL "true"].length [TypeId.float].length →
        ∃ p a, [TypeId.float][i]? = some p ∧
          [Expr.value ValueTok.BOOLVAL "true"][i]? = some a ∧
          (SemError.incompatibleParameter (i + 1) ∈ own ↔
            isErrorTy (visitExpr exampleSymbols a).type = false ∧
              copyableTypes p (visitExpr exampleSymbols a).type = false)) ∧
      (∀ k, SemError.incompatibleParameter k ∈ own →
        ∃ i, i < min [Expr.value ValueTok.BOOLVAL "true"].length [TypeId.float].length ∧
          k = i + 1) :=
  ⟨rfl, typecheck_funcExpr_parameters exampleSymbols "f"
    [Expr.value ValueTok.BOOLVAL "true"] [TypeId.float] TypeId.integer rfl⟩

/-- The return rule on `func g() : int  return 1.5  endfunc`, the return-type
node carrying `integer`. -/
theorem visitReturnStmt_decorated_instance :
    (∀ ty, exampleFunction.type = some ty → TypeId.integer = SymbolsVisitor.visitType ty) ∧
    (visitStatement exampleSymbols (functionTy TypeId.integer exampleFunction)
        (Statement.returnStmt (some (Expr.value ValueTok.FLOATVAL "1.5"))) =
      (match some (Expr.value ValueTok.FLOATVAL "1.5") with
        | some e => (visitExpr exampleSymbols e).errors
        | none => []) ++
      (if copyableTypes
            (match exampleFunction.type with
              | some ty => SymbolsVisitor.visitType ty
              | none => TypeId.void)
            (match some (Expr.value ValueTok.FLOATVAL "1.5") with
              | some e => (visitExpr exampleSymbols e).type
              | none => TypeId.void) = false
        then [SemError.incompatibleReturn] else []) ∧
    (∀ before after,
      exampleFunction.statements =
        before ++ Statement.returnStmt (some (Expr.value ValueTok.FLOATVAL "1.5")) :: after →
      visitFunction exampleSymbols 1 TypeId.integer exampleFunction =
        visitStatements (exampleSymbols.pushThisScope 1)
            (functionTy TypeId.integer exampleFunction) before ++
          visitStatement (exampleSymbols.pushThisScope 1)
            (functionTy TypeId.integer exampleFunction)
            (Statement.returnStmt (some (Expr.value ValueTok.FLOATVAL "1.5"))) ++
          visitStatements (exampleSymbols.pushThisScope 1)
            (functionTy TypeId.integer exampleFunction) after)) :=
  ⟨fun ty h => by cases h; rfl,
    visitReturnStmt_decorated exampleSymbols exampleFunction 1 TypeId.integer
      (fun ty h => by cases h; rfl) (some (Expr.value ValueTok.FLOATVAL "1.5"))⟩

/-- Scenario 2 of the specification: `a[true]` with `a : array<5,int>` yields
exactly one `nonIntegerIndexInArrayAccess` and is decorated with `int`. -/
theorem scenario_array_index_type_error :
    visitExpr exampleSymbols
        (Expr.arrayAccessExpr (Expr.exprIdent "a") (Expr.value ValueTok.BOOLVAL "true")) =
      ⟨TypeId.integer, true, [SemError.nonIntegerIndexInArrayAccess]⟩ := by
  rfl

/-- Scenario 6 of the specification, Type pass: a function declared `: int` that
returns a float expression gets one `incompatibleReturn`. -/
theorem scenario_return_type_mismatch :
    visitFunction exampleSymbols 1 TypeId.integer exampleFunction =
      [SemError.incompatibleReturn] := by
  rfl

/-! ## Read statements and Error-typed operands -/

/-- Claim C11, as stated, fails on `read f` with `f` a function: the decorated
type of `f` is neither `Error` nor primitive, and no `readWriteRequireBasic` is
emitted. -/
theorem typecheck_read_function_counterexample :
    isErrorTy (visitLeft_expr exampleSymbols (Left_expr.leftExprIdent "f")).type = false ∧
    isPrimitiveTy (visitLeft_expr exampleSymbols (Left_expr.leftExprIdent "f")).type = false ∧
    SemError.readWriteRequireBasic ∉
      visitStatement exampleSymbols TypeId.void
        (Statement.readStmt (Left_expr.leftExprIdent "f")) := by
  refine ⟨rfl, rfl, ?_⟩
  have h : visitStatement exampleSymbols TypeId.void
      (Statement.readStmt (Left_expr.leftExprIdent "f")) =
      [SemError.nonReferenceableExpression] := rfl
  rw [h]
  decide

/-- Claim C11, amended: the diagnostics of `read L` are those of `L`, then
`readWriteRequireBasic` iff the decorated type of `L` is not `Error`, not a
primitive type and not a function type, then `nonReferenceableExpression` iff
the type of `L` is not `Error` and `L` is not marked as an l-value. -/
theorem typecheck_read_errors (Symbols : SymTable) (currFunctionType : TypeId)
    (left_expr : Left_expr) :
    visitStatement Symbols currFunctionType (Statement.readStmt left_expr) =
      (visitLeft_expr Symbols left_expr).errors ++
        (if isErrorTy (visitLeft_expr Symbols left_expr).type = false ∧
            isPrimitiveTy (visitLeft_expr Symbols left_expr).type = false ∧
            isFunctionTy (visitLeft_expr Symbols left_expr).type = false
          then [SemError.readWriteRequireBasic] else []) ++
        (if isErrorTy (visitLeft_expr Symbols left_expr).type = false ∧
            (visitLeft_expr Symbols left_expr).isLValue = false
          then [SemError.nonReferenceableExpression] else []) := by
  simp only [visitStatement, visitReadStmt]
  congr 2 <;> simp [and_assoc]

/-- Claim C12, the code at the failing input `p(zz)` with `p : (float) → void` and
`zz` undeclared: the argument is decorated with `Error`, and the call statement
reports `incompatibleParameter 1` after the `undeclaredIdent` of the argument. -/
theorem typecheck_procCall_error_argument :
    (visitExpr exampleSymbols (Expr.exprIdent "zz")).type = TypeId.error ∧
    visitStatement exampleSymbols TypeId.void
        (Statement.procCall "p" [Expr.exprIdent "zz"]) =
      [SemError.undeclaredIdent, SemError.incompatibleParameter 1] ∧
    (visitExpr exampleSymbols (Expr.funcExpr "f" [Expr.exprIdent "zz"])).errors =
      [SemError.undeclaredIdent] := by
  refine ⟨rfl, rfl, rfl⟩

/-- Claim C13, the code at the failing input `func h() : int  return zz  endfunc`
with `zz` undeclared: the returned expression is decorated with `Error`, and the
return statement reports `incompatibleReturn` after the `undeclaredIdent`. -/
theorem typecheck_return_error_expression :
    (visitExpr exampleSymbols (Expr.exprIdent "zz")).type = TypeId.error ∧
    visitStatement exampleSymbols TypeId.integer
        (Statement.returnStmt (some (Expr.exprIdent "zz"))) =
      [SemError.undeclaredIdent, SemError.incompatibleReturn] := by
  refine ⟨rfl, rfl⟩

/-! ## Symbol pass: the table and the diagnostics it leaves -/

namespace SymbolsVisitor

theorem findInCurrentScope_last (pre : List Scope) (n : String) (syms : List Symbol)
    (r : List Nat) (id : String) :
    SymTable.findInCurrentScope ⟨pre ++ [⟨n, syms⟩], pre.length :: r⟩ id =
      (syms.find? (fun b => b.name == id)).isSome := by
  simp [SymTable.findInCurrentScope, SymTable.findInScope, List.get?_eq_getElem?]

theorem modify_append_length {α : Type} (f : α → α) (pre : List α) (a : α) :
    List.modify f pre.length (pre ++ [a]) = pre ++ [f a] := by
  induction pre with
  | nil => simp
  | cons x xs ih => simp [ih]

theorem addSymbol_last (pre : List Scope) (n : String) (syms : List Symbol)
    (r : List Nat) (s : Symbol) :
    SymTable.addSymbol ⟨pre ++ [⟨n, syms⟩], pre.length :: r⟩ s =
      ⟨pre ++ [⟨n, syms ++ [s]⟩], pre.length :: r⟩ := by
  simp [SymTable.addSymbol, modify_append_length]

theorem findInCurrentScope_head (g : Scope) (rest : List Scope) (r : List Nat) (id : String) :
    SymTable.findInCurrentScope ⟨g :: rest, 0 :: r⟩ id =
      (g.symbols.find? (fun b => b.name == id)).isSome := by
  simp [SymTable.findInCurrentScope, SymTable.findInScope, List.get?_eq_getElem?]

theorem addSymbol_head (g : Scope) (rest : List Scope) (r : List Nat) (s : Symbol) :
    SymTable.addSymbol ⟨g :: rest, 0 :: r⟩ s =
      ⟨⟨g.name, g.symbols ++ [s]⟩ :: rest, 0 :: r⟩ := by
  simp [SymTable.addSymbol]

theorem decorateType_symbols (st : State) (ctx : Node) (tree : TypeNode) :
    (decorateType st ctx tree).Symbols = st.Symbols ∧
    (decorateType st ctx tree).Errors = st.Errors ∧
    (decorateType st ctx tree).Decorations.getType ctx = visitType tree := by
  obtain ⟨arr, b⟩ := tree
  cases arr <;>
    simp [decorateType, decorateBasic_type, TreeDecoration.putType, TreeDecoration.getType,
      visitType, List.lookup]

end SymbolsVisitor

namespace SymbolsVisitor

theorem bound_iff (syms : List Symbol) (id : String) :
    (syms.find? (fun b => b.name == id)).isSome = true ↔ ∃ b ∈ syms, b.name = id := by
  simp [List.find?_isSome]

theorem seen_snoc (seen : List String) (syms : List Symbol) (s : Symbol)
    (h : ∀ x, x ∈ seen ↔ ∃ b ∈ syms, b.name = x) :
    ∀ x, x ∈ s.name :: seen ↔ ∃ b ∈ syms ++ [s], b.name = x := by
  intro x
  simp only [List.mem_cons, List.mem_append, List.not_mem_nil, or_false, h]
  constructor
  · rintro (rfl | ⟨b, hb, rfl⟩)
    · exact ⟨s, Or.inr rfl, rfl⟩
    · exact ⟨b, Or.inl hb, rfl⟩
  · rintro ⟨b, hb | rfl, rfl⟩
    · exact Or.inr ⟨b, hb, rfl⟩
    · exact Or.inl rfl

theorem seen_same (seen : List String) (syms : List Symbol) (id : String)
    (h : ∀ x, x ∈ seen ↔ ∃ b ∈ syms, b.name = x) (hid : id ∈ seen) :
    ∀ x, x ∈ id :: seen ↔ ∃ b ∈ syms, b.name = x := by
  intro x
  rw [← h x]
  simp only [List.mem_cons]
  constructor
  · rintro (rfl | hx)
    · exact hid
    · exact hx
  · exact Or.inr

theorem visitParameters_spec (TypeId0 : TypeId) (ctx : Node) (params : List (String × TypeNode)) :
    ∀ (st : State) (i : Nat) (pre : List Scope) (n : String) (syms : List Symbol)
      (r : List Nat) (seen : List String),
      st.Symbols = ⟨pre ++ [⟨n, syms⟩], pre.length :: r⟩ →
      (∀ x, x ∈ seen ↔ ∃ b ∈ syms, b.name = x) →
      (visitParameters TypeId0 ctx st i params).1.Symbols =
          ⟨pre ++ [⟨n, declareAll syms
            (params.map fun p => ⟨p.1, SymClass.parameter, visitType p.2⟩)⟩],
            pre.length :: r⟩ ∧
        (visitParameters TypeId0 ctx st i params).1.Errors =
          st.Errors ++
            List.replicate (laterDeclarations seen (params.map Prod.fst))
              SemError.declaredIdent ∧
        (visitParameters TypeId0 ctx st i params).2 = paramTypes TypeId0 seen params := by
  induction params with
  | nil =>
    intro st i pre n syms r seen hS _
    simp [visitParameters, declareAll, laterDeclarations, paramTypes, hS]
  | cons p params ih =>
    intro st i pre n syms r seen hS hseen
    obtain ⟨id, ty⟩ := p
    obtain ⟨hd1, hd2, hd3⟩ := decorateType_symbols st (ctx ++ [i]) ty
    have hfind : (decorateType st (ctx ++ [i]) ty).Symbols.findInCurrentScope id =
        (syms.find? (fun b => b.name == id)).isSome := by
      rw [hd1, hS, findInCurrentScope_last]
    by_cases hb : (syms.find? (fun b => b.name == id)).isSome = true
    · have hin : id ∈ seen := (hseen id).mpr ((bound_iff syms id).mp hb)
      have := ih { decorateType st (ctx ++ [i]) ty with
          Errors := (decorateType st (ctx ++ [i]) ty).Errors ++ [SemError.declaredIdent] }
        (i + 1) pre n syms r (id :: seen) (by simp [hd1, hS]) (seen_same seen syms id hseen hin)
      obtain ⟨h1, h2, h3⟩ := this
      simp only [visitParameters, hfind, hb, if_true, List.map_cons, declareAll, laterDeclarations,
        paramTypes, hin]
      refine ⟨h1, ?_, by rw [h3]⟩
      rw [h2, hd2, List.append_assoc, Nat.add_comm, List.replicate_succ, List.singleton_append]
    · have hin : id ∉ seen := fun h => hb ((bound_iff syms id).mpr ((hseen id).mp h))
      have := ih { decorateType st (ctx ++ [i]) ty with
          Symbols := (decorateType st (ctx ++ [i]) ty).Symbols.addParameter id
            ((decorateType st (ctx ++ [i]) ty).Decorations.getType (ctx ++ [i])) }
        (i + 1) pre n (syms ++ [⟨id, SymClass.parameter, visitType ty⟩]) r (id :: seen)
        (by simp [hd1, hS, hd3, SymTable.addParameter, addSymbol_last])
        (seen_snoc seen syms ⟨id, SymClass.parameter, visitType ty⟩ hseen)
      obtain ⟨h1, h2, h3⟩ := this
      simp only [visitParameters, hfind, hb, List.map_cons, declareAll, laterDeclarations,
        paramTypes, hin, if_false, Bool.false_eq_true]
      refine ⟨h1, ?_, by rw [h3, hd3]⟩
      rw [h2, hd2, Nat.zero_add]

end SymbolsVisitor

namespace SymbolsVisitor

theorem declareAll_append (syms a b : List Symbol) :
    declareAll syms (a ++ b) = declareAll (declareAll syms a) b := by
  induction a generalizing syms with
  | nil => simp [declareAll]
  | cons s a ih =>
    simp only [List.cons_append, declareAll]
    split <;> exact ih _

theorem laterDeclarations_append (seen a b : List String) :
    laterDeclarations seen (a ++ b) =
      laterDeclarations seen a + laterDeclarations (a.reverse ++ seen) b := by
  induction a generalizing seen with
  | nil => simp [laterDeclarations]
  | cons s a ih =>
    rw [List.cons_append, laterDeclarations, laterDeclarations, ih (s :: seen)]
    simp only [List.reverse_cons, List.append_assoc, List.singleton_append]
    omega

theorem seen_declareAll (decls : List Symbol) :
    ∀ (seen : List String) (syms : List Symbol),
      (∀ x, x ∈ seen ↔ ∃ b ∈ syms, b.name = x) →
      ∀ x, x ∈ (decls.map fun s => s.name).reverse ++ seen ↔
        ∃ b ∈ declareAll syms decls, b.name = x := by
  induction decls with
  | nil => intro seen syms h x; simpa [declareAll] using h x
  | cons s decls ih =>
    intro seen syms h x
    have hx : x ∈ (List.map (fun s => s.name) (s :: decls)).reverse ++ seen ↔
        x ∈ (decls.map fun s => s.name).reverse ++ (s.name :: seen) := by
      simp only [List.map_cons, List.reverse_cons, List.append_assoc, List.singleton_append]
    rw [hx]
    simp only [declareAll]
    split
    · rename_i hb
      exact ih (s.name :: seen) syms
        (seen_same seen syms s.name h ((h s.name).mpr ((bound_iff syms s.name).mp hb))) x
    · exact ih (s.name :: seen) (syms ++ [s]) (seen_snoc seen syms s h) x

theorem visitVariable_declIds_spec (type : Node) (t : TypeId) (ident : List String) :
    ∀ (st : State) (pre : List Scope) (n : String) (syms : List Symbol)
      (r : List Nat) (seen : List String),
      st.Symbols = ⟨pre ++ [⟨n, syms⟩], pre.length :: r⟩ →
      st.Decorations.getType type = t →
      (∀ x, x ∈ seen ↔ ∃ b ∈ syms, b.name = x) →
      (visitVariable_declIds type st ident).Symbols =
          ⟨pre ++ [⟨n, declareAll syms (ident.map fun id => ⟨id, SymClass.localVar, t⟩)⟩],
            pre.length :: r⟩ ∧
        (visitVariable_declIds type st ident).Errors =
          st.Errors ++ List.replicate (laterDeclarations seen ident) SemError.declaredIdent := by
  induction ident with
  | nil =>
    intro st pre n syms r seen hS _ _
    simp [visitVariable_declIds, declareAll, laterDeclarations, hS]
  | cons id ident ih =>
    intro st pre n syms r seen hS ht hseen
    have hfind : st.Symbols.findInCurrentScope id =
        (syms.find? (fun b => b.name == id)).isSome := by
      rw [hS, findInCurrentScope_last]
    by_cases hb : (syms.find? (fun b => b.name == id)).isSome = true
    · have hin : id ∈ seen := (hseen id).mpr ((bound_iff syms id).mp hb)
      obtain ⟨h1, h2⟩ := ih { st with Errors := st.Errors ++ [SemError.declaredIdent] }
        pre n syms r (id :: seen) hS ht (seen_same seen syms id hseen hin)
      simp only [visitVariable_declIds, hfind, hb, if_true, List.map_cons, declareAll,
        laterDeclarations, hin]
      refine ⟨h1, ?_⟩
      rw [h2, List.append_assoc, Nat.add_comm, List.replicate_succ, List.singleton_append]
    · have hin : id ∉ seen := fun h => hb ((bound_iff syms id).mpr ((hseen id).mp h))
      obtain ⟨h1, h2⟩ := ih
        { st with Symbols := (st.Symbols.addLocalVar id (st.Decorations.getType type)) }
        pre n (syms ++ [⟨id, SymClass.localVar, t⟩]) r (id :: seen)
        (by simp [hS, ht, SymTable.addLocalVar, addSymbol_last]) ht
        (seen_snoc seen syms ⟨id, SymClass.localVar, t⟩ hseen)
      simp only [visitVariable_declIds, hfind, hb, List.map_cons, declareAll, laterDeclarations,
        hin, if_false, Bool.false_eq_true]
      refine ⟨h1, ?_⟩
      rw [h2, Nat.zero_add]

theorem visitDeclarations_spec (ctx : Node) (decls : List Variable_decl) :
    ∀ (st : State) (i : Nat) (pre : List Scope) (n : String) (syms : List Symbol)
      (r : List Nat) (seen : List String),
      st.Symbols = ⟨pre ++ [⟨n, syms⟩], pre.length :: r⟩ →
      (∀ x, x ∈ seen ↔ ∃ b ∈ syms, b.name = x) →
      (visitDeclarations ctx st i decls).Symbols =
          ⟨pre ++ [⟨n, declareAll syms (decls.flatMap fun d =>
              d.ID.map fun id => ⟨id, SymClass.localVar, visitType d.type⟩)⟩],
            pre.length :: r⟩ ∧
        (visitDeclarations ctx st i decls).Errors =
          st.Errors ++
            List.replicate (laterDeclarations seen (decls.flatMap fun d => d.ID))
              SemError.declaredIdent := by
  induction decls with
  | nil =>
    intro st i pre n syms r seen hS _
    simp [visitDeclarations, declareAll, laterDeclarations, hS]
  | cons d decls ih =>
    intro st i pre n syms r seen hS hseen
    obtain ⟨hd1, hd2, hd3⟩ := decorateType_symbols st (ctx ++ [i] ++ [0]) d.type
    obtain ⟨h1, h2⟩ := visitVariable_declIds_spec (ctx ++ [i] ++ [0]) (visitType d.type) d.ID
      (decorateType st (ctx ++ [i] ++ [0]) d.type) pre n syms r seen (by rw [hd1, hS]) hd3 hseen
    have hseen2 := seen_declareAll (d.ID.map fun id => ⟨id, SymClass.localVar, visitType d.type⟩)
      seen syms hseen
    have hnames : (List.map (fun s : Symbol => s.name)
        (d.ID.map fun id => ⟨id, SymClass.localVar, visitType d.type⟩)) = d.ID := by
      simp [List.map_map, Function.comp_def]
    rw [hnames] at hseen2
    obtain ⟨h3, h4⟩ := ih (visitVariable_decl st (ctx ++ [i]) d) (i + 1) pre n _ r
      (d.ID.reverse ++ seen) h1 hseen2
    simp only [visitDeclarations, List.flatMap_cons, declareAll_append, laterDeclarations_append]
    refine ⟨h3, ?_⟩
    rw [h4]
    simp only [visitVariable_decl]
    rw [h2, hd2, List.append_assoc, ← List.replicate_add]

end SymbolsVisitor

namespace SymbolsVisitor

/-- The state of `visitFunction` right before the function name is checked:
the scope of the function is built and closed. -/
theorem visitFunction_body (TypeId0 : TypeId) (st : State) (ctx : Node) (tree : Function)
    (G : String) (gsyms : List Symbol) (fscopes : List Scope)
    (hS : st.Symbols = ⟨⟨G, gsyms⟩ :: fscopes, [0]⟩) :
    ∃ (mid : State) (lParamsTy : List TypeId),
      mid.Symbols = ⟨⟨G, gsyms⟩ :: (fscopes ++ [functionScope tree]), [0]⟩ ∧
      mid.Errors = st.Errors ++
        List.replicate (laterDeclarations [] ((declaredSymbols tree).map fun s => s.name))
          SemError.declaredIdent ∧
      lParamsTy = paramTypes TypeId0 [] tree.params ∧
      visitFunction TypeId0 st ctx tree =
        if mid.Symbols.findInCurrentScope tree.ID then
          { mid with Errors := mid.Errors ++ [SemError.declaredIdent] }
        else
          match tree.type with
          | some type =>
            { decorateType mid (ctx ++ [1]) type with
              Symbols := (decorateType mid (ctx ++ [1]) type).Symbols.addFunction tree.ID
                (createFunctionTy lParamsTy
                  ((decorateType mid (ctx ++ [1]) type).Decorations.getType (ctx ++ [1]))) }
          | none =>
            { mid with
              Symbols := mid.Symbols.addFunction tree.ID
                (createFunctionTy lParamsTy createVoidTy) } := by
  -- the state after the scope of the function is opened
  have hpush : (st.Symbols.pushNewScope tree.ID).1 =
      ⟨(⟨G, gsyms⟩ :: fscopes) ++ [⟨tree.ID, []⟩], (⟨G, gsyms⟩ :: fscopes).length :: [0]⟩ := by
    simp [SymTable.pushNewScope, hS]
  have hseen0 : ∀ x, x ∈ ([] : List String) ↔ ∃ b ∈ ([] : List Symbol), b.name = x := by
    intro x; simp
  -- parameters
  have hpar : ∀ (s1 : State), s1.Symbols = (st.Symbols.pushNewScope tree.ID).1 →
      s1.Errors = st.Errors →
      ∃ v : State × List TypeId,
        v = (match tree.parameters with
          | some params => visitParameters TypeId0 (ctx ++ [0]) s1 0 params
          | none => (s1, [])) ∧
        v.1.Symbols = ⟨(⟨G, gsyms⟩ :: fscopes) ++
            [⟨tree.ID, declareAll [] (declaredParameters tree)⟩],
          (⟨G, gsyms⟩ :: fscopes).length :: [0]⟩ ∧
        v.1.Errors = st.Errors ++
          List.replicate (laterDeclarations [] (tree.params.map Prod.fst))
            SemError.declaredIdent ∧
        v.2 = paramTypes TypeId0 [] tree.params := by
    intro s1 hs1 he1
    refine ⟨_, rfl, ?_⟩
    cases hp : tree.parameters with
    | none =>
      simp [hs1, hpush, he1, declaredParameters, Function.params, hp, declareAll,
        laterDeclarations, paramTypes]
    | some params =>
      obtain ⟨h1, h2, h3⟩ := visitParameters_spec TypeId0 (ctx ++ [0]) params s1 0
        (⟨G, gsyms⟩ :: fscopes) tree.ID [] [0] [] (by rw [hs1, hpush]) hseen0
      simp only [declaredParameters, Function.params, hp, Option.getD_some]
      exact ⟨h1, by rw [h2, he1], h3⟩
  obtain ⟨v, hv, hv1, hv2, hv3⟩ := hpar
    { Symbols := (st.Symbols.pushNewScope tree.ID).1
      Decorations := st.Decorations.putScope ctx (st.Symbols.pushNewScope tree.ID).2
      Errors := st.Errors } rfl rfl
  -- declarations
  have hseen1 := seen_declareAll (declaredParameters tree) [] [] hseen0
  have hnames : (declaredParameters tree).map (fun s => s.name) = tree.params.map Prod.fst := by
    simp [declaredParameters, List.map_map, Function.comp_def]
  rw [hnames] at hseen1
  obtain ⟨hd1, hd2⟩ := visitDeclarations_spec (ctx ++ [2]) tree.declarations v.1 0
    (⟨G, gsyms⟩ :: fscopes) tree.ID _ [0] _ hv1 hseen1
  refine ⟨{ visitDeclarations (ctx ++ [2]) v.1 0 tree.declarations with
      Symbols := (visitDeclarations (ctx ++ [2]) v.1 0 tree.declarations).Symbols.popScope },
    v.2, ?_, ?_, hv3, ?_⟩
  · simp only [hd1, SymTable.popScope, List.tail_cons, functionScope, declaredSymbols,
      declareAll_append, declaredLocals, List.cons_append]
  · simp only [hd2, hv2, declaredSymbols, List.map_append, laterDeclarations_append, hnames,
      List.append_nil, List.append_assoc, ← List.replicate_add]
    congr 3
    simp [declaredLocals, List.map_flatMap, List.map_map, Function.comp_def]
  · simp only [visitFunction, ← hv]

end SymbolsVisitor

namespace SymbolsVisitor

theorem visitFunction_spec (TypeId0 : TypeId) (st : State) (ctx : Node) (tree : Function)
    (G : String) (gsyms : List Symbol) (fscopes : List Scope) (gseen : List String)
    (hS : st.Symbols = ⟨⟨G, gsyms⟩ :: fscopes, [0]⟩)
    (hseen : ∀ x, x ∈ gseen ↔ ∃ b ∈ gsyms, b.name = x) :
    (visitFunction TypeId0 st ctx tree).Symbols =
        ⟨⟨G, declareAll gsyms [functionSymbol TypeId0 tree]⟩ ::
          (fscopes ++ [functionScope tree]), [0]⟩ ∧
      (visitFunction TypeId0 st ctx tree).Errors =
        st.Errors ++
          List.replicate
            (laterDeclarations [] ((declaredSymbols tree).map fun s => s.name) +
              laterDeclarations gseen [tree.ID])
            SemError.declaredIdent := by
  obtain ⟨mid, lParamsTy, hm1, hm2, hl, hv⟩ :=
    visitFunction_body TypeId0 st ctx tree G gsyms fscopes hS
  have hfind : mid.Symbols.findInCurrentScope tree.ID =
      (gsyms.find? (fun b => b.name == tree.ID)).isSome := by
    rw [hm1, findInCurrentScope_head]
  rw [hv, hfind]
  by_cases hb : (gsyms.find? (fun b => b.name == tree.ID)).isSome = true
  · have hin : tree.ID ∈ gseen := (hseen tree.ID).mpr ((bound_iff gsyms tree.ID).mp hb)
    have hb2 : (gsyms.find? (fun b => b.name == (functionSymbol TypeId0 tree).name)).isSome
        = true := hb
    simp only [hb, if_true, declareAll, hb2, laterDeclarations, hin, hm1, hm2]
    refine ⟨trivial, ?_⟩
    rw [List.replicate_add, List.append_assoc]
    rfl
  · have hin : tree.ID ∉ gseen := fun h => hb ((bound_iff gsyms tree.ID).mpr ((hseen tree.ID).mp h))
    have hb2 : ¬ (gsyms.find? (fun b => b.name == (functionSymbol TypeId0 tree).name)).isSome
        = true := hb
    simp only [hb, declareAll, hb2, laterDeclarations, hin, if_false, Bool.false_eq_true,
      Nat.add_zero]
    cases ht : tree.type with
    | none =>
      simp [hm1, hm2, SymTable.addFunction, addSymbol_head, functionSymbol, hl,
        declaredReturnType, ht, createFunctionTy, createVoidTy]
    | some type =>
      obtain ⟨hd1, hd2, hd3⟩ := decorateType_symbols mid (ctx ++ [1]) type
      simp [hd1, hd2, hd3, hm1, hm2, SymTable.addFunction, addSymbol_head, functionSymbol, hl,
        declaredReturnType, ht, createFunctionTy]

theorem visitFunctions_spec (TypeId0 : TypeId) (fs : List Function) :
    ∀ (st : State) (i : Nat) (G : String) (gsyms : List Symbol) (fscopes : List Scope)
      (gseen : List String),
      st.Symbols = ⟨⟨G, gsyms⟩ :: fscopes, [0]⟩ →
      (∀ x, x ∈ gseen ↔ ∃ b ∈ gsyms, b.name = x) →
      (visitFunctions TypeId0 st i fs).Symbols =
          ⟨⟨G, declareAll gsyms (fs.map (functionSymbol TypeId0))⟩ ::
            (fscopes ++ fs.map functionScope), [0]⟩ ∧
        (visitFunctions TypeId0 st i fs).Errors =
          st.Errors ++
            List.replicate
              ((fs.map fun f =>
                  laterDeclarations [] ((declaredSymbols f).map fun s => s.name)).sum +
                laterDeclarations gseen (fs.map fun f => f.ID))
              SemError.declaredIdent := by
  induction fs with
  | nil =>
    intro st i G gsyms fscopes gseen hS _
    simp [visitFunctions, declareAll, laterDeclarations, hS]
  | cons f fs ih =>
    intro st i G gsyms fscopes gseen hS hseen
    obtain ⟨h1, h2⟩ := visitFunction_spec TypeId0 st [i] f G gsyms fscopes gseen hS hseen
    have hseen2 := seen_declareAll [functionSymbol TypeId0 f] gseen gsyms hseen
    obtain ⟨h3, h4⟩ := ih (visitFunction TypeId0 st [i] f) (i + 1) G _ _
      ([f.ID] ++ gseen) h1 (by simpa [functionSymbol] using hseen2)
    simp only [visitFunctions]
    refine ⟨?_, ?_⟩
    · rw [h3]
      simp only [List.map_cons, List.append_assoc, List.singleton_append]
      congr 2
      rw [show functionSymbol TypeId0 f :: fs.map (functionSymbol TypeId0) =
        [functionSymbol TypeId0 f] ++ fs.map (functionSymbol TypeId0) from rfl, declareAll_append]
    · rw [h4, h2, List.append_assoc, ← List.replicate_add]
      congr 2
      simp only [List.map_cons, List.sum_cons, laterDeclarations, List.singleton_append]
      omega

/-- The table and the diagnostics the Symbol pass leaves, in closed form. -/
theorem symbolPass_spec (TypeId0 : TypeId) (Decorations : TreeDecoration) (tree : Program) :
    (symbolPass TypeId0 Decorations tree).Symbols =
        ⟨⟨SymTable.GLOBAL_SCOPE_NAME,
            declareAll [] (tree.function.map (functionSymbol TypeId0))⟩ ::
          tree.function.map functionScope, []⟩ ∧
      (symbolPass TypeId0 Decorations tree).Errors =
        List.replicate
          ((tree.function.map fun f =>
              laterDeclarations [] ((declaredSymbols f).map fun s => s.name)).sum +
            laterDeclarations [] (tree.function.map fun f => f.ID))
          SemError.declaredIdent := by
  obtain ⟨h1, h2⟩ := visitFunctions_spec TypeId0 tree.function
    { Symbols := (SymTable.empty.pushNewScope SymTable.GLOBAL_SCOPE_NAME).1
      Decorations := Decorations.putScope []
        (SymTable.empty.pushNewScope SymTable.GLOBAL_SCOPE_NAME).2
      Errors := [] } 0 SymTable.GLOBAL_SCOPE_NAME [] [] [] rfl (by intro x; simp)
  simp only [symbolPass, visitProgram]
  refine ⟨?_, ?_⟩
  · rw [h1]; simp [SymTable.popScope]
  · rw [h2]; simp

end SymbolsVisitor

theorem find?_declareAll (decls : List Symbol) (x : String) :
    ∀ syms : List Symbol,
      (declareAll syms decls).find? (fun b => b.name == x) =
        (syms ++ decls).find? (fun b => b.name == x) := by
  induction decls with
  | nil => intro syms; simp [declareAll]
  | cons s decls ih =>
    intro syms
    simp only [declareAll]
    split
    · rename_i hb
      rw [ih syms, List.find?_append, List.find?_append]
      cases hf : syms.find? (fun b => b.name == x) with
      | some b => simp
      | none =>
        have hne : (s.name == x) = false := by
          cases hsx : (s.name == x) with
          | false => rfl
          | true =>
            have : s.name = x := by simpa using hsx
            rw [this, hf] at hb
            simp at hb
        simp [List.find?_cons, hne]
    · rw [ih (syms ++ [s])]
      simp

theorem nodup_declareAll (decls : List Symbol) :
    ∀ syms : List Symbol, (syms.map fun b => b.name).Nodup →
      ((declareAll syms decls).map fun b => b.name).Nodup := by
  induction decls with
  | nil => intro syms h; simpa [declareAll] using h
  | cons s decls ih =>
    intro syms h
    simp only [declareAll]
    split
    · exact ih syms h
    · rename_i hb
      apply ih
      rw [List.map_append, List.nodup_append]
      refine ⟨h, by simp, ?_⟩
      intro a ha hb'
      simp only [List.map_cons, List.map_nil, List.mem_singleton] at hb'
      subst hb'
      apply hb
      rw [SymbolsVisitor.bound_iff]
      simpa using ha

theorem mem_declareAll (decls : List Symbol) :
    ∀ (syms : List Symbol) (b : Symbol), b ∈ declareAll syms decls → b ∈ syms ∨ b ∈ decls := by
  induction decls with
  | nil => intro syms b h; exact Or.inl (by simpa [declareAll] using h)
  | cons s decls ih =>
    intro syms b h
    simp only [declareAll] at h
    split at h
    · rcases ih syms b h with h | h
      · exact Or.inl h
      · exact Or.inr (List.mem_cons_of_mem _ h)
    · rcases ih (syms ++ [s]) b h with h | h
      · rcases List.mem_append.mp h with h | h
        · exact Or.inl h
        · exact Or.inr (by simp at h; simp [h])
      · exact Or.inr (List.mem_cons_of_mem _ h)

theorem dedup_cons_length (n : String) (l : List String) :
    (n :: l).dedup.length = (l.filter (fun x => decide (x ≠ n))).dedup.length + 1 := by
  rw [← List.card_toFinset, ← List.card_toFinset]
  have h : (n :: l).toFinset = insert n (l.filter (fun x => decide (x ≠ n))).toFinset := by
    ext x
    simp only [List.toFinset_cons, Finset.mem_insert, List.mem_toFinset, List.mem_filter,
      decide_eq_true_eq]
    constructor
    · rintro (h | h)
      · exact Or.inl h
      · by_cases hx : x = n
        · exact Or.inl hx
        · exact Or.inr ⟨h, hx⟩
    · rintro (h | h)
      · exact Or.inl h
      · exact Or.inr h.1
  rw [h, Finset.card_insert_of_not_mem]
  simp

/-- The later declarations of a list of names are those in excess of the distinct
names. -/
theorem laterDeclarations_add_distinct (names : List String) :
    ∀ seen : List String,
      laterDeclarations seen names +
          (names.filter (fun x => decide (x ∉ seen))).dedup.length = names.length := by
  induction names with
  | nil => intro seen; simp [laterDeclarations]
  | cons n names ih =>
    intro seen
    have hfilter : names.filter (fun x => decide (x ∉ n :: seen)) =
        (names.filter (fun x => decide (x ∉ seen))).filter (fun x => decide (x ≠ n)) := by
      rw [List.filter_filter]
      congr 1
      funext x
      simp only [List.mem_cons, not_or, Bool.decide_and, Bool.and_comm]
    by_cases hn : n ∈ seen
    · have hsame : names.filter (fun x => decide (x ∉ n :: seen)) =
          names.filter (fun x => decide (x ∉ seen)) := by
        apply List.filter_congr
        intro x _
        simp only [List.mem_cons, not_or, decide_eq_decide]
        constructor
        · exact fun h => h.2
        · exact fun h => ⟨fun hx => h (hx ▸ hn), h⟩
      have := ih (n :: seen)
      rw [hsame] at this
      simp only [laterDeclarations, hn, if_true, List.filter_cons, not_true_eq_false,
        decide_False, List.length_cons]
      simp only [Bool.false_eq_true, if_false]
      omega
    · have := ih (n :: seen)
      rw [hfilter] at this
      simp only [laterDeclarations, hn, if_false, List.filter_cons, not_false_eq_true,
        decide_True, if_true, List.length_cons, dedup_cons_length]
      omega

theorem laterDeclarations_nil (names : List String) :
    laterDeclarations [] names + names.dedup.length = names.length := by
  have h := laterDeclarations_add_distinct names []
  simpa using h

/-- Claim C15: after the Symbol pass the diagnostics are one `declaredIdent` per
later declaration — per declaration whose name was declared before it among the
parameters and locals of the same function, or among the functions of the
program — and nothing else; in the global scope and in the scope of every
function the bound names are pairwise distinct, and the binding of a name is the
first declaration of that name in the scope, with its kind and its type (for a
function, the type registered for its first declaration).  The later
declarations of a list of names are as many as its length exceeds the number of
its distinct names. -/
theorem symbol_pass_unique_names (TypeId0 : TypeId) (Decorations : TreeDecoration)
    (tree : Program) :
    (symbolPass TypeId0 Decorations tree).Errors =
      List.replicate
        ((tree.function.map fun f =>
            laterDeclarations [] ((declaredSymbols f).map fun s => s.name)).sum +
          laterDeclarations [] (tree.function.map fun f => f.ID))
        SemError.declaredIdent ∧
    (∃ g, (symbolPass TypeId0 Decorations tree).Symbols.scopes[0]? = some g ∧
      (g.symbols.map fun b => b.name).Nodup ∧
      ∀ name, SymTable.findInScope g name =
        (tree.function.find? fun f => f.ID == name).map (functionSymbol TypeId0)) ∧
    (∀ i f, tree.function[i]? = some f →
      ∃ sc, (symbolPass TypeId0 Decorations tree).Symbols.scopes[i + 1]? = some sc ∧
        (sc.symbols.map fun b => b.name).Nodup ∧
        ∀ name, SymTable.findInScope sc name =
          (declaredSymbols f).find? fun b => b.name == name) ∧
    (∀ names : List String,
      laterDeclarations [] names + names.dedup.length = names.length) := by
  obtain ⟨h1, h2⟩ := SymbolsVisitor.symbolPass_spec TypeId0 Decorations tree
  refine ⟨h2, ?_, ?_, laterDeclarations_nil⟩
  · refine ⟨⟨SymTable.GLOBAL_SCOPE_NAME,
        declareAll [] (tree.function.map (functionSymbol TypeId0))⟩, by rw [h1]; simp,
      nodup_declareAll _ [] (by simp), ?_⟩
    intro name
    simp only [SymTable.findInScope, find?_declareAll, List.nil_append, List.find?_map]
    rfl
  · intro i f hf
    refine ⟨functionScope f, by rw [h1]; simp [hf], nodup_declareAll _ [] (by simp), ?_⟩
    intro name
    simp only [SymTable.findInScope, functionScope, find?_declareAll, List.nil_append]

/-! ## The check on `main` -/

theorem visitIdent_noMain (Symbols : SymTable) (ident : String) :
    SemError.noMainProperlyDeclared ∉ (visitIdent Symbols ident).errors := by
  unfold visitIdent
  split
  · simp
  · split <;> simp

mutual
theorem visitExpr_noMain (Symbols : SymTable) :
    ∀ e : Expr, SemError.noMainProperlyDeclared ∉ (visitExpr Symbols e).errors
  | .arrayAccessExpr e0 e1 => by
    have h0 := visitExpr_noMain Symbols e0
    have h1 := visitExpr_noMain Symbols e1
    simp only [visitExpr, visitArrayAccessExpr, List.mem_append, not_or]
    refine ⟨⟨⟨h1, ?_⟩, h0⟩, ?_⟩ <;> split <;> simp
  | .funcExpr ident args => by
    have hi := visitIdent_noMain Symbols ident
    have ha := visitExprs_noMain Symbols args
    have hf : SemError.noMainProperlyDeclared ∉
        (visitExprs Symbols args).flatMap (fun a => a.errors) := by
      simp only [List.mem_flatMap, not_exists, not_and]
      exact ha
    simp only [visitExpr, visitFuncExpr]
    split
    · simp only [List.mem_append, not_or]
      exact ⟨⟨hi, hf⟩, by simp⟩
    · split
      · simp only [List.mem_append, not_or, mem_funcExprParams]
        refine ⟨⟨⟨⟨hi, hf⟩, ?_⟩, ?_⟩, ?_⟩
        · split <;> simp
        · split <;> simp
        · rintro ⟨i, p, a, _, _, _, _, _, h⟩
          cases h
      · simp only [List.mem_append, not_or]
        exact ⟨hi, hf⟩
  | .exprIdent ident => by
    simpa [visitExpr, visitExprIdent] using visitIdent_noMain Symbols ident
  | .arithmetic op e0 e1 => by
    have h0 := visitExpr_noMain Symbols e0
    have h1 := visitExpr_noMain Symbols e1
    simp only [visitExpr, visitArithmetic]
    split <;> simp only [List.mem_append, not_or] <;> refine ⟨⟨h0, h1⟩, ?_⟩ <;> split <;> simp
  | .relational op e0 e1 => by
    have h0 := visitExpr_noMain Symbols e0
    have h1 := visitExpr_noMain Symbols e1
    simp only [visitExpr, visitRelational, List.mem_append, not_or]
    refine ⟨⟨h0, h1⟩, ?_⟩
    split <;> simp
  | .unaryArithmetic _ e => by
    have h0 := visitExpr_noMain Symbols e
    simp only [visitExpr, visitUnaryArithmetic, List.mem_append, not_or]
    refine ⟨h0, ?_⟩
    split <;> simp
  | .unaryLogical e => by
    have h0 := visitExpr_noMain Symbols e
    simp only [visitExpr, visitUnaryLogical, List.mem_append, not_or]
    refine ⟨h0, ?_⟩
    split <;> simp
  | .parenthesis e => by
    simpa [visitExpr, visitParenthesis] using visitExpr_noMain Symbols e
  | .value tok _ => by
    simp [visitExpr, visitValue]
  | .logical _ e0 e1 => by
    have h0 := visitExpr_noMain Symbols e0
    have h1 := visitExpr_noMain Symbols e1
    simp only [visitExpr, visitLogical, List.mem_append, not_or]
    refine ⟨⟨h0, h1⟩, ?_⟩
    split <;> simp
theorem visitExprs_noMain (Symbols : SymTable) :
    ∀ es : List Expr, ∀ v ∈ visitExprs Symbols es,
      SemError.noMainProperlyDeclared ∉ v.errors
  | [] => by simp [visitExprs]
  | e :: es => by
    have h0 := visitExpr_noMain Symbols e
    have h1 := visitExprs_noMain Symbols es
    intro v hv
    simp only [visitExprs, List.mem_cons] at hv
    rcases hv with rfl | hv
    · exact h0
    · exact h1 v hv
end

theorem visitLeft_expr_noMain (Symbols : SymTable) (l : Left_expr) :
    SemError.noMainProperlyDeclared ∉ (visitLeft_expr Symbols l).errors := by
  cases l with
  | leftExprIdent ident =>
    simpa [visitLeft_expr, visitExprIdent] using visitIdent_noMain Symbols ident
  | arrayAccessLExpr e0 e1 =>
    have h := visitExpr_noMain Symbols (Expr.arrayAccessExpr e0 e1)
    simpa [visitLeft_expr, visitExpr] using h

theorem visitProcCall_noMain (ident : Visit) (expr : List Visit)
    (hi : SemError.noMainProperlyDeclared ∉ ident.errors)
    (ha : ∀ v ∈ expr, SemError.noMainProperlyDeclared ∉ v.errors) :
    SemError.noMainProperlyDeclared ∉ visitProcCall ident expr := by
  simp only [visitProcCall]
  split
  · exact hi
  · split
    · simp only [List.mem_append, not_or]
      exact ⟨hi, by simp⟩
    · simp only [List.mem_append, not_or, List.mem_flatMap, not_exists, not_and]
      refine ⟨⟨hi, by split <;> simp⟩, ?_⟩
      rintro ⟨i, a⟩ hmem
      have hav : a ∈ expr := List.getElem?_mem (List.mk_mem_enum_iff_getElem?.mp hmem)
      simp only [List.mem_append, not_or]
      refine ⟨ha a hav, ?_⟩
      split
      · split <;> simp
      · simp

mutual
theorem visitStatement_noMain (Symbols : SymTable) (t : TypeId) :
    ∀ s : Statement, SemError.noMainProperlyDeclared ∉ visitStatement Symbols t s
  | .procCall ident args => by
    simp only [visitStatement]
    exact visitProcCall_noMain _ _ (visitIdent_noMain Symbols ident)
      (visitExprs_noMain Symbols args)
  | .writeExpr e => by
    have h := visitExpr_noMain Symbols e
    simp only [visitStatement, visitWriteExpr, List.mem_append, not_or]
    refine ⟨h, ?_⟩
    split <;> simp
  | .whileStmt e ss => by
    have h := visitExpr_noMain Symbols e
    have hs := visitStatements_noMain Symbols t ss
    simp only [visitStatement, visitWhileStmt, List.mem_append, not_or]
    refine ⟨⟨h, ?_⟩, hs⟩
    split <;> simp
  | .ifStmt e s0 none => by
    have h := visitExpr_noMain Symbols e
    have hs := visitStatements_noMain Symbols t s0
    simp only [visitStatement, visitIfStmt, visitElse, List.mem_append, not_or]
    refine ⟨⟨⟨h, ?_⟩, hs⟩, by simp⟩
    split <;> simp
  | .ifStmt e s0 (some s1) => by
    have h := visitExpr_noMain Symbols e
    have hs := visitStatements_noMain Symbols t s0
    have hs1 := visitStatements_noMain Symbols t s1
    simp only [visitStatement, visitIfStmt, visitElse, List.mem_append, not_or]
    refine ⟨⟨⟨h, ?_⟩, hs⟩, hs1⟩
    split <;> simp
  | .readStmt l => by
    have h := visitLeft_expr_noMain Symbols l
    simp only [visitStatement, visitReadStmt, List.mem_append, not_or]
    refine ⟨⟨h, ?_⟩, ?_⟩ <;> split <;> simp
  | .assignStmt l e => by
    have h := visitLeft_expr_noMain Symbols l
    have h1 := visitExpr_noMain Symbols e
    simp only [visitStatement, visitAssignStmt, List.mem_append, not_or]
    refine ⟨⟨⟨h, h1⟩, ?_⟩, ?_⟩ <;> split <;> simp
  | .returnStmt none => by
    simp only [visitStatement, visitReturnStmt, List.mem_append, not_or]
    refine ⟨by simp, ?_⟩
    split <;> simp
  | .returnStmt (some e) => by
    have h := visitExpr_noMain Symbols e
    simp only [visitStatement, visitReturnStmt, List.mem_append, not_or]
    refine ⟨h, ?_⟩
    split <;> simp
  | .writeString _ => by simp [visitStatement]
theorem visitStatements_noMain (Symbols : SymTable) (t : TypeId) :
    ∀ ss : List Statement, SemError.noMainProperlyDeclared ∉ visitStatements Symbols t ss
  | [] => by simp [visitStatements]
  | s :: ss => by
    have h := visitStatement_noMain Symbols t s
    have hs := visitStatements_noMain Symbols t ss
    simp only [visitStatements, List.mem_append, not_or]
    exact ⟨h, hs⟩
end

theorem visitFunctions_noMain (Symbols : SymTable) (Decorations : TreeDecoration)
    (fs : List Function) :
    ∀ i, SemError.noMainProperlyDeclared ∉
      TypeCheckVisitor.visitFunctions Symbols Decorations i fs := by
  induction fs with
  | nil => intro i; simp [TypeCheckVisitor.visitFunctions]
  | cons f fs ih =>
    intro i
    simp only [TypeCheckVisitor.visitFunctions, List.mem_append, not_or]
    exact ⟨visitStatements_noMain _ _ _, ih (i + 1)⟩

theorem find?_of_mem_nodup (l : List Symbol) (s : Symbol)
    (hn : (l.map fun b => b.name).Nodup) (hs : s ∈ l) :
    l.find? (fun b => b.name == s.name) = some s := by
  induction l with
  | nil => cases hs
  | cons a l ih =>
    simp only [List.map_cons, List.nodup_cons] at hn
    rcases List.mem_cons.mp hs with rfl | hs'
    · simp
    · have hne : a.name ≠ s.name := by
        intro h
        exact hn.1 (h ▸ List.mem_map_of_mem (fun b => b.name) hs')
      simp [List.find?_cons, hne, ih hn.2 hs']

theorem visitType_ne_void (ty : TypeNode) : SymbolsVisitor.visitType ty ≠ TypeId.void := by
  obtain ⟨arr, b⟩ := ty
  cases arr <;> cases b <;> simp [SymbolsVisitor.visitType, SymbolsVisitor.visitBasic_type,
    createArrayTy, createIntegerTy, createBooleanTy, createFloatTy, createCharacterTy]

theorem functionSymbol_proper (TypeId0 : TypeId) (f : Function) :
    (match (functionSymbol TypeId0 f).type with
      | .function [] .void => true
      | _ => false) = true ↔ f.params = [] ∧ f.type = none := by
  cases hp : f.params with
  | cons p ps => simp [functionSymbol, hp, paramTypes]
  | nil =>
    cases ht : f.type with
    | none => simp [functionSymbol, hp, paramTypes, declaredReturnType, ht]
    | some ty =>
      have hv := visitType_ne_void ty
      simp only [functionSymbol, hp, paramTypes, declaredReturnType, ht]
      cases hty : SymbolsVisitor.visitType ty <;> simp_all

/-- The diagnostic on `main` is absent from the diagnostics of the Symbol pass
followed by the Type pass exactly when the first function named `main` has no
parameters and no return type. -/
theorem noMain_absent_iff (TypeId0 : TypeId) (Decorations : TreeDecoration) (tree : Program) :
    SemError.noMainProperlyDeclared ∉
        (symbolPass TypeId0 Decorations tree).Errors ++ typePass TypeId0 Decorations tree ↔
      ∃ f, (tree.function.find? fun f => f.ID == "main") = some f ∧
        f.params = [] ∧ f.type = none := by
  obtain ⟨h1, h2⟩ := SymbolsVisitor.symbolPass_spec TypeId0 Decorations tree
  have hsym : SemError.noMainProperlyDeclared ∉ (symbolPass TypeId0 Decorations tree).Errors := by
    rw [h2]
    intro h
    have := List.eq_of_mem_replicate h
    cases this
  have hfun := visitFunctions_noMain
    ((symbolPass TypeId0 Decorations tree).Symbols.pushThisScope
      ((symbolPass TypeId0 Decorations tree).Decorations.getScope []))
    (symbolPass TypeId0 Decorations tree).Decorations tree.function 0
  have hnodup : ((declareAll [] (tree.function.map (functionSymbol TypeId0))).map
      fun b => b.name).Nodup := nodup_declareAll _ [] (by simp)
  have hfind : (declareAll [] (tree.function.map (functionSymbol TypeId0))).find?
      (fun b => b.name == "main") =
      (tree.function.find? fun f => f.ID == "main").map (functionSymbol TypeId0) := by
    rw [find?_declareAll, List.nil_append, List.find?_map]
    rfl
  simp only [typePass, TypeCheckVisitor.visitProgram, List.mem_append, not_or]
  constructor
  · rintro ⟨_, _, hmain⟩
    have hno : SymTable.noMainProperlyDeclared
        ((symbolPass TypeId0 Decorations tree).Symbols.pushThisScope
          ((symbolPass TypeId0 Decorations tree).Decorations.getScope [])) = false := by
      by_contra hc
      simp only [Bool.not_eq_false] at hc
      exact hmain (by simp [hc])
    simp only [SymTable.noMainProperlyDeclared, SymTable.pushThisScope, h1,
      List.getElem?_cons_zero, Bool.not_eq_false', List.any_eq_true, Bool.and_eq_true,
      beq_iff_eq] at hno
    obtain ⟨s, hs, hname, hproper⟩ := hno
    have hf := find?_of_mem_nodup _ s hnodup hs
    rw [hname, hfind] at hf
    cases hfm : tree.function.find? (fun f => f.ID == "main") with
    | none => rw [hfm] at hf; cases hf
    | some f =>
      rw [hfm] at hf
      simp only [Option.map_some', Option.some.injEq] at hf
      subst hf
      exact ⟨f, rfl, (functionSymbol_proper TypeId0 f).mp hproper⟩
  · rintro ⟨f, hf, hp⟩
    refine ⟨hsym, hfun, ?_⟩
    have hno : SymTable.noMainProperlyDeclared
        ((symbolPass TypeId0 Decorations tree).Symbols.pushThisScope
          ((symbolPass TypeId0 Decorations tree).Decorations.getScope [])) = false := by
      simp only [SymTable.noMainProperlyDeclared, SymTable.pushThisScope, h1,
        List.getElem?_cons_zero, Bool.not_eq_false', List.any_eq_true, Bool.and_eq_true,
        beq_iff_eq]
      rw [hf] at hfind
      refine ⟨functionSymbol TypeId0 f, List.mem_of_find?_eq_some hfind, ?_,
        (functionSymbol_proper TypeId0 f).mpr hp⟩
      have := List.find?_some hfind
      simpa using this
    simp [hno]

/-- Claim C14, as stated, fails on `func main(a : int) endfunc  func main() endfunc`:
the program declares a function named `main` with no parameters and no return
type, and `noMainProperlyDeclared` is reported all the same. -/
theorem main_declared_counterexample :
    (∃ f ∈ exampleTwoMains.function,
      f.ID = "main" ∧ f.parameters = none ∧ f.type = none) ∧
    ∀ (TypeId0 : TypeId) (Decorations : TreeDecoration),
      SemError.noMainProperlyDeclared ∈
        (symbolPass TypeId0 Decorations exampleTwoMains).Errors ++
          typePass TypeId0 Decorations exampleTwoMains := by
  refine ⟨⟨_, List.mem_cons_of_mem _ (List.mem_singleton.mpr rfl), rfl, rfl, rfl⟩, ?_⟩
  intro TypeId0 Decorations
  by_contra h
  obtain ⟨f, hf, hp, _⟩ := (noMain_absent_iff TypeId0 Decorations exampleTwoMains).mp h
  have hfirst : (exampleTwoMains.function.find? fun f => f.ID == "main") =
      some { ID := "main", parameters := some [("a", ⟨none, Basic_type.INT⟩)], type := none,
             declarations := [], statements := [] } := by
    rfl
  rw [hfirst] at hf
  cases hf
  simp [Function.params] at hp

/-- Claim C14, amended: after the Symbol pass followed by the Type pass,
`noMainProperlyDeclared` is absent if and only if the first function named `main`
that the program declares has no parameters and no return type. -/
theorem main_properly_declared (TypeId0 : TypeId) (Decorations : TreeDecoration)
    (tree : Program) :
    SemError.noMainProperlyDeclared ∉
        (symbolPass TypeId0 Decorations tree).Errors ++ typePass TypeId0 Decorations tree ↔
      ∃ f, (tree.function.find? fun f => f.ID == "main") = some f ∧
        f.params = [] ∧ f.type = none :=
  noMain_absent_iff TypeId0 Decorations tree

/-! ## Symbol pass on programs with repeated names -/

/-- Claim C16, the code at the failing input
`func f(a : int, a : float, a : bool) endfunc`: the name `f` is not bound before,
and the function type registered for it has the value-initialised `TypeId0` at
the positions of the second and third parameter, whatever `TypeId0` is, instead
of the types `float` and `bool` written for them. -/
theorem symbol_pass_repeated_parameter :
    (exampleRepeatedParameter.function.map fun f =>
        f.params.map fun p => SymbolsVisitor.visitType p.2) =
      [[TypeId.integer, TypeId.float, TypeId.boolean]] ∧
    ∀ (TypeId0 : TypeId) (Decorations : TreeDecoration),
      (symbolPass TypeId0 Decorations exampleRepeatedParameter).Symbols.scopes[0]? =
        some ⟨SymTable.GLOBAL_SCOPE_NAME,
          [⟨"f", SymClass.function,
            TypeId.function [TypeId.integer, TypeId0, TypeId0] TypeId.void⟩]⟩ ∧
      TypeId.function [TypeId.integer, TypeId0, TypeId0] TypeId.void ≠
        TypeId.function [TypeId.integer, TypeId.float, TypeId.boolean] TypeId.void := by
  refine ⟨rfl, ?_⟩
  intro TypeId0 Decorations
  obtain ⟨h1, _⟩ := SymbolsVisitor.symbolPass_spec TypeId0 Decorations exampleRepeatedParameter
  refine ⟨?_, ?_⟩
  · rw [h1]
    simp [exampleRepeatedParameter, declareAll, functionSymbol, paramTypes, Function.params,
      declaredReturnType]
    rfl
  · intro h
    injection h with h _
    injection h with _ h
    injection h with h1 h
    injection h with h2 _
    rw [h1] at h2
    cases h2

/-- Claim C17, the code at the failing input
`func f() endfunc  func f() : int  return 1  endfunc`: after the Symbol pass,
started on a table without decorations, the return `type` node of the second
function and its `basic_type` child carry no type decoration. -/
theorem symbol_pass_redeclared_function_type :
    ∀ (TypeId0 : TypeId) (noScope : Nat) (noType : TypeId) (noIsLValue : Bool),
      (symbolPass TypeId0 (TreeDecoration.empty noScope noType noIsLValue)
          exampleRedeclaredFunction).Decorations.hasType [1, 1] = false ∧
      (symbolPass TypeId0 (TreeDecoration.empty noScope noType noIsLValue)
          exampleRedeclaredFunction).Decorations.hasType [1, 1, 0] = false ∧
      (symbolPass TypeId0 (TreeDecoration.empty noScope noType noIsLValue)
          exampleRedeclaredFunction).Errors = [SemError.declaredIdent] := by
  intro TypeId0 noScope noType noIsLValue
  refine ⟨rfl, rfl, rfl⟩

/-! ## Code pass: arithmetic -/

/-- Claim C19, the code at the failing input `5 % 2`, an expression the Type pass
accepts without diagnostic: the Code pass returns the temporary `%3` as the
address of the value, and the returned code holds no instruction that assigns
`%3`. -/
theorem codegen_mod_unassigned :
    (TypeCheckVisitor.visitExpr exampleSymbols
        (Expr.arithmetic ArithOp.MOD (Expr.value ValueTok.INTVAL "5")
          (Expr.value ValueTok.INTVAL "2"))).errors = [] ∧
    CodeGenVisitor.visitExpr exampleSymbols
        (Expr.arithmetic ArithOp.MOD (Expr.value ValueTok.INTVAL "5")
          (Expr.value ValueTok.INTVAL "2")) ⟨1, 1, 1⟩ =
      some (⟨"%3", "", [instruction.ILOAD "%1" "5", instruction.ILOAD "%2" "2"]⟩, ⟨4, 1, 1⟩) ∧
    ∀ i ∈ [instruction.ILOAD "%1" "5", instruction.ILOAD "%2" "2"],
      instruction.dest i ≠ some "%3" := by
  refine ⟨rfl, rfl, ?_⟩
  decide

/-- Claim C20: for a binary arithmetic node with operator `+`, `-`, `*` or `/`
whose operands lower to `codAt1` and `codAt2`, with `t` the temporary numbered by
the counter after the operands and `t'` the next one: if the node's decorated
type is float, the code is that of the operands, then `FLOAT t' a` for the
operand of integer type (at most one operand is integer, and there is none when
neither is), then the float opcode into `t` with the promoted operand replaced
by `t'`; otherwise it is the code of the operands and the integer opcode into `t`
on the two addresses.  The result is `(t, "", code)`. -/
theorem codegen_arithmetic (Symbols : SymTable) (op : ArithOp) (expr0 expr1 : Expr)
    (c c1 c2 : counters) (codAt1 codAt2 : CodeGenVisitor.CodeAttribs)
    (fop iop : String → String → String → instruction)
    (hf : floatOpcode op = some fop) (hi : integerOpcode op = some iop)
    (h1 : CodeGenVisitor.visitExpr Symbols expr0 c = some (codAt1, c1))
    (h2 : CodeGenVisitor.visitExpr Symbols expr1 c1 = some (codAt2, c2)) :
    (isFloatTy (visitExpr Symbols (Expr.arithmetic op expr0 expr1)).type = true →
      ¬(isIntegerTy (visitExpr Symbols expr0).type = true ∧
        isIntegerTy (visitExpr Symbols expr1).type = true)) ∧
    (isFloatTy (visitExpr Symbols (Expr.arithmetic op expr0 expr1)).type = true →
      isIntegerTy (visitExpr Symbols expr0).type = true →
      CodeGenVisitor.visitExpr Symbols (Expr.arithmetic op expr0 expr1) c =
        some (⟨"%" ++ toString c2.TEMP, "",
          codAt1.code ++ codAt2.code ++
            [instruction.FLOAT ("%" ++ toString (c2.TEMP + 1)) codAt1.addr,
              fop ("%" ++ toString c2.TEMP) ("%" ++ toString (c2.TEMP + 1)) codAt2.addr]⟩,
          { c2 with TEMP := c2.TEMP + 2 })) ∧
    (isFloatTy (visitExpr Symbols (Expr.arithmetic op expr0 expr1)).type = true →
      isIntegerTy (visitExpr Symbols expr1).type = true →
      CodeGenVisitor.visitExpr Symbols (Expr.arithmetic op expr0 expr1) c =
        some (⟨"%" ++ toString c2.TEMP, "",
          codAt1.code ++ codAt2.code ++
            [instruction.FLOAT ("%" ++ toString (c2.TEMP + 1)) codAt2.addr,
              fop ("%" ++ toString c2.TEMP) codAt1.addr ("%" ++ toString (c2.TEMP + 1))]⟩,
          { c2 with TEMP := c2.TEMP + 2 })) ∧
    (isFloatTy (visitExpr Symbols (Expr.arithmetic op expr0 expr1)).type = true →
      isIntegerTy (visitExpr Symbols expr0).type = false →
      isIntegerTy (visitExpr Symbols expr1).type = false →
      CodeGenVisitor.visitExpr Symbols (Expr.arithmetic op expr0 expr1) c =
        some (⟨"%" ++ toString c2.TEMP, "",
          codAt1.code ++ codAt2.code ++
            [fop ("%" ++ toString c2.TEMP) codAt1.addr codAt2.addr]⟩,
          { c2 with TEMP := c2.TEMP + 1 })) ∧
    (isFloatTy (visitExpr Symbols (Expr.arithmetic op expr0 expr1)).type = false →
      CodeGenVisitor.visitExpr Symbols (Expr.arithmetic op expr0 expr1) c =
        some (⟨"%" ++ toString c2.TEMP, "",
          codAt1.code ++ codAt2.code ++
            [iop ("%" ++ toString c2.TEMP) codAt1.addr codAt2.addr]⟩,
          { c2 with TEMP := c2.TEMP + 1 })) := by
  have hfa : ∀ t a b, CodeGenVisitor.floatArithmetic op t a b = [fop t a b] := by
    intro t a b
    cases op <;> simp [floatOpcode] at hf <;> subst hf <;> rfl
  have hia : ∀ t a b, CodeGenVisitor.integerArithmetic op t a b = [iop t a b] := by
    intro t a b
    cases op <;> simp [integerOpcode] at hi <;> subst hi <;> rfl
  have hop : op ≠ ArithOp.MOD := by
    intro h; subst h; simp [floatOpcode] at hf
  have hexcl : isFloatTy (visitExpr Symbols (Expr.arithmetic op expr0 expr1)).type = true →
      ¬(isIntegerTy (visitExpr Symbols expr0).type = true ∧
        isIntegerTy (visitExpr Symbols expr1).type = true) := by
    intro hfl ⟨hi0, hi1⟩
    simp only [visitExpr, TypeCheckVisitor.visitArithmetic, hop, if_false] at hfl
    cases h0 : (visitExpr Symbols expr0).type <;> simp [h0, isIntegerTy] at hi0
    cases h1' : (visitExpr Symbols expr1).type <;> simp [h1', isIntegerTy] at hi1
    simp [h0, h1', isFloatTy, createIntegerTy] at hfl
  refine ⟨hexcl, ?_, ?_, ?_, ?_⟩
  · intro hfl hi0
    simp [CodeGenVisitor.visitExpr, h1, h2, CodeGenVisitor.visitArithmetic, hfl, hi0, hfa,
      counters.newTEMP]
  · intro hfl hi1
    have hi0 : isIntegerTy (visitExpr Symbols expr0).type = false := by
      by_contra hc
      exact hexcl hfl ⟨by simpa using hc, hi1⟩
    simp [CodeGenVisitor.visitExpr, h1, h2, CodeGenVisitor.visitArithmetic, hfl, hi0, hi1, hfa,
      counters.newTEMP]
  · intro hfl hi0 hi1
    simp [CodeGenVisitor.visitExpr, h1, h2, CodeGenVisitor.visitArithmetic, hfl, hi0, hi1, hfa,
      counters.newTEMP]
  · intro hfl
    simp [CodeGenVisitor.visitExpr, h1, h2, CodeGenVisitor.visitArithmetic, hfl, hia,
      counters.newTEMP]

/-! ## Type pass: every expression node of a valid program is decorated -/

theorem hasType_putDecor_self (d : TreeDecoration) (ctx : Node) (v : Visit) :
    (putDecor d ctx v).hasType ctx = true := by
  simp [putDecor, TreeDecoration.hasType, TreeDecoration.putType, TreeDecoration.putIsLValue,
    List.lookup]

theorem hasType_putDecor (d : TreeDecoration) (ctx : Node) (v : Visit) (n : Node)
    (h : d.hasType n = true) : (putDecor d ctx v).hasType n = true := by
  simp only [putDecor, TreeDecoration.hasType, TreeDecoration.putType,
    TreeDecoration.putIsLValue, List.lookup] at *
  split
  · rfl
  · exact h

mutual
theorem hasType_decorateExpr (Symbols : SymTable) (n : Node) :
    ∀ (e : Expr) (ctx : Node) (d : TreeDecoration), d.hasType n = true →
      (decorateExpr Symbols ctx e d).hasType n = true
  | .arrayAccessExpr e0 e1, ctx, d, h => by
    simp only [decorateExpr]
    exact hasType_putDecor _ _ _ _
      (hasType_decorateExpr Symbols n e0 _ _ (hasType_decorateExpr Symbols n e1 _ _ h))
  | .funcExpr ident args, ctx, d, h => by
    simp only [decorateExpr]
    exact hasType_putDecor _ _ _ _
      (hasType_decorateExprs Symbols n args _ _ _ (hasType_putDecor _ _ _ _ h))
  | .exprIdent ident, ctx, d, h => by
    simp only [decorateExpr]
    exact hasType_putDecor _ _ _ _ (hasType_putDecor _ _ _ _ h)
  | .arithmetic op e0 e1, ctx, d, h => by
    simp only [decorateExpr]
    exact hasType_putDecor _ _ _ _
      (hasType_decorateExpr Symbols n e1 _ _ (hasType_decorateExpr Symbols n e0 _ _ h))
  | .relational op e0 e1, ctx, d, h => by
    simp only [decorateExpr]
    exact hasType_putDecor _ _ _ _
      (hasType_decorateExpr Symbols n e1 _ _ (hasType_decorateExpr Symbols n e0 _ _ h))
  | .unaryArithmetic op e, ctx, d, h => by
    simp only [decorateExpr]
    exact hasType_putDecor _ _ _ _ (hasType_decorateExpr Symbols n e _ _ h)
  | .unaryLogical e, ctx, d, h => by
    simp only [decorateExpr]
    exact hasType_putDecor _ _ _ _ (hasType_decorateExpr Symbols n e _ _ h)
  | .parenthesis e, ctx, d, h => by
    simp only [decorateExpr]
    exact hasType_putDecor _ _ _ _ (hasType_decorateExpr Symbols n e _ _ h)
  | .value tok text, ctx, d, h => by
    simp only [decorateExpr]
    exact hasType_putDecor _ _ _ _ h
  | .logical op e0 e1, ctx, d, h => by
    simp only [decorateExpr]
    exact hasType_putDecor _ _ _ _
      (hasType_decorateExpr Symbols n e1 _ _ (hasType_decorateExpr Symbols n e0 _ _ h))
theorem hasType_decorateExprs (Symbols : SymTable) (n : Node) :
    ∀ (es : List Expr) (ctx : Node) (i : Nat) (d : TreeDecoration), d.hasType n = true →
      (decorateExprs Symbols ctx i es d).hasType n = true
  | [], ctx, i, d, h => by simpa [decorateExprs] using h
  | e :: es, ctx, i, d, h => by
    simp only [decorateExprs]
    exact hasType_decorateExprs Symbols n es _ _ _ (hasType_decorateExpr Symbols n e _ _ h)
end

mutual
theorem exprNodes_decorated (Symbols : SymTable) :
    ∀ (e : Expr) (ctx : Node) (d : TreeDecoration), ∀ n ∈ exprNodes ctx e,
      (decorateExpr Symbols ctx e d).hasType n = true
  | .arrayAccessExpr e0 e1, ctx, d, n, hn => by
    simp only [exprNodes, List.mem_cons, List.mem_append] at hn
    simp only [decorateExpr]
    rcases hn with rfl | hn | hn
    · exact hasType_putDecor_self _ _ _
    · exact hasType_putDecor _ _ _ _ (exprNodes_decorated Symbols e0 _ _ n hn)
    · exact hasType_putDecor _ _ _ _
        (hasType_decorateExpr Symbols n e0 _ _ (exprNodes_decorated Symbols e1 _ _ n hn))
  | .funcExpr ident args, ctx, d, n, hn => by
    simp only [exprNodes, List.mem_cons] at hn
    simp only [decorateExpr]
    rcases hn with rfl | hn
    · exact hasType_putDecor_self _ _ _
    · exact hasType_putDecor _ _ _ _ (exprsNodes_decorated Symbols args _ _ _ n hn)
  | .exprIdent ident, ctx, d, n, hn => by
    simp only [exprNodes, List.mem_singleton] at hn
    subst hn
    simp only [decorateExpr]
    exact hasType_putDecor_self _ _ _
  | .arithmetic op e0 e1, ctx, d, n, hn => by
    simp only [exprNodes, List.mem_cons, List.mem_append] at hn
    simp only [decorateExpr]
    rcases hn with rfl | hn | hn
    · exact hasType_putDecor_self _ _ _
    · exact hasType_putDecor _ _ _ _
        (hasType_decorateExpr Symbols n e1 _ _ (exprNodes_decorated Symbols e0 _ _ n hn))
    · exact hasType_putDecor _ _ _ _ (exprNodes_decorated Symbols e1 _ _ n hn)
  | .relational op e0 e1, ctx, d, n, hn => by
    simp only [exprNodes, List.mem_cons, List.mem_append] at hn
    simp only [decorateExpr]
    rcases hn with rfl | hn | hn
    · exact hasType_putDecor_self _ _ _
    · exact hasType_putDecor _ _ _ _
        (hasType_decorateExpr Symbols n e1 _ _ (exprNodes_decorated Symbols e0 _ _ n hn))
    · exact hasType_putDecor _ _ _ _ (exprNodes_decorated Symbols e1 _ _ n hn)
  | .unaryArithmetic op e, ctx, d, n, hn => by
    simp only [exprNodes, List.mem_cons] at hn
    simp only [decorateExpr]
    rcases hn with rfl | hn
    · exact hasType_putDecor_self _ _ _
    · exact hasType_putDecor _ _ _ _ (exprNodes_decorated Symbols e _ _ n hn)
  | .unaryLogical e, ctx, d, n, hn => by
    simp only [exprNodes, List.mem_cons] at hn
    simp only [decorateExpr]
    rcases hn with rfl | hn
    · exact hasType_putDecor_self _ _ _
    · exact hasType_putDecor _ _ _ _ (exprNodes_decorated Symbols e _ _ n hn)
  | .parenthesis e, ctx, d, n, hn => by
    simp only [exprNodes, List.mem_cons] at hn
    simp only [decorateExpr]
    rcases hn with rfl | hn
    · exact hasType_putDecor_self _ _ _
    · exact hasType_putDecor _ _ _ _ (exprNodes_decorated Symbols e _ _ n hn)
  | .value tok text, ctx, d, n, hn => by
    simp only [exprNodes, List.mem_singleton] at hn
    subst hn
    simp only [decorateExpr]
    exact hasType_putDecor_self _ _ _
  | .logical op e0 e1, ctx, d, n, hn => by
    simp only [exprNodes, List.mem_cons, List.mem_append] at hn
    simp only [decorateExpr]
    rcases hn with rfl | hn | hn
    · exact hasType_putDecor_self _ _ _
    · exact hasType_putDecor _ _ _ _
        (hasType_decorateExpr Symbols n e1 _ _ (exprNodes_decorated Symbols e0 _ _ n hn))
    · exact hasType_putDecor _ _ _ _ (exprNodes_decorated Symbols e1 _ _ n hn)
theorem exprsNodes_decorated (Symbols : SymTable) :
    ∀ (es : List Expr) (ctx : Node) (i : Nat) (d : TreeDecoration), ∀ n ∈ exprsNodes ctx i es,
      (decorateExprs Symbols ctx i es d).hasType n = true
  | [], ctx, i, d, n, hn => by simp [exprsNodes] at hn
  | e :: es, ctx, i, d, n, hn => by
    simp only [exprsNodes, List.mem_append] at hn
    simp only [decorateExprs]
    rcases hn with hn | hn
    · exact hasType_decorateExprs Symbols n es _ _ _ (exprNodes_decorated Symbols e _ _ n hn)
    · exact exprsNodes_decorated Symbols es _ _ _ n hn
end

theorem hasType_decorateLeft_expr (Symbols : SymTable) (n : Node) (l : Left_expr) (ctx : Node)
    (d : TreeDecoration) (h : d.hasType n = true) :
    (decorateLeft_expr Symbols ctx l d).hasType n = true := by
  cases l with
  | leftExprIdent ident =>
    simp only [decorateLeft_expr]
    exact hasType_putDecor _ _ _ _ (hasType_putDecor _ _ _ _ h)
  | arrayAccessLExpr e0 e1 =>
    simp only [decorateLeft_expr]
    exact hasType_putDecor _ _ _ _
      (hasType_decorateExpr Symbols n e0 _ _ (hasType_decorateExpr Symbols n e1 _ _ h))

theorem left_exprNodes_decorated (Symbols : SymTable) (l : Left_expr) (ctx : Node)
    (d : TreeDecoration) : ∀ n ∈ left_exprNodes ctx l,
      (decorateLeft_expr Symbols ctx l d).hasType n = true := by
  intro n hn
  cases l with
  | leftExprIdent ident =>
    simp only [left_exprNodes, List.mem_singleton] at hn
    subst hn
    simp only [decorateLeft_expr]
    exact hasType_putDecor_self _ _ _
  | arrayAccessLExpr e0 e1 =>
    simp only [left_exprNodes, List.mem_cons, List.mem_append] at hn
    simp only [decorateLeft_expr]
    rcases hn with rfl | hn | hn
    · exact hasType_putDecor_self _ _ _
    · exact hasType_putDecor _ _ _ _ (exprNodes_decorated Symbols e0 _ _ n hn)
    · exact hasType_putDecor _ _ _ _
        (hasType_decorateExpr Symbols n e0 _ _ (exprNodes_decorated Symbols e1 _ _ n hn))

mutual
theorem hasType_decorateStatement (Symbols : SymTable) (n : Node) :
    ∀ (s : Statement) (ctx : Node) (d : TreeDecoration), d.hasType n = true →
      (decorateStatement Symbols ctx s d).hasType n = true
  | .procCall ident args, ctx, d, h => by
    simp only [decorateStatement]
    split
    · exact hasType_putDecor _ _ _ _ h
    · split
      · exact hasType_putDecor _ _ _ _ h
      · exact hasType_decorateExprs Symbols n args _ _ _ (hasType_putDecor _ _ _ _ h)
  | .writeExpr e, ctx, d, h => by
    simp only [decorateStatement]
    exact hasType_decorateExpr Symbols n e _ _ h
  | .whileStmt e ss, ctx, d, h => by
    simp only [decorateStatement]
    exact hasType_decorateStatements Symbols n ss _ _ _ (hasType_decorateExpr Symbols n e _ _ h)
  | .ifStmt e s0 none, ctx, d, h => by
    simp only [decorateStatement, decorateElse]
    exact hasType_decorateStatements Symbols n s0 _ _ _ (hasType_decorateExpr Symbols n e _ _ h)
  | .ifStmt e s0 (some s1), ctx, d, h => by
    simp only [decorateStatement, decorateElse]
    exact hasType_decorateStatements Symbols n s1 _ _ _
      (hasType_decorateStatements Symbols n s0 _ _ _ (hasType_decorateExpr Symbols n e _ _ h))
  | .readStmt l, ctx, d, h => by
    simp only [decorateStatement]
    exact hasType_decorateLeft_expr Symbols n l _ _ h
  | .assignStmt l e, ctx, d, h => by
    simp only [decorateStatement]
    exact hasType_decorateExpr Symbols n e _ _ (hasType_decorateLeft_expr Symbols n l _ _ h)
  | .returnStmt none, ctx, d, h => by
    simpa only [decorateStatement] using h
  | .returnStmt (some e), ctx, d, h => by
    simp only [decorateStatement]
    exact hasType_decorateExpr Symbols n e _ _ h
  | .writeString _, ctx, d, h => by
    simpa only [decorateStatement] using h
theorem hasType_decorateStatements (Symbols : SymTable) (n : Node) :
    ∀ (ss : List Statement) (ctx : Node) (i : Nat) (d : TreeDecoration), d.hasType n = true →
      (decorateStatements Symbols ctx i ss d).hasType n = true
  | [], ctx, i, d, h => by simpa [decorateStatements] using h
  | s :: ss, ctx, i, d, h => by
    simp only [decorateStatements]
    exact hasType_decorateStatements Symbols n ss _ _ _
      (hasType_decorateStatement Symbols n s _ _ h)
end

theorem lookup_nonError (scopes : List Scope) (ident : String)
    (h : ∀ sc ∈ scopes, ∀ b ∈ sc.symbols, isErrorTy b.type = false) :
    ∀ (stack : List Nat) (id : Nat) (s : Symbol),
      SymTable.lookup scopes ident stack = some (id, s) → isErrorTy s.type = false := by
  intro stack
  induction stack with
  | nil => intro id s hl; simp [SymTable.lookup] at hl
  | cons k rest ih =>
    intro id s hl
    simp only [SymTable.lookup] at hl
    cases hb : (scopes.get? k).bind (fun sc => SymTable.findInScope sc ident) with
    | none =>
      rw [hb] at hl
      exact ih id s hl
    | some b =>
      rw [hb] at hl
      simp only [Option.some.injEq, Prod.mk.injEq] at hl
      obtain ⟨_, rfl⟩ := hl
      cases hg : scopes.get? k with
      | none => rw [hg] at hb; simp at hb
      | some sc =>
        rw [hg] at hb
        simp only [Option.some_bind, SymTable.findInScope] at hb
        have hsc : sc ∈ scopes := List.getElem?_mem (by simpa [List.get?_eq_getElem?] using hg)
        exact h sc hsc b (List.mem_of_find?_eq_some hb)

theorem procCall_callee_function (Symbols : SymTable) (hS : Symbols.AllNonError)
    (ident : String) (args : List Visit)
    (h : visitProcCall (visitIdent Symbols ident) args = []) :
    isErrorTy (visitIdent Symbols ident).type = false ∧
      isFunctionTy (visitIdent Symbols ident).type = true := by
  have herr : (visitIdent Symbols ident).errors = [] := by
    simp only [visitProcCall] at h
    split at h
    · exact h
    · split at h
      · simp at h
      · simp only [List.append_eq_nil] at h
        exact h.1.1
  have hne : isErrorTy (visitIdent Symbols ident).type = false := by
    unfold visitIdent at herr ⊢
    split
    · rename_i hf
      simp [hf] at herr
    · cases hl : SymTable.lookup Symbols.scopes ident Symbols.stack with
      | none =>
        rename_i hf
        simp [SymTable.findInStack, hl] at hf
      | some p =>
        have := lookup_nonError Symbols.scopes ident hS Symbols.stack p.1 p.2 hl
        split <;> simpa [SymTable.getType, hl] using this
  refine ⟨hne, ?_⟩
  simp only [visitProcCall, hne] at h
  by_contra hc
  simp [hc] at h

mutual
theorem statementNodes_decorated (Symbols : SymTable) (hS : Symbols.AllNonError) (t : TypeId) :
    ∀ (s : Statement) (ctx : Node) (d : TreeDecoration), visitStatement Symbols t s = [] →
      ∀ n ∈ statementNodes ctx s, (decorateStatement Symbols ctx s d).hasType n = true
  | .procCall ident args, ctx, d, herr, n, hn => by
    simp only [visitStatement] at herr
    obtain ⟨h1, h2⟩ := procCall_callee_function Symbols hS ident _ herr
    simp only [statementNodes] at hn
    simp only [decorateStatement, h1, h2]
    exact exprsNodes_decorated Symbols args _ _ _ n hn
  | .writeExpr e, ctx, d, herr, n, hn => by
    simp only [statementNodes] at hn
    simp only [decorateStatement]
    exact exprNodes_decorated Symbols e _ _ n hn
  | .whileStmt e ss, ctx, d, herr, n, hn => by
    simp only [visitStatement, visitWhileStmt, List.append_eq_nil] at herr
    simp only [statementNodes, List.mem_append] at hn
    simp only [decorateStatement]
    rcases hn with hn | hn
    · exact hasType_decorateStatements Symbols n ss _ _ _ (exprNodes_decorated Symbols e _ _ n hn)
    · exact statementsNodes_decorated Symbols hS t ss _ _ _ herr.2 n hn
  | .ifStmt e s0 none, ctx, d, herr, n, hn => by
    simp only [visitStatement, visitIfStmt, List.append_eq_nil] at herr
    simp only [statementNodes, elseNodes, List.mem_append, List.not_mem_nil, or_false] at hn
    simp only [decorateStatement, decorateElse]
    rcases hn with hn | hn
    · exact hasType_decorateStatements Symbols n s0 _ _ _ (exprNodes_decorated Symbols e _ _ n hn)
    · exact statementsNodes_decorated Symbols hS t s0 _ _ _ herr.1.2 n hn
  | .ifStmt e s0 (some s1), ctx, d, herr, n, hn => by
    simp only [visitStatement, visitIfStmt, visitElse, List.append_eq_nil] at herr
    simp only [statementNodes, elseNodes, List.mem_append] at hn
    simp only [decorateStatement, decorateElse]
    rcases hn with (hn | hn) | hn
    · exact hasType_decorateStatements Symbols n s1 _ _ _
        (hasType_decorateStatements Symbols n s0 _ _ _ (exprNodes_decorated Symbols e _ _ n hn))
    · exact hasType_decorateStatements Symbols n s1 _ _ _
        (statementsNodes_decorated Symbols hS t s0 _ _ _ herr.1.2 n hn)
    · exact statementsNodes_decorated Symbols hS t s1 _ _ _ herr.2 n hn
  | .readStmt l, ctx, d, herr, n, hn => by
    simp only [statementNodes] at hn
    simp only [decorateStatement]
    exact left_exprNodes_decorated Symbols l _ _ n hn
  | .assignStmt l e, ctx, d, herr, n, hn => by
    simp only [statementNodes, List.mem_append] at hn
    simp only [decorateStatement]
    rcases hn with hn | hn
    · exact hasType_decorateExpr Symbols n e _ _ (left_exprNodes_decorated Symbols l _ _ n hn)
    · exact exprNodes_decorated Symbols e _ _ n hn
  | .returnStmt none, ctx, d, herr, n, hn => by
    simp [statementNodes] at hn
  | .returnStmt (some e), ctx, d, herr, n, hn => by
    simp only [statementNodes] at hn
    simp only [decorateStatement]
    exact exprNodes_decorated Symbols e _ _ n hn
  | .writeString _, ctx, d, herr, n, hn => by
    simp [statementNodes] at hn
theorem statementsNodes_decorated (Symbols : SymTable) (hS : Symbols.AllNonError) (t : TypeId) :
    ∀ (ss : List Statement) (ctx : Node) (i : Nat) (d : TreeDecoration),
      visitStatements Symbols t ss = [] →
      ∀ n ∈ statementsNodes ctx i ss, (decorateStatements Symbols ctx i ss d).hasType n = true
  | [], ctx, i, d, herr, n, hn => by simp [statementsNodes] at hn
  | s :: ss, ctx, i, d, herr, n, hn => by
    simp only [visitStatements, List.append_eq_nil] at herr
    simp only [statementsNodes, List.mem_append] at hn
    simp only [decorateStatements]
    rcases hn with hn | hn
    · exact hasType_decorateStatements Symbols n ss _ _ _
        (statementNodes_decorated Symbols hS t s _ _ herr.1 n hn)
    · exact statementsNodes_decorated Symbols hS t ss _ _ _ herr.2 n hn
end

theorem symbolPass_allNonError (TypeId0 : TypeId) (Decorations : TreeDecoration)
    (tree : Program) : (symbolPass TypeId0 Decorations tree).Symbols.AllNonError := by
  obtain ⟨h1, _⟩ := SymbolsVisitor.symbolPass_spec TypeId0 Decorations tree
  intro sc hsc b hb
  rw [h1] at hsc
  simp only [List.mem_cons, List.mem_map] at hsc
  rcases hsc with rfl | ⟨f, _, rfl⟩
  · rcases mem_declareAll _ [] b hb with h | h
    · cases h
    · obtain ⟨f, _, rfl⟩ := List.mem_map.mp h
      rfl
  · rcases mem_declareAll _ [] b hb with h | h
    · cases h
    · simp only [declaredSymbols, declaredParameters, declaredLocals, List.mem_append,
        List.mem_map, List.mem_flatMap] at h
      rcases h with ⟨p, _, rfl⟩ | ⟨dcl, _, id, _, rfl⟩
      · exact visitType_ne_error p.2
      · exact visitType_ne_error dcl.type

theorem hasType_decorateFunctions (Symbols : SymTable) (Decorations : TreeDecoration) (n : Node)
    (fs : List Function) :
    ∀ (i : Nat) (d : TreeDecoration), d.hasType n = true →
      (TypeCheckVisitor.decorateFunctions Symbols Decorations i fs d).hasType n = true := by
  induction fs with
  | nil => intro i d h; simpa [TypeCheckVisitor.decorateFunctions] using h
  | cons f fs ih =>
    intro i d h
    simp only [TypeCheckVisitor.decorateFunctions]
    exact ih _ _ (hasType_decorateStatements _ n f.statements _ _ _ h)

theorem functions_decorated (Symbols : SymTable) (hS : Symbols.AllNonError)
    (Decorations : TreeDecoration) (fs : List Function) :
    ∀ (i : Nat) (d : TreeDecoration),
      TypeCheckVisitor.visitFunctions Symbols Decorations i fs = [] →
      ∀ j f, fs[j]? = some f → ∀ n ∈ statementsNodes [i + j, 3] 0 f.statements,
        (TypeCheckVisitor.decorateFunctions Symbols Decorations i fs d).hasType n = true := by
  induction fs with
  | nil => intro i d _ j f hf; simp at hf
  | cons g fs ih =>
    intro i d herr j f hf n hn
    simp only [TypeCheckVisitor.visitFunctions, List.append_eq_nil] at herr
    simp only [TypeCheckVisitor.decorateFunctions]
    cases j with
    | zero =>
      simp only [List.getElem?_cons_zero, Option.some.injEq] at hf
      subst hf
      apply hasType_decorateFunctions
      have hS' : (Symbols.pushThisScope (Decorations.getScope [i])).AllNonError := hS
      exact statementsNodes_decorated _ hS' _ g.statements _ _ _ herr.1 n hn
    | succ j =>
      simp only [List.getElem?_cons_succ] at hf
      have e : i + 1 + j = i + (j + 1) := by omega
      exact ih (i + 1) _ herr.2 j f hf n (by rw [e]; exact hn)

/-- Claim C18: for a program on which the Type pass, run after the Symbol pass,
emits no diagnostic — in particular for a valid program, on which neither pass
emits one — after the Type pass every expression node and every left-expression
node below the `statements` of every function, the arguments of call statements
included, carries a type decoration. -/
theorem type_pass_decorates_expressions (TypeId0 : TypeId) (Decorations : TreeDecoration)
    (tree : Program)
    (htype : typePass TypeId0 Decorations tree = []) :
    ∀ i f, tree.function[i]? = some f →
      ∀ n ∈ statementsNodes [i, 3] 0 f.statements,
        (typePassDecorations TypeId0 Decorations tree).hasType n = true := by
  intro i f hf n hn
  simp only [typePass, TypeCheckVisitor.visitProgram, List.append_eq_nil] at htype
  have hS : ((symbolPass TypeId0 Decorations tree).Symbols.pushThisScope
      ((symbolPass TypeId0 Decorations tree).Decorations.getScope [])).AllNonError :=
    symbolPass_allNonError TypeId0 Decorations tree
  have := functions_decorated _ hS (symbolPass TypeId0 Decorations tree).Decorations
    tree.function 0 (symbolPass TypeId0 Decorations tree).Decorations htype.1 i f hf n
    (by simpa using hn)
  exact this

/-! ## Instances on concrete inputs, continued -/

/-- Instance of claim C18 on
`func p(y : float) endfunc  func main() var x : float  p(x + 1)  endfunc`: the
Type pass emits no diagnostic, and the three expression nodes of the argument
`x + 1` carry a type decoration. -/
theorem type_pass_decorates_expressions_witness :
    typePass TypeId.error (TreeDecoration.empty 0 TypeId.error false) exampleValidProgram = [] ∧
    statementsNodes [1, 3] 0
        [Statement.procCall "p"
          [Expr.arithmetic ArithOp.PLUS (Expr.exprIdent "x") (Expr.value ValueTok.INTVAL "1")]] =
      [[1, 3, 0, 1], [1, 3, 0, 1, 0], [1, 3, 0, 1, 1]] ∧
    ∀ i f, exampleValidProgram.function[i]? = some f →
      ∀ n ∈ statementsNodes [i, 3] 0 f.statements,
        (typePassDecorations TypeId.error (TreeDecoration.empty 0 TypeId.error false)
          exampleValidProgram).hasType n = true :=
  ⟨rfl, rfl,
    type_pass_decorates_expressions TypeId.error (TreeDecoration.empty 0 TypeId.error false)
      exampleValidProgram rfl⟩

/-- Instance of claim C20 on `x + 2` with `x : float`: the operands lower to
`(x, "", [])` and `(%1, "", [ILOAD %1 2])`, the node is float and the second
operand integer, so the code is `ILOAD %1 2; FLOAT %3 %1; FADD %2 x %3`. -/
theorem codegen_arithmetic_witness :
    floatOpcode ArithOp.PLUS = some instruction.FADD ∧
    integerOpcode ArithOp.PLUS = some instruction.ADD ∧
    CodeGenVisitor.visitExpr exampleSymbols (Expr.exprIdent "x") ⟨1, 1, 1⟩ =
      some (⟨"x", "", []⟩, ⟨1, 1, 1⟩) ∧
    CodeGenVisitor.visitExpr exampleSymbols (Expr.value ValueTok.INTVAL "2") ⟨1, 1, 1⟩ =
      some (⟨"%1", "", [instruction.ILOAD "%1" "2"]⟩, ⟨2, 1, 1⟩) ∧
    CodeGenVisitor.visitExpr exampleSymbols
        (Expr.arithmetic ArithOp.PLUS (Expr.exprIdent "x") (Expr.value ValueTok.INTVAL "2"))
        ⟨1, 1, 1⟩ =
      some (⟨"%2", "",
        [instruction.ILOAD "%1" "2", instruction.FLOAT "%3" "%1",
          instruction.FADD "%2" "x" "%3"]⟩, ⟨4, 1, 1⟩) :=
  ⟨rfl, rfl, rfl, rfl,
    (codegen_arithmetic exampleSymbols ArithOp.PLUS (Expr.exprIdent "x")
      (Expr.value ValueTok.INTVAL "2") ⟨1, 1, 1⟩ ⟨1, 1, 1⟩ ⟨2, 1, 1⟩ ⟨"x", "", []⟩
      ⟨"%1", "", [instruction.ILOAD "%1" "2"]⟩ instruction.FADD instruction.ADD
      rfl rfl rfl rfl).2.2.1 rfl rfl⟩

/-! ## Code pass: relational nodes and assignments -/

/-- Claim C21: for a relational node whose operands lower to `codAt1` and
`codAt2`, with `t` the temporary numbered by the counter after the operands and
`t'` the next one: when the decorated type of either operand is float the code
is that of the operands, then `FLOAT t' a` for the operand of integer type (the
first one is tested first; none when neither is integer), then the float opcode
of the operator into `t` on the addresses in the order `(a1, a2)`, the promoted
one replaced by `t'`; when neither is float it is the code of the operands and
the integer opcode into `t` on `(a1, a2)`.  `!=`, `>` and `>=` use the opcodes of
`=`, `<=` and `<` followed by `NOT t t`.  The result is `(t, "", code)`. -/
theorem codegen_relational (Symbols : SymTable) (op : RelOp) (expr0 expr1 : Expr)
    (c c1 c2 : counters) (codAt1 codAt2 : CodeGenVisitor.CodeAttribs)
    (h1 : CodeGenVisitor.visitExpr Symbols expr0 c = some (codAt1, c1))
    (h2 : CodeGenVisitor.visitExpr Symbols expr1 c1 = some (codAt2, c2)) :
    ((isFloatTy (visitExpr Symbols expr0).type = true ∨
        isFloatTy (visitExpr Symbols expr1).type = true) →
      isIntegerTy (visitExpr Symbols expr0).type = true →
      CodeGenVisitor.visitExpr Symbols (Expr.relational op expr0 expr1) c =
        some (⟨"%" ++ toString c2.TEMP, "",
          codAt1.code ++ codAt2.code ++
            [instruction.FLOAT ("%" ++ toString (c2.TEMP + 1)) codAt1.addr] ++
            relationalCode (relationalFloatOpcode op) op ("%" ++ toString c2.TEMP)
              ("%" ++ toString (c2.TEMP + 1)) codAt2.addr⟩,
          { c2 with TEMP := c2.TEMP + 2 })) ∧
    ((isFloatTy (visitExpr Symbols expr0).type = true ∨
        isFloatTy (visitExpr Symbols expr1).type = true) →
      isIntegerTy (visitExpr Symbols expr0).type = false →
      isIntegerTy (visitExpr Symbols expr1).type = true →
      CodeGenVisitor.visitExpr Symbols (Expr.relational op expr0 expr1) c =
        some (⟨"%" ++ toString c2.TEMP, "",
          codAt1.code ++ codAt2.code ++
            [instruction.FLOAT ("%" ++ toString (c2.TEMP + 1)) codAt2.addr] ++
            relationalCode (relationalFloatOpcode op) op ("%" ++ toString c2.TEMP)
              codAt1.addr ("%" ++ toString (c2.TEMP + 1))⟩,
          { c2 with TEMP := c2.TEMP + 2 })) ∧
    ((isFloatTy (visitExpr Symbols expr0).type = true ∨
        isFloatTy (visitExpr Symbols expr1).type = true) →
      isIntegerTy (visitExpr Symbols expr0).type = false →
      isIntegerTy (visitExpr Symbols expr1).type = false →
      CodeGenVisitor.visitExpr Symbols (Expr.relational op expr0 expr1) c =
        some (⟨"%" ++ toString c2.TEMP, "",
          codAt1.code ++ codAt2.code ++
            relationalCode (relationalFloatOpcode op) op ("%" ++ toString c2.TEMP)
              codAt1.addr codAt2.addr⟩,
          { c2 with TEMP := c2.TEMP + 1 })) ∧
    (isFloatTy (visitExpr Symbols expr0).type = false →
      isFloatTy (visitExpr Symbols expr1).type = false →
      CodeGenVisitor.visitExpr Symbols (Expr.relational op expr0 expr1) c =
        some (⟨"%" ++ toString c2.TEMP, "",
          codAt1.code ++ codAt2.code ++
            relationalCode (relationalIntegerOpcode op) op ("%" ++ toString c2.TEMP)
              codAt1.addr codAt2.addr⟩,
          { c2 with TEMP := c2.TEMP + 1 })) := by
  refine ⟨?_, ?_, ?_, ?_⟩
  · intro hfl hi0
    have hfl2 : (isFloatTy (visitExpr Symbols expr0).type ||
        isFloatTy (visitExpr Symbols expr1).type) = true := by simpa using hfl
    cases op <;>
      simp [CodeGenVisitor.visitExpr, h1, h2, CodeGenVisitor.visitRelational, hfl2, hi0,
        counters.newTEMP, relationalCode, relationalFloatOpcode, relationalNegated]
  · intro hfl hi0 hi1
    have hfl2 : (isFloatTy (visitExpr Symbols expr0).type ||
        isFloatTy (visitExpr Symbols expr1).type) = true := by simpa using hfl
    cases op <;>
      simp [CodeGenVisitor.visitExpr, h1, h2, CodeGenVisitor.visitRelational, hfl2, hi0, hi1,
        counters.newTEMP, relationalCode, relationalFloatOpcode, relationalNegated]
  · intro hfl hi0 hi1
    have hfl2 : (isFloatTy (visitExpr Symbols expr0).type ||
        isFloatTy (visitExpr Symbols expr1).type) = true := by simpa using hfl
    cases op <;>
      simp [CodeGenVisitor.visitExpr, h1, h2, CodeGenVisitor.visitRelational, hfl2, hi0, hi1,
        counters.newTEMP, relationalCode, relationalFloatOpcode, relationalNegated]
  · intro hf0 hf1
    cases op <;>
      simp [CodeGenVisitor.visitExpr, h1, h2, CodeGenVisitor.visitRelational, hf0, hf1,
        counters.newTEMP, relationalCode, relationalIntegerOpcode, relationalNegated]

/-- Instance of claim C21 on `x > 2` with `x : float`: the operands lower to
`(x, "", [])` and `(%1, "", [ILOAD %1 2])`, the first is float and the second
integer, so the code is `ILOAD %1 2; FLOAT %3 %1; FLE %2 x %3; NOT %2 %2`. -/
theorem codegen_relational_witness :
    CodeGenVisitor.visitExpr exampleSymbols (Expr.exprIdent "x") ⟨1, 1, 1⟩ =
      some (⟨"x", "", []⟩, ⟨1, 1, 1⟩) ∧
    CodeGenVisitor.visitExpr exampleSymbols (Expr.value ValueTok.INTVAL "2") ⟨1, 1, 1⟩ =
      some (⟨"%1", "", [instruction.ILOAD "%1" "2"]⟩, ⟨2, 1, 1⟩) ∧
    CodeGenVisitor.visitExpr exampleSymbols
        (Expr.relational RelOp.GT (Expr.exprIdent "x") (Expr.value ValueTok.INTVAL "2"))
        ⟨1, 1, 1⟩ =
      some (⟨"%2", "",
        [instruction.ILOAD "%1" "2", instruction.FLOAT "%3" "%1",
          instruction.FLE "%2" "x" "%3", instruction.NOT "%2" "%2"]⟩, ⟨4, 1, 1⟩) :=
  ⟨rfl, rfl,
    (codegen_relational exampleSymbols RelOp.GT (Expr.exprIdent "x")
      (Expr.value ValueTok.INTVAL "2") ⟨1, 1, 1⟩ ⟨1, 1, 1⟩ ⟨2, 1, 1⟩ ⟨"x", "", []⟩
      ⟨"%1", "", [instruction.ILOAD "%1" "2"]⟩ rfl rfl).2.1 (Or.inl rfl) rfl rfl⟩

/-- Claim C22: for an assignment `L := E` where `L` lowers to `(aL, oL, codeL)`
and `E` to `(aE, _, codeE)`, the code is `codeL`, then `codeE`, then, exactly
when the decorated type of `L` is float and that of `E` integer, `FLOAT t aE`
into the temporary `t` numbered by the counter (which then advances), then the
single store `LOAD aL src` when `oL` is empty and `XLOAD aL oL src` otherwise,
`src` being `t` after a promotion and `aE` without one. -/
theorem codegen_assign (Symbols : SymTable) (left_expr : Left_expr) (expr : Expr)
    (c c1 c2 : counters) (codAtsE1 codAtsE2 : CodeGenVisitor.CodeAttribs)
    (h1 : CodeGenVisitor.visitLeft_expr Symbols left_expr c = some (codAtsE1, c1))
    (h2 : CodeGenVisitor.visitExpr Symbols expr c1 = some (codAtsE2, c2)) :
    ((isFloatTy (visitLeft_expr Symbols left_expr).type = true ∧
        isIntegerTy (visitExpr Symbols expr).type = true) →
      CodeGenVisitor.visitStatement Symbols (Statement.assignStmt left_expr expr) c =
        some (codAtsE1.code ++ codAtsE2.code ++
            [instruction.FLOAT ("%" ++ toString c2.TEMP) codAtsE2.addr,
              storeInstruction codAtsE1.addr codAtsE1.offs ("%" ++ toString c2.TEMP)],
          { c2 with TEMP := c2.TEMP + 1 })) ∧
    (¬(isFloatTy (visitLeft_expr Symbols left_expr).type = true ∧
        isIntegerTy (visitExpr Symbols expr).type = true) →
      CodeGenVisitor.visitStatement Symbols (Statement.assignStmt left_expr expr) c =
        some (codAtsE1.code ++ codAtsE2.code ++
            [storeInstruction codAtsE1.addr codAtsE1.offs codAtsE2.addr], c2)) := by
  constructor
  · rintro ⟨hf, hi⟩
    by_cases ho : codAtsE1.offs = "" <;>
      simp [CodeGenVisitor.visitStatement, h1, h2, CodeGenVisitor.visitAssignStmt, hf, hi,
        counters.newTEMP, storeInstruction, ho]
  · intro hn
    have hn2 : (isFloatTy (visitLeft_expr Symbols left_expr).type &&
        isIntegerTy (visitExpr Symbols expr).type) = false := by
      cases hf : isFloatTy (visitLeft_expr Symbols left_expr).type <;>
        cases hi : isIntegerTy (visitExpr Symbols expr).type <;> simp_all
    by_cases ho : codAtsE1.offs = "" <;>
      simp [CodeGenVisitor.visitStatement, h1, h2, CodeGenVisitor.visitAssignStmt, hn2,
        storeInstruction, ho]

/-- Instance of claim C22 on `x := 3` with `x : float`: the sides lower to
`(x, "", [])` and `(%1, "", [ILOAD %1 3])`, so the code is `ILOAD %1 3;
FLOAT %2 %1; LOAD x %2`, the conversion preceding the store into `x`. -/
theorem codegen_assign_witness :
    CodeGenVisitor.visitLeft_expr exampleSymbols (Left_expr.leftExprIdent "x") ⟨1, 1, 1⟩ =
      some (⟨"x", "", []⟩, ⟨1, 1, 1⟩) ∧
    CodeGenVisitor.visitExpr exampleSymbols (Expr.value ValueTok.INTVAL "3") ⟨1, 1, 1⟩ =
      some (⟨"%1", "", [instruction.ILOAD "%1" "3"]⟩, ⟨2, 1, 1⟩) ∧
    CodeGenVisitor.visitStatement exampleSymbols
        (Statement.assignStmt (Left_expr.leftExprIdent "x") (Expr.value ValueTok.INTVAL "3"))
        ⟨1, 1, 1⟩ =
      some ([instruction.ILOAD "%1" "3", instruction.FLOAT "%2" "%1",
        instruction.LOAD "x" "%2"], ⟨3, 1, 1⟩) :=
  ⟨rfl, rfl,
    (codegen_assign exampleSymbols (Left_expr.leftExprIdent "x")
      (Expr.value ValueTok.INTVAL "3") ⟨1, 1, 1⟩ ⟨1, 1, 1⟩ ⟨2, 1, 1⟩ ⟨"x", "", []⟩
      ⟨"%1", "", [instruction.ILOAD "%1" "3"]⟩ rfl rfl).1 ⟨rfl, rfl⟩⟩

/-! ## Code pass: control flow and return -/

/-- Claim C23: for an if statement whose condition lowers to `(c, codeC)` and
whose then-branch lowers to `code2`, with `k` the number the `if` counter holds
after the then-branch was lowered: without `else` the code is `codeC`;
`FJUMP c endif<k>`; `code2`; `LABEL endif<k>`, and with `else` it is `codeC`;
`FJUMP c endif<k>`; `code2`; `UJUMP endelse<k>`; `LABEL endif<k>`; the code of
the else-branch; `LABEL endelse<k>`, the same `k` in both label names.  With
`else` a second number is taken from the counter before the else-branch is
lowered. -/
theorem codegen_if (Symbols : SymTable) (expr : Expr) (statements0 : List Statement)
    (c c1 c2 : counters) (codAtsE : CodeGenVisitor.CodeAttribs) (code2 : instructionList)
    (h1 : CodeGenVisitor.visitExpr Symbols expr c = some (codAtsE, c1))
    (h2 : CodeGenVisitor.visitStatements Symbols statements0 c1 = some (code2, c2)) :
    CodeGenVisitor.visitStatement Symbols (Statement.ifStmt expr statements0 none) c =
      some (codAtsE.code ++
          [instruction.FJUMP codAtsE.addr ("endif" ++ toString c2.LabelIF)] ++ code2 ++
          [instruction.LABEL ("endif" ++ toString c2.LabelIF)],
        { c2 with LabelIF := c2.LabelIF + 1 }) ∧
    ∀ (statements1 : List Statement) (code3 : instructionList) (c3 : counters),
      CodeGenVisitor.visitStatements Symbols statements1
          { c2 with LabelIF := c2.LabelIF + 2 } = some (code3, c3) →
      CodeGenVisitor.visitStatement Symbols
          (Statement.ifStmt expr statements0 (some statements1)) c =
        some (codAtsE.code ++
            [instruction.FJUMP codAtsE.addr ("endif" ++ toString c2.LabelIF)] ++ code2 ++
            [instruction.UJUMP ("endelse" ++ toString c2.LabelIF)] ++
            [instruction.LABEL ("endif" ++ toString c2.LabelIF)] ++ code3 ++
            [instruction.LABEL ("endelse" ++ toString c2.LabelIF)], c3) := by
  constructor
  · simp [CodeGenVisitor.visitStatement, h1, h2, CodeGenVisitor.visitIfStmt, counters.newLabelIF]
  · intro statements1 code3 c3 h3
    simp [CodeGenVisitor.visitStatement, h1, h2, CodeGenVisitor.visitIfStmtLabels,
      CodeGenVisitor.visitIfElseStmt, counters.newLabelIF, h3]

/-- Instance of claim C23 on `if b then write 1 else write 2 endif` with
`b : bool`: the code is `FJUMP b endif1`; `ILOAD %1 1`; `WRITEI %1`;
`UJUMP endelse1`; `LABEL endif1`; `ILOAD %2 2`; `WRITEI %2`; `LABEL endelse1`. -/
theorem codegen_if_witness :
    CodeGenVisitor.visitExpr exampleSymbols (Expr.exprIdent "b") ⟨1, 1, 1⟩ =
      some (⟨"b", "", []⟩, ⟨1, 1, 1⟩) ∧
    CodeGenVisitor.visitStatements exampleSymbols
        [Statement.writeExpr (Expr.value ValueTok.INTVAL "1")] ⟨1, 1, 1⟩ =
      some ([instruction.ILOAD "%1" "1", instruction.WRITEI "%1"], ⟨2, 1, 1⟩) ∧
    CodeGenVisitor.visitStatement exampleSymbols
        (Statement.ifStmt (Expr.exprIdent "b")
          [Statement.writeExpr (Expr.value ValueTok.INTVAL "1")]
          (some [Statement.writeExpr (Expr.value ValueTok.INTVAL "2")])) ⟨1, 1, 1⟩ =
      some ([instruction.FJUMP "b" "endif1", instruction.ILOAD "%1" "1",
        instruction.WRITEI "%1", instruction.UJUMP "endelse1", instruction.LABEL "endif1",
        instruction.ILOAD "%2" "2", instruction.WRITEI "%2", instruction.LABEL "endelse1"],
        ⟨3, 3, 1⟩) :=
  ⟨rfl, rfl,
    (codegen_if exampleSymbols (Expr.exprIdent "b")
      [Statement.writeExpr (Expr.value ValueTok.INTVAL "1")] ⟨1, 1, 1⟩ ⟨1, 1, 1⟩ ⟨2, 1, 1⟩
      ⟨"b", "", []⟩ [instruction.ILOAD "%1" "1", instruction.WRITEI "%1"] rfl rfl).2
      [Statement.writeExpr (Expr.value ValueTok.INTVAL "2")]
      [instruction.ILOAD "%2" "2", instruction.WRITEI "%2"] ⟨3, 3, 1⟩ rfl⟩

/-- Claim C24: for a while statement, with `k` the number the `while` counter
holds on entry (taken before the condition is lowered), the condition lowering
to `(c, codeC)` and the body to `code2`, the code is exactly `LABEL while<k>`;
`codeC`; `FJUMP c endWhile<k>`; `code2`; `UJUMP while<k>`; `LABEL endWhile<k>`. -/
theorem codegen_while (Symbols : SymTable) (expr : Expr) (statements : List Statement)
    (c c1 c2 : counters) (codAt1 : CodeGenVisitor.CodeAttribs) (code2 : instructionList)
    (h1 : CodeGenVisitor.visitExpr Symbols expr { c with LabelWHILE := c.LabelWHILE + 1 } =
      some (codAt1, c1))
    (h2 : CodeGenVisitor.visitStatements Symbols statements c1 = some (code2, c2)) :
    CodeGenVisitor.visitStatement Symbols (Statement.whileStmt expr statements) c =
      some ([instruction.LABEL ("while" ++ toString c.LabelWHILE)] ++ codAt1.code ++
          [instruction.FJUMP codAt1.addr ("endWhile" ++ toString c.LabelWHILE)] ++ code2 ++
          [instruction.UJUMP ("while" ++ toString c.LabelWHILE)] ++
          [instruction.LABEL ("endWhile" ++ toString c.LabelWHILE)], c2) := by
  simp [CodeGenVisitor.visitStatement, CodeGenVisitor.visitWhileStmtLabel, counters.newLabelWHILE,
    h1, h2, CodeGenVisitor.visitWhileStmt]

/-- Instance of claim C24 on `while b do write 1 endwhile` with `b : bool`: the
code is `LABEL while1`; `FJUMP b endWhile1`; `ILOAD %1 1`; `WRITEI %1`;
`UJUMP while1`; `LABEL endWhile1`. -/
theorem codegen_while_witness :
    CodeGenVisitor.visitExpr exampleSymbols (Expr.exprIdent "b") ⟨1, 1, 2⟩ =
      some (⟨"b", "", []⟩, ⟨1, 1, 2⟩) ∧
    CodeGenVisitor.visitStatement exampleSymbols
        (Statement.whileStmt (Expr.exprIdent "b")
          [Statement.writeExpr (Expr.value ValueTok.INTVAL "1")]) ⟨1, 1, 1⟩ =
      some ([instruction.LABEL "while1", instruction.FJUMP "b" "endWhile1",
        instruction.ILOAD "%1" "1", instruction.WRITEI "%1", instruction.UJUMP "while1",
        instruction.LABEL "endWhile1"], ⟨2, 1, 2⟩) :=
  ⟨rfl,
    codegen_while exampleSymbols (Expr.exprIdent "b")
      [Statement.writeExpr (Expr.value ValueTok.INTVAL "1")] ⟨1, 1, 1⟩ ⟨1, 1, 2⟩ ⟨2, 1, 2⟩
      ⟨"b", "", []⟩ [instruction.ILOAD "%1" "1", instruction.WRITEI "%1"] rfl rfl⟩

/-- Claim C28: a return statement whose expression lowers to `(a, codeE)` emits
`codeE`; `LOAD _result a`; `RETURN`, and a return statement without expression
emits only `RETURN`.  The lowering takes neither the return type of the function
nor the diagnostics of the Type pass, so it is the same whether or not the Type
pass reported `incompatibleReturn`. -/
theorem codegen_return (Symbols : SymTable) (c c1 : counters) (expr : Expr)
    (codAt1 : CodeGenVisitor.CodeAttribs)
    (h : CodeGenVisitor.visitExpr Symbols expr c = some (codAt1, c1)) :
    CodeGenVisitor.visitStatement Symbols (Statement.returnStmt (some expr)) c =
      some (codAt1.code ++ [instruction.LOAD "_result" codAt1.addr, instruction.RETURN], c1) ∧
    CodeGenVisitor.visitStatement Symbols (Statement.returnStmt none) c =
      some ([instruction.RETURN], c) := by
  refine ⟨?_, rfl⟩
  simp [CodeGenVisitor.visitStatement, h, CodeGenVisitor.visitReturnStmt]

/-- Instance of claim C28 on `func g() : int  return 1.5  endfunc`: the Type
pass reports `incompatibleReturn` on the body, and the Code pass lowers the
return statement to `FLOAD %1 1.5`; `LOAD _result %1`; `RETURN`. -/
theorem codegen_return_witness :
    visitStatements exampleSymbols (functionTy TypeId.integer exampleFunction)
        exampleFunction.statements = [SemError.incompatibleReturn] ∧
    CodeGenVisitor.visitExpr exampleSymbols (Expr.value ValueTok.FLOATVAL "1.5") ⟨1, 1, 1⟩ =
      some (⟨"%1", "", [instruction.FLOAD "%1" "1.5"]⟩, ⟨2, 1, 1⟩) ∧
    CodeGenVisitor.visitStatement exampleSymbols
        (Statement.returnStmt (some (Expr.value ValueTok.FLOATVAL "1.5"))) ⟨1, 1, 1⟩ =
      some ([instruction.FLOAD "%1" "1.5", instruction.LOAD "_result" "%1",
        instruction.RETURN], ⟨2, 1, 1⟩) :=
  ⟨rfl, rfl,
    (codegen_return exampleSymbols ⟨1, 1, 1⟩ ⟨2, 1, 1⟩ (Expr.value ValueTok.FLOATVAL "1.5")
      ⟨"%1", "", [instruction.FLOAD "%1" "1.5"]⟩ rfl).1⟩

/-! ## Code pass: calls -/

/-- One turn of the argument loop of a call: the argument `e` at index `i`
lowers to `(a, code)`; when its decorated type is integer and the formal
`functionParams[i]` is float the loop emits `code`; `FLOAT t a`; `PUSH t` with
`t` the temporary numbered by the counter, otherwise (the type is not integer,
or the formal is not float) it emits `code`; `PUSH a`; the rest of the
arguments follows. -/
theorem visitArguments_cons (Symbols : SymTable) (functionParams : List TypeId) (i : Nat)
    (e : Expr) (es : List Expr) (c c1 : counters) (codAt1 : CodeGenVisitor.CodeAttribs)
    (h : CodeGenVisitor.visitExpr Symbols e c = some (codAt1, c1)) :
    (∀ p, isIntegerTy (visitExpr Symbols e).type = true → functionParams[i]? = some p →
      isFloatTy p = true → ∀ rest c2,
      CodeGenVisitor.visitArguments Symbols functionParams (i + 1) es
          { c1 with TEMP := c1.TEMP + 1 } = some (rest, c2) →
      CodeGenVisitor.visitArguments Symbols functionParams i (e :: es) c =
        some (codAt1.code ++
          [instruction.FLOAT ("%" ++ toString c1.TEMP) codAt1.addr,
            instruction.PUSH (some ("%" ++ toString c1.TEMP))] ++ rest, c2)) ∧
    ((isIntegerTy (visitExpr Symbols e).type = false ∨
        ∃ p, functionParams[i]? = some p ∧ isFloatTy p = false) → ∀ rest c2,
      CodeGenVisitor.visitArguments Symbols functionParams (i + 1) es c1 = some (rest, c2) →
      CodeGenVisitor.visitArguments Symbols functionParams i (e :: es) c =
        some (codAt1.code ++ [instruction.PUSH (some codAt1.addr)] ++ rest, c2)) := by
  constructor
  · intro p hi hp hf rest c2 hr
    simp [CodeGenVisitor.visitArguments, h, CodeGenVisitor.pushArgument, hi, hp, hf,
      counters.newTEMP, hr]
  · rintro (hi | ⟨p, hp, hf⟩) rest c2 hr
    · simp [CodeGenVisitor.visitArguments, h, CodeGenVisitor.pushArgument, hi, hr]
    · cases hi : isIntegerTy (visitExpr Symbols e).type <;>
        simp [CodeGenVisitor.visitArguments, h, CodeGenVisitor.pushArgument, hi, hp, hf, hr]

/-- Claim C25: a call expression `f(a1..an)` whose argument loop yields
`argsCode` emits `PUSH`; `argsCode`; `CALL f`; `n` times `POP`; `POP r`, with `r`
the temporary numbered by the counter after the arguments, and its result is
`(r, "", code)`.  The argument loop emits nothing for no argument, and for the
argument `e` at index `i` lowered to `(a, code)` it emits `code`, then
`FLOAT t a`; `PUSH t` into the next temporary `t` when the decorated type of `e`
is integer and the formal `i` of `f` is float, and `PUSH a` when the type is not
integer or the formal is not float, then the code of the later arguments. -/
theorem codegen_funcExpr (Symbols : SymTable) (ident : String) (args : List Expr)
    (c c1 : counters) (argsCode : instructionList)
    (h : CodeGenVisitor.visitArguments Symbols
      (getFuncParamsTypes (visitIdent Symbols ident).type) 0 args c = some (argsCode, c1)) :
    CodeGenVisitor.visitExpr Symbols (Expr.funcExpr ident args) c =
      some (⟨"%" ++ toString c1.TEMP, "",
        [instruction.PUSH none] ++ argsCode ++ [instruction.CALL ident] ++
          List.replicate args.length (instruction.POP none) ++
          [instruction.POP (some ("%" ++ toString c1.TEMP))]⟩,
        { c1 with TEMP := c1.TEMP + 1 }) ∧
    (∀ (functionParams : List TypeId) (i : Nat) (c0 : counters),
      CodeGenVisitor.visitArguments Symbols functionParams i [] c0 = some ([], c0)) ∧
    (∀ (functionParams : List TypeId) (i : Nat) (e : Expr) (es : List Expr) (c0 c2 c3 : counters)
      (codAt1 : CodeGenVisitor.CodeAttribs) (rest : instructionList) (p : TypeId),
      CodeGenVisitor.visitExpr Symbols e c0 = some (codAt1, c2) →
      isIntegerTy (visitExpr Symbols e).type = true → functionParams[i]? = some p →
      isFloatTy p = true →
      CodeGenVisitor.visitArguments Symbols functionParams (i + 1) es
          { c2 with TEMP := c2.TEMP + 1 } = some (rest, c3) →
      CodeGenVisitor.visitArguments Symbols functionParams i (e :: es) c0 =
        some (codAt1.code ++
          [instruction.FLOAT ("%" ++ toString c2.TEMP) codAt1.addr,
            instruction.PUSH (some ("%" ++ toString c2.TEMP))] ++ rest, c3)) ∧
    (∀ (functionParams : List TypeId) (i : Nat) (e : Expr) (es : List Expr) (c0 c2 c3 : counters)
      (codAt1 : CodeGenVisitor.CodeAttribs) (rest : instructionList),
      CodeGenVisitor.visitExpr Symbols e c0 = some (codAt1, c2) →
      (isIntegerTy (visitExpr Symbols e).type = false ∨
        ∃ p, functionParams[i]? = some p ∧ isFloatTy p = false) →
      CodeGenVisitor.visitArguments Symbols functionParams (i + 1) es c2 = some (rest, c3) →
      CodeGenVisitor.visitArguments Symbols functionParams i (e :: es) c0 =
        some (codAt1.code ++ [instruction.PUSH (some codAt1.addr)] ++ rest, c3)) := by
  refine ⟨?_, ?_, ?_, ?_⟩
  · simp [CodeGenVisitor.visitExpr, h, counters.newTEMP]
  · intro functionParams i c0
    simp [CodeGenVisitor.visitArguments]
  · intro functionParams i e es c0 c2 c3 codAt1 rest p he hi hp hf hr
    exact (visitArguments_cons Symbols functionParams i e es c0 c2 codAt1 he).1 p hi hp hf
      rest c3 hr
  · intro functionParams i e es c0 c2 c3 codAt1 rest he hcase hr
    exact (visitArguments_cons Symbols functionParams i e es c0 c2 codAt1 he).2 hcase rest c3 hr

/-- Instance of claim C25 on `f(3)` with `f : (float) → int`: the argument loop
yields `ILOAD %1 3`; `FLOAT %2 %1`; `PUSH %2`, and the call lowers to `PUSH`;
`ILOAD %1 3`; `FLOAT %2 %1`; `PUSH %2`; `CALL f`; `POP`; `POP %3` with result
`(%3, "", code)`. -/
theorem codegen_funcExpr_witness :
    CodeGenVisitor.visitArguments exampleSymbols
        (getFuncParamsTypes (visitIdent exampleSymbols "f").type) 0
        [Expr.value ValueTok.INTVAL "3"] ⟨1, 1, 1⟩ =
      some ([instruction.ILOAD "%1" "3", instruction.FLOAT "%2" "%1",
        instruction.PUSH (some "%2")], ⟨3, 1, 1⟩) ∧
    CodeGenVisitor.visitExpr exampleSymbols
        (Expr.funcExpr "f" [Expr.value ValueTok.INTVAL "3"]) ⟨1, 1, 1⟩ =
      some (⟨"%3", "",
        [instruction.PUSH none, instruction.ILOAD "%1" "3", instruction.FLOAT "%2" "%1",
          instruction.PUSH (some "%2"), instruction.CALL "f", instruction.POP none,
          instruction.POP (some "%3")]⟩, ⟨4, 1, 1⟩) :=
  ⟨rfl,
    (codegen_funcExpr exampleSymbols "f" [Expr.value ValueTok.INTVAL "3"] ⟨1, 1, 1⟩ ⟨3, 1, 1⟩
      [instruction.ILOAD "%1" "3", instruction.FLOAT "%2" "%1", instruction.PUSH (some "%2")]
      rfl).1⟩

/-- Claim C26: a call statement `f(a1..an)` on a callee of function type with
return type `ret`, whose argument loop yields `argsCode`, emits `argsCode`;
`CALL f`; `n` times `POP`, preceded by one `PUSH` without operand and followed by
one more `POP` without operand exactly when `ret` is not `Void`.  The counters
are those the argument loop leaves, so no temporary is taken for the returned
value; the argument loop is the one of the call expression, which on the same
callee and arguments frames the same `argsCode`. -/
theorem codegen_procCall (Symbols : SymTable) (ident : String) (args : List Expr)
    (params : List TypeId) (ret : TypeId) (c c1 : counters) (argsCode : instructionList)
    (hf : (visitIdent Symbols ident).type = TypeId.function params ret)
    (h : CodeGenVisitor.visitArguments Symbols params 0 args c = some (argsCode, c1)) :
    (isVoidTy ret = false →
      CodeGenVisitor.visitStatement Symbols (Statement.procCall ident args) c =
        some ([instruction.PUSH none] ++ argsCode ++ [instruction.CALL ident] ++
          List.replicate args.length (instruction.POP none) ++ [instruction.POP none], c1)) ∧
    (isVoidTy ret = true →
      CodeGenVisitor.visitStatement Symbols (Statement.procCall ident args) c =
        some (argsCode ++ [instruction.CALL ident] ++
          List.replicate args.length (instruction.POP none), c1)) ∧
    CodeGenVisitor.visitExpr Symbols (Expr.funcExpr ident args) c =
      some (⟨"%" ++ toString c1.TEMP, "",
        [instruction.PUSH none] ++ argsCode ++ [instruction.CALL ident] ++
          List.replicate args.length (instruction.POP none) ++
          [instruction.POP (some ("%" ++ toString c1.TEMP))]⟩,
        { c1 with TEMP := c1.TEMP + 1 }) := by
  refine ⟨?_, ?_, ?_⟩
  · intro hv
    have hvf : isVoidFunction (TypeId.function params ret) = false := by
      cases ret <;> simp_all [isVoidFunction, isVoidTy]
    simp [CodeGenVisitor.visitStatement, hf, getFuncParamsTypes, h,
      CodeGenVisitor.visitProcCall, hvf]
  · intro hv
    have hvf : isVoidFunction (TypeId.function params ret) = true := by
      cases ret <;> simp_all [isVoidFunction, isVoidTy]
    simp [CodeGenVisitor.visitStatement, hf, getFuncParamsTypes, h,
      CodeGenVisitor.visitProcCall, hvf]
  · simp [CodeGenVisitor.visitExpr, hf, getFuncParamsTypes, h, counters.newTEMP]

/-- Instance of claim C26 on the call statement `p(1)` with `p : (float) → void`:
the code is `ILOAD %1 1`; `FLOAT %2 %1`; `PUSH %2`; `CALL p`; `POP`, with neither
a `PUSH` nor a `POP` for a return slot, and the counter of temporaries is the one
the argument loop leaves. -/
theorem codegen_procCall_witness :
    (visitIdent exampleSymbols "p").type = TypeId.function [TypeId.float] TypeId.void ∧
    CodeGenVisitor.visitArguments exampleSymbols [TypeId.float] 0
        [Expr.value ValueTok.INTVAL "1"] ⟨1, 1, 1⟩ =
      some ([instruction.ILOAD "%1" "1", instruction.FLOAT "%2" "%1",
        instruction.PUSH (some "%2")], ⟨3, 1, 1⟩) ∧
    CodeGenVisitor.visitStatement exampleSymbols
        (Statement.procCall "p" [Expr.value ValueTok.INTVAL "1"]) ⟨1, 1, 1⟩ =
      some ([instruction.ILOAD "%1" "1", instruction.FLOAT "%2" "%1",
        instruction.PUSH (some "%2"), instruction.CALL "p", instruction.POP none],
        ⟨3, 1, 1⟩) :=
  ⟨rfl, rfl,
    (codegen_procCall exampleSymbols "p" [Expr.value ValueTok.INTVAL "1"] [TypeId.float]
      TypeId.void ⟨1, 1, 1⟩ ⟨3, 1, 1⟩
      [instruction.ILOAD "%1" "1", instruction.FLOAT "%2" "%1", instruction.PUSH (some "%2")]
      rfl rfl).2.1 rfl⟩

/-! ## Code pass: the header of a subroutine -/

theorem foldl_add_var (vars : List var) :
    ∀ subr : subroutine,
      vars.foldl subroutine.add_var subr = { subr with vars := subr.vars ++ vars } := by
  induction vars with
  | nil => intro subr; simp
  | cons v vars ih =>
    intro subr
    rw [List.foldl_cons, ih]
    simp [subroutine.add_var]

theorem foldl_add_param (ps : List (var × TypeId)) :
    ∀ subr : subroutine,
      ps.foldl (fun (s : subroutine) (onevar : var × TypeId) =>
          s.add_param onevar.1.name onevar.1.type (isArrayTy onevar.2)) subr =
        { subr with
          params := subr.params ++
            ps.map fun onevar => (onevar.1.name, onevar.1.type, isArrayTy onevar.2) } := by
  induction ps with
  | nil => intro subr; simp
  | cons p ps ih =>
    intro subr
    rw [List.foldl_cons, ih]
    simp [subroutine.add_param]

theorem visitType_isArrayTy (ty : TypeNode) :
    isArrayTy (SymbolsVisitor.visitType ty) = ty.ARRAY.isSome := by
  obtain ⟨a, b⟩ := ty
  cases a <;> cases b <;> rfl

theorem visitType_elem (ty : TypeNode) :
    (if isArrayTy (SymbolsVisitor.visitType ty) = true
      then getArrayElemType (SymbolsVisitor.visitType ty) else SymbolsVisitor.visitType ty) =
      SymbolsVisitor.visitBasic_type ty.basic_type := by
  obtain ⟨a, b⟩ := ty
  cases a <;> cases b <;> rfl

theorem codegen_visitParameters_spec (to_string : TypeId → String) (Decorations : TreeDecoration)
    (ctx : Node) (ps : List (String × TypeNode)) :
    ∀ i : Nat,
      (∀ j p, ps[j]? = some p →
        Decorations.getType (ctx ++ [i + j]) = SymbolsVisitor.visitType p.2) →
      (CodeGenVisitor.visitParameters to_string Decorations ctx i ps).map
          (fun onevar => (onevar.1.name, onevar.1.type, isArrayTy onevar.2)) =
        ps.map fun p =>
          (p.1, to_string (SymbolsVisitor.visitBasic_type p.2.basic_type), p.2.ARRAY.isSome) := by
  induction ps with
  | nil => intro i _; rfl
  | cons p ps ih =>
    intro i h
    have h0 := h 0 p (by simp)
    simp only [Nat.add_zero] at h0
    have hrest := ih (i + 1) (fun j q hq => by
      have := h (j + 1) q (by simpa using hq)
      rwa [show i + (j + 1) = i + 1 + j by omega] at this)
    simp only [CodeGenVisitor.visitParameters, List.map_cons, hrest, h0, visitType_isArrayTy]
    congr 2
    have := visitType_elem p.2
    rw [visitType_isArrayTy] at this
    cases ha : p.2.ARRAY.isSome <;> simp [ha] at this ⊢ <;> rw [this]

/-- Claim C29: for a function at node `ctx` whose body lowers to `code`, on
decorations where the return-type node and the parameter type nodes carry the
types the Symbol pass writes, the Code pass returns a subroutine with the name
of the function, the instructions `code`; `RETURN`, and the parameter list:
`_result` carrying the text of the return type first when the function declares
a return type (no `_result` when it declares none), then one parameter per
declared parameter, in declaration order, with its name, the text of its type
(of the element type for an array) and the array flag set iff the declared type
is an array type. -/
theorem codegen_function_parameters (to_string : TypeId → String) (reset : counters)
    (Symbols : SymTable) (Decorations : TreeDecoration) (ctx : Node) (f : Function)
    (code : instructionList) (c : counters)
    (hbody : CodeGenVisitor.visitStatements (Symbols.pushThisScope (Decorations.getScope ctx))
      f.statements reset = some (code, c))
    (hret : ∀ ty, f.type = some ty →
      Decorations.getType (ctx ++ [1]) = SymbolsVisitor.visitType ty)
    (hpar : ∀ j p, f.params[j]? = some p →
      Decorations.getType (ctx ++ [0] ++ [0 + j]) = SymbolsVisitor.visitType p.2) :
    ∃ subr, CodeGenVisitor.visitFunction to_string reset Symbols Decorations ctx f = some subr ∧
      subr.name = f.ID ∧
      subr.instructions = code ++ [instruction.RETURN] ∧
      subr.params =
        (match f.type with
          | some ty =>
            [("_result", to_string (SymbolsVisitor.visitType ty), ty.ARRAY.isSome)]
          | none => []) ++
        f.params.map fun p =>
          (p.1, to_string (SymbolsVisitor.visitBasic_type p.2.basic_type), p.2.ARRAY.isSome) := by
  have hps := codegen_visitParameters_spec to_string Decorations (ctx ++ [0]) f.params 0 hpar
  cases hv : CodeGenVisitor.visitFunction to_string reset Symbols Decorations ctx f with
  | none => simp [CodeGenVisitor.visitFunction, hbody] at hv
  | some subr =>
    refine ⟨subr, rfl, ?_⟩
    simp only [CodeGenVisitor.visitFunction, hbody, Option.some.injEq] at hv
    subst hv
    have hvoid : ∀ ty, isVoidTy (SymbolsVisitor.visitType ty) = false := by
      intro ty
      have := visitType_ne_void ty
      cases h : SymbolsVisitor.visitType ty <;> simp_all [isVoidTy]
    have hv0 : isVoidTy createVoidTy = true := rfl
    simp only [foldl_add_var, foldl_add_param, subroutine.new, subroutine.set_instructions]
    cases hp : f.parameters <;> cases ht : f.type <;>
      simp [hp, ht, Function.params] at hps hret ⊢ <;>
      simp [subroutine.add_param, hv0, hret, hvoid, visitType_isArrayTy, hps, foldl_add_param]

/-- Instance of claim C29 on
`func h(v : array<3,int>, y : float) : int  return 1  endfunc`, on the table and
the decorations the Symbol pass leaves: the body lowers to `ILOAD %1 1`;
`LOAD _result %1`; `RETURN`, and the parameter list of the subroutine is
`_result` (integer), `v` (integer, array) and `y` (float). -/
theorem codegen_function_parameters_witness :
    CodeGenVisitor.visitStatements
        (((symbolPass TypeId.error (TreeDecoration.empty 0 TypeId.error false)
            exampleArrayParameter).Symbols.pushThisScope 0).pushThisScope 1)
        [Statement.returnStmt (some (Expr.value ValueTok.INTVAL "1"))] ⟨1, 1, 1⟩ =
      some ([instruction.ILOAD "%1" "1", instruction.LOAD "_result" "%1", instruction.RETURN],
        ⟨2, 1, 1⟩) ∧
    ∃ subr,
      CodeGenVisitor.visitFunction exampleTo_string ⟨1, 1, 1⟩
          ((symbolPass TypeId.error (TreeDecoration.empty 0 TypeId.error false)
            exampleArrayParameter).Symbols.pushThisScope 0)
          (symbolPass TypeId.error (TreeDecoration.empty 0 TypeId.error false)
            exampleArrayParameter).Decorations [0]
          { ID := "h",
            parameters := some [("v", ⟨some 3, Basic_type.INT⟩), ("y", ⟨none, Basic_type.FLOAT⟩)],
            type := some ⟨none, Basic_type.INT⟩, declarations := [],
            statements := [Statement.returnStmt (some (Expr.value ValueTok.INTVAL "1"))] } =
        some subr ∧
      subr.name = "h" ∧
      subr.instructions =
        [instruction.ILOAD "%1" "1", instruction.LOAD "_result" "%1", instruction.RETURN,
          instruction.RETURN] ∧
      subr.params = [("_result", "integer", false), ("v", "integer", true), ("y", "float", false)] :=
  ⟨rfl,
    codegen_function_parameters exampleTo_string ⟨1, 1, 1⟩
      ((symbolPass TypeId.error (TreeDecoration.empty 0 TypeId.error false)
        exampleArrayParameter).Symbols.pushThisScope 0)
      (symbolPass TypeId.error (TreeDecoration.empty 0 TypeId.error false)
        exampleArrayParameter).Decorations [0]
      { ID := "h",
        parameters := some [("v", ⟨some 3, Basic_type.INT⟩), ("y", ⟨none, Basic_type.FLOAT⟩)],
        type := some ⟨none, Basic_type.INT⟩, declarations := [],
        statements := [Statement.returnStmt (some (Expr.value ValueTok.INTVAL "1"))] }
      [instruction.ILOAD "%1" "1", instruction.LOAD "_result" "%1", instruction.RETURN]
      ⟨2, 1, 1⟩ rfl
      (by intro ty h; cases h; rfl)
      (by
        intro j p h
        match j, h with
        | 0, h => cases h; rfl
        | 1, h => cases h; rfl
        | n + 2, h => simp [Function.params] at h)⟩

/-! ## Code pass: the instructions an expression node adds

A predicate `p` that holds of no instruction other than `PUSH`, `POP`, `CALL`
and `LABEL` selects, in the code of a node that is not a call, what it selects
in the code of the operands. -/

theorem filter_visitArithmetic (p : instruction → Bool)
    (hp : ∀ i, instruction.isFraming i = false → p i = false) (op : ArithOp)
    (a b : CodeGenVisitor.CodeAttribs) (t1 t2 t : TypeId) (c : counters) :
    (CodeGenVisitor.visitArithmetic op a b t1 t2 t c).1.code.filter p =
      a.code.filter p ++ b.code.filter p := by
  simp only [CodeGenVisitor.visitArithmetic]
  cases op <;> (repeat' split) <;>
    simp [CodeGenVisitor.floatArithmetic, CodeGenVisitor.integerArithmetic, hp,
      instruction.isFraming]

theorem filter_visitRelational (p : instruction → Bool)
    (hp : ∀ i, instruction.isFraming i = false → p i = false) (op : RelOp)
    (a b : CodeGenVisitor.CodeAttribs) (t1 t2 : TypeId) (c : counters) :
    (CodeGenVisitor.visitRelational op a b t1 t2 c).1.code.filter p =
      a.code.filter p ++ b.code.filter p := by
  simp only [CodeGenVisitor.visitRelational]
  cases op <;> (repeat' split) <;> simp [hp, instruction.isFraming]

theorem filter_visitValue (p : instruction → Bool)
    (hp : ∀ i, instruction.isFraming i = false → p i = false) (t1 : TypeId) (text : String)
    (c : counters) : (CodeGenVisitor.visitValue t1 text c).1.code.filter p = [] := by
  simp only [CodeGenVisitor.visitValue]
  (repeat' split) <;> simp [hp, instruction.isFraming]

theorem filter_visitUnaryLogical (p : instruction → Bool)
    (hp : ∀ i, instruction.isFraming i = false → p i = false)
    (a : CodeGenVisitor.CodeAttribs) (c : counters) :
    (CodeGenVisitor.visitUnaryLogical a c).1.code.filter p = a.code.filter p := by
  simp [CodeGenVisitor.visitUnaryLogical, hp, instruction.isFraming]

theorem filter_visitLogical (p : instruction → Bool)
    (hp : ∀ i, instruction.isFraming i = false → p i = false) (op : LogicOp)
    (a b : CodeGenVisitor.CodeAttribs) (c : counters) :
    (CodeGenVisitor.visitLogical op a b c).1.code.filter p =
      a.code.filter p ++ b.code.filter p := by
  cases op <;> simp [CodeGenVisitor.visitLogical, hp, instruction.isFraming]

theorem filter_visitUnaryArithmetic (p : instruction → Bool)
    (hp : ∀ i, instruction.isFraming i = false → p i = false) (op : UnaryOp)
    (a : CodeGenVisitor.CodeAttribs) (t : TypeId) (c : counters) :
    (CodeGenVisitor.visitUnaryArithmetic op a t c).1.code.filter p = a.code.filter p := by
  cases op
  · simp only [CodeGenVisitor.visitUnaryArithmetic]
    split <;> simp [hp, instruction.isFraming]
  · simp [CodeGenVisitor.visitUnaryArithmetic]

theorem filter_visitArrayAccessExpr (p : instruction → Bool)
    (hp : ∀ i, instruction.isFraming i = false → p i = false)
    (a b : CodeGenVisitor.CodeAttribs) (c : counters) :
    (CodeGenVisitor.visitArrayAccessExpr a b c).1.code.filter p =
      a.code.filter p ++ b.code.filter p := by
  simp [CodeGenVisitor.visitArrayAccessExpr, hp, instruction.isFraming]

/-- The counters of labels are left as they are by the nodes of an
expression. -/
theorem labelCounters_visitArithmetic (op : ArithOp) (a b : CodeGenVisitor.CodeAttribs)
    (t1 t2 t : TypeId) (c : counters) :
    (CodeGenVisitor.visitArithmetic op a b t1 t2 t c).2.LabelIF = c.LabelIF ∧
      (CodeGenVisitor.visitArithmetic op a b t1 t2 t c).2.LabelWHILE = c.LabelWHILE := by
  simp only [CodeGenVisitor.visitArithmetic]
  (repeat' split) <;> simp [counters.newTEMP]

theorem labelCounters_visitRelational (op : RelOp) (a b : CodeGenVisitor.CodeAttribs)
    (t1 t2 : TypeId) (c : counters) :
    (CodeGenVisitor.visitRelational op a b t1 t2 c).2.LabelIF = c.LabelIF ∧
      (CodeGenVisitor.visitRelational op a b t1 t2 c).2.LabelWHILE = c.LabelWHILE := by
  simp only [CodeGenVisitor.visitRelational]
  (repeat' split) <;> simp [counters.newTEMP]

theorem labelCounters_visitUnaryArithmetic (op : UnaryOp) (a : CodeGenVisitor.CodeAttribs)
    (t : TypeId) (c : counters) :
    (CodeGenVisitor.visitUnaryArithmetic op a t c).2.LabelIF = c.LabelIF ∧
      (CodeGenVisitor.visitUnaryArithmetic op a t c).2.LabelWHILE = c.LabelWHILE := by
  cases op <;> simp [CodeGenVisitor.visitUnaryArithmetic, counters.newTEMP]

/-- One turn of the argument loop adds, to what `p` selects in the code of the
argument, the `PUSH` of the argument when `p` selects it. -/
theorem filter_pushArgument (p : instruction → Bool)
    (hp : ∀ i, instruction.isFraming i = false → p i = false)
    (functionParams : List TypeId) (i : Nat) (a : CodeGenVisitor.CodeAttribs) (tExpr : TypeId)
    (c c1 : counters) (code : instructionList)
    (h : CodeGenVisitor.pushArgument functionParams i a tExpr c = some (code, c1)) :
    ∃ x, code.filter p = a.code.filter p ++ [instruction.PUSH (some x)].filter p ∧
      c1.LabelIF = c.LabelIF ∧ c1.LabelWHILE = c.LabelWHILE := by
  simp only [CodeGenVisitor.pushArgument] at h
  split at h
  · split at h
    · simp at h
    · split at h <;> simp only [Option.some.injEq, Prod.mk.injEq] at h <;>
        obtain ⟨rfl, rfl⟩ := h
      · exact ⟨"%" ++ c.newTEMP.1, by simp [hp, instruction.isFraming],
          by simp [counters.newTEMP]⟩
      · exact ⟨a.addr, by simp, rfl, rfl⟩
  · simp only [Option.some.injEq, Prod.mk.injEq] at h
    obtain ⟨rfl, rfl⟩ := h
    exact ⟨a.addr, by simp, rfl, rfl⟩

/-! ## Code pass: what the code of an expression holds -/

theorem isPUSH_framing (i : instruction) (h : instruction.isFraming i = false) :
    instruction.isPUSH i = false := by
  cases i <;> simp_all [instruction.isFraming, instruction.isPUSH]

theorem isPOP_framing (i : instruction) (h : instruction.isFraming i = false) :
    instruction.isPOP i = false := by
  cases i <;> simp_all [instruction.isFraming, instruction.isPOP]

theorem isLABEL_framing (i : instruction) (h : instruction.isFraming i = false) :
    instruction.isLABEL i = false := by
  cases i <;> simp_all [instruction.isFraming, instruction.isLABEL]

theorem pushes_append (a b : instructionList) : pushes (a ++ b) = pushes a + pushes b := by
  simp [pushes]

theorem pops_append (a b : instructionList) : pops (a ++ b) = pops a + pops b := by
  simp [pops]

theorem labels_append (a b : instructionList) : labels (a ++ b) = labels a ++ labels b := by
  induction a with
  | nil => rfl
  | cons i a ih => cases i <;> simp [labels, ih]

theorem labels_filter (code : instructionList) :
    labels (code.filter instruction.isLABEL) = labels code := by
  induction code with
  | nil => rfl
  | cons i code ih => cases i <;> simp [labels, instruction.isLABEL, List.filter_cons, ih]

theorem pushes_filter (code : instructionList) :
    pushes code = (code.filter instruction.isPUSH).length := by
  simp [pushes, List.countP_eq_length_filter]

theorem pops_filter (code : instructionList) :
    pops code = (code.filter instruction.isPOP).length := by
  simp [pops, List.countP_eq_length_filter]

theorem labels_replicate_POP (n : Nat) :
    labels (List.replicate n (instruction.POP none)) = [] := by
  induction n with
  | zero => rfl
  | succ n ih => simpa [List.replicate_succ, labels] using ih

theorem ExprCode_nil (c : counters) : ExprCode [] 0 c c :=
  ⟨rfl, rfl, rfl, rfl⟩

/-- A node that adds no `PUSH`, `POP`, `CALL` nor `LABEL` to the codes `a` and
`b` of its operands, lowered one after the other, has the code of an
expression. -/
theorem ExprCode_node (a b code : instructionList) (c c1 c2 c3 : counters)
    (ha : ExprCode a 0 c c1) (hb : ExprCode b 0 c1 c2)
    (hf : ∀ p : instruction → Bool, (∀ i, instruction.isFraming i = false → p i = false) →
      code.filter p = a.filter p ++ b.filter p)
    (hc : c3.LabelIF = c2.LabelIF ∧ c3.LabelWHILE = c2.LabelWHILE) :
    ExprCode code 0 c c3 := by
  obtain ⟨ha1, ha2, ha3, ha4⟩ := ha
  obtain ⟨hb1, hb2, hb3, hb4⟩ := hb
  refine ⟨?_, ?_, by omega, by omega⟩
  · rw [pushes_filter, pops_filter, hf _ isPUSH_framing, hf _ isPOP_framing]
    rw [pushes_filter, pops_filter] at ha1 hb1
    simp only [List.length_append]
    omega
  · rw [← labels_filter, hf _ isLABEL_framing, labels_append, labels_filter, labels_filter,
      ha2, hb2]
    rfl

mutual
theorem visitExpr_ExprCode (Symbols : SymTable) :
    ∀ (e : Expr) (c : counters) (r : CodeGenVisitor.CodeAttribs) (c1 : counters),
      CodeGenVisitor.visitExpr Symbols e c = some (r, c1) → ExprCode r.code 0 c c1
  | .arrayAccessExpr e0 e1, c, r, c1, h => by
    simp only [CodeGenVisitor.visitExpr] at h
    split at h
    · cases h
    · rename_i a ca h0
      split at h
      · cases h
      · rename_i b cb h1
        simp only [Option.some.injEq] at h
        have e1 := congrArg Prod.fst h
        have e2 := congrArg Prod.snd h
        simp only at e1 e2
        subst e1 e2
        exact ExprCode_node a.code b.code _ c ca cb _
          (visitExpr_ExprCode Symbols e0 c a ca h0) (visitExpr_ExprCode Symbols e1 ca b cb h1)
          (fun p hp => filter_visitArrayAccessExpr p hp a b cb)
          (by simp [CodeGenVisitor.visitArrayAccessExpr, counters.newTEMP])
  | .funcExpr ident args, c, r, c1, h => by
    simp only [CodeGenVisitor.visitExpr] at h
    split at h
    · cases h
    · rename_i code ca h0
      simp only [Option.some.injEq, Prod.mk.injEq] at h
      obtain ⟨rfl, rfl⟩ := h
      obtain ⟨h1, h2, h3, h4⟩ := visitArguments_ExprCode Symbols _ args 0 c code ca h0
      refine ⟨?_, ?_, by simp [counters.newTEMP, h3], by simp [counters.newTEMP, h4]⟩
      · simp only [pushes, pops] at h1 ⊢
        simp [List.countP_append, List.countP_cons, List.countP_replicate, instruction.isPUSH,
          instruction.isPOP, h1]
        omega
      · simp only [labels_append, h2]
        simp [labels, labels_replicate_POP]
  | .exprIdent ident, c, r, c1, h => by
    simp only [CodeGenVisitor.visitExpr, Option.some.injEq, Prod.mk.injEq] at h
    obtain ⟨rfl, rfl⟩ := h
    exact ExprCode_nil c
  | .arithmetic op e0 e1, c, r, c1, h => by
    simp only [CodeGenVisitor.visitExpr] at h
    split at h
    · cases h
    · rename_i a ca h0
      split at h
      · cases h
      · rename_i b cb h1
        simp only [Option.some.injEq] at h
        have e1 := congrArg Prod.fst h
        have e2 := congrArg Prod.snd h
        simp only at e1 e2
        subst e1 e2
        exact ExprCode_node a.code b.code _ c ca cb _
          (visitExpr_ExprCode Symbols e0 c a ca h0) (visitExpr_ExprCode Symbols e1 ca b cb h1)
          (fun p hp => filter_visitArithmetic p hp op a b _ _ _ cb)
          (labelCounters_visitArithmetic op a b _ _ _ cb)
  | .relational op e0 e1, c, r, c1, h => by
    simp only [CodeGenVisitor.visitExpr] at h
    split at h
    · cases h
    · rename_i a ca h0
      split at h
      · cases h
      · rename_i b cb h1
        simp only [Option.some.injEq] at h
        have e1 := congrArg Prod.fst h
        have e2 := congrArg Prod.snd h
        simp only at e1 e2
        subst e1 e2
        exact ExprCode_node a.code b.code _ c ca cb _
          (visitExpr_ExprCode Symbols e0 c a ca h0) (visitExpr_ExprCode Symbols e1 ca b cb h1)
          (fun p hp => filter_visitRelational p hp op a b _ _ cb)
          (labelCounters_visitRelational op a b _ _ cb)
  | .unaryArithmetic op e, c, r, c1, h => by
    simp only [CodeGenVisitor.visitExpr] at h
    split at h
    · cases h
    · rename_i a ca h0
      simp only [Option.some.injEq] at h
      have e1 := congrArg Prod.fst h
      have e2 := congrArg Prod.snd h
      simp only at e1 e2
      subst e1 e2
      exact ExprCode_node a.code [] _ c ca ca _
        (visitExpr_ExprCode Symbols e c a ca h0) (ExprCode_nil ca)
        (fun p hp => by simpa using filter_visitUnaryArithmetic p hp op a _ ca)
        (labelCounters_visitUnaryArithmetic op a _ ca)
  | .unaryLogical e, c, r, c1, h => by
    simp only [CodeGenVisitor.visitExpr] at h
    split at h
    · cases h
    · rename_i a ca h0
      simp only [Option.some.injEq] at h
      have e1 := congrArg Prod.fst h
      have e2 := congrArg Prod.snd h
      simp only at e1 e2
      subst e1 e2
      exact ExprCode_node a.code [] _ c ca ca _
        (visitExpr_ExprCode Symbols e c a ca h0) (ExprCode_nil ca)
        (fun p hp => by simpa using filter_visitUnaryLogical p hp a ca)
        (by simp [CodeGenVisitor.visitUnaryLogical, counters.newTEMP])
  | .parenthesis e, c, r, c1, h => by
    simp only [CodeGenVisitor.visitExpr] at h
    exact visitExpr_ExprCode Symbols e c r c1 h
  | .value tok text, c, r, c1, h => by
    simp only [CodeGenVisitor.visitExpr, Option.some.injEq] at h
    have e1 := congrArg Prod.fst h
    have e2 := congrArg Prod.snd h
    simp only at e1 e2
    subst e1 e2
    exact ExprCode_node [] [] _ c c c _ (ExprCode_nil c) (ExprCode_nil c)
      (fun p hp => by simpa using filter_visitValue p hp _ text c)
      (by simp [CodeGenVisitor.visitValue, counters.newTEMP])
  | .logical op e0 e1, c, r, c1, h => by
    simp only [CodeGenVisitor.visitExpr] at h
    split at h
    · cases h
    · rename_i a ca h0
      split at h
      · cases h
      · rename_i b cb h1
        simp only [Option.some.injEq] at h
        have e1 := congrArg Prod.fst h
        have e2 := congrArg Prod.snd h
        simp only at e1 e2
        subst e1 e2
        exact ExprCode_node a.code b.code _ c ca cb _
          (visitExpr_ExprCode Symbols e0 c a ca h0) (visitExpr_ExprCode Symbols e1 ca b cb h1)
          (fun p hp => filter_visitLogical p hp op a b cb)
          (by simp [CodeGenVisitor.visitLogical, counters.newTEMP])
theorem visitArguments_ExprCode (Symbols : SymTable) (functionParams : List TypeId) :
    ∀ (es : List Expr) (i : Nat) (c : counters) (code : instructionList) (c1 : counters),
      CodeGenVisitor.visitArguments Symbols functionParams i es c = some (code, c1) →
      ExprCode code es.length c c1
  | [], i, c, code, c1, h => by
    simp only [CodeGenVisitor.visitArguments, Option.some.injEq, Prod.mk.injEq] at h
    obtain ⟨rfl, rfl⟩ := h
    exact ExprCode_nil c
  | e :: es, i, c, code, c1, h => by
    simp only [CodeGenVisitor.visitArguments] at h
    split at h
    · cases h
    · rename_i a ca h0
      split at h
      · cases h
      · rename_i codeA cp hp
        split at h
        · cases h
        · rename_i rest cr hr
          simp only [Option.some.injEq, Prod.mk.injEq] at h
          obtain ⟨rfl, rfl⟩ := h
          obtain ⟨a1, a2, a3, a4⟩ := visitExpr_ExprCode Symbols e c a ca h0
          obtain ⟨r1, r2, r3, r4⟩ := visitArguments_ExprCode Symbols functionParams es (i + 1) cp
            rest cr hr
          obtain ⟨x1, hx1, _, _⟩ := filter_pushArgument _ isPUSH_framing functionParams i a _ ca
            cp codeA hp
          obtain ⟨x2, hx2, _, _⟩ := filter_pushArgument _ isPOP_framing functionParams i a _ ca
            cp codeA hp
          obtain ⟨x3, hx3, h5, h6⟩ := filter_pushArgument _ isLABEL_framing functionParams i a _
            ca cp codeA hp
          have hA1 : pushes codeA = pushes a.code + 1 := by
            rw [pushes_filter, hx1, pushes_filter]
            simp [instruction.isPUSH]
          have hA2 : pops codeA = pops a.code := by
            rw [pops_filter, hx2, pops_filter]
            simp [instruction.isPOP]
          have hA3 : labels codeA = [] := by
            rw [← labels_filter, hx3, labels_append, labels_filter, a2]
            rfl
          refine ⟨?_, ?_, by omega, by omega⟩
          · rw [pushes_append, pops_append, r1, hA1, hA2, a1, List.length_cons]
            omega
          · rw [labels_append, r2, hA3]
            rfl
end

/-! ## Label names

The text of a number determines the number, and the four prefixes of label names
differ within their first four characters, so a label name determines its kind
and its number. -/

theorem digitChar_value (d : Nat) (h : d < 10) : (Nat.digitChar d).toNat - 48 = d := by
  interval_cases d <;> rfl

theorem toDigitsCore_append (fuel : Nat) :
    ∀ (n : Nat) (ds : List Char),
      Nat.toDigitsCore 10 fuel n ds = Nat.toDigitsCore 10 fuel n [] ++ ds := by
  induction fuel with
  | zero => intro n ds; simp [Nat.toDigitsCore]
  | succ fuel ih =>
    intro n ds
    simp only [Nat.toDigitsCore]
    split
    · simp
    · rw [ih (n / 10) (Nat.digitChar (n % 10) :: ds), ih (n / 10) [Nat.digitChar (n % 10)]]
      simp

theorem digitsValue_snoc (l : List Char) (ch : Char) :
    digitsValue (l ++ [ch]) = 10 * digitsValue l + (ch.toNat - 48) := by
  simp [digitsValue, List.foldl_append]

theorem digitsValue_toDigitsCore (fuel : Nat) :
    ∀ n : Nat, n < fuel → digitsValue (Nat.toDigitsCore 10 fuel n []) = n := by
  induction fuel with
  | zero => intro n h; omega
  | succ fuel ih =>
    intro n h
    simp only [Nat.toDigitsCore]
    split
    · rename_i h0
      have hn : n < 10 := by omega
      simp [digitsValue, Nat.mod_eq_of_lt hn, digitChar_value n hn]
    · rename_i h0
      rw [toDigitsCore_append, digitsValue_snoc, ih (n / 10) (by omega),
        digitChar_value (n % 10) (Nat.mod_lt n (by decide))]
      omega

theorem toString_nat_inj (a b : Nat) (h : toString a = toString b) : a = b := by
  have h1 : (Nat.toDigits 10 a).asString = (Nat.toDigits 10 b).asString := h
  have h2 : Nat.toDigits 10 a = Nat.toDigits 10 b := congrArg String.data h1
  have ha := digitsValue_toDigitsCore (a + 1) a (by omega)
  have hb := digitsValue_toDigitsCore (b + 1) b (by omega)
  simp only [Nat.toDigits] at h2
  rw [← ha, ← hb, h2]

theorem label_endif_endelse (s t : String) : "endif" ++ s ≠ "endelse" ++ t := by
  intro h
  have := congrArg String.data h
  simp [String.data_append] at this

theorem label_endif_while (s t : String) : "endif" ++ s ≠ "while" ++ t := by
  intro h
  have := congrArg String.data h
  simp [String.data_append] at this

theorem label_endif_endWhile (s t : String) : "endif" ++ s ≠ "endWhile" ++ t := by
  intro h
  have := congrArg String.data h
  simp [String.data_append] at this

theorem label_endelse_while (s t : String) : "endelse" ++ s ≠ "while" ++ t := by
  intro h
  have := congrArg String.data h
  simp [String.data_append] at this

theorem label_endelse_endWhile (s t : String) : "endelse" ++ s ≠ "endWhile" ++ t := by
  intro h
  have := congrArg String.data h
  simp [String.data_append] at this

theorem label_while_endWhile (s t : String) : "while" ++ s ≠ "endWhile" ++ t := by
  intro h
  have := congrArg String.data h
  simp [String.data_append] at this

theorem label_number (pre : String) (a b : Nat) (h : pre ++ toString a = pre ++ toString b) :
    a = b := by
  apply toString_nat_inj
  have := congrArg String.data h
  simp only [String.data_append, List.append_cancel_left_eq] at this
  exact String.ext this

/-! ## Code pass: what the code of a statement holds -/

theorem LabelIn_mono (c c1 d d1 : counters) (l : String) (h : LabelIn c c1 l)
    (h1 : d.LabelIF ≤ c.LabelIF) (h2 : d.LabelWHILE ≤ c.LabelWHILE)
    (h3 : c1.LabelIF ≤ d1.LabelIF) (h4 : c1.LabelWHILE ≤ d1.LabelWHILE) : LabelIn d d1 l := by
  rcases h with ⟨k, hk1, hk2, hk⟩ | ⟨k, hk1, hk2, hk⟩
  · exact Or.inl ⟨k, by omega, by omega, hk⟩
  · exact Or.inr ⟨k, by omega, by omega, hk⟩

/-- A label name is not numbered both before and after the same counters. -/
theorem LabelIn_disjoint (c c1 d d1 : counters) (l : String) (h : LabelIn c c1 l)
    (h' : LabelIn d d1 l) (h1 : c1.LabelIF ≤ d.LabelIF) (h2 : c1.LabelWHILE ≤ d.LabelWHILE) :
    False := by
  rcases h with ⟨k, hk1, hk2, hk | hk⟩ | ⟨k, hk1, hk2, hk | hk⟩ <;>
    rcases h' with ⟨j, hj1, hj2, hj | hj⟩ | ⟨j, hj1, hj2, hj | hj⟩ <;>
    rw [hk] at hj <;>
    first
    | exact absurd (label_number _ _ _ hj) (by omega)
    | exact label_endif_endelse _ _ hj
    | exact label_endif_endelse _ _ hj.symm
    | exact label_endif_while _ _ hj
    | exact label_endif_while _ _ hj.symm
    | exact label_endif_endWhile _ _ hj
    | exact label_endif_endWhile _ _ hj.symm
    | exact label_endelse_while _ _ hj
    | exact label_endelse_while _ _ hj.symm
    | exact label_endelse_endWhile _ _ hj
    | exact label_endelse_endWhile _ _ hj.symm
    | exact label_while_endWhile _ _ hj
    | exact label_while_endWhile _ _ hj.symm

theorem StmtCode_of_ExprCode (code : instructionList) (c c1 : counters)
    (h : ExprCode code 0 c c1) : StmtCode code c c1 := by
  obtain ⟨h1, h2, h3, h4⟩ := h
  refine ⟨by omega, by omega, by omega, ?_, ?_⟩
  · intro l hl; rw [h2] at hl; cases hl
  · rw [h2]; exact List.nodup_nil

theorem StmtCode_mono (code : instructionList) (c c1 d d1 : counters) (h : StmtCode code c c1)
    (h1 : d.LabelIF ≤ c.LabelIF) (h2 : d.LabelWHILE ≤ c.LabelWHILE)
    (h3 : c1.LabelIF ≤ d1.LabelIF) (h4 : c1.LabelWHILE ≤ d1.LabelWHILE) :
    StmtCode code d d1 := by
  obtain ⟨a1, a2, a3, a4, a5⟩ := h
  exact ⟨a1, by omega, by omega, fun l hl => LabelIn_mono c c1 d d1 l (a4 l hl) h1 h2 h3 h4, a5⟩

/-- Codes lowered one after the other. -/
theorem StmtCode_append (a b : instructionList) (c c1 c2 : counters) (ha : StmtCode a c c1)
    (hb : StmtCode b c1 c2) : StmtCode (a ++ b) c c2 := by
  obtain ⟨a1, a2, a3, a4, a5⟩ := ha
  obtain ⟨b1, b2, b3, b4, b5⟩ := hb
  refine ⟨by rw [pushes_append, pops_append]; omega, by omega, by omega, ?_, ?_⟩
  · intro l hl
    rw [labels_append, List.mem_append] at hl
    rcases hl with hl | hl
    · exact LabelIn_mono c c1 c c2 l (a4 l hl) (le_refl _) (le_refl _) b2 b3
    · exact LabelIn_mono c1 c2 c c2 l (b4 l hl) a2 a3 (le_refl _) (le_refl _)
  · rw [labels_append, List.nodup_append]
    refine ⟨a5, b5, ?_⟩
    intro l hla hlb
    exact LabelIn_disjoint c c1 c1 c2 l (a4 l hla) (b4 l hlb) (le_refl _) (le_refl _)

/-- An instruction that is no `PUSH`, `POP`, `CALL` or `LABEL`. -/
theorem StmtCode_single (i : instruction) (c : counters)
    (h : instruction.isFraming i = false) : StmtCode [i] c c := by
  apply StmtCode_of_ExprCode
  refine ⟨?_, ?_, rfl, rfl⟩
  · simp [pushes, pops, isPUSH_framing i h, isPOP_framing i h]
  · rw [← labels_filter]
    simp [isLABEL_framing i h, labels]

/-- A code lowered after the counters `d`, between a label and a second one that
are both numbered before `d`. -/
theorem StmtCode_wrap (code : instructionList) (c d c1 : counters) (l1 l2 : String)
    (h : StmtCode code d c1) (h1 : LabelIn c d l1) (h2 : LabelIn c d l2) (hne : l1 ≠ l2)
    (hd1 : c.LabelIF ≤ d.LabelIF) (hd2 : c.LabelWHILE ≤ d.LabelWHILE) :
    StmtCode ([instruction.LABEL l1] ++ code ++ [instruction.LABEL l2]) c c1 := by
  obtain ⟨a1, a2, a3, a4, a5⟩ := h
  have hl : labels ([instruction.LABEL l1] ++ code ++ [instruction.LABEL l2]) =
      l1 :: (labels code ++ [l2]) := by
    simp [labels_append, labels]
  refine ⟨?_, by omega, by omega, ?_, ?_⟩
  · simp only [pushes_append, pops_append, a1]
    simp [pushes, pops, instruction.isPUSH, instruction.isPOP]
  · intro l hmem
    rw [hl] at hmem
    simp only [List.mem_cons, List.mem_append, List.not_mem_nil, or_false] at hmem
    rcases hmem with rfl | hmem | rfl
    · exact LabelIn_mono c d c c1 l h1 (le_refl _) (le_refl _) a2 a3
    · exact LabelIn_mono d c1 c c1 l (a4 l hmem) hd1 hd2 (le_refl _) (le_refl _)
    · exact LabelIn_mono c d c c1 l h2 (le_refl _) (le_refl _) a2 a3
  · rw [hl, List.nodup_cons, List.nodup_append]
    refine ⟨?_, a5, List.nodup_singleton l2, ?_⟩
    · simp only [List.mem_append, List.mem_singleton, not_or]
      exact ⟨fun hm => LabelIn_disjoint c d d c1 l1 h1 (a4 l1 hm) (le_refl _) (le_refl _), hne⟩
    · intro l hm hm2
      rw [List.mem_singleton] at hm2
      subst hm2
      exact LabelIn_disjoint c d d c1 l h2 (a4 l hm) (le_refl _) (le_refl _)

theorem filter_visitAssignStmt (p : instruction → Bool)
    (hp : ∀ i, instruction.isFraming i = false → p i = false)
    (a b : CodeGenVisitor.CodeAttribs) (tid1 tid2 : TypeId) (c : counters) :
    (CodeGenVisitor.visitAssignStmt a b tid1 tid2 c).1.filter p =
        a.code.filter p ++ b.code.filter p ∧
      (CodeGenVisitor.visitAssignStmt a b tid1 tid2 c).2.LabelIF = c.LabelIF ∧
      (CodeGenVisitor.visitAssignStmt a b tid1 tid2 c).2.LabelWHILE = c.LabelWHILE := by
  simp only [CodeGenVisitor.visitAssignStmt]
  (repeat' split) <;> simp [hp, instruction.isFraming, counters.newTEMP]

theorem filter_visitReadStmt (p : instruction → Bool)
    (hp : ∀ i, instruction.isFraming i = false → p i = false)
    (a : CodeGenVisitor.CodeAttribs) (tid1 : TypeId) (c : counters) :
    (CodeGenVisitor.visitReadStmt a tid1 c).1.filter p = a.code.filter p ∧
      (CodeGenVisitor.visitReadStmt a tid1 c).2.LabelIF = c.LabelIF ∧
      (CodeGenVisitor.visitReadStmt a tid1 c).2.LabelWHILE = c.LabelWHILE := by
  simp only [CodeGenVisitor.visitReadStmt]
  (repeat' split) <;> simp [hp, instruction.isFraming, counters.newTEMP]

theorem filter_visitWriteExpr (p : instruction → Bool)
    (hp : ∀ i, instruction.isFraming i = false → p i = false)
    (a : CodeGenVisitor.CodeAttribs) (tid1 : TypeId) :
    (CodeGenVisitor.visitWriteExpr a tid1).filter p = a.code.filter p := by
  simp only [CodeGenVisitor.visitWriteExpr]
  (repeat' split) <;> simp [hp, instruction.isFraming]

theorem visitLeft_expr_ExprCode (Symbols : SymTable) (l : Left_expr) (c : counters)
    (r : CodeGenVisitor.CodeAttribs) (c1 : counters)
    (h : CodeGenVisitor.visitLeft_expr Symbols l c = some (r, c1)) : ExprCode r.code 0 c c1 := by
  cases l with
  | leftExprIdent ident =>
    simp only [CodeGenVisitor.visitLeft_expr, Option.some.injEq, Prod.mk.injEq] at h
    obtain ⟨rfl, rfl⟩ := h
    exact ExprCode_nil c
  | arrayAccessLExpr e0 e1 =>
    simp only [CodeGenVisitor.visitLeft_expr] at h
    split at h
    · cases h
    · rename_i a ca h0
      split at h
      · cases h
      · rename_i b cb h1
        simp only [Option.some.injEq, Prod.mk.injEq] at h
        obtain ⟨rfl, rfl⟩ := h
        exact ExprCode_node a.code b.code _ c ca cb cb
          (visitExpr_ExprCode Symbols e0 c a ca h0) (visitExpr_ExprCode Symbols e1 ca b cb h1)
          (fun p _ => by simp [CodeGenVisitor.visitArrayAccessLExpr]) ⟨rfl, rfl⟩

/-- The code of a call statement: the argument loop framed by the `PUSH` and the
`POP` of the return slot, when there is one, and by one `POP` per argument. -/
theorem visitProcCall_ExprCode (tFunc : TypeId) (ident : String) (n : Nat)
    (args : instructionList) (c c1 : counters) (h : ExprCode args n c c1) :
    ExprCode (CodeGenVisitor.visitProcCall tFunc ident n args) 0 c c1 := by
  obtain ⟨h1, h2, h3, h4⟩ := h
  simp only [pushes, pops] at h1
  refine ⟨?_, ?_, h3, h4⟩
  · simp only [CodeGenVisitor.visitProcCall, pushes, pops]
    split
    · simp [List.countP_append, List.countP_cons, List.countP_replicate, instruction.isPUSH,
        instruction.isPOP, h1]
      omega
    · simp [List.countP_append, List.countP_cons, List.countP_replicate, instruction.isPUSH,
        instruction.isPOP, h1]
  · simp only [CodeGenVisitor.visitProcCall]
    split <;> simp [labels_append, h2, labels, labels_replicate_POP]

mutual
theorem visitStatement_StmtCode (Symbols : SymTable) :
    ∀ (s : Statement) (c : counters) (code : instructionList) (c1 : counters),
      CodeGenVisitor.visitStatement Symbols s c = some (code, c1) → StmtCode code c c1
  | .procCall ident args, c, code, c1, h => by
    simp only [CodeGenVisitor.visitStatement] at h
    split at h
    · cases h
    · rename_i argsCode ca h0
      simp only [Option.some.injEq, Prod.mk.injEq] at h
      obtain ⟨rfl, rfl⟩ := h
      exact StmtCode_of_ExprCode _ _ _
        (visitProcCall_ExprCode _ ident _ argsCode c ca
          (visitArguments_ExprCode Symbols _ args 0 c argsCode ca h0))
  | .writeExpr e, c, code, c1, h => by
    simp only [CodeGenVisitor.visitStatement] at h
    split at h
    · cases h
    · rename_i a ca h0
      simp only [Option.some.injEq, Prod.mk.injEq] at h
      obtain ⟨rfl, rfl⟩ := h
      exact StmtCode_of_ExprCode _ _ _
        (ExprCode_node a.code [] _ c ca ca ca (visitExpr_ExprCode Symbols e c a ca h0)
          (ExprCode_nil ca) (fun p hp => by simpa using filter_visitWriteExpr p hp a _)
          ⟨rfl, rfl⟩)
  | .whileStmt e ss, c, code, c1, h => by
    simp only [CodeGenVisitor.visitStatement] at h
    split at h
    · cases h
    · rename_i a ca h0
      split at h
      · cases h
      · rename_i code2 cb h1
        simp only [Option.some.injEq, Prod.mk.injEq] at h
        obtain ⟨rfl, rfl⟩ := h
        have hC := StmtCode_of_ExprCode _ _ _ (visitExpr_ExprCode Symbols e _ a ca h0)
        have hB := visitStatements_StmtCode Symbols ss ca code2 cb h1
        have hM := StmtCode_append _ _ _ _ _
          (StmtCode_append _ _ _ _ _
            (StmtCode_append _ _ _ _ _ hC
              (StmtCode_single (instruction.FJUMP a.addr ("endWhile" ++ toString c.LabelWHILE)) ca
                rfl)) hB)
          (StmtCode_single (instruction.UJUMP ("while" ++ toString c.LabelWHILE)) cb rfl)
        have hW := StmtCode_wrap _ c _ cb ("while" ++ toString c.LabelWHILE)
          ("endWhile" ++ toString c.LabelWHILE) hM
          (Or.inr ⟨c.LabelWHILE, le_refl _, by simp [CodeGenVisitor.visitWhileStmtLabel,
            counters.newLabelWHILE], Or.inl rfl⟩)
          (Or.inr ⟨c.LabelWHILE, le_refl _, by simp [CodeGenVisitor.visitWhileStmtLabel,
            counters.newLabelWHILE], Or.inr rfl⟩)
          (label_while_endWhile _ _)
          (by simp [CodeGenVisitor.visitWhileStmtLabel, counters.newLabelWHILE])
          (by simp [CodeGenVisitor.visitWhileStmtLabel, counters.newLabelWHILE])
        simpa [CodeGenVisitor.visitWhileStmt, CodeGenVisitor.visitWhileStmtLabel,
          counters.newLabelWHILE, List.append_assoc] using hW
  | .ifStmt e s0 none, c, code, c1, h => by
    simp only [CodeGenVisitor.visitStatement] at h
    split at h
    · cases h
    · rename_i a ca h0
      split at h
      · cases h
      · rename_i code2 cb h1
        simp only [Option.some.injEq] at h
        have e1 := congrArg Prod.fst h
        have e2 := congrArg Prod.snd h
        simp only at e1 e2
        subst e1 e2
        have hC := StmtCode_of_ExprCode _ _ _ (visitExpr_ExprCode Symbols e _ a ca h0)
        have hB := visitStatements_StmtCode Symbols s0 ca code2 cb h1
        have hL : StmtCode [instruction.LABEL ("endif" ++ toString cb.LabelIF)] cb
            { cb with LabelIF := cb.LabelIF + 1 } := by
          have := StmtCode_wrap [] cb { cb with LabelIF := cb.LabelIF + 1 }
            { cb with LabelIF := cb.LabelIF + 1 } ("endif" ++ toString cb.LabelIF)
            ("endelse" ++ toString cb.LabelIF)
            (StmtCode_of_ExprCode _ _ _ (ExprCode_nil _))
            (Or.inl ⟨cb.LabelIF, le_refl _, by simp, Or.inl rfl⟩)
            (Or.inl ⟨cb.LabelIF, le_refl _, by simp, Or.inr rfl⟩)
            (label_endif_endelse _ _) (by simp) (by simp)
          obtain ⟨w1, w2, w3, w4, w5⟩ := this
          refine ⟨rfl, w2, w3, ?_, List.nodup_singleton _⟩
          intro l hl
          exact w4 l (by simp [labels] at hl ⊢; exact Or.inl hl)
        have hM := StmtCode_append _ _ _ _ _
          (StmtCode_append _ _ _ _ _
            (StmtCode_append _ _ _ _ _ hC
              (StmtCode_single (instruction.FJUMP a.addr ("endif" ++ toString cb.LabelIF)) ca
                rfl)) hB) hL
        simpa [CodeGenVisitor.visitIfStmt, counters.newLabelIF] using hM
  | .ifStmt e s0 (some s1), c, code, c1, h => by
    simp only [CodeGenVisitor.visitStatement] at h
    split at h
    · cases h
    · rename_i a ca h0
      split at h
      · cases h
      · rename_i code2 cb h1
        split at h
        · cases h
        · rename_i code3 cd h2
          simp only [Option.some.injEq, Prod.mk.injEq] at h
          obtain ⟨rfl, rfl⟩ := h
          have hC := StmtCode_of_ExprCode _ _ _ (visitExpr_ExprCode Symbols e _ a ca h0)
          have hB := visitStatements_StmtCode Symbols s0 ca code2 cb h1
          have hE := visitStatements_StmtCode Symbols s1 _ code3 cd h2
          have hX := StmtCode_append _ _ _ _ _
            (StmtCode_append _ _ _ _ _
              (StmtCode_append _ _ _ _ _ hC
                (StmtCode_single (instruction.FJUMP a.addr ("endif" ++ toString cb.LabelIF)) ca
                  rfl)) hB)
            (StmtCode_single (instruction.UJUMP ("endelse" ++ toString cb.LabelIF)) cb rfl)
          have hlt : cb.LabelIF < (CodeGenVisitor.visitIfStmtLabels cb).2.LabelIF := by
            simp only [CodeGenVisitor.visitIfStmtLabels, counters.newLabelIF]
            omega
          have hY := StmtCode_wrap code3 cb _ cd ("endif" ++ toString cb.LabelIF)
            ("endelse" ++ toString cb.LabelIF) hE
            (Or.inl ⟨cb.LabelIF, le_refl _, hlt, Or.inl rfl⟩)
            (Or.inl ⟨cb.LabelIF, le_refl _, hlt, Or.inr rfl⟩)
            (label_endif_endelse _ _) (le_of_lt hlt)
            (by simp [CodeGenVisitor.visitIfStmtLabels, counters.newLabelIF])
          have hZ := StmtCode_append _ _ _ _ _ hX hY
          simpa [CodeGenVisitor.visitIfElseStmt, CodeGenVisitor.visitIfStmtLabels,
            counters.newLabelIF, List.append_assoc] using hZ
  | .readStmt l, c, code, c1, h => by
    simp only [CodeGenVisitor.visitStatement] at h
    split at h
    · cases h
    · rename_i a ca h0
      simp only [Option.some.injEq] at h
      have e1 := congrArg Prod.fst h
      have e2 := congrArg Prod.snd h
      simp only at e1 e2
      subst e1 e2
      exact StmtCode_of_ExprCode _ _ _
        (ExprCode_node a.code [] _ c ca ca _ (visitLeft_expr_ExprCode Symbols l c a ca h0)
          (ExprCode_nil ca)
          (fun p hp => by simpa using (filter_visitReadStmt p hp a _ ca).1)
          (filter_visitReadStmt _ isPUSH_framing a _ ca).2)
  | .assignStmt l e, c, code, c1, h => by
    simp only [CodeGenVisitor.visitStatement] at h
    split at h
    · cases h
    · rename_i a ca h0
      split at h
      · cases h
      · rename_i b cb h1
        simp only [Option.some.injEq] at h
        have e1 := congrArg Prod.fst h
        have e2 := congrArg Prod.snd h
        simp only at e1 e2
        subst e1 e2
        exact StmtCode_of_ExprCode _ _ _
          (ExprCode_node a.code b.code _ c ca cb _ (visitLeft_expr_ExprCode Symbols l c a ca h0)
            (visitExpr_ExprCode Symbols e ca b cb h1)
            (fun p hp => (filter_visitAssignStmt p hp a b _ _ cb).1)
            (filter_visitAssignStmt _ isPUSH_framing a b _ _ cb).2)
  | .returnStmt none, c, code, c1, h => by
    simp only [CodeGenVisitor.visitStatement, Option.some.injEq, Prod.mk.injEq] at h
    obtain ⟨rfl, rfl⟩ := h
    exact StmtCode_single instruction.RETURN c rfl
  | .returnStmt (some e), c, code, c1, h => by
    simp only [CodeGenVisitor.visitStatement] at h
    split at h
    · cases h
    · rename_i a ca h0
      simp only [Option.some.injEq, Prod.mk.injEq] at h
      obtain ⟨rfl, rfl⟩ := h
      exact StmtCode_of_ExprCode _ _ _
        (ExprCode_node a.code [] _ c ca ca ca (visitExpr_ExprCode Symbols e c a ca h0)
          (ExprCode_nil ca)
          (fun p hp => by simp [CodeGenVisitor.visitReturnStmt, hp, instruction.isFraming])
          ⟨rfl, rfl⟩)
  | .writeString s, c, code, c1, h => by
    simp only [CodeGenVisitor.visitStatement, Option.some.injEq, Prod.mk.injEq] at h
    obtain ⟨rfl, rfl⟩ := h
    exact StmtCode_single (instruction.WRITES s) c rfl
theorem visitStatements_StmtCode (Symbols : SymTable) :
    ∀ (ss : List Statement) (c : counters) (code : instructionList) (c1 : counters),
      CodeGenVisitor.visitStatements Symbols ss c = some (code, c1) → StmtCode code c c1
  | [], c, code, c1, h => by
    simp only [CodeGenVisitor.visitStatements, Option.some.injEq, Prod.mk.injEq] at h
    obtain ⟨rfl, rfl⟩ := h
    exact StmtCode_of_ExprCode _ _ _ (ExprCode_nil c)
  | s :: ss, c, code, c1, h => by
    simp only [CodeGenVisitor.visitStatements] at h
    split at h
    · cases h
    · rename_i codeS ca h0
      split at h
      · cases h
      · rename_i rest cb h1
        simp only [Option.some.injEq, Prod.mk.injEq] at h
        obtain ⟨rfl, rfl⟩ := h
        exact StmtCode_append _ _ _ _ _ (visitStatement_StmtCode Symbols s c codeS ca h0)
          (visitStatements_StmtCode Symbols ss ca rest cb h1)
end

/-! ## Code pass: a program without diagnostics is lowered -/

theorem errors_visitArrayAccessExpr (a b : Visit) (h : (visitArrayAccessExpr a b).errors = []) :
    a.errors = [] ∧ b.errors = [] := by
  simp only [visitArrayAccessExpr, List.append_eq_nil] at h
  exact ⟨h.1.2, h.1.1.1⟩

theorem errors_visitArithmetic (op : ArithOp) (a b : Visit)
    (h : (visitArithmetic op a b).errors = []) : a.errors = [] ∧ b.errors = [] := by
  simp only [visitArithmetic] at h
  split at h <;> simp only [List.append_eq_nil] at h <;> exact ⟨h.1.1, h.1.2⟩

theorem errors_visitRelational (op : RelOp) (a b : Visit)
    (h : (visitRelational op a b).errors = []) : a.errors = [] ∧ b.errors = [] := by
  simp only [visitRelational, List.append_eq_nil] at h
  exact ⟨h.1.1, h.1.2⟩

theorem errors_visitLogical (a b : Visit) (h : (visitLogical a b).errors = []) :
    a.errors = [] ∧ b.errors = [] := by
  simp only [visitLogical, List.append_eq_nil] at h
  exact ⟨h.1.1, h.1.2⟩

theorem errors_visitUnaryArithmetic (a : Visit) (h : (visitUnaryArithmetic a).errors = []) :
    a.errors = [] := by
  simp only [visitUnaryArithmetic, List.append_eq_nil] at h
  exact h.1

theorem errors_visitUnaryLogical (a : Visit) (h : (visitUnaryLogical a).errors = []) :
    a.errors = [] := by
  simp only [visitUnaryLogical, List.append_eq_nil] at h
  exact h.1

/-- An identifier visited without diagnostic on a table without `Error` types
has a type that is not `Error`. -/
theorem visitIdent_nonError (Symbols : SymTable) (hS : Symbols.AllNonError) (ident : String)
    (herr : (visitIdent Symbols ident).errors = []) :
    isErrorTy (visitIdent Symbols ident).type = false := by
  unfold visitIdent at herr ⊢
  split
  · rename_i hf
    simp [hf] at herr
  · cases hl : SymTable.lookup Symbols.scopes ident Symbols.stack with
    | none =>
      rename_i hf
      simp [SymTable.findInStack, hl] at hf
    | some p =>
      have := lookup_nonError Symbols.scopes ident hS Symbols.stack p.1 p.2 hl
      split <;> simpa [SymTable.getType, hl] using this

/-- A call expression visited without diagnostic: the arguments are visited
without diagnostic and there are as many as the callee has parameters. -/
theorem funcExpr_valid (Symbols : SymTable) (hS : Symbols.AllNonError) (ident : String)
    (args : List Visit) (h : (visitFuncExpr (visitIdent Symbols ident) args).errors = []) :
    (∀ a ∈ args, a.errors = []) ∧
      (getFuncParamsTypes (visitIdent Symbols ident).type).length = args.length := by
  simp only [visitFuncExpr] at h
  split at h
  · simp at h
  · split at h
    · simp only [List.append_eq_nil] at h
      obtain ⟨⟨⟨⟨_, hargs⟩, _⟩, hnum⟩, _⟩ := h
      refine ⟨?_, ?_⟩
      · intro a ha
        simp only [List.flatMap_eq_nil_iff] at hargs
        exact hargs a ha
      · by_contra hc
        simp [hc] at hnum
    · rename_i h1 h2
      simp only [List.append_eq_nil] at h
      have := visitIdent_nonError Symbols hS ident h.1
      simp [this] at h1
      exact absurd h1 h2

/-- A call statement visited without diagnostic: the arguments are visited
without diagnostic and there are as many as the callee has parameters. -/
theorem procCall_valid (Symbols : SymTable) (hS : Symbols.AllNonError) (ident : String)
    (args : List Visit) (h : visitProcCall (visitIdent Symbols ident) args = []) :
    (∀ a ∈ args, a.errors = []) ∧
      (getFuncParamsTypes (visitIdent Symbols ident).type).length = args.length := by
  obtain ⟨hne, hfn⟩ := procCall_callee_function Symbols hS ident args h
  simp only [visitProcCall, hne, hfn] at h
  simp only [Bool.false_eq_true, if_false, Bool.not_true, List.append_eq_nil] at h
  obtain ⟨⟨_, hnum⟩, hargs⟩ := h
  refine ⟨?_, ?_⟩
  · intro a ha
    obtain ⟨i, hi, rfl⟩ := List.getElem_of_mem ha
    simp only [List.flatMap_eq_nil_iff] at hargs
    have := hargs (i, args[i]) (by
      rw [List.mk_mem_enum_iff_getElem?]
      simp [hi])
    simp only [List.append_eq_nil] at this
    exact this.1
  · by_contra hc
    simp [hc] at hnum

theorem pushArgument_total (functionParams : List TypeId) (i : Nat)
    (a : CodeGenVisitor.CodeAttribs) (tExpr : TypeId) (c : counters)
    (h : i < functionParams.length) :
    ∃ code c1, CodeGenVisitor.pushArgument functionParams i a tExpr c = some (code, c1) := by
  simp only [CodeGenVisitor.pushArgument, List.getElem?_eq_getElem h]
  (repeat' split) <;> exact ⟨_, _, rfl⟩

mutual
theorem visitExpr_total (Symbols : SymTable) (hS : Symbols.AllNonError) :
    ∀ (e : Expr) (c : counters), (visitExpr Symbols e).errors = [] →
      ∃ r c1, CodeGenVisitor.visitExpr Symbols e c = some (r, c1)
  | .arrayAccessExpr e0 e1, c, h => by
    simp only [visitExpr] at h
    obtain ⟨h0, h1⟩ := errors_visitArrayAccessExpr _ _ h
    obtain ⟨a, ca, ha⟩ := visitExpr_total Symbols hS e0 c h0
    obtain ⟨b, cb, hb⟩ := visitExpr_total Symbols hS e1 ca h1
    exact ⟨_, _, by simp only [CodeGenVisitor.visitExpr, ha, hb]; rfl⟩
  | .funcExpr ident args, c, h => by
    simp only [visitExpr] at h
    obtain ⟨hargs, hlen⟩ := funcExpr_valid Symbols hS ident _ h
    rw [visitExprs_eq_map] at hargs hlen
    obtain ⟨code, ca, ha⟩ := visitArguments_total Symbols hS
      (getFuncParamsTypes (visitIdent Symbols ident).type) args 0 c
      (fun e he => hargs _ (List.mem_map_of_mem _ he)) (by simp at hlen; omega)
    exact ⟨_, _, by simp only [CodeGenVisitor.visitExpr, ha]; rfl⟩
  | .exprIdent ident, c, _ => ⟨_, _, by simp only [CodeGenVisitor.visitExpr]; rfl⟩
  | .arithmetic op e0 e1, c, h => by
    simp only [visitExpr] at h
    obtain ⟨h0, h1⟩ := errors_visitArithmetic op _ _ h
    obtain ⟨a, ca, ha⟩ := visitExpr_total Symbols hS e0 c h0
    obtain ⟨b, cb, hb⟩ := visitExpr_total Symbols hS e1 ca h1
    exact ⟨_, _, by simp only [CodeGenVisitor.visitExpr, ha, hb]; rfl⟩
  | .relational op e0 e1, c, h => by
    simp only [visitExpr] at h
    obtain ⟨h0, h1⟩ := errors_visitRelational op _ _ h
    obtain ⟨a, ca, ha⟩ := visitExpr_total Symbols hS e0 c h0
    obtain ⟨b, cb, hb⟩ := visitExpr_total Symbols hS e1 ca h1
    exact ⟨_, _, by simp only [CodeGenVisitor.visitExpr, ha, hb]; rfl⟩
  | .unaryArithmetic op e, c, h => by
    simp only [visitExpr] at h
    obtain ⟨a, ca, ha⟩ := visitExpr_total Symbols hS e c (errors_visitUnaryArithmetic _ h)
    exact ⟨_, _, by simp only [CodeGenVisitor.visitExpr, ha]; rfl⟩
  | .unaryLogical e, c, h => by
    simp only [visitExpr] at h
    obtain ⟨a, ca, ha⟩ := visitExpr_total Symbols hS e c (errors_visitUnaryLogical _ h)
    exact ⟨_, _, by simp only [CodeGenVisitor.visitExpr, ha]; rfl⟩
  | .parenthesis e, c, h => by
    simp only [visitExpr, visitParenthesis] at h
    obtain ⟨a, ca, ha⟩ := visitExpr_total Symbols hS e c h
    exact ⟨a, ca, by simp only [CodeGenVisitor.visitExpr, ha]⟩
  | .value tok text, c, _ => ⟨_, _, by simp only [CodeGenVisitor.visitExpr]; rfl⟩
  | .logical op e0 e1, c, h => by
    simp only [visitExpr] at h
    obtain ⟨h0, h1⟩ := errors_visitLogical _ _ h
    obtain ⟨a, ca, ha⟩ := visitExpr_total Symbols hS e0 c h0
    obtain ⟨b, cb, hb⟩ := visitExpr_total Symbols hS e1 ca h1
    exact ⟨_, _, by simp only [CodeGenVisitor.visitExpr, ha, hb]; rfl⟩
theorem visitArguments_total (Symbols : SymTable) (hS : Symbols.AllNonError)
    (functionParams : List TypeId) :
    ∀ (es : List Expr) (i : Nat) (c : counters),
      (∀ e ∈ es, (visitExpr Symbols e).errors = []) → i + es.length ≤ functionParams.length →
      ∃ code c1, CodeGenVisitor.visitArguments Symbols functionParams i es c = some (code, c1)
  | [], i, c, _, _ => ⟨_, _, by simp only [CodeGenVisitor.visitArguments]; rfl⟩
  | e :: es, i, c, h, hlen => by
    obtain ⟨a, ca, ha⟩ := visitExpr_total Symbols hS e c (h e (List.mem_cons_self _ _))
    obtain ⟨codeA, cp, hp⟩ := pushArgument_total functionParams i a (visitExpr Symbols e).type ca
      (by simp at hlen; omega)
    obtain ⟨rest, cr, hr⟩ := visitArguments_total Symbols hS functionParams es (i + 1) cp
      (fun e' he' => h e' (List.mem_cons_of_mem _ he')) (by simp at hlen; omega)
    exact ⟨_, _, by simp only [CodeGenVisitor.visitArguments, ha, hp, hr]; rfl⟩
end

theorem visitLeft_expr_total (Symbols : SymTable) (hS : Symbols.AllNonError) (l : Left_expr)
    (c : counters) (h : (visitLeft_expr Symbols l).errors = []) :
    ∃ r c1, CodeGenVisitor.visitLeft_expr Symbols l c = some (r, c1) := by
  cases l with
  | leftExprIdent ident => exact ⟨_, _, by simp only [CodeGenVisitor.visitLeft_expr]; rfl⟩
  | arrayAccessLExpr e0 e1 =>
    simp only [visitLeft_expr] at h
    obtain ⟨h0, h1⟩ := errors_visitArrayAccessExpr _ _ h
    obtain ⟨a, ca, ha⟩ := visitExpr_total Symbols hS e0 c h0
    obtain ⟨b, cb, hb⟩ := visitExpr_total Symbols hS e1 ca h1
    exact ⟨_, _, by simp only [CodeGenVisitor.visitLeft_expr, ha, hb]; rfl⟩

mutual
theorem visitStatement_total (Symbols : SymTable) (hS : Symbols.AllNonError) (t : TypeId) :
    ∀ (s : Statement) (c : counters), visitStatement Symbols t s = [] →
      ∃ code c1, CodeGenVisitor.visitStatement Symbols s c = some (code, c1)
  | .procCall ident args, c, h => by
    simp only [visitStatement] at h
    obtain ⟨hargs, hlen⟩ := procCall_valid Symbols hS ident _ h
    rw [visitExprs_eq_map] at hargs hlen
    obtain ⟨code, ca, ha⟩ := visitArguments_total Symbols hS
      (getFuncParamsTypes (visitIdent Symbols ident).type) args 0 c
      (fun e he => hargs _ (List.mem_map_of_mem _ he)) (by simp at hlen; omega)
    exact ⟨_, _, by simp only [CodeGenVisitor.visitStatement, ha]; rfl⟩
  | .writeExpr e, c, h => by
    simp only [visitStatement, visitWriteExpr, List.append_eq_nil] at h
    obtain ⟨a, ca, ha⟩ := visitExpr_total Symbols hS e c h.1
    exact ⟨_, _, by simp only [CodeGenVisitor.visitStatement, ha]; rfl⟩
  | .whileStmt e ss, c, h => by
    simp only [visitStatement, visitWhileStmt, List.append_eq_nil] at h
    obtain ⟨a, ca, ha⟩ := visitExpr_total Symbols hS e (CodeGenVisitor.visitWhileStmtLabel c).2
      h.1.1
    obtain ⟨code2, cb, hb⟩ := visitStatements_total Symbols hS t ss ca h.2
    exact ⟨_, _, by simp only [CodeGenVisitor.visitStatement, ha, hb]; rfl⟩
  | .ifStmt e s0 none, c, h => by
    simp only [visitStatement, visitIfStmt, List.append_eq_nil] at h
    obtain ⟨a, ca, ha⟩ := visitExpr_total Symbols hS e c h.1.1.1
    obtain ⟨code2, cb, hb⟩ := visitStatements_total Symbols hS t s0 ca h.1.2
    exact ⟨_, _, by simp only [CodeGenVisitor.visitStatement, ha, hb]; rfl⟩
  | .ifStmt e s0 (some s1), c, h => by
    simp only [visitStatement, visitIfStmt, visitElse, List.append_eq_nil] at h
    obtain ⟨a, ca, ha⟩ := visitExpr_total Symbols hS e c h.1.1.1
    obtain ⟨code2, cb, hb⟩ := visitStatements_total Symbols hS t s0 ca h.1.2
    obtain ⟨code3, cd, hd⟩ := visitStatements_total Symbols hS t s1
      (CodeGenVisitor.visitIfStmtLabels cb).2 h.2
    exact ⟨_, _, by simp only [CodeGenVisitor.visitStatement, ha, hb, hd]; rfl⟩
  | .readStmt l, c, h => by
    simp only [visitStatement, visitReadStmt, List.append_eq_nil] at h
    obtain ⟨a, ca, ha⟩ := visitLeft_expr_total Symbols hS l c h.1.1
    exact ⟨_, _, by simp only [CodeGenVisitor.visitStatement, ha]; rfl⟩
  | .assignStmt l e, c, h => by
    simp only [visitStatement, visitAssignStmt, List.append_eq_nil] at h
    obtain ⟨a, ca, ha⟩ := visitLeft_expr_total Symbols hS l c h.1.1.1
    obtain ⟨b, cb, hb⟩ := visitExpr_total Symbols hS e ca h.1.1.2
    exact ⟨_, _, by simp only [CodeGenVisitor.visitStatement, ha, hb]; rfl⟩
  | .returnStmt none, c, _ => ⟨_, _, by simp only [CodeGenVisitor.visitStatement]; rfl⟩
  | .returnStmt (some e), c, h => by
    simp only [visitStatement, visitReturnStmt, List.append_eq_nil] at h
    obtain ⟨a, ca, ha⟩ := visitExpr_total Symbols hS e c h.1
    exact ⟨_, _, by simp only [CodeGenVisitor.visitStatement, ha]; rfl⟩
  | .writeString s, c, _ => ⟨_, _, by simp only [CodeGenVisitor.visitStatement]; rfl⟩
theorem visitStatements_total (Symbols : SymTable) (hS : Symbols.AllNonError) (t : TypeId) :
    ∀ (ss : List Statement) (c : counters), visitStatements Symbols t ss = [] →
      ∃ code c1, CodeGenVisitor.visitStatements Symbols ss c = some (code, c1)
  | [], c, _ => ⟨_, _, by simp only [CodeGenVisitor.visitStatements]; rfl⟩
  | s :: ss, c, h => by
    simp only [visitStatements, List.append_eq_nil] at h
    obtain ⟨codeS, ca, ha⟩ := visitStatement_total Symbols hS t s c h.1
    obtain ⟨rest, cb, hb⟩ := visitStatements_total Symbols hS t ss ca h.2
    exact ⟨_, _, by simp only [CodeGenVisitor.visitStatements, ha, hb]; rfl⟩
end

theorem visitFunction_some (to_string : TypeId → String) (reset : counters)
    (Symbols : SymTable) (Decorations : TreeDecoration) (ctx : Node) (f : Function)
    (code : instructionList) (c1 : counters)
    (h : CodeGenVisitor.visitStatements (Symbols.pushThisScope (Decorations.getScope ctx))
      f.statements reset = some (code, c1)) :
    ∃ subr, CodeGenVisitor.visitFunction to_string reset Symbols Decorations ctx f = some subr ∧
      subr.instructions = code ++ [instruction.RETURN] := by
  simp only [CodeGenVisitor.visitFunction, h]
  exact ⟨_, rfl, rfl⟩

/-- The subroutines of a program on which the Type pass, run after the Symbol
pass, emits no diagnostic: the Code pass returns one subroutine per function,
whose instructions are the code of the body, lowered from the counters `reset`
on the table of the function, followed by `RETURN`. -/
theorem visitFunctions_total (to_string : TypeId → String) (reset : counters)
    (Symbols : SymTable) (hS : Symbols.AllNonError) (Decorations : TreeDecoration)
    (fs : List Function) :
    ∀ i : Nat, TypeCheckVisitor.visitFunctions Symbols Decorations i fs = [] →
      ∃ subs, CodeGenVisitor.visitFunctions to_string reset Symbols Decorations i fs = some subs ∧
        ∀ sub ∈ subs, ∃ (S : SymTable) (ss : List Statement) (code : instructionList)
          (c1 : counters), CodeGenVisitor.visitStatements S ss reset = some (code, c1) ∧
            sub.instructions = code ++ [instruction.RETURN] := by
  induction fs with
  | nil => intro i _; exact ⟨[], by simp [CodeGenVisitor.visitFunctions]⟩
  | cons f fs ih =>
    intro i h
    simp only [TypeCheckVisitor.visitFunctions, List.append_eq_nil] at h
    have hS' : (Symbols.pushThisScope (Decorations.getScope [i])).AllNonError := hS
    obtain ⟨code, c1, hc⟩ := visitStatements_total _ hS' _ f.statements reset h.1
    obtain ⟨rest, hr, hrest⟩ := ih (i + 1) h.2
    obtain ⟨subr, hsubr, hins⟩ := visitFunction_some to_string reset Symbols Decorations [i] f
      code c1 hc
    refine ⟨subr :: rest, by simp only [CodeGenVisitor.visitFunctions, hsubr, hr], ?_⟩
    intro sub hsub
    simp only [List.mem_cons] at hsub
    rcases hsub with rfl | hsub
    · exact ⟨_, _, code, c1, hc, hins⟩
    · exact hrest sub hsub

theorem codePass_total (to_string : TypeId → String) (reset : counters) (TypeId0 : TypeId)
    (Decorations : TreeDecoration) (tree : Program)
    (htype : typePass TypeId0 Decorations tree = []) :
    ∃ subs, codePass to_string reset TypeId0 Decorations tree = some subs ∧
      ∀ sub ∈ subs, ∃ (S : SymTable) (ss : List Statement) (code : instructionList)
        (c1 : counters), CodeGenVisitor.visitStatements S ss reset = some (code, c1) ∧
          sub.instructions = code ++ [instruction.RETURN] := by
  simp only [typePass, TypeCheckVisitor.visitProgram, List.append_eq_nil] at htype
  have hS : ((symbolPass TypeId0 Decorations tree).Symbols.pushThisScope
      ((symbolPass TypeId0 Decorations tree).Decorations.getScope [])).AllNonError :=
    symbolPass_allNonError TypeId0 Decorations tree
  exact visitFunctions_total to_string reset _ hS _ tree.function 0 htype.1

/-! ## Code pass: `PUSH` and `POP` balance -/

/-- Claim C27: on a table without `Error` types (such is the table the Symbol
pass leaves), every expression and every statement the Type pass visits without
diagnostic is lowered by the Code pass to a code with as many `PUSH` as `POP`
instructions, calls nested in the arguments of calls included.  At a call
expression the code before `CALL f` holds `n + 1` more `PUSH` than `POP` (the
codes of the arguments are balanced) and the code after it is `n + 1` `POP`; at
a call statement the two numbers are `n`, plus one when the callee is not a void
function.  Hence every subroutine of a program on which the Type pass emits no
diagnostic has as many `PUSH` as `POP`. -/
theorem codegen_push_pop_balance (Symbols : SymTable) (hS : Symbols.AllNonError) :
    (∀ (e : Expr) (c : counters), (visitExpr Symbols e).errors = [] →
      ∃ r c1, CodeGenVisitor.visitExpr Symbols e c = some (r, c1) ∧
        pushes r.code = pops r.code) ∧
    (∀ (t : TypeId) (s : Statement) (c : counters), visitStatement Symbols t s = [] →
      ∃ code c1, CodeGenVisitor.visitStatement Symbols s c = some (code, c1) ∧
        pushes code = pops code) ∧
    (∀ (ident : String) (args : List Expr) (c : counters),
      (visitExpr Symbols (Expr.funcExpr ident args)).errors = [] →
      ∃ argsCode r c1,
        CodeGenVisitor.visitExpr Symbols (Expr.funcExpr ident args) c =
          some (⟨r, "", [instruction.PUSH none] ++ argsCode ++ [instruction.CALL ident] ++
            List.replicate args.length (instruction.POP none) ++
            [instruction.POP (some r)]⟩, c1) ∧
        pushes ([instruction.PUSH none] ++ argsCode) =
          pops ([instruction.PUSH none] ++ argsCode) + (args.length + 1) ∧
        pushes (List.replicate args.length (instruction.POP none) ++
          [instruction.POP (some r)]) = 0 ∧
        pops (List.replicate args.length (instruction.POP none) ++
          [instruction.POP (some r)]) = args.length + 1) ∧
    (∀ (t : TypeId) (ident : String) (args : List Expr) (c : counters),
      visitStatement Symbols t (Statement.procCall ident args) = [] →
      ∃ pre post c1 k,
        CodeGenVisitor.visitStatement Symbols (Statement.procCall ident args) c =
          some (pre ++ [instruction.CALL ident] ++ post, c1) ∧
        k = args.length + (if isVoidFunction (visitIdent Symbols ident).type then 0 else 1) ∧
        pushes pre = pops pre + k ∧ pushes post = 0 ∧ pops post = k) ∧
    (∀ (to_string : TypeId → String) (reset : counters) (TypeId0 : TypeId)
      (Decorations : TreeDecoration) (tree : Program),
      typePass TypeId0 Decorations tree = [] →
      ∃ subs, codePass to_string reset TypeId0 Decorations tree = some subs ∧
        ∀ sub ∈ subs, pushes sub.instructions = pops sub.instructions) := by
  refine ⟨?_, ?_, ?_, ?_, ?_⟩
  · intro e c h
    obtain ⟨r, c1, hr⟩ := visitExpr_total Symbols hS e c h
    exact ⟨r, c1, hr, by simpa using (visitExpr_ExprCode Symbols e c r c1 hr).1⟩
  · intro t s c h
    obtain ⟨code, c1, hr⟩ := visitStatement_total Symbols hS t s c h
    exact ⟨code, c1, hr, (visitStatement_StmtCode Symbols s c code c1 hr).1⟩
  · intro ident args c h
    simp only [visitExpr] at h
    obtain ⟨hargs, hlen⟩ := funcExpr_valid Symbols hS ident _ h
    rw [visitExprs_eq_map] at hargs hlen
    obtain ⟨argsCode, ca, ha⟩ := visitArguments_total Symbols hS
      (getFuncParamsTypes (visitIdent Symbols ident).type) args 0 c
      (fun e he => hargs _ (List.mem_map_of_mem _ he)) (by simp at hlen; omega)
    obtain ⟨h1, _, _, _⟩ := visitArguments_ExprCode Symbols _ args 0 c argsCode ca ha
    refine ⟨argsCode, "%" ++ toString ca.TEMP, { ca with TEMP := ca.TEMP + 1 }, ?_, ?_, ?_, ?_⟩
    · simp [CodeGenVisitor.visitExpr, ha, counters.newTEMP]
    · rw [pushes_append, pops_append, h1]
      simp [pushes, pops, instruction.isPUSH, instruction.isPOP]
      omega
    · simp [pushes, instruction.isPUSH, List.countP_replicate]
    · simp [pops, instruction.isPOP, List.countP_replicate]
  · intro t ident args c h
    simp only [visitStatement] at h
    obtain ⟨hargs, hlen⟩ := procCall_valid Symbols hS ident _ h
    rw [visitExprs_eq_map] at hargs hlen
    obtain ⟨argsCode, ca, ha⟩ := visitArguments_total Symbols hS
      (getFuncParamsTypes (visitIdent Symbols ident).type) args 0 c
      (fun e he => hargs _ (List.mem_map_of_mem _ he)) (by simp at hlen; omega)
    obtain ⟨h1, _, _, _⟩ := visitArguments_ExprCode Symbols _ args 0 c argsCode ca ha
    cases hv : isVoidFunction (visitIdent Symbols ident).type
    · refine ⟨[instruction.PUSH none] ++ argsCode,
        List.replicate args.length (instruction.POP none) ++ [instruction.POP none], ca, _,
        ?_, rfl, ?_, ?_, ?_⟩
      · simp [CodeGenVisitor.visitStatement, ha, CodeGenVisitor.visitProcCall, hv]
      · rw [pushes_append, pops_append, h1]
        simp [pushes, pops, instruction.isPUSH, instruction.isPOP]
        omega
      · simp [pushes, instruction.isPUSH, List.countP_replicate]
      · simp [pops, instruction.isPOP, List.countP_replicate]
    · refine ⟨argsCode, List.replicate args.length (instruction.POP none), ca, _,
        ?_, rfl, ?_, ?_, ?_⟩
      · simp [CodeGenVisitor.visitStatement, ha, CodeGenVisitor.visitProcCall, hv]
      · simpa using h1
      · simp [pushes, instruction.isPUSH, List.countP_replicate]
      · simp [pops, instruction.isPOP, List.countP_replicate]
  · intro to_string reset TypeId0 Decorations tree htype
    obtain ⟨subs, hsubs, hall⟩ := codePass_total to_string reset TypeId0 Decorations tree htype
    refine ⟨subs, hsubs, ?_⟩
    intro sub hsub
    obtain ⟨S, ss, code, c1, hc, hins⟩ := hall sub hsub
    rw [hins, pushes_append, pops_append, (visitStatements_StmtCode S ss reset code c1 hc).1]
    rfl

/-- Instance of claim C27 on the nested call `f(f(3))` with `f : (float) → int`:
the table has no `Error` type, the Type pass emits no diagnostic, and the code
`PUSH`; `PUSH`; `ILOAD %1 3`; `FLOAT %2 %1`; `PUSH %2`; `CALL f`; `POP`;
`POP %3`; `FLOAT %4 %3`; `PUSH %4`; `CALL f`; `POP`; `POP %5` has four `PUSH`
and four `POP`. -/
theorem codegen_push_pop_balance_witness :
    exampleSymbols.AllNonError ∧
    (visitExpr exampleSymbols
      (Expr.funcExpr "f" [Expr.funcExpr "f" [Expr.value ValueTok.INTVAL "3"]])).errors = [] ∧
    CodeGenVisitor.visitExpr exampleSymbols
        (Expr.funcExpr "f" [Expr.funcExpr "f" [Expr.value ValueTok.INTVAL "3"]]) ⟨1, 1, 1⟩ =
      some (⟨"%5", "",
        [instruction.PUSH none, instruction.PUSH none, instruction.ILOAD "%1" "3",
          instruction.FLOAT "%2" "%1", instruction.PUSH (some "%2"), instruction.CALL "f",
          instruction.POP none, instruction.POP (some "%3"), instruction.FLOAT "%4" "%3",
          instruction.PUSH (some "%4"), instruction.CALL "f", instruction.POP none,
          instruction.POP (some "%5")]⟩, ⟨6, 1, 1⟩) ∧
    ∃ r c1,
      CodeGenVisitor.visitExpr exampleSymbols
          (Expr.funcExpr "f" [Expr.funcExpr "f" [Expr.value ValueTok.INTVAL "3"]]) ⟨1, 1, 1⟩ =
        some (r, c1) ∧
      pushes r.code = pops r.code :=
  ⟨by unfold SymTable.AllNonError; decide, rfl, rfl,
    (codegen_push_pop_balance exampleSymbols (by unfold SymTable.AllNonError; decide)).1
      (Expr.funcExpr "f" [Expr.funcExpr "f" [Expr.value ValueTok.INTVAL "3"]]) ⟨1, 1, 1⟩ rfl⟩

/-! ## Code pass: labels -/

/-- Claim C30: in the subroutine the Code pass returns for a function, whatever
the nesting of `if`, `if`-`else` and `while` statements in the body and whatever
the state `reset` the counters are given on entry, no two `LABEL` instructions
carry the same name: the names are numbered by counters that only increase while
the body is lowered.  On a program for which the Type pass emits no diagnostic
the Code pass returns the subroutines, each with pairwise distinct labels. -/
theorem codegen_labels_unique (to_string : TypeId → String) (reset : counters)
    (Symbols : SymTable) (Decorations : TreeDecoration) (ctx : Node) (f : Function)
    (subr : subroutine)
    (h : CodeGenVisitor.visitFunction to_string reset Symbols Decorations ctx f = some subr) :
    (labels subr.instructions).Nodup ∧
    (∀ (TypeId0 : TypeId) (D : TreeDecoration) (tree : Program),
      typePass TypeId0 D tree = [] →
      ∃ subs, codePass to_string reset TypeId0 D tree = some subs ∧
        ∀ sub ∈ subs, (labels sub.instructions).Nodup) := by
  constructor
  · simp only [CodeGenVisitor.visitFunction] at h
    split at h
    · cases h
    · rename_i code c1 hc
      simp only [Option.some.injEq] at h
      subst h
      have := (visitStatements_StmtCode _ f.statements reset code c1 hc).2.2.2.2
      simpa [subroutine.set_instructions, labels_append, labels] using this
  · intro TypeId0 D tree htype
    obtain ⟨subs, hsubs, hall⟩ := codePass_total to_string reset TypeId0 D tree htype
    refine ⟨subs, hsubs, ?_⟩
    intro sub hsub
    obtain ⟨S, ss, code, c1, hc, hins⟩ := hall sub hsub
    have := (visitStatements_StmtCode S ss reset code c1 hc).2.2.2.2
    rw [hins]
    simpa [labels_append, labels] using this

/-- Instance of claim C30 on
`func main() var b : bool  while b do if b then write 1 else write 2 endif
endwhile  if b then write 3 endif  endfunc`, on the table and the decorations the
Symbol pass leaves: the labels of the subroutine are `while1`, `endif1`,
`endelse1`, `endWhile1` and `endif3`. -/
theorem codegen_labels_unique_witness :
    CodeGenVisitor.visitFunction exampleTo_string ⟨1, 1, 1⟩
        ((symbolPass TypeId.error (TreeDecoration.empty 0 TypeId.error false)
          exampleNestedLabels).Symbols.pushThisScope 0)
        (symbolPass TypeId.error (TreeDecoration.empty 0 TypeId.error false)
          exampleNestedLabels).Decorations [0]
        { ID := "main", parameters := none, type := none,
          declarations := [⟨["b"], ⟨none, Basic_type.BOOL⟩⟩],
          statements :=
            [Statement.whileStmt (Expr.exprIdent "b")
              [Statement.ifStmt (Expr.exprIdent "b")
                [Statement.writeExpr (Expr.value ValueTok.INTVAL "1")]
                (some [Statement.writeExpr (Expr.value ValueTok.INTVAL "2")])],
              Statement.ifStmt (Expr.exprIdent "b")
                [Statement.writeExpr (Expr.value ValueTok.INTVAL "3")] none] } =
      some ⟨"main", [], [⟨"b", "boolean", 1⟩],
        [instruction.LABEL "while1", instruction.FJUMP "b" "endWhile1",
          instruction.FJUMP "b" "endif1", instruction.ILOAD "%1" "1", instruction.WRITEI "%1",
          instruction.UJUMP "endelse1", instruction.LABEL "endif1", instruction.ILOAD "%2" "2",
          instruction.WRITEI "%2", instruction.LABEL "endelse1", instruction.UJUMP "while1",
          instruction.LABEL "endWhile1", instruction.FJUMP "b" "endif3",
          instruction.ILOAD "%3" "3", instruction.WRITEI "%3", instruction.LABEL "endif3",
          instruction.RETURN]⟩ ∧
    ["while1", "endif1", "endelse1", "endWhile1", "endif3"].Nodup :=
  ⟨rfl,
    (codegen_labels_unique exampleTo_string ⟨1, 1, 1⟩
      ((symbolPass TypeId.error (TreeDecoration.empty 0 TypeId.error false)
        exampleNestedLabels).Symbols.pushThisScope 0)
      (symbolPass TypeId.error (TreeDecoration.empty 0 TypeId.error false)
        exampleNestedLabels).Decorations [0]
      { ID := "main", parameters := none, type := none,
        declarations := [⟨["b"], ⟨none, Basic_type.BOOL⟩⟩],
        statements :=
          [Statement.whileStmt (Expr.exprIdent "b")
            [Statement.ifStmt (Expr.exprIdent "b")
              [Statement.writeExpr (Expr.value ValueTok.INTVAL "1")]
              (some [Statement.writeExpr (Expr.value ValueTok.INTVAL "2")])],
            Statement.ifStmt (Expr.exprIdent "b")
              [Statement.writeExpr (Expr.value ValueTok.INTVAL "3")] none] }
      ⟨"main", [], [⟨"b", "boolean", 1⟩],
        [instruction.LABEL "while1", instruction.FJUMP "b" "endWhile1",
          instruction.FJUMP "b" "endif1", instruction.ILOAD "%1" "1", instruction.WRITEI "%1",
          instruction.UJUMP "endelse1", instruction.LABEL "endif1", instruction.ILOAD "%2" "2",
          instruction.WRITEI "%2", instruction.LABEL "endelse1", instruction.UJUMP "while1",
          instruction.LABEL "endWhile1", instruction.FJUMP "b" "endif3",
          instruction.ILOAD "%3" "3", instruction.WRITEI "%3", instruction.LABEL "endif3",
          instruction.RETURN]⟩ rfl).1⟩

/-! ## Code pass: read and write statements -/

/-- Claim C32: for `read L` where `L` lowers to `(aL, oL, codeL)` and has a
primitive decorated type, the code is `codeL`, then one read into the temporary
`t` numbered by the counter (which then advances): `READI` when `L` is integer or
boolean, `READF` when float, `READC` when character, then the single store of
`t`, `LOAD aL t` when `oL` is empty and `XLOAD aL oL t` otherwise: the value is
read first and stored afterwards. -/
theorem codegen_read (Symbols : SymTable) (left_expr : Left_expr) (c c1 : counters)
    (codAtsE : CodeGenVisitor.CodeAttribs)
    (h : CodeGenVisitor.visitLeft_expr Symbols left_expr c = some (codAtsE, c1))
    (hp : isPrimitiveTy (visitLeft_expr Symbols left_expr).type = true) :
    ∃ rd, readOpcode (visitLeft_expr Symbols left_expr).type = some rd ∧
      CodeGenVisitor.visitStatement Symbols (Statement.readStmt left_expr) c =
        some (codAtsE.code ++
            [rd ("%" ++ toString c1.TEMP),
              storeInstruction codAtsE.addr codAtsE.offs ("%" ++ toString c1.TEMP)],
          { c1 with TEMP := c1.TEMP + 1 }) := by
  cases ht : (visitLeft_expr Symbols left_expr).type <;> rw [ht] at hp <;>
    simp [isPrimitiveTy, isIntegerTy, isFloatTy, isBooleanTy, isCharacterTy] at hp
  all_goals
    refine ⟨_, rfl, ?_⟩
    by_cases ho : codAtsE.offs = "" <;>
      simp [CodeGenVisitor.visitStatement, h, ht, CodeGenVisitor.visitReadStmt,
        counters.newTEMP, storeInstruction, ho, isIntegerTy, isBooleanTy, isFloatTy,
        isCharacterTy]

/-- Instance of claim C32 on `read a[1]` with `a : array<5,int>`: the
left-expression lowers to `(a, %1, [ILOAD %1 1])` and has type integer, so the
code is `ILOAD %1 1`; `READI %2`; `XLOAD a %1 %2`. -/
theorem codegen_read_witness :
    CodeGenVisitor.visitLeft_expr exampleSymbols
        (Left_expr.arrayAccessLExpr (Expr.exprIdent "a") (Expr.value ValueTok.INTVAL "1"))
        ⟨1, 1, 1⟩ =
      some (⟨"a", "%1", [instruction.ILOAD "%1" "1"]⟩, ⟨2, 1, 1⟩) ∧
    ∃ rd, readOpcode TypeId.integer = some rd ∧
      CodeGenVisitor.visitStatement exampleSymbols
          (Statement.readStmt
            (Left_expr.arrayAccessLExpr (Expr.exprIdent "a") (Expr.value ValueTok.INTVAL "1")))
          ⟨1, 1, 1⟩ =
        some ([instruction.ILOAD "%1" "1", rd "%2", instruction.XLOAD "a" "%1" "%2"],
          ⟨3, 1, 1⟩) :=
  ⟨rfl,
    codegen_read exampleSymbols
      (Left_expr.arrayAccessLExpr (Expr.exprIdent "a") (Expr.value ValueTok.INTVAL "1"))
      ⟨1, 1, 1⟩ ⟨2, 1, 1⟩ ⟨"a", "%1", [instruction.ILOAD "%1" "1"]⟩ rfl rfl⟩

/-- Claim C33: for `write E` where `E` lowers to `(a, codeE)` and has a primitive
decorated type, the code is `codeE` followed by exactly one write instruction on
`a`: `WRITEI` when `E` is integer or boolean, `WRITEF` when float, `WRITEC` when
character; the counters are those the expression leaves. -/
theorem codegen_write (Symbols : SymTable) (expr : Expr) (c c1 : counters)
    (codAt1 : CodeGenVisitor.CodeAttribs)
    (h : CodeGenVisitor.visitExpr Symbols expr c = some (codAt1, c1))
    (hp : isPrimitiveTy (visitExpr Symbols expr).type = true) :
    ∃ wr, writeOpcode (visitExpr Symbols expr).type = some wr ∧
      CodeGenVisitor.visitStatement Symbols (Statement.writeExpr expr) c =
        some (codAt1.code ++ [wr codAt1.addr], c1) := by
  cases ht : (visitExpr Symbols expr).type <;> rw [ht] at hp <;>
    simp [isPrimitiveTy, isIntegerTy, isFloatTy, isBooleanTy, isCharacterTy] at hp
  all_goals
    refine ⟨_, rfl, ?_⟩
    simp [CodeGenVisitor.visitStatement, h, ht, CodeGenVisitor.visitWriteExpr, isIntegerTy,
      isBooleanTy, isFloatTy, isCharacterTy]

/-- Instance of claim C33 on `write b` with `b : bool`: the expression lowers to
`(b, "", [])`, and the code is `WRITEI b`. -/
theorem codegen_write_witness :
    CodeGenVisitor.visitExpr exampleSymbols (Expr.exprIdent "b") ⟨1, 1, 1⟩ =
      some (⟨"b", "", []⟩, ⟨1, 1, 1⟩) ∧
    (∃ wr, writeOpcode TypeId.boolean = some wr ∧
      CodeGenVisitor.visitStatement exampleSymbols
          (Statement.writeExpr (Expr.exprIdent "b")) ⟨1, 1, 1⟩ =
        some ([wr "b"], ⟨1, 1, 1⟩)) ∧
    writeOpcode TypeId.boolean = some instruction.WRITEI :=
  ⟨rfl,
    codegen_write exampleSymbols (Expr.exprIdent "b") ⟨1, 1, 1⟩ ⟨1, 1, 1⟩ ⟨"b", "", []⟩ rfl rfl,
    rfl⟩

/-! ## Code pass: return statements and the end of a subroutine -/

/-- Claim C36: for `return E` in a function declared with return type float,
where `E` has decorated type integer and lowers to `(a, codeE)`: the Type pass
adds no diagnostic of its own (float is copyable from integer), and the Code
pass emits `codeE`; `LOAD _result a`; `RETURN` on the unconverted address `a`,
with the counters `E` leaves, so without `FLOAT` and without a temporary of its
own; an assignment of the same `E` to a left-expression of type float lowers
with `FLOAT t a` before the store. -/
theorem codegen_return_no_promotion (Symbols : SymTable) (expr : Expr) (c c1 : counters)
    (codAt1 : CodeGenVisitor.CodeAttribs)
    (h : CodeGenVisitor.visitExpr Symbols expr c = some (codAt1, c1))
    (hi : isIntegerTy (visitExpr Symbols expr).type = true) :
    visitStatement Symbols createFloatTy (Statement.returnStmt (some expr)) =
      (visitExpr Symbols expr).errors ∧
    CodeGenVisitor.visitStatement Symbols (Statement.returnStmt (some expr)) c =
      some (codAt1.code ++ [instruction.LOAD "_result" codAt1.addr, instruction.RETURN], c1) ∧
    ∀ (left_expr : Left_expr) (c0 : counters) (codAtsE1 : CodeGenVisitor.CodeAttribs),
      CodeGenVisitor.visitLeft_expr Symbols left_expr c0 = some (codAtsE1, c) →
      isFloatTy (visitLeft_expr Symbols left_expr).type = true →
      CodeGenVisitor.visitStatement Symbols (Statement.assignStmt left_expr expr) c0 =
        some (codAtsE1.code ++ codAt1.code ++
            [instruction.FLOAT ("%" ++ toString c1.TEMP) codAt1.addr,
              storeInstruction codAtsE1.addr codAtsE1.offs ("%" ++ toString c1.TEMP)],
          { c1 with TEMP := c1.TEMP + 1 }) := by
  have ht : (visitExpr Symbols expr).type = TypeId.integer := by
    cases h' : (visitExpr Symbols expr).type <;> simp [h', isIntegerTy] at hi
    rfl
  refine ⟨?_, ?_, ?_⟩
  · simp [visitStatement, visitReturnStmt, ht, createFloatTy, isErrorTy, copyableTypes,
      isPrimitiveTy, isFloatTy, isIntegerTy, isArrayTy, equalTypes, isBooleanTy, isCharacterTy]
  · simp [CodeGenVisitor.visitStatement, h, CodeGenVisitor.visitReturnStmt]
  · intro left_expr c0 codAtsE1 hl hf
    by_cases ho : codAtsE1.offs = "" <;>
      simp [CodeGenVisitor.visitStatement, hl, h, CodeGenVisitor.visitAssignStmt, hf, hi,
        counters.newTEMP, storeInstruction, ho]

/-- Instance of claim C36 on `return 3` in a function declared `: float`: the
Type pass emits no diagnostic and the code is `ILOAD %1 3`; `LOAD _result %1`;
`RETURN`, whereas `x := 3` with `x : float` lowers to `ILOAD %1 3`;
`FLOAT %2 %1`; `LOAD x %2`. -/
theorem codegen_return_no_promotion_witness :
    CodeGenVisitor.visitExpr exampleSymbols (Expr.value ValueTok.INTVAL "3") ⟨1, 1, 1⟩ =
      some (⟨"%1", "", [instruction.ILOAD "%1" "3"]⟩, ⟨2, 1, 1⟩) ∧
    visitStatement exampleSymbols TypeId.float
        (Statement.returnStmt (some (Expr.value ValueTok.INTVAL "3"))) = [] ∧
    CodeGenVisitor.visitStatement exampleSymbols
        (Statement.returnStmt (some (Expr.value ValueTok.INTVAL "3"))) ⟨1, 1, 1⟩ =
      some ([instruction.ILOAD "%1" "3", instruction.LOAD "_result" "%1", instruction.RETURN],
        ⟨2, 1, 1⟩) ∧
    CodeGenVisitor.visitStatement exampleSymbols
        (Statement.assignStmt (Left_expr.leftExprIdent "x") (Expr.value ValueTok.INTVAL "3"))
        ⟨1, 1, 1⟩ =
      some ([instruction.ILOAD "%1" "3", instruction.FLOAT "%2" "%1",
        instruction.LOAD "x" "%2"], ⟨3, 1, 1⟩) :=
  ⟨rfl,
    (codegen_return_no_promotion exampleSymbols (Expr.value ValueTok.INTVAL "3") ⟨1, 1, 1⟩
      ⟨2, 1, 1⟩ ⟨"%1", "", [instruction.ILOAD "%1" "3"]⟩ rfl rfl).1,
    (codegen_return_no_promotion exampleSymbols (Expr.value ValueTok.INTVAL "3") ⟨1, 1, 1⟩
      ⟨2, 1, 1⟩ ⟨"%1", "", [instruction.ILOAD "%1" "3"]⟩ rfl rfl).2.1,
    (codegen_return_no_promotion exampleSymbols (Expr.value ValueTok.INTVAL "3") ⟨1, 1, 1⟩
      ⟨2, 1, 1⟩ ⟨"%1", "", [instruction.ILOAD "%1" "3"]⟩ rfl rfl).2.2
      (Left_expr.leftExprIdent "x") ⟨1, 1, 1⟩ ⟨"x", "", []⟩ rfl rfl⟩

/-- Claim C37: the instruction list of the subroutine the Code pass returns for a
function is the code of the body followed by `RETURN`: it is not empty and its
last instruction is `RETURN`, whatever the body is (empty, or ending with a
return statement, whose own `RETURN` then precedes it).  On a program for which
the Type pass emits no diagnostic the Code pass returns the subroutines, each
ending with `RETURN`. -/
theorem codegen_function_ends_with_return (to_string : TypeId → String) (reset : counters)
    (Symbols : SymTable) (Decorations : TreeDecoration) (ctx : Node) (f : Function)
    (subr : subroutine)
    (h : CodeGenVisitor.visitFunction to_string reset Symbols Decorations ctx f = some subr) :
    (∃ code c1,
      CodeGenVisitor.visitStatements (Symbols.pushThisScope (Decorations.getScope ctx))
        f.statements reset = some (code, c1) ∧
      subr.instructions = code ++ [instruction.RETURN]) ∧
    subr.instructions ≠ [] ∧
    subr.instructions.getLast? = some instruction.RETURN ∧
    (∀ (TypeId0 : TypeId) (D : TreeDecoration) (tree : Program),
      typePass TypeId0 D tree = [] →
      ∃ subs, codePass to_string reset TypeId0 D tree = some subs ∧
        ∀ sub ∈ subs, sub.instructions.getLast? = some instruction.RETURN) := by
  have hcode : ∃ code c1,
      CodeGenVisitor.visitStatements (Symbols.pushThisScope (Decorations.getScope ctx))
        f.statements reset = some (code, c1) ∧
      subr.instructions = code ++ [instruction.RETURN] := by
    simp only [CodeGenVisitor.visitFunction] at h
    split at h
    · cases h
    · rename_i code c1 hc
      simp only [Option.some.injEq] at h
      subst h
      exact ⟨code, c1, hc, rfl⟩
  refine ⟨hcode, ?_, ?_, ?_⟩
  · obtain ⟨code, c1, _, hins⟩ := hcode
    rw [hins]
    simp
  · obtain ⟨code, c1, _, hins⟩ := hcode
    rw [hins]
    simp
  · intro TypeId0 D tree htype
    obtain ⟨subs, hsubs, hall⟩ := codePass_total to_string reset TypeId0 D tree htype
    refine ⟨subs, hsubs, ?_⟩
    intro sub hsub
    obtain ⟨S, ss, code, c1, _, hins⟩ := hall sub hsub
    rw [hins]
    simp

/-- Instance of claim C37 on
`func h(v : array<3,int>, y : float) : int  return 1  endfunc  func main() endfunc`,
on the table and the decorations the Symbol pass leaves: the subroutine of
`main`, whose body is empty, holds the single instruction `RETURN`, and that of
`h`, whose body ends with a return statement, ends with `RETURN`; `RETURN`. -/
theorem codegen_function_ends_with_return_witness :
    CodeGenVisitor.visitFunction exampleTo_string ⟨1, 1, 1⟩
        ((symbolPass TypeId.error (TreeDecoration.empty 0 TypeId.error false)
          exampleArrayParameter).Symbols.pushThisScope 0)
        (symbolPass TypeId.error (TreeDecoration.empty 0 TypeId.error false)
          exampleArrayParameter).Decorations [1]
        { ID := "main", parameters := none, type := none, declarations := [],
          statements := [] } =
      some ⟨"main", [], [], [instruction.RETURN]⟩ ∧
    [instruction.RETURN].getLast? = some instruction.RETURN ∧
    CodeGenVisitor.visitFunction exampleTo_string ⟨1, 1, 1⟩
        ((symbolPass TypeId.error (TreeDecoration.empty 0 TypeId.error false)
          exampleArrayParameter).Symbols.pushThisScope 0)
        (symbolPass TypeId.error (TreeDecoration.empty 0 TypeId.error false)
          exampleArrayParameter).Decorations [0]
        { ID := "h",
          parameters := some [("v", ⟨some 3, Basic_type.INT⟩), ("y", ⟨none, Basic_type.FLOAT⟩)],
          type := some ⟨none, Basic_type.INT⟩, declarations := [],
          statements := [Statement.returnStmt (some (Expr.value ValueTok.INTVAL "1"))] } =
      some ⟨"h", [("_result", "integer", false), ("v", "integer", true), ("y", "float", false)],
        [], [instruction.ILOAD "%1" "1", instruction.LOAD "_result" "%1", instruction.RETURN,
          instruction.RETURN]⟩ ∧
    [instruction.ILOAD "%1" "1", instruction.LOAD "_result" "%1", instruction.RETURN,
      instruction.RETURN].getLast? = some instruction.RETURN :=
  ⟨rfl,
    (codegen_function_ends_with_return exampleTo_string ⟨1, 1, 1⟩
      ((symbolPass TypeId.error (TreeDecoration.empty 0 TypeId.error false)
        exampleArrayParameter).Symbols.pushThisScope 0)
      (symbolPass TypeId.error (TreeDecoration.empty 0 TypeId.error false)
        exampleArrayParameter).Decorations [1]
      { ID := "main", parameters := none, type := none, declarations := [], statements := [] }
      ⟨"main", [], [], [instruction.RETURN]⟩ rfl).2.2.1,
    rfl,
    (codegen_function_ends_with_return exampleTo_string ⟨1, 1, 1⟩
      ((symbolPass TypeId.error (TreeDecoration.empty 0 TypeId.error false)
        exampleArrayParameter).Symbols.pushThisScope 0)
      (symbolPass TypeId.error (TreeDecoration.empty 0 TypeId.error false)
        exampleArrayParameter).Decorations [0]
      { ID := "h",
        parameters := some [("v", ⟨some 3, Basic_type.INT⟩), ("y", ⟨none, Basic_type.FLOAT⟩)],
        type := some ⟨none, Basic_type.INT⟩, declarations := [],
        statements := [Statement.returnStmt (some (Expr.value ValueTok.INTVAL "1"))] }
      ⟨"h", [("_result", "integer", false), ("v", "integer", true), ("y", "float", false)],
        [], [instruction.ILOAD "%1" "1", instruction.LOAD "_result" "%1", instruction.RETURN,
          instruction.RETURN]⟩ rfl).2.2.1⟩

/-! ## Code pass: the locals of a subroutine -/

theorem visitType_size (ty : TypeNode) :
    getSizeOfType (SymbolsVisitor.visitType ty) = ty.ARRAY.getD 1 := by
  obtain ⟨a, b⟩ := ty
  cases a <;> cases b <;> rfl

theorem codegen_visitDeclarations_spec (to_string : TypeId → String)
    (Decorations : TreeDecoration) (ctx : Node) (ds : List Variable_decl) :
    ∀ i : Nat,
      (∀ k d, ds[k]? = some d →
        Decorations.getType (ctx ++ [i + k] ++ [0]) = SymbolsVisitor.visitType d.type) →
      CodeGenVisitor.visitDeclarations to_string Decorations ctx i ds =
        ds.flatMap fun d => d.ID.map fun a =>
          (⟨a, to_string (SymbolsVisitor.visitBasic_type d.type.basic_type),
            d.type.ARRAY.getD 1⟩ : var) := by
  induction ds with
  | nil => intro i _; rfl
  | cons d ds ih =>
    intro i h
    have h0 := h 0 d (by simp)
    simp only [Nat.add_zero] at h0
    have hrest := ih (i + 1) (fun k q hq => by
      have := h (k + 1) q (by simpa using hq)
      rwa [show i + (k + 1) = i + 1 + k by omega] at this)
    simp only [CodeGenVisitor.visitDeclarations, CodeGenVisitor.visitVariable_decl, hrest, h0,
      visitType_size, visitType_elem, List.flatMap_cons]

/-- Claim C35: for a function at node `ctx` whose body lowers, on decorations
where the type node of every declaration carries the type the Symbol pass
writes, the locals of the subroutine are one per declared identifier, in
declaration order, each with its name, the text of the declared type when it is
primitive and of the element type when it is an array, and the size `1` for a
primitive type and the declared length `n` for `array<n, T>`. -/
theorem codegen_function_locals (to_string : TypeId → String) (reset : counters)
    (Symbols : SymTable) (Decorations : TreeDecoration) (ctx : Node) (f : Function)
    (code : instructionList) (c : counters)
    (hbody : CodeGenVisitor.visitStatements (Symbols.pushThisScope (Decorations.getScope ctx))
      f.statements reset = some (code, c))
    (hdecl : ∀ k d, f.declarations[k]? = some d →
      Decorations.getType (ctx ++ [2] ++ [0 + k] ++ [0]) = SymbolsVisitor.visitType d.type) :
    ∃ subr, CodeGenVisitor.visitFunction to_string reset Symbols Decorations ctx f = some subr ∧
      subr.vars =
        f.declarations.flatMap fun d => d.ID.map fun a =>
          (⟨a, to_string (SymbolsVisitor.visitBasic_type d.type.basic_type),
            d.type.ARRAY.getD 1⟩ : var) := by
  have hds := codegen_visitDeclarations_spec to_string Decorations (ctx ++ [2]) f.declarations 0
    hdecl
  cases hv : CodeGenVisitor.visitFunction to_string reset Symbols Decorations ctx f with
  | none => simp [CodeGenVisitor.visitFunction, hbody] at hv
  | some subr =>
    refine ⟨subr, rfl, ?_⟩
    simp only [CodeGenVisitor.visitFunction, hbody, Option.some.injEq] at hv
    subst hv
    simp only [foldl_add_var, foldl_add_param, subroutine.new, subroutine.set_instructions, hds]
    cases hp : f.parameters <;> simp only [] <;> split <;>
      simp [subroutine.add_param]

/-- Instance of claim C35 on
`func main() var x, y : int  var v : array<10,float>  endfunc`, on the table and
the decorations the Symbol pass leaves: the locals are `x` and `y` (integer,
size 1) and `v` (float, size 10). -/
theorem codegen_function_locals_witness :
    ∃ subr,
      CodeGenVisitor.visitFunction exampleTo_string ⟨1, 1, 1⟩
          ((symbolPass TypeId.error (TreeDecoration.empty 0 TypeId.error false)
            exampleLocals).Symbols.pushThisScope 0)
          (symbolPass TypeId.error (TreeDecoration.empty 0 TypeId.error false)
            exampleLocals).Decorations [0]
          { ID := "main", parameters := none, type := none,
            declarations := [⟨["x", "y"], ⟨none, Basic_type.INT⟩⟩,
              ⟨["v"], ⟨some 10, Basic_type.FLOAT⟩⟩],
            statements := [] } = some subr ∧
      subr.vars = [⟨"x", "integer", 1⟩, ⟨"y", "integer", 1⟩, ⟨"v", "float", 10⟩] :=
  codegen_function_locals exampleTo_string ⟨1, 1, 1⟩
    ((symbolPass TypeId.error (TreeDecoration.empty 0 TypeId.error false)
      exampleLocals).Symbols.pushThisScope 0)
    (symbolPass TypeId.error (TreeDecoration.empty 0 TypeId.error false)
      exampleLocals).Decorations [0]
    { ID := "main", parameters := none, type := none,
      declarations := [⟨["x", "y"], ⟨none, Basic_type.INT⟩⟩,
        ⟨["v"], ⟨some 10, Basic_type.FLOAT⟩⟩],
      statements := [] }
    [] ⟨1, 1, 1⟩ rfl
    (by
      intro k d h
      match k, h with
      | 0, h => cases h; rfl
      | 1, h => cases h; rfl
      | n + 2, h => simp at h)

/-! ## Type pass: the arguments of a call statement -/

/-- Claim C38: the Type pass visits the arguments of a call statement
`f(a1..an)` only when the decorated type of `f` is a function type.  When it is
not (`f` undeclared, hence of type `Error`, or `f` not callable) the diagnostics
are those of the identifier, followed by `isNotCallable` when the type is not
`Error`, whatever the arguments are, and the only decoration written is that of
the identifier: no argument is type-checked and no argument node is decorated.
When it is a function type the diagnostics of every argument are reported.  A
call expression reports the diagnostics of all its arguments and decorates all
their nodes in every case. -/
theorem typecheck_procCall_arguments (Symbols : SymTable) (currFunctionType : TypeId)
    (ident : String) (args : List Expr) (ctx : Node) (d : TreeDecoration) :
    (isFunctionTy (visitIdent Symbols ident).type = false →
      visitStatement Symbols currFunctionType (Statement.procCall ident args) =
          (visitIdent Symbols ident).errors ++
            (if isErrorTy (visitIdent Symbols ident).type then []
              else [SemError.isNotCallable]) ∧
        decorateStatement Symbols ctx (Statement.procCall ident args) d =
          putDecor d (ctx ++ [0]) (visitIdent Symbols ident)) ∧
    (isFunctionTy (visitIdent Symbols ident).type = true →
      ∀ e ∈ args, ∀ err ∈ (visitExpr Symbols e).errors,
        err ∈ visitStatement Symbols currFunctionType (Statement.procCall ident args)) ∧
    (∀ e ∈ args, ∀ err ∈ (visitExpr Symbols e).errors,
      err ∈ (visitExpr Symbols (Expr.funcExpr ident args)).errors) ∧
    (∀ n ∈ exprsNodes ctx 1 args,
      (decorateExpr Symbols ctx (Expr.funcExpr ident args) d).hasType n = true) := by
  refine ⟨?_, ?_, ?_, ?_⟩
  · intro hnf
    constructor
    · simp only [visitStatement, visitProcCall, hnf]
      split <;> simp
    · simp only [decorateStatement, hnf]
      split <;> simp
  · intro hf e he err herr
    have hne : isErrorTy (visitIdent Symbols ident).type = false := by
      cases ht : (visitIdent Symbols ident).type <;> simp [ht, isFunctionTy] at hf
      rfl
    simp only [visitStatement, visitProcCall, hne, hf, visitExprs_eq_map]
    simp only [Bool.false_eq_true, if_false, Bool.not_true, List.mem_append, List.mem_flatMap]
    obtain ⟨i, hi, rfl⟩ := List.getElem_of_mem he
    refine Or.inr ⟨(i, visitExpr Symbols args[i]), ?_, Or.inl herr⟩
    rw [List.mk_mem_enum_iff_getElem?]
    simp [hi]
  · intro e he err herr
    have hmem : err ∈ (visitIdent Symbols ident).errors ++
        (visitExprs Symbols args).flatMap (fun a => a.errors) := by
      rw [visitExprs_eq_map]
      simp only [List.mem_append, List.mem_flatMap, List.mem_map]
      exact Or.inr ⟨_, ⟨e, he, rfl⟩, herr⟩
    simp only [visitExpr, visitFuncExpr]
    split
    · exact List.mem_append_left _ hmem
    · split
      · simp only [List.append_assoc]
        rw [← List.append_assoc]
        exact List.mem_append_left _ hmem
      · exact hmem
  · intro n hn
    exact exprNodes_decorated Symbols (Expr.funcExpr ident args) ctx d n
      (by simp only [exprNodes, List.mem_cons]; exact Or.inr hn)

/-- Instance of claim C38 on the calls `zz(yy)` with `zz` and `yy` undeclared:
the call statement reports `undeclaredIdent` once, for `zz`, and leaves the node
of `yy` without type decoration, while the call expression reports it twice and
decorates that node. -/
theorem typecheck_procCall_arguments_witness :
    isFunctionTy (visitIdent exampleSymbols "zz").type = false ∧
    visitStatement exampleSymbols TypeId.void
        (Statement.procCall "zz" [Expr.exprIdent "yy"]) = [SemError.undeclaredIdent] ∧
    (decorateStatement exampleSymbols [1, 3, 0] (Statement.procCall "zz" [Expr.exprIdent "yy"])
        (TreeDecoration.empty 0 TypeId.error false)).hasType [1, 3, 0, 1] = false ∧
    (visitExpr exampleSymbols (Expr.funcExpr "zz" [Expr.exprIdent "yy"])).errors =
      [SemError.undeclaredIdent, SemError.undeclaredIdent] ∧
    ∀ n ∈ exprsNodes [1, 3, 0] 1 [Expr.exprIdent "yy"],
      (decorateExpr exampleSymbols [1, 3, 0] (Expr.funcExpr "zz" [Expr.exprIdent "yy"])
        (TreeDecoration.empty 0 TypeId.error false)).hasType n = true :=
  ⟨rfl,
    ((typecheck_procCall_arguments exampleSymbols TypeId.void "zz" [Expr.exprIdent "yy"]
      [1, 3, 0] (TreeDecoration.empty 0 TypeId.error false)).1 rfl).1,
    rfl, rfl,
    (typecheck_procCall_arguments exampleSymbols TypeId.void "zz" [Expr.exprIdent "yy"]
      [1, 3, 0] (TreeDecoration.empty 0 TypeId.error false)).2.2.2⟩

/-! ## Type pass: `return` without expression -/

/-- A call expression visited without diagnostic has a callee of function
type. -/
theorem funcExpr_callee_function (Symbols : SymTable) (hS : Symbols.AllNonError)
    (ident : String) (args : List Visit)
    (h : (visitFuncExpr (visitIdent Symbols ident) args).errors = []) :
    isFunctionTy (visitIdent Symbols ident).type = true := by
  simp only [visitFuncExpr] at h
  split at h
  · simp at h
  · split at h
    · assumption
    · rename_i h1 h2
      simp only [List.append_eq_nil] at h
      have := visitIdent_nonError Symbols hS ident h.1
      simp [this] at h1
      exact absurd h1 h2

theorem pushArgument_none (functionParams : List TypeId) (i : Nat)
    (a : CodeGenVisitor.CodeAttribs) (tExpr : TypeId) (c : counters) :
    CodeGenVisitor.pushArgument functionParams i a tExpr c = none ↔
      isIntegerTy tExpr = true ∧ functionParams.length ≤ i := by
  simp only [CodeGenVisitor.pushArgument]
  split
  · rename_i hi
    cases hp : functionParams[i]? with
    | none =>
      simp only [true_iff]
      exact ⟨hi, by simpa using hp⟩
    | some p =>
      have hlt : i < functionParams.length := by
        by_contra hc
        simp [List.getElem?_eq_none (Nat.le_of_not_lt hc)] at hp
      simp only []
      split <;> simp <;> omega
  · rename_i hi
    simp [hi]

/-- Claim C39: on a table without `Error` types (such is the table the Symbol
pass leaves), a call expression or a call statement the Type pass visits without
diagnostic has a callee of function type and no more arguments than the callee
has parameters, so every `functionParams[i]` the Code pass reads for it is in
bounds; the argument step of the Code pass fails exactly when it reads
`functionParams[i]` (the argument is integer) with `i` past the end, and it never
does on an expression or a statement visited without diagnostic, calls nested in
arguments included: the Code pass returns a result for them, and for every
function of a program on which the Symbol pass and the Type pass emit no
diagnostic. -/
theorem codegen_params_in_bounds (Symbols : SymTable) (hS : Symbols.AllNonError) :
    (∀ (ident : String) (args : List Expr),
      (visitExpr Symbols (Expr.funcExpr ident args)).errors = [] →
      isFunctionTy (visitIdent Symbols ident).type = true ∧
        args.length ≤ (getFuncParamsTypes (visitIdent Symbols ident).type).length) ∧
    (∀ (t : TypeId) (ident : String) (args : List Expr),
      visitStatement Symbols t (Statement.procCall ident args) = [] →
      isFunctionTy (visitIdent Symbols ident).type = true ∧
        args.length ≤ (getFuncParamsTypes (visitIdent Symbols ident).type).length) ∧
    (∀ (functionParams : List TypeId) (i : Nat) (a : CodeGenVisitor.CodeAttribs)
      (tExpr : TypeId) (c : counters),
      CodeGenVisitor.pushArgument functionParams i a tExpr c = none ↔
        isIntegerTy tExpr = true ∧ functionParams.length ≤ i) ∧
    (∀ (e : Expr) (c : counters), (visitExpr Symbols e).errors = [] →
      ∃ r c1, CodeGenVisitor.visitExpr Symbols e c = some (r, c1)) ∧
    (∀ (t : TypeId) (s : Statement) (c : counters), visitStatement Symbols t s = [] →
      ∃ code c1, CodeGenVisitor.visitStatement Symbols s c = some (code, c1)) ∧
    (∀ (to_string : TypeId → String) (reset : counters) (TypeId0 : TypeId)
      (Decorations : TreeDecoration) (tree : Program),
      (symbolPass TypeId0 Decorations tree).Errors = [] →
      typePass TypeId0 Decorations tree = [] →
      ∃ subs, codePass to_string reset TypeId0 Decorations tree = some subs) := by
  refine ⟨?_, ?_, pushArgument_none, visitExpr_total Symbols hS,
    visitStatement_total Symbols hS, ?_⟩
  · intro ident args h
    simp only [visitExpr] at h
    obtain ⟨_, hlen⟩ := funcExpr_valid Symbols hS ident _ h
    rw [visitExprs_eq_map] at hlen
    exact ⟨funcExpr_callee_function Symbols hS ident _ h, by simp at hlen; omega⟩
  · intro t ident args h
    simp only [visitStatement] at h
    obtain ⟨_, hlen⟩ := procCall_valid Symbols hS ident _ h
    rw [visitExprs_eq_map] at hlen
    exact ⟨(procCall_callee_function Symbols hS ident _ h).2, by simp at hlen; omega⟩
  · intro to_string reset TypeId0 Decorations tree _ htype
    obtain ⟨subs, hsubs, _⟩ := codePass_total to_string reset TypeId0 Decorations tree htype
    exact ⟨subs, hsubs⟩

/-- Instance of claim C39 on
`func p(y : float) endfunc  func main() var x : float  p(x + 1)  endfunc`: the
passes emit no diagnostic, the callee `p` has one parameter for the one argument,
and the Code pass returns the two subroutines. -/
theorem codegen_params_in_bounds_witness :
    exampleSymbols.AllNonError ∧
    (symbolPass TypeId.error (TreeDecoration.empty 0 TypeId.error false)
      exampleValidProgram).Errors = [] ∧
    typePass TypeId.error (TreeDecoration.empty 0 TypeId.error false) exampleValidProgram = [] ∧
    (∃ subs, codePass exampleTo_string ⟨1, 1, 1⟩ TypeId.error
      (TreeDecoration.empty 0 TypeId.error false) exampleValidProgram = some subs) ∧
    (isFunctionTy (visitIdent exampleSymbols "p").type = true ∧
      [Expr.value ValueTok.INTVAL "1"].length ≤
        (getFuncParamsTypes (visitIdent exampleSymbols "p").type).length) :=
  ⟨by unfold SymTable.AllNonError; decide, rfl, rfl,
    (codegen_params_in_bounds exampleSymbols (by unfold SymTable.AllNonError; decide)).2.2.2.2.2
      exampleTo_string ⟨1, 1, 1⟩ TypeId.error (TreeDecoration.empty 0 TypeId.error false)
      exampleValidProgram rfl rfl,
    (codegen_params_in_bounds exampleSymbols (by unfold SymTable.AllNonError; decide)).2.1
      TypeId.void "p" [Expr.value ValueTok.INTVAL "1"] rfl⟩

/-! ## Code pass: addresses and offsets -/

theorem temp_ne_empty (s : String) : "%" ++ s ≠ "" := by
  intro h
  have := congrArg String.length h
  simp only [String.length_append] at this
  have h1 : "%".length = 1 := rfl
  have h0 : "".length = 0 := rfl
  omega

theorem ne_empty_of_bne (s : String) (h : (s != "") = true) : s ≠ "" := by
  simpa using h

/-- The attributes of an expression whose identifiers are not empty: the address
is not empty and the offset is. -/
theorem visitExpr_addr_offs (Symbols : SymTable) :
    ∀ (e : Expr) (c : counters) (r : CodeGenVisitor.CodeAttribs) (c1 : counters),
      e.identsNonEmpty = true → CodeGenVisitor.visitExpr Symbols e c = some (r, c1) →
      r.addr ≠ "" ∧ r.offs = ""
  | .arrayAccessExpr e0 e1, c, r, c1, _, h => by
    simp only [CodeGenVisitor.visitExpr] at h
    split at h
    · cases h
    · split at h
      · cases h
      · simp only [Option.some.injEq, CodeGenVisitor.visitArrayAccessExpr, Prod.mk.injEq] at h
        obtain ⟨rfl, rfl⟩ := h
        exact ⟨temp_ne_empty _, rfl⟩
  | .funcExpr ident args, c, r, c1, _, h => by
    simp only [CodeGenVisitor.visitExpr] at h
    split at h
    · cases h
    · simp only [Option.some.injEq, Prod.mk.injEq] at h
      obtain ⟨rfl, rfl⟩ := h
      exact ⟨temp_ne_empty _, rfl⟩
  | .exprIdent ident, c, r, c1, hid, h => by
    simp only [CodeGenVisitor.visitExpr, CodeGenVisitor.visitIdent, Option.some.injEq,
      Prod.mk.injEq] at h
    obtain ⟨rfl, rfl⟩ := h
    simp only [Expr.identsNonEmpty] at hid
    exact ⟨ne_empty_of_bne _ hid, rfl⟩
  | .arithmetic op e0 e1, c, r, c1, _, h => by
    simp only [CodeGenVisitor.visitExpr] at h
    split at h
    · cases h
    · split at h
      · cases h
      · simp only [Option.some.injEq, CodeGenVisitor.visitArithmetic] at h
        (repeat' split at h) <;> simp only [Prod.mk.injEq] at h <;> obtain ⟨rfl, rfl⟩ := h <;>
          exact ⟨temp_ne_empty _, rfl⟩
  | .relational op e0 e1, c, r, c1, _, h => by
    simp only [CodeGenVisitor.visitExpr] at h
    split at h
    · cases h
    · split at h
      · cases h
      · simp only [Option.some.injEq, CodeGenVisitor.visitRelational] at h
        split at h <;> simp only [Prod.mk.injEq] at h <;> obtain ⟨rfl, rfl⟩ := h <;>
          exact ⟨temp_ne_empty _, rfl⟩
  | .unaryArithmetic op e, c, r, c1, hid, h => by
    simp only [CodeGenVisitor.visitExpr] at h
    split at h
    · cases h
    · rename_i a ca h0
      simp only [Expr.identsNonEmpty] at hid
      have ih := visitExpr_addr_offs Symbols e c a ca hid h0
      cases op <;>
        simp only [Option.some.injEq, CodeGenVisitor.visitUnaryArithmetic, Prod.mk.injEq] at h <;>
        obtain ⟨rfl, rfl⟩ := h
      · exact ⟨temp_ne_empty _, rfl⟩
      · exact ⟨ih.1, rfl⟩
  | .unaryLogical e, c, r, c1, _, h => by
    simp only [CodeGenVisitor.visitExpr] at h
    split at h
    · cases h
    · simp only [Option.some.injEq, CodeGenVisitor.visitUnaryLogical, Prod.mk.injEq] at h
      obtain ⟨rfl, rfl⟩ := h
      exact ⟨temp_ne_empty _, rfl⟩
  | .parenthesis e, c, r, c1, hid, h => by
    simp only [CodeGenVisitor.visitExpr] at h
    simp only [Expr.identsNonEmpty] at hid
    exact visitExpr_addr_offs Symbols e c r c1 hid h
  | .value tok text, c, r, c1, _, h => by
    simp only [CodeGenVisitor.visitExpr, Option.some.injEq, CodeGenVisitor.visitValue,
      Prod.mk.injEq] at h
    obtain ⟨rfl, rfl⟩ := h
    exact ⟨temp_ne_empty _, rfl⟩
  | .logical op e0 e1, c, r, c1, _, h => by
    simp only [CodeGenVisitor.visitExpr] at h
    split at h
    · cases h
    · split at h
      · cases h
      · simp only [Option.some.injEq, CodeGenVisitor.visitLogical, Prod.mk.injEq] at h
        obtain ⟨rfl, rfl⟩ := h
        exact ⟨temp_ne_empty _, rfl⟩

/-- Claim C34: in the triples `(addr, offs, code)` the Code pass returns, on a
tree whose `ID` tokens are not empty (as the tokens of the lexer are): every
expression returns a non-empty `addr` and the `offs` `""`; an indexed r-value
`arr[i]` whose base and index lower to `a` and `b` returns `(t, "", code)` with
`LOADX t a.addr b.addr` as last instruction; a left-expression that is a plain
identifier returns `(name, "", [])`; an indexed left-expression returns the
address of the base, the address of the index and the two codes, with a
non-empty `offs`.  So `addr` is never empty and `offs` is not empty exactly for
an indexed left-expression. -/
theorem codegen_addr_offs (Symbols : SymTable) :
    (∀ (e : Expr) (c : counters) (r : CodeGenVisitor.CodeAttribs) (c1 : counters),
      e.identsNonEmpty = true → CodeGenVisitor.visitExpr Symbols e c = some (r, c1) →
      r.addr ≠ "" ∧ r.offs = "") ∧
    (∀ (e0 e1 : Expr) (c ca cb : counters) (a b : CodeGenVisitor.CodeAttribs),
      CodeGenVisitor.visitExpr Symbols e0 c = some (a, ca) →
      CodeGenVisitor.visitExpr Symbols e1 ca = some (b, cb) →
      CodeGenVisitor.visitExpr Symbols (Expr.arrayAccessExpr e0 e1) c =
        some (⟨"%" ++ toString cb.TEMP, "",
          a.code ++ b.code ++ [instruction.LOADX ("%" ++ toString cb.TEMP) a.addr b.addr]⟩,
          { cb with TEMP := cb.TEMP + 1 })) ∧
    (∀ (ident : String) (c : counters),
      CodeGenVisitor.visitLeft_expr Symbols (Left_expr.leftExprIdent ident) c =
        some (⟨ident, "", []⟩, c)) ∧
    (∀ (e0 e1 : Expr) (c ca cb : counters) (a b : CodeGenVisitor.CodeAttribs),
      CodeGenVisitor.visitExpr Symbols e0 c = some (a, ca) →
      CodeGenVisitor.visitExpr Symbols e1 ca = some (b, cb) →
      CodeGenVisitor.visitLeft_expr Symbols (Left_expr.arrayAccessLExpr e0 e1) c =
        some (⟨a.addr, b.addr, a.code ++ b.code⟩, cb)) ∧
    (∀ (l : Left_expr) (c : counters) (r : CodeGenVisitor.CodeAttribs) (c1 : counters),
      l.identsNonEmpty = true → CodeGenVisitor.visitLeft_expr Symbols l c = some (r, c1) →
      r.addr ≠ "" ∧ (r.offs ≠ "" ↔ ∃ e0 e1, l = Left_expr.arrayAccessLExpr e0 e1)) := by
  refine ⟨visitExpr_addr_offs Symbols, ?_, ?_, ?_, ?_⟩
  · intro e0 e1 c ca cb a b h0 h1
    simp [CodeGenVisitor.visitExpr, h0, h1, CodeGenVisitor.visitArrayAccessExpr,
      counters.newTEMP]
  · intro ident c
    rfl
  · intro e0 e1 c ca cb a b h0 h1
    simp [CodeGenVisitor.visitLeft_expr, h0, h1, CodeGenVisitor.visitArrayAccessLExpr]
  · intro l c r c1 hid h
    cases l with
    | leftExprIdent ident =>
      simp only [CodeGenVisitor.visitLeft_expr, CodeGenVisitor.visitIdent, Option.some.injEq,
        Prod.mk.injEq] at h
      obtain ⟨rfl, rfl⟩ := h
      simp only [Left_expr.identsNonEmpty] at hid
      exact ⟨ne_empty_of_bne _ hid, by simp⟩
    | arrayAccessLExpr e0 e1 =>
      simp only [Left_expr.identsNonEmpty, Bool.and_eq_true] at hid
      simp only [CodeGenVisitor.visitLeft_expr] at h
      split at h
      · cases h
      · rename_i a ca h0
        split at h
        · cases h
        · rename_i b cb h1
          simp only [Option.some.injEq, CodeGenVisitor.visitArrayAccessLExpr,
            Prod.mk.injEq] at h
          obtain ⟨rfl, rfl⟩ := h
          have ha := visitExpr_addr_offs Symbols e0 c a ca hid.1 h0
          have hb := visitExpr_addr_offs Symbols e1 ca b cb hid.2 h1
          exact ⟨ha.1, by simpa using hb.1⟩

/-- Instance of claim C34 on `a[1]` with `a : array<5,int>`: as an expression it
lowers to `(%2, "", [ILOAD %1 1, LOADX %2 a %1])`, as a left-expression to
`(a, %1, [ILOAD %1 1])`; the addresses `%2` and `a` are not empty, the offset of
the expression is empty and that of the left-expression is not. -/
theorem codegen_addr_offs_witness :
    (Expr.arrayAccessExpr (Expr.exprIdent "a") (Expr.value ValueTok.INTVAL "1")).identsNonEmpty
      = true ∧
    CodeGenVisitor.visitExpr exampleSymbols
        (Expr.arrayAccessExpr (Expr.exprIdent "a") (Expr.value ValueTok.INTVAL "1")) ⟨1, 1, 1⟩ =
      some (⟨"%2", "", [instruction.ILOAD "%1" "1", instruction.LOADX "%2" "a" "%1"]⟩,
        ⟨3, 1, 1⟩) ∧
    ("%2" ≠ "" ∧ "" = "") ∧
    CodeGenVisitor.visitLeft_expr exampleSymbols
        (Left_expr.arrayAccessLExpr (Expr.exprIdent "a") (Expr.value ValueTok.INTVAL "1"))
        ⟨1, 1, 1⟩ =
      some (⟨"a", "%1", [instruction.ILOAD "%1" "1"]⟩, ⟨2, 1, 1⟩) ∧
    "a" ≠ "" ∧ "%1" ≠ "" :=
  ⟨rfl, rfl,
    (codegen_addr_offs exampleSymbols).1
      (Expr.arrayAccessExpr (Expr.exprIdent "a") (Expr.value ValueTok.INTVAL "1")) ⟨1, 1, 1⟩
      ⟨"%2", "", [instruction.ILOAD "%1" "1", instruction.LOADX "%2" "a" "%1"]⟩ ⟨3, 1, 1⟩
      rfl rfl,
    rfl,
    ((codegen_addr_offs exampleSymbols).2.2.2.2
      (Left_expr.arrayAccessLExpr (Expr.exprIdent "a") (Expr.value ValueTok.INTVAL "1"))
      ⟨1, 1, 1⟩ ⟨"a", "%1", [instruction.ILOAD "%1" "1"]⟩ ⟨2, 1, 1⟩ rfl rfl).1,
    ((codegen_addr_offs exampleSymbols).2.2.2.2
      (Left_expr.arrayAccessLExpr (Expr.exprIdent "a") (Expr.value ValueTok.INTVAL "1"))
      ⟨1, 1, 1⟩ ⟨"a", "%1", [instruction.ILOAD "%1" "1"]⟩ ⟨2, 1, 1⟩ rfl rfl).2.mpr
      ⟨_, _, rfl⟩⟩

/-! ## Code pass: jumps -/

theorem jumpTargets_append (a b : instructionList) :
    jumpTargets (a ++ b) = jumpTargets a ++ jumpTargets b := by
  induction a with
  | nil => rfl
  | cons i a ih => cases i <;> simp [jumpTargets, ih]

theorem jumpTargets_replicate_POP (n : Nat) :
    jumpTargets (List.replicate n (instruction.POP none)) = [] := by
  induction n with
  | zero => rfl
  | succ n ih => simpa [List.replicate_succ, jumpTargets] using ih

theorem jumpTargets_visitArithmetic (op : ArithOp) (a b : CodeGenVisitor.CodeAttribs)
    (t1 t2 t : TypeId) (c : counters) (ha : jumpTargets a.code = [])
    (hb : jumpTargets b.code = []) :
    jumpTargets (CodeGenVisitor.visitArithmetic op a b t1 t2 t c).1.code = [] := by
  simp only [CodeGenVisitor.visitArithmetic]
  cases op <;> (repeat' split) <;>
    simp [jumpTargets_append, jumpTargets, ha, hb, CodeGenVisitor.floatArithmetic,
      CodeGenVisitor.integerArithmetic]

theorem jumpTargets_visitRelational (op : RelOp) (a b : CodeGenVisitor.CodeAttribs)
    (t1 t2 : TypeId) (c : counters) (ha : jumpTargets a.code = [])
    (hb : jumpTargets b.code = []) :
    jumpTargets (CodeGenVisitor.visitRelational op a b t1 t2 c).1.code = [] := by
  simp only [CodeGenVisitor.visitRelational]
  cases op <;> (repeat' split) <;> simp [jumpTargets_append, jumpTargets, ha, hb]

theorem jumpTargets_visitValue (t1 : TypeId) (text : String) (c : counters) :
    jumpTargets (CodeGenVisitor.visitValue t1 text c).1.code = [] := by
  simp only [CodeGenVisitor.visitValue]
  (repeat' split) <;> simp [jumpTargets]

theorem jumpTargets_visitUnaryArithmetic (op : UnaryOp) (a : CodeGenVisitor.CodeAttribs)
    (t : TypeId) (c : counters) (ha : jumpTargets a.code = []) :
    jumpTargets (CodeGenVisitor.visitUnaryArithmetic op a t c).1.code = [] := by
  cases op
  · simp only [CodeGenVisitor.visitUnaryArithmetic]
    split <;> simp [jumpTargets_append, jumpTargets, ha]
  · simp [CodeGenVisitor.visitUnaryArithmetic, ha]

theorem jumpTargets_pushArgument (functionParams : List TypeId) (i : Nat)
    (a : CodeGenVisitor.CodeAttribs) (tExpr : TypeId) (c c1 : counters)
    (code : instructionList) (ha : jumpTargets a.code = [])
    (h : CodeGenVisitor.pushArgument functionParams i a tExpr c = some (code, c1)) :
    jumpTargets code = [] := by
  simp only [CodeGenVisitor.pushArgument] at h
  split at h
  · split at h
    · simp at h
    · split at h <;> simp only [Option.some.injEq, Prod.mk.injEq] at h <;>
        obtain ⟨rfl, rfl⟩ := h <;> simp [jumpTargets_append, jumpTargets, ha]
  · simp only [Option.some.injEq, Prod.mk.injEq] at h
    obtain ⟨rfl, rfl⟩ := h
    simp [jumpTargets_append, jumpTargets, ha]

mutual
/-- The code of an expression holds no jump. -/
theorem visitExpr_noJumps (Symbols : SymTable) :
    ∀ (e : Expr) (c : counters) (r : CodeGenVisitor.CodeAttribs) (c1 : counters),
      CodeGenVisitor.visitExpr Symbols e c = some (r, c1) → jumpTargets r.code = []
  | .arrayAccessExpr e0 e1, c, r, c1, h => by
    simp only [CodeGenVisitor.visitExpr] at h
    split at h
    · cases h
    · rename_i a ca h0
      split at h
      · cases h
      · rename_i b cb h1
        simp only [Option.some.injEq, CodeGenVisitor.visitArrayAccessExpr, Prod.mk.injEq] at h
        obtain ⟨rfl, rfl⟩ := h
        simp [jumpTargets_append, jumpTargets, visitExpr_noJumps Symbols e0 c a ca h0,
          visitExpr_noJumps Symbols e1 ca b cb h1]
  | .funcExpr ident args, c, r, c1, h => by
    simp only [CodeGenVisitor.visitExpr] at h
    split at h
    · cases h
    · rename_i code ca h0
      simp only [Option.some.injEq, Prod.mk.injEq] at h
      obtain ⟨rfl, rfl⟩ := h
      simp [jumpTargets_append, jumpTargets, jumpTargets_replicate_POP,
        visitArguments_noJumps Symbols _ args 0 c code ca h0]
  | .exprIdent ident, c, r, c1, h => by
    simp only [CodeGenVisitor.visitExpr, CodeGenVisitor.visitIdent, Option.some.injEq,
      Prod.mk.injEq] at h
    obtain ⟨rfl, rfl⟩ := h
    rfl
  | .arithmetic op e0 e1, c, r, c1, h => by
    simp only [CodeGenVisitor.visitExpr] at h
    split at h
    · cases h
    · rename_i a ca h0
      split at h
      · cases h
      · rename_i b cb h1
        simp only [Option.some.injEq] at h
        have e1' := congrArg Prod.fst h
        simp only at e1'
        subst e1'
        exact jumpTargets_visitArithmetic op a b _ _ _ cb
          (visitExpr_noJumps Symbols e0 c a ca h0) (visitExpr_noJumps Symbols e1 ca b cb h1)
  | .relational op e0 e1, c, r, c1, h => by
    simp only [CodeGenVisitor.visitExpr] at h
    split at h
    · cases h
    · rename_i a ca h0
      split at h
      · cases h
      · rename_i b cb h1
        simp only [Option.some.injEq] at h
        have e1' := congrArg Prod.fst h
        simp only at e1'
        subst e1'
        exact jumpTargets_visitRelational op a b _ _ cb
          (visitExpr_noJumps Symbols e0 c a ca h0) (visitExpr_noJumps Symbols e1 ca b cb h1)
  | .unaryArithmetic op e, c, r, c1, h => by
    simp only [CodeGenVisitor.visitExpr] at h
    split at h
    · cases h
    · rename_i a ca h0
      simp only [Option.some.injEq] at h
      have e1' := congrArg Prod.fst h
      simp only at e1'
      subst e1'
      exact jumpTargets_visitUnaryArithmetic op a _ ca (visitExpr_noJumps Symbols e c a ca h0)
  | .unaryLogical e, c, r, c1, h => by
    simp only [CodeGenVisitor.visitExpr] at h
    split at h
    · cases h
    · rename_i a ca h0
      simp only [Option.some.injEq, CodeGenVisitor.visitUnaryLogical, Prod.mk.injEq] at h
      obtain ⟨rfl, rfl⟩ := h
      simp [jumpTargets_append, jumpTargets, visitExpr_noJumps Symbols e c a ca h0]
  | .parenthesis e, c, r, c1, h => by
    simp only [CodeGenVisitor.visitExpr] at h
    exact visitExpr_noJumps Symbols e c r c1 h
  | .value tok text, c, r, c1, h => by
    simp only [CodeGenVisitor.visitExpr, Option.some.injEq] at h
    have e1' := congrArg Prod.fst h
    simp only at e1'
    subst e1'
    exact jumpTargets_visitValue _ text c
  | .logical op e0 e1, c, r, c1, h => by
    simp only [CodeGenVisitor.visitExpr] at h
    split at h
    · cases h
    · rename_i a ca h0
      split at h
      · cases h
      · rename_i b cb h1
        simp only [Option.some.injEq, CodeGenVisitor.visitLogical, Prod.mk.injEq] at h
        obtain ⟨rfl, rfl⟩ := h
        cases op <;>
          simp [jumpTargets_append, jumpTargets, visitExpr_noJumps Symbols e0 c a ca h0,
            visitExpr_noJumps Symbols e1 ca b cb h1]
/-- The code of an argument loop holds no jump. -/
theorem visitArguments_noJumps (Symbols : SymTable) (functionParams : List TypeId) :
    ∀ (es : List Expr) (i : Nat) (c : counters) (code : instructionList) (c1 : counters),
      CodeGenVisitor.visitArguments Symbols functionParams i es c = some (code, c1) →
      jumpTargets code = []
  | [], i, c, code, c1, h => by
    simp only [CodeGenVisitor.visitArguments, Option.some.injEq, Prod.mk.injEq] at h
    obtain ⟨rfl, rfl⟩ := h
    rfl
  | e :: es, i, c, code, c1, h => by
    simp only [CodeGenVisitor.visitArguments] at h
    split at h
    · cases h
    · rename_i a ca h0
      split at h
      · cases h
      · rename_i codeA cp hp
        split at h
        · cases h
        · rename_i rest cr hr
          simp only [Option.some.injEq, Prod.mk.injEq] at h
          obtain ⟨rfl, rfl⟩ := h
          rw [jumpTargets_append,
            jumpTargets_pushArgument functionParams i a _ ca cp codeA
              (visitExpr_noJumps Symbols e c a ca h0) hp,
            visitArguments_noJumps Symbols functionParams es (i + 1) cp rest cr hr]
          rfl
end

theorem visitLeft_expr_noJumps (Symbols : SymTable) (l : Left_expr) (c : counters)
    (r : CodeGenVisitor.CodeAttribs) (c1 : counters)
    (h : CodeGenVisitor.visitLeft_expr Symbols l c = some (r, c1)) : jumpTargets r.code = [] := by
  cases l with
  | leftExprIdent ident =>
    simp only [CodeGenVisitor.visitLeft_expr, CodeGenVisitor.visitIdent, Option.some.injEq,
      Prod.mk.injEq] at h
    obtain ⟨rfl, rfl⟩ := h
    rfl
  | arrayAccessLExpr e0 e1 =>
    simp only [CodeGenVisitor.visitLeft_expr] at h
    split at h
    · cases h
    · rename_i a ca h0
      split at h
      · cases h
      · rename_i b cb h1
        simp only [Option.some.injEq, CodeGenVisitor.visitArrayAccessLExpr, Prod.mk.injEq] at h
        obtain ⟨rfl, rfl⟩ := h
        simp [jumpTargets_append, visitExpr_noJumps Symbols e0 c a ca h0,
          visitExpr_noJumps Symbols e1 ca b cb h1]

theorem jumpTargets_visitAssignStmt (a b : CodeGenVisitor.CodeAttribs) (tid1 tid2 : TypeId)
    (c : counters) (ha : jumpTargets a.code = []) (hb : jumpTargets b.code = []) :
    jumpTargets (CodeGenVisitor.visitAssignStmt a b tid1 tid2 c).1 = [] := by
  simp only [CodeGenVisitor.visitAssignStmt]
  (repeat' split) <;> simp [jumpTargets_append, jumpTargets, ha, hb]

theorem jumpTargets_visitReadStmt (a : CodeGenVisitor.CodeAttribs) (tid1 : TypeId)
    (c : counters) (ha : jumpTargets a.code = []) :
    jumpTargets (CodeGenVisitor.visitReadStmt a tid1 c).1 = [] := by
  simp only [CodeGenVisitor.visitReadStmt]
  (repeat' split) <;> simp [jumpTargets_append, jumpTargets, ha]

theorem jumpTargets_visitWriteExpr (a : CodeGenVisitor.CodeAttribs) (tid1 : TypeId)
    (ha : jumpTargets a.code = []) :
    jumpTargets (CodeGenVisitor.visitWriteExpr a tid1) = [] := by
  simp only [CodeGenVisitor.visitWriteExpr]
  (repeat' split) <;> simp [jumpTargets_append, jumpTargets, ha]

theorem jumpTargets_visitProcCall (tFunc : TypeId) (ident : String) (n : Nat)
    (args : instructionList) (ha : jumpTargets args = []) :
    jumpTargets (CodeGenVisitor.visitProcCall tFunc ident n args) = [] := by
  simp only [CodeGenVisitor.visitProcCall]
  split <;> simp [jumpTargets_append, jumpTargets, ha, jumpTargets_replicate_POP]

mutual
/-- Every jump of the code of a statement targets a label the code defines. -/
theorem visitStatement_jumps (Symbols : SymTable) :
    ∀ (s : Statement) (c : counters) (code : instructionList) (c1 : counters),
      CodeGenVisitor.visitStatement Symbols s c = some (code, c1) →
      ∀ t ∈ jumpTargets code, t ∈ labels code
  | .procCall ident args, c, code, c1, h => by
    simp only [CodeGenVisitor.visitStatement] at h
    split at h
    · cases h
    · rename_i argsCode ca h0
      simp only [Option.some.injEq, Prod.mk.injEq] at h
      obtain ⟨rfl, rfl⟩ := h
      intro t ht
      rw [jumpTargets_visitProcCall _ ident _ argsCode
        (visitArguments_noJumps Symbols _ args 0 c argsCode ca h0)] at ht
      cases ht
  | .writeExpr e, c, code, c1, h => by
    simp only [CodeGenVisitor.visitStatement] at h
    split at h
    · cases h
    · rename_i a ca h0
      simp only [Option.some.injEq, Prod.mk.injEq] at h
      obtain ⟨rfl, rfl⟩ := h
      intro t ht
      rw [jumpTargets_visitWriteExpr a _ (visitExpr_noJumps Symbols e c a ca h0)] at ht
      cases ht
  | .whileStmt e ss, c, code, c1, h => by
    simp only [CodeGenVisitor.visitStatement] at h
    split at h
    · cases h
    · rename_i a ca h0
      split at h
      · cases h
      · rename_i code2 cb h1
        simp only [Option.some.injEq, Prod.mk.injEq] at h
        obtain ⟨rfl, rfl⟩ := h
        have hA := visitExpr_noJumps Symbols e _ a ca h0
        have hB := visitStatements_jumps Symbols ss ca code2 cb h1
        intro t ht
        simp [CodeGenVisitor.visitWhileStmt, jumpTargets_append, labels_append, hA,
          jumpTargets, labels] at ht ⊢
        rcases ht with rfl | ht | rfl
        · exact Or.inr (Or.inr (Or.inr rfl))
        · exact Or.inr (Or.inr (Or.inl (hB t ht)))
        · exact Or.inl rfl
  | .ifStmt e s0 none, c, code, c1, h => by
    simp only [CodeGenVisitor.visitStatement] at h
    split at h
    · cases h
    · rename_i a ca h0
      split at h
      · cases h
      · rename_i code2 cb h1
        simp only [Option.some.injEq] at h
        have e1' := congrArg Prod.fst h
        simp only at e1'
        subst e1'
        have hA := visitExpr_noJumps Symbols e _ a ca h0
        have hB := visitStatements_jumps Symbols s0 ca code2 cb h1
        intro t ht
        simp [CodeGenVisitor.visitIfStmt, jumpTargets_append, labels_append, hA,
          jumpTargets, labels] at ht ⊢
        rcases ht with rfl | ht
        · exact Or.inr (Or.inr rfl)
        · exact Or.inr (Or.inl (hB t ht))
  | .ifStmt e s0 (some s1), c, code, c1, h => by
    simp only [CodeGenVisitor.visitStatement] at h
    split at h
    · cases h
    · rename_i a ca h0
      split at h
      · cases h
      · rename_i code2 cb h1
        split at h
        · cases h
        · rename_i code3 cd h2
          simp only [Option.some.injEq, Prod.mk.injEq] at h
          obtain ⟨rfl, rfl⟩ := h
          have hA := visitExpr_noJumps Symbols e _ a ca h0
          have hB := visitStatements_jumps Symbols s0 ca code2 cb h1
          have hC := visitStatements_jumps Symbols s1 _ code3 cd h2
          intro t ht
          simp [CodeGenVisitor.visitIfElseStmt, jumpTargets_append, labels_append, hA,
            jumpTargets, labels] at ht ⊢
          rcases ht with rfl | ht | rfl | ht
          · exact Or.inr (Or.inr (Or.inl rfl))
          · exact Or.inr (Or.inl (hB t ht))
          · exact Or.inr (Or.inr (Or.inr (Or.inr rfl)))
          · exact Or.inr (Or.inr (Or.inr (Or.inl (hC t ht))))
  | .readStmt l, c, code, c1, h => by
    simp only [CodeGenVisitor.visitStatement] at h
    split at h
    · cases h
    · rename_i a ca h0
      simp only [Option.some.injEq] at h
      have e1' := congrArg Prod.fst h
      simp only at e1'
      subst e1'
      intro t ht
      rw [jumpTargets_visitReadStmt a _ ca (visitLeft_expr_noJumps Symbols l c a ca h0)] at ht
      cases ht
  | .assignStmt l e, c, code, c1, h => by
    simp only [CodeGenVisitor.visitStatement] at h
    split at h
    · cases h
    · rename_i a ca h0
      split at h
      · cases h
      · rename_i b cb h1
        simp only [Option.some.injEq] at h
        have e1' := congrArg Prod.fst h
        simp only at e1'
        subst e1'
        intro t ht
        rw [jumpTargets_visitAssignStmt a b _ _ cb (visitLeft_expr_noJumps Symbols l c a ca h0)
          (visitExpr_noJumps Symbols e ca b cb h1)] at ht
        cases ht
  | .returnStmt none, c, code, c1, h => by
    simp only [CodeGenVisitor.visitStatement, Option.some.injEq, Prod.mk.injEq] at h
    obtain ⟨rfl, rfl⟩ := h
    intro t ht
    simp [CodeGenVisitor.visitReturnStmt, jumpTargets] at ht
  | .returnStmt (some e), c, code, c1, h => by
    simp only [CodeGenVisitor.visitStatement] at h
    split at h
    · cases h
    · rename_i a ca h0
      simp only [Option.some.injEq, Prod.mk.injEq] at h
      obtain ⟨rfl, rfl⟩ := h
      intro t ht
      simp [CodeGenVisitor.visitReturnStmt, jumpTargets_append, jumpTargets,
        visitExpr_noJumps Symbols e c a ca h0] at ht
  | .writeString s, c, code, c1, h => by
    simp only [CodeGenVisitor.visitStatement, Option.some.injEq, Prod.mk.injEq] at h
    obtain ⟨rfl, rfl⟩ := h
    intro t ht
    simp [CodeGenVisitor.visitWriteString, jumpTargets] at ht
/-- Every jump of the code of a list of statements targets a label the code
defines. -/
theorem visitStatements_jumps (Symbols : SymTable) :
    ∀ (ss : List Statement) (c : counters) (code : instructionList) (c1 : counters),
      CodeGenVisitor.visitStatements Symbols ss c = some (code, c1) →
      ∀ t ∈ jumpTargets code, t ∈ labels code
  | [], c, code, c1, h => by
    simp only [CodeGenVisitor.visitStatements, Option.some.injEq, Prod.mk.injEq] at h
    obtain ⟨rfl, rfl⟩ := h
    intro t ht
    cases ht
  | s :: ss, c, code, c1, h => by
    simp only [CodeGenVisitor.visitStatements] at h
    split at h
    · cases h
    · rename_i codeS ca h0
      split at h
      · cases h
      · rename_i rest cb h1
        simp only [Option.some.injEq, Prod.mk.injEq] at h
        obtain ⟨rfl, rfl⟩ := h
        intro t ht
        rw [jumpTargets_append, List.mem_append] at ht
        rw [labels_append, List.mem_append]
        rcases ht with ht | ht
        · exact Or.inl (visitStatement_jumps Symbols s c codeS ca h0 t ht)
        · exact Or.inr (visitStatements_jumps Symbols ss ca rest cb h1 t ht)
end

theorem count_LABEL (t : String) (code : instructionList) :
    code.count (instruction.LABEL t) = (labels code).count t := by
  induction code with
  | nil => rfl
  | cons i code ih =>
    cases i <;> simp [labels, List.count_cons, ih]

/-- The jumps of the code of a body, followed by `RETURN`, are each defined by
exactly one `LABEL`. -/
theorem body_jumps_defined (Symbols : SymTable) (ss : List Statement) (reset c1 : counters)
    (code : instructionList)
    (h : CodeGenVisitor.visitStatements Symbols ss reset = some (code, c1)) :
    ∀ t ∈ jumpTargets (code ++ [instruction.RETURN]),
      (code ++ [instruction.RETURN]).count (instruction.LABEL t) = 1 := by
  intro t ht
  have hj := visitStatements_jumps Symbols ss reset code c1 h
  have hn := (visitStatements_StmtCode Symbols ss reset code c1 h).2.2.2.2
  have ht' : t ∈ jumpTargets code := by
    simpa [jumpTargets_append, jumpTargets] using ht
  rw [count_LABEL, labels_append]
  have : labels [instruction.RETURN] = [] := rfl
  rw [this, List.append_nil]
  exact List.count_eq_one_of_mem hn (hj t ht')

/-- Claim C31: in the subroutine the Code pass returns for a function, the
target label of every `FJUMP` and every `UJUMP` is the name of exactly one
`LABEL` instruction of that subroutine.  On a program for which the Type pass
emits no diagnostic the Code pass returns the subroutines, and each has that
property. -/
theorem codegen_jump_targets_defined (to_string : TypeId → String) (reset : counters)
    (Symbols : SymTable) (Decorations : TreeDecoration) (ctx : Node) (f : Function)
    (subr : subroutine)
    (h : CodeGenVisitor.visitFunction to_string reset Symbols Decorations ctx f = some subr) :
    (∀ t ∈ jumpTargets subr.instructions,
      subr.instructions.count (instruction.LABEL t) = 1) ∧
    (∀ (TypeId0 : TypeId) (D : TreeDecoration) (tree : Program),
      typePass TypeId0 D tree = [] →
      ∃ subs, codePass to_string reset TypeId0 D tree = some subs ∧
        ∀ sub ∈ subs, ∀ t ∈ jumpTargets sub.instructions,
          sub.instructions.count (instruction.LABEL t) = 1) := by
  constructor
  · simp only [CodeGenVisitor.visitFunction] at h
    split at h
    · cases h
    · rename_i code c1 hc
      simp only [Option.some.injEq] at h
      subst h
      exact body_jumps_defined _ f.statements reset c1 code hc
  · intro TypeId0 D tree htype
    obtain ⟨subs, hsubs, hall⟩ := codePass_total to_string reset TypeId0 D tree htype
    refine ⟨subs, hsubs, ?_⟩
    intro sub hsub
    obtain ⟨S, ss, code, c1, hc, hins⟩ := hall sub hsub
    rw [hins]
    exact body_jumps_defined S ss reset c1 code hc

/-- Instance of claim C31 on
`func main() var b : bool  while b do if b then write 1 else write 2 endif
endwhile  if b then write 3 endif  endfunc`, on the table and the decorations the
Symbol pass leaves: the jumps of the subroutine target `endWhile1`, `endif1`,
`endelse1`, `while1` and `endif3`, each defined by one `LABEL`. -/
theorem codegen_jump_targets_defined_witness :
    CodeGenVisitor.visitFunction exampleTo_string ⟨1, 1, 1⟩
        ((symbolPass TypeId.error (TreeDecoration.empty 0 TypeId.error false)
          exampleNestedLabels).Symbols.pushThisScope 0)
        (symbolPass TypeId.error (TreeDecoration.empty 0 TypeId.error false)
          exampleNestedLabels).Decorations [0]
        { ID := "main", parameters := none, type := none,
          declarations := [⟨["b"], ⟨none, Basic_type.BOOL⟩⟩],
          statements :=
            [Statement.whileStmt (Expr.exprIdent "b")
              [Statement.ifStmt (Expr.exprIdent "b")
                [Statement.writeExpr (Expr.value ValueTok.INTVAL "1")]
                (some [Statement.writeExpr (Expr.value ValueTok.INTVAL "2")])],
              Statement.ifStmt (Expr.exprIdent "b")
                [Statement.writeExpr (Expr.value ValueTok.INTVAL "3")] none] } =
      some ⟨"main", [], [⟨"b", "boolean", 1⟩],
        [instruction.LABEL "while1", instruction.FJUMP "b" "endWhile1",
          instruction.FJUMP "b" "endif1", instruction.ILOAD "%1" "1", instruction.WRITEI "%1",
          instruction.UJUMP "endelse1", instruction.LABEL "endif1", instruction.ILOAD "%2" "2",
          instruction.WRITEI "%2", instruction.LABEL "endelse1", instruction.UJUMP "while1",
          instruction.LABEL "endWhile1", instruction.FJUMP "b" "endif3",
          instruction.ILOAD "%3" "3", instruction.WRITEI "%3", instruction.LABEL "endif3",
          instruction.RETURN]⟩ ∧
    jumpTargets
        [instruction.LABEL "while1", instruction.FJUMP "b" "endWhile1",
          instruction.FJUMP "b" "endif1", instruction.ILOAD "%1" "1", instruction.WRITEI "%1",
          instruction.UJUMP "endelse1", instruction.LABEL "endif1", instruction.ILOAD "%2" "2",
          instruction.WRITEI "%2", instruction.LABEL "endelse1", instruction.UJUMP "while1",
          instruction.LABEL "endWhile1", instruction.FJUMP "b" "endif3",
          instruction.ILOAD "%3" "3", instruction.WRITEI "%3", instruction.LABEL "endif3",
          instruction.RETURN] =
      ["endWhile1", "endif1", "endelse1", "while1", "endif3"] ∧
    ∀ t ∈ ["endWhile1", "endif1", "endelse1", "while1", "endif3"],
      [instruction.LABEL "while1", instruction.FJUMP "b" "endWhile1",
          instruction.FJUMP "b" "endif1", instruction.ILOAD "%1" "1", instruction.WRITEI "%1",
          instruction.UJUMP "endelse1", instruction.LABEL "endif1", instruction.ILOAD "%2" "2",
          instruction.WRITEI "%2", instruction.LABEL "endelse1", instruction.UJUMP "while1",
          instruction.LABEL "endWhile1", instruction.FJUMP "b" "endif3",
          instruction.ILOAD "%3" "3", instruction.WRITEI "%3", instruction.LABEL "endif3",
          instruction.RETURN].count (instruction.LABEL t) = 1 :=
  ⟨rfl, rfl,
    (codegen_jump_targets_defined exampleTo_string ⟨1, 1, 1⟩
      ((symbolPass TypeId.error (TreeDecoration.empty 0 TypeId.error false)
        exampleNestedLabels).Symbols.pushThisScope 0)
      (symbolPass TypeId.error (TreeDecoration.empty 0 TypeId.error false)
        exampleNestedLabels).Decorations [0]
      { ID := "main", parameters := none, type := none,
        declarations := [⟨["b"], ⟨none, Basic_type.BOOL⟩⟩],
        statements :=
          [Statement.whileStmt (Expr.exprIdent "b")
            [Statement.ifStmt (Expr.exprIdent "b")
              [Statement.writeExpr (Expr.value ValueTok.INTVAL "1")]
              (some [Statement.writeExpr (Expr.value ValueTok.INTVAL "2")])],
            Statement.ifStmt (Expr.exprIdent "b")
              [Statement.writeExpr (Expr.value ValueTok.INTVAL "3")] none] }
      ⟨"main", [], [⟨"b", "boolean", 1⟩],
        [instruction.LABEL "while1", instruction.FJUMP "b" "endWhile1",
          instruction.FJUMP "b" "endif1", instruction.ILOAD "%1" "1", instruction.WRITEI "%1",
          instruction.UJUMP "endelse1", instruction.LABEL "endif1", instruction.ILOAD "%2" "2",
          instruction.WRITEI "%2", instruction.LABEL "endelse1", instruction.UJUMP "while1",
          instruction.LABEL "endWhile1", instruction.FJUMP "b" "endif3",
          instruction.ILOAD "%3" "3", instruction.WRITEI "%3", instruction.LABEL "endif3",
          instruction.RETURN]⟩ rfl).1⟩

/-! ## Type pass: `return` in a redeclared function -/

/-- The Type pass on a program is the visit of its functions under the global
scope, then the test on `main`. -/
theorem typePass_eq (TypeId0 : TypeId) (Decorations : TreeDecoration) (tree : Program) :
    typePass TypeId0 Decorations tree =
      visitFunctions
          ((symbolPass TypeId0 Decorations tree).Symbols.pushThisScope
            ((symbolPass TypeId0 Decorations tree).Decorations.getScope []))
          (symbolPass TypeId0 Decorations tree).Decorations 0 tree.function ++
        (if ((symbolPass TypeId0 Decorations tree).Symbols.pushThisScope
              ((symbolPass TypeId0 Decorations tree).Decorations.getScope [])).noMainProperlyDeclared
          then [SemError.noMainProperlyDeclared] else []) :=
  rfl

/-- The Type pass on a function whose body is `return 1.5`, with `typeDecor` the
type read on its return-type node: `incompatibleReturn` unless `typeDecor` is
`Error` or float is copyable to it. -/
theorem visitFunction_return_float (Symbols : SymTable) (sc : Nat) (typeDecor : TypeId)
    (ID : String) (ty : TypeNode) :
    visitFunction Symbols sc typeDecor
        { ID := ID, parameters := none, type := some ty, declarations := [],
          statements := [Statement.returnStmt (some (Expr.value ValueTok.FLOATVAL "1.5"))] } =
      if !isErrorTy typeDecor && !copyableTypes typeDecor TypeId.float
        then [SemError.incompatibleReturn] else [] := by
  simp [visitFunction, visitStatements, visitStatement, visitReturnStmt, functionTy, visitExpr,
    visitValue, createFloatTy]

/-- Claim C9, the code at the failing input `func f() endfunc
func f() : int  return 1.5  endfunc  func f() : float  return 1.5  endfunc`: the
Symbol pass leaves the return-type nodes of the two redeclared functions without
type decoration, so on both the Type pass takes as return type the answer
`noType` the decoration table gives on an undecorated node, and the two
statements `return 1.5` get the same diagnostics whatever that answer is: the
Type pass reports `incompatibleReturn` twice or not at all, while float is not
copyable to the declared type integer of the first function and is copyable to
the declared type float of the second. -/
theorem typecheck_return_redeclared :
    ∀ (TypeId0 : TypeId) (noScope : Nat) (noType : TypeId) (noIsLValue : Bool),
      (symbolPass TypeId0 (TreeDecoration.empty noScope noType noIsLValue)
          exampleRedeclaredReturns).Decorations.hasType [1, 1] = false ∧
      (symbolPass TypeId0 (TreeDecoration.empty noScope noType noIsLValue)
          exampleRedeclaredReturns).Decorations.hasType [2, 1] = false ∧
      (symbolPass TypeId0 (TreeDecoration.empty noScope noType noIsLValue)
          exampleRedeclaredReturns).Decorations.getType [1, 1] = noType ∧
      (symbolPass TypeId0 (TreeDecoration.empty noScope noType noIsLValue)
          exampleRedeclaredReturns).Decorations.getType [2, 1] = noType ∧
      copyableTypes (SymbolsVisitor.visitType ⟨none, Basic_type.INT⟩)
          (visitExpr exampleSymbols (Expr.value ValueTok.FLOATVAL "1.5")).type = false ∧
      copyableTypes (SymbolsVisitor.visitType ⟨none, Basic_type.FLOAT⟩)
          (visitExpr exampleSymbols (Expr.value ValueTok.FLOATVAL "1.5")).type = true ∧
      (typePass TypeId0 (TreeDecoration.empty noScope noType noIsLValue)
            exampleRedeclaredReturns = [SemError.noMainProperlyDeclared] ∨
        typePass TypeId0 (TreeDecoration.empty noScope noType noIsLValue)
            exampleRedeclaredReturns =
          [SemError.incompatibleReturn, SemError.incompatibleReturn,
            SemError.noMainProperlyDeclared]) := by
  intro TypeId0 noScope noType noIsLValue
  have h1 : (symbolPass TypeId0 (TreeDecoration.empty noScope noType noIsLValue)
      exampleRedeclaredReturns).Decorations.getType [1, 1] = noType := rfl
  have h2 : (symbolPass TypeId0 (TreeDecoration.empty noScope noType noIsLValue)
      exampleRedeclaredReturns).Decorations.getType [2, 1] = noType := rfl
  have hm : ((symbolPass TypeId0 (TreeDecoration.empty noScope noType noIsLValue)
      exampleRedeclaredReturns).Symbols.pushThisScope
        ((symbolPass TypeId0 (TreeDecoration.empty noScope noType noIsLValue)
          exampleRedeclaredReturns).Decorations.getScope [])).noMainProperlyDeclared = true := rfl
  have hf : exampleRedeclaredReturns.function =
      [{ ID := "f", parameters := none, type := none, declarations := [], statements := [] },
        { ID := "f", parameters := none, type := some ⟨none, Basic_type.INT⟩, declarations := [],
          statements := [Statement.returnStmt (some (Expr.value ValueTok.FLOATVAL "1.5"))] },
        { ID := "f", parameters := none, type := some ⟨none, Basic_type.FLOAT⟩,
          declarations := [],
          statements := [Statement.returnStmt (some (Expr.value ValueTok.FLOATVAL "1.5"))] }] :=
    rfl
  refine ⟨rfl, rfl, h1, h2, rfl, rfl, ?_⟩
  rw [typePass_eq, hm, hf]
  simp only [visitFunctions, Nat.reduceAdd, zero_add, h1, h2, visitFunction_return_float]
  cases hc : (!isErrorTy noType && !copyableTypes noType TypeId.float)
  · left
    rfl
  · right
    rfl

end Asl
